import Mathlib

/-!
The SVE fp32 NHWC 3x3 stride-1 depthwise kernel with a 4x4 output tile

A model of `sve_fp32_nhwc_3x3_s1_output4x4_mla_depthfirst_direct_impl`
(`generic_direct.cpp`): the instruction stream of the assembly block, one
constructor per instruction, with a small-step semantics over an explicit
machine state.  Floating-point values are taken exactly (as integers), the
general-purpose registers are 64-bit words (`Nat` modulo `2 ^ 64`), and the
vector width is a parameter (`cntw`, the number of 32-bit lanes).  A second
semantics of the same instruction stream, `stepF`, has lanes and memory
cells that are finite numbers, infinities or NaN; on finite numbers the two
agree (`sim_impl`).
-/

namespace arm_conv.depthwise

/-- Modulus of the 64-bit general-purpose registers. -/
abbrev W : Nat := 2 ^ 64

/-- The 64-bit two's-complement image of a signed integer (an `int64_t`
stored in a `uint64_t` field, or a negative immediate). -/
def u64 (i : Int) : Nat := (i % (W : Int)).toNat

/-- The signed reading of a 64-bit register, as the signed comparisons see it. -/
def sint (v : Nat) : Int := if v % W < 2 ^ 63 then ((v % W : Nat) : Int) else ((v % W : Nat) : Int) - (W : Int)

/-- Point update of a register file or of the memory. -/
def upd {α : Type} (f : Nat → α) (i : Nat) (v : α) : Nat → α :=
  fun j => if j = i then v else f j

/-- The 64-bit fields of `Args`. -/
inductive Field
  | n_tile_rows | n_tile_cols | inptr | ld_input_row | ld_input_col
  | outptr | ld_output_row | ld_output_col | params | tile_i | tile_j
  deriving DecidableEq, Repr

/-- The `float` fields of `Args`. -/
inductive FField
  | min | max
  deriving DecidableEq, Repr

/-- The argument block `Args` (`params_struct`) the assembly reads its
arguments from; the strides are held in unsigned 64-bit fields. -/
structure Args where
  n_tile_rows : Nat
  n_tile_cols : Nat
  inptr : Nat
  ld_input_row : Nat
  ld_input_col : Nat
  outptr : Nat
  ld_output_row : Nat
  ld_output_col : Nat
  params : Nat
  min : Int
  max : Int
  tile_i : Nat := 0
  tile_j : Nat := 0

/-- Read a 64-bit field (`ldr xt, [params_struct, offsetof(field)]`). -/
def Args.get (a : Args) : Field → Nat
  | .n_tile_rows => a.n_tile_rows
  | .n_tile_cols => a.n_tile_cols
  | .inptr => a.inptr
  | .ld_input_row => a.ld_input_row
  | .ld_input_col => a.ld_input_col
  | .outptr => a.outptr
  | .ld_output_row => a.ld_output_row
  | .ld_output_col => a.ld_output_col
  | .params => a.params
  | .tile_i => a.tile_i
  | .tile_j => a.tile_j

/-- Write a 64-bit field (`str xt, [params_struct, offsetof(field)]`). -/
def Args.set (a : Args) (f : Field) (v : Nat) : Args :=
  match f with
  | .n_tile_rows => { a with n_tile_rows := v }
  | .n_tile_cols => { a with n_tile_cols := v }
  | .inptr => { a with inptr := v }
  | .ld_input_row => { a with ld_input_row := v }
  | .ld_input_col => { a with ld_input_col := v }
  | .outptr => { a with outptr := v }
  | .ld_output_row => { a with ld_output_row := v }
  | .ld_output_col => { a with ld_output_col := v }
  | .params => { a with params := v }
  | .tile_i => { a with tile_i := v }
  | .tile_j => { a with tile_j := v }

/-- Read a `float` field (`ld1rw` broadcasts it). -/
def Args.getF (a : Args) : FField → Int
  | .min => a.min
  | .max => a.max

/-- Observable events, in program order: a label reached, a store of a
register to a field of the argument block, and one event per active lane
of a vector load or store (with the byte address of the lane). -/
inductive Event
  | label (n : Nat)
  | str (f : Field) (v : Nat)
  | rd (a : Nat)
  | wr (a : Nat)
  deriving DecidableEq, Repr

/-- Scalar source operands: a general-purpose register, the zero register,
or the register holding the `n_channels` operand of the assembly block. -/
inductive XOp
  | x (n : Nat)
  | xzr
  | n_channels
  deriving DecidableEq, Repr

/-- Addressing modes of the vector loads and stores:
`[xn]`, `[xn, #imm, MUL VL]` and `[xn, xm, LSL #2]`. -/
inductive Addr
  | base (n : Nat)
  | immvl (n : Nat) (imm : Int)
  | idx (n m : Nat)
  deriving DecidableEq, Repr

/-- The instructions the kernel uses (branches are part of the drivers
`channel_loop_run`, `tile` and `tile_loop`). -/
inductive Instr
  | label (n : Nat)
  | ptrue (pd : Nat)
  | mov_imm (xd imm : Nat)
  | str (xt : Nat) (f : Field)
  | ldr (xt : Nat) (f : Field)
  | cntw (xd : Nat)
  | sub (xd : Nat) (a b : XOp)
  | mul (xd xn xm : Nat)
  | madd (xd xn xm xa : Nat)
  | add (xd xn xm : Nat)
  | add_lsl (xd xn xm sh : Nat)
  | add_imm (xd xn imm : Nat)
  | addvl (xd xn : Nat) (imm : Int)
  | incw (xd : Nat)
  | cmp (a b : XOp)
  | csel_lt (xd : Nat) (a b : XOp)
  | whilelt (pd : Nat) (a b : XOp)
  | mov_p (pd pn : Nat)
  | ld1rw (zt pg : Nat) (f : FField)
  | ld1w (zt pg : Nat) (a : Addr)
  | st1w (zt pg : Nat) (a : Addr)
  | mov_z (zd zn : Nat)
  | fmla (zda pg zn zm : Nat)
  | fmax (zdn pg zm : Nat)
  | fmin (zdn pg zm : Nat)
  deriving DecidableEq, Repr

/-- What the assembly block is given besides `params_struct`: the vector
width in 32-bit lanes (`cntw`) and the `n_channels` operand. -/
structure Cfg where
  VL : Nat
  n_channels : Nat

/-- Machine state: general-purpose registers, vector registers (lane to
value), predicate registers (lane to flag), the `LT` condition of the
flags, the argument block, the memory of `float` cells (keyed by byte
address) and the event trace. -/
structure State where
  x : Nat → Nat
  z : Nat → Nat → Int
  p : Nat → Nat → Bool
  lt : Bool
  args : Args
  mem : Nat → Int
  trace : List Event

/-- Value of a scalar source operand. -/
def XOp.val (c : Cfg) (s : State) : XOp → Nat
  | .x n => s.x n
  | .xzr => 0
  | .n_channels => c.n_channels

/-- Effective byte address of lane 0 of a vector access. -/
def Addr.ea (c : Cfg) (s : State) : Addr → Nat
  | .base n => s.x n
  | .immvl n imm => (s.x n + u64 (imm * (4 * (c.VL : Int)))) % W
  | .idx n m => (s.x n + s.x m * 4) % W

/-- Byte address of lane `l` of a vector access at `ea`. -/
def laneAddr (ea l : Nat) : Nat := (ea + 4 * l) % W

/-- The active lanes of a predicate, in increasing order. -/
def lanes (VL : Nat) (p : Nat → Bool) : List Nat := (List.range VL).filter p

/-- Predicated vector load with zeroing (`ld1w zt, pg/Z, [..]`). -/
def loadVec (m : Nat → Int) (ea : Nat) (p : Nat → Bool) : Nat → Int :=
  fun l => if p l then m (laneAddr ea l) else 0

/-- Predicated vector store (`st1w zt, pg, [..]`): the active lanes are
written in increasing order. -/
def storeVec (VL : Nat) (m : Nat → Int) (ea : Nat) (p : Nat → Bool) (v : Nat → Int) :
    Nat → Int :=
  (lanes VL p).foldl (fun m l => upd m (laneAddr ea l) (v l)) m

/-- The predicate `whilelt pd.s, a, b` produces: lane `l` is active while
the signed value `a + l` is below the signed value `b`. -/
def whileltPred (a b : Nat) : Nat → Bool :=
  fun l => decide (sint a + (l : Int) < sint b)

/-- One instruction. -/
def step (c : Cfg) : Instr → State → State
  | .label n, s => { s with trace := s.trace ++ [.label n] }
  | .ptrue pd, s => { s with p := upd s.p pd (fun _ => true) }
  | .mov_imm xd imm, s => { s with x := upd s.x xd imm }
  | .str xt f, s =>
      { s with args := s.args.set f (s.x xt), trace := s.trace ++ [.str f (s.x xt)] }
  | .ldr xt f, s => { s with x := upd s.x xt (s.args.get f) }
  | .cntw xd, s => { s with x := upd s.x xd c.VL }
  | .sub xd a b, s => { s with x := upd s.x xd ((a.val c s + u64 (-(b.val c s : Int))) % W) }
  | .mul xd xn xm, s => { s with x := upd s.x xd ((s.x xn * s.x xm) % W) }
  | .madd xd xn xm xa, s => { s with x := upd s.x xd ((s.x xa + s.x xn * s.x xm) % W) }
  | .add xd xn xm, s => { s with x := upd s.x xd ((s.x xn + s.x xm) % W) }
  | .add_lsl xd xn xm sh, s => { s with x := upd s.x xd ((s.x xn + s.x xm * 2 ^ sh) % W) }
  | .add_imm xd xn imm, s => { s with x := upd s.x xd ((s.x xn + imm) % W) }
  | .addvl xd xn imm, s =>
      { s with x := upd s.x xd ((s.x xn + u64 (imm * (4 * (c.VL : Int)))) % W) }
  | .incw xd, s => { s with x := upd s.x xd ((s.x xd + c.VL) % W) }
  | .cmp a b, s => { s with lt := decide (sint (a.val c s) < sint (b.val c s)) }
  | .csel_lt xd a b, s => { s with x := upd s.x xd (if s.lt then a.val c s else b.val c s) }
  | .whilelt pd a b, s =>
      { s with p := upd s.p pd (whileltPred (a.val c s) (b.val c s)),
               lt := whileltPred (a.val c s) (b.val c s) 0 }
  | .mov_p pd pn, s => { s with p := upd s.p pd (s.p pn) }
  | .ld1rw zt pg f, s =>
      { s with z := upd s.z zt (fun l => if s.p pg l then s.args.getF f else 0) }
  | .ld1w zt pg a, s =>
      { s with z := upd s.z zt (loadVec s.mem (a.ea c s) (s.p pg)),
               trace := s.trace ++ (lanes c.VL (s.p pg)).map (fun l => .rd (laneAddr (a.ea c s) l)) }
  | .st1w zt pg a, s =>
      { s with mem := storeVec c.VL s.mem (a.ea c s) (s.p pg) (s.z zt),
               trace := s.trace ++ (lanes c.VL (s.p pg)).map (fun l => .wr (laneAddr (a.ea c s) l)) }
  | .mov_z zd zn, s => { s with z := upd s.z zd (s.z zn) }
  | .fmla zda pg zn zm, s =>
      { s with z := upd s.z zda (fun l => if s.p pg l then s.z zda l + s.z zn l * s.z zm l
                                          else s.z zda l) }
  | .fmax zdn pg zm, s =>
      { s with z := upd s.z zdn (fun l => if s.p pg l then max (s.z zdn l) (s.z zm l)
                                          else s.z zdn l) }
  | .fmin zdn pg zm, s =>
      { s with z := upd s.z zdn (fun l => if s.p pg l then min (s.z zdn l) (s.z zm l)
                                          else s.z zdn l) }

/-- A straight-line instruction sequence. -/
def exec (c : Cfg) : List Instr → State → State
  | [], s => s
  | i :: is, s => exec c is (step c i s)

/-- Instructions before the tile loop: the all-true predicate and the tile indices. -/
def prologue : List Instr := [
  Instr.ptrue 3,  -- ptrue p3.b
  Instr.mov_imm 2 0,  -- mov x2, #0x0
  Instr.mov_imm 3 0  -- mov x3, #0x0
]

/-- Label 1: per-tile setup, up to the branch that skips the channel loop. -/
def tile_setup : List Instr := [
  Instr.label 1,  -- 1:
  Instr.str 2 .tile_i,  -- str x2, [params_struct, offsetof(tile_i)]
  Instr.mov_imm 24 4,  -- mov x24, #0x4
  Instr.str 3 .tile_j,  -- str x3, [params_struct, offsetof(tile_j)]
  Instr.mov_imm 23 4,  -- mov x23, #0x4
  Instr.ldr 4 .params,  -- ldr x4, [params_struct, offsetof(params)]
  Instr.mov_imm 5 0,  -- mov x5, #0x0
  Instr.ldr 22 .ld_input_row,  -- ldr x22, [params_struct, offsetof(ld_input_row)]
  Instr.cntw 6,  -- cntw x6
  Instr.ldr 7 .ld_input_col,  -- ldr x7, [params_struct, offsetof(ld_input_col)]
  Instr.sub 21 .xzr (.x 6),  -- sub x21, XZR, x6
  Instr.ldr 8 .inptr,  -- ldr x8, [params_struct, offsetof(inptr)]
  Instr.mul 19 2 22,  -- mul x19, x2, x22
  Instr.ldr 20 .ld_output_row,  -- ldr x20, [params_struct, offsetof(ld_output_row)]
  Instr.madd 19 3 7 19,  -- madd x19, x3, x7, x19
  Instr.ldr 17 .ld_output_col,  -- ldr x17, [params_struct, offsetof(ld_output_col)]
  Instr.mul 19 19 24,  -- mul x19, x19, x24
  Instr.ldr 16 .outptr,  -- ldr x16, [params_struct, offsetof(outptr)]
  Instr.add_lsl 8 8 19 2,  -- add x8, x8, x19, LSL #2
  Instr.ld1rw 15 3 .min,  -- ld1rw z15.s, p3/Z, [params_struct, offsetof(min)]
  Instr.add_lsl 15 8 22 2,  -- add x15, x8, x22, LSL #2
  Instr.ld1rw 14 3 .max,  -- ld1rw z14.s, p3/Z, [params_struct, offsetof(max)]
  Instr.add_lsl 14 15 22 2,  -- add x14, x15, x22, LSL #2
  Instr.ld1w 13 3 (.base 4),  -- ld1w z13.s, p3/Z, [x4]
  Instr.mov_z 31 13,  -- mov z31.d, z13.d
  Instr.ld1w 0 3 (.immvl 4 1),  -- ld1w z0.s, p3/Z, [x4, #1, MUL VL]
  Instr.add_lsl 13 14 22 2,  -- add x13, x14, x22, LSL #2
  Instr.mov_z 30 13,  -- mov z30.d, z13.d
  Instr.ld1w 1 3 (.immvl 4 2),  -- ld1w z1.s, p3/Z, [x4, #2, MUL VL]
  Instr.add_lsl 12 13 22 2,  -- add x12, x13, x22, LSL #2
  Instr.mov_z 29 13,  -- mov z29.d, z13.d
  Instr.ld1w 2 3 (.immvl 4 3),  -- ld1w z2.s, p3/Z, [x4, #3, MUL VL]
  Instr.add_lsl 11 12 22 2,  -- add x11, x12, x22, LSL #2
  Instr.mov_z 28 13,  -- mov z28.d, z13.d
  Instr.ld1w 3 3 (.immvl 4 4),  -- ld1w z3.s, p3/Z, [x4, #4, MUL VL]
  Instr.add 10 7 7,  -- add x10, x7, x7
  Instr.mov_z 27 13,  -- mov z27.d, z13.d
  Instr.ld1w 4 3 (.immvl 4 5),  -- ld1w z4.s, p3/Z, [x4, #5, MUL VL]
  Instr.add 9 10 7,  -- add x9, x10, x7
  Instr.mov_z 26 13,  -- mov z26.d, z13.d
  Instr.ld1w 5 3 (.immvl 4 6),  -- ld1w z5.s, p3/Z, [x4, #6, MUL VL]
  Instr.add 28 9 7,  -- add x28, x9, x7
  Instr.mov_z 25 13,  -- mov z25.d, z13.d
  Instr.ld1w 6 3 (.immvl 4 7),  -- ld1w z6.s, p3/Z, [x4, #7, MUL VL]
  Instr.add 27 28 7,  -- add x27, x28, x7
  Instr.mov_z 24 13,  -- mov z24.d, z13.d
  Instr.mul 19 2 20,  -- mul x19, x2, x20
  Instr.mov_z 23 13,  -- mov z23.d, z13.d
  Instr.madd 19 3 17 19,  -- madd x19, x3, x17, x19
  Instr.mov_z 22 13,  -- mov z22.d, z13.d
  Instr.mul 19 19 23,  -- mul x19, x19, x23
  Instr.mov_z 21 13,  -- mov z21.d, z13.d
  Instr.add_lsl 16 16 19 2,  -- add x16, x16, x19, LSL #2
  Instr.mov_z 20 13,  -- mov z20.d, z13.d
  Instr.add_lsl 26 16 20 2,  -- add x26, x16, x20, LSL #2
  Instr.mov_z 19 13,  -- mov z19.d, z13.d
  Instr.add_lsl 25 26 20 2,  -- add x25, x26, x20, LSL #2
  Instr.mov_z 18 13,  -- mov z18.d, z13.d
  Instr.add_lsl 24 25 20 2,  -- add x24, x25, x20, LSL #2
  Instr.mov_z 17 13,  -- mov z17.d, z13.d
  Instr.add 23 17 17,  -- add x23, x17, x17
  Instr.mov_z 16 13,  -- mov z16.d, z13.d
  Instr.add 22 23 17,  -- add x22, x23, x17
  Instr.whilelt 2 .xzr .n_channels,  -- whilelt p2.s, XZR, n_channels
  Instr.ld1w 9 2 (.idx 14 10),  -- ld1w z9.s, p2/Z, [x14, x10, LSL #2]
  Instr.ld1w 10 2 (.base 8),  -- ld1w z10.s, p2/Z, [x8]
  Instr.addvl 4 4 16,  -- addvl x4, x4, #16
  Instr.ld1w 11 2 (.idx 8 27),  -- ld1w z11.s, p2/Z, [x8, x27, LSL #2]
  Instr.cmp (.x 6) .n_channels,  -- cmp x6, n_channels
  Instr.ld1w 7 3 (.immvl 4 (-8)),  -- ld1w z7.s, p3/Z, [x4, #-8, MUL VL]
  Instr.ld1w 8 3 (.immvl 4 (-7)),  -- ld1w z8.s, p3/Z, [x4, #-7, MUL VL]
  Instr.addvl 4 4 (-6),  -- addvl x4, x4, #-6
  Instr.ld1w 12 2 (.idx 14 9)  -- ld1w z12.s, p2/Z, [x14, x9, LSL #2]
  -- bge 3f
]

/-- Label 2: one iteration of the channel loop (a full-width pass, preparing the next one). -/
def channel_loop : List Instr := [
  Instr.label 2,  -- 2:
  Instr.fmla 31 3 8 9,  -- fmla z31.s, p3/M, z8.s, z9.s
  Instr.ld1w 13 3 (.base 4),  -- ld1w z13.s, p3/Z, [x4]
  Instr.whilelt 1 (.x 6) .n_channels,  -- whilelt p1.s, x6, n_channels
  Instr.fmla 30 3 7 9,  -- fmla z30.s, p3/M, z7.s, z9.s
  Instr.incw 21,  -- incw x21
  Instr.fmla 29 3 6 9,  -- fmla z29.s, p3/M, z6.s, z9.s
  Instr.mov_p 0 2,  -- mov p0.b, p2.b
  Instr.fmla 27 3 5 9,  -- fmla z27.s, p3/M, z5.s, z9.s
  Instr.incw 5,  -- incw x5
  Instr.fmla 26 3 4 9,  -- fmla z26.s, p3/M, z4.s, z9.s
  Instr.incw 6,  -- incw x6
  Instr.fmla 25 3 3 9,  -- fmla z25.s, p3/M, z3.s, z9.s
  Instr.fmla 23 3 2 9,  -- fmla z23.s, p3/M, z2.s, z9.s
  Instr.fmla 22 3 1 9,  -- fmla z22.s, p3/M, z1.s, z9.s
  Instr.fmla 21 3 0 9,  -- fmla z21.s, p3/M, z0.s, z9.s
  Instr.ld1w 9 2 (.idx 13 10),  -- ld1w z9.s, p2/Z, [x13, x10, LSL #2]
  Instr.fmla 31 3 0 10,  -- fmla z31.s, p3/M, z0.s, z10.s
  Instr.ld1w 10 2 (.base 11),  -- ld1w z10.s, p2/Z, [x11]
  Instr.fmla 28 3 2 11,  -- fmla z28.s, p3/M, z2.s, z11.s
  Instr.ld1w 11 2 (.idx 11 27),  -- ld1w z11.s, p2/Z, [x11, x27, LSL #2]
  Instr.fmla 30 3 8 12,  -- fmla z30.s, p3/M, z8.s, z12.s
  Instr.fmla 29 3 7 12,  -- fmla z29.s, p3/M, z7.s, z12.s
  Instr.fmla 26 3 5 12,  -- fmla z26.s, p3/M, z5.s, z12.s
  Instr.fmla 28 3 6 12,  -- fmla z28.s, p3/M, z6.s, z12.s
  Instr.fmla 25 3 4 12,  -- fmla z25.s, p3/M, z4.s, z12.s
  Instr.fmla 24 3 3 12,  -- fmla z24.s, p3/M, z3.s, z12.s
  Instr.fmla 22 3 2 12,  -- fmla z22.s, p3/M, z2.s, z12.s
  Instr.fmla 21 3 1 12,  -- fmla z21.s, p3/M, z1.s, z12.s
  Instr.fmla 20 3 0 12,  -- fmla z20.s, p3/M, z0.s, z12.s
  Instr.ld1w 12 2 (.idx 8 7),  -- ld1w z12.s, p2/Z, [x8, x7, LSL #2]
  Instr.fmla 19 3 6 10,  -- fmla z19.s, p3/M, z6.s, z10.s
  Instr.ld1w 10 2 (.idx 13 9),  -- ld1w z10.s, p2/Z, [x13, x9, LSL #2]
  Instr.fmla 16 3 8 11,  -- fmla z16.s, p3/M, z8.s, z11.s
  Instr.ld1w 11 2 (.idx 8 28),  -- ld1w z11.s, p2/Z, [x8, x28, LSL #2]
  Instr.fmla 27 3 8 9,  -- fmla z27.s, p3/M, z8.s, z9.s
  Instr.fmla 26 3 7 9,  -- fmla z26.s, p3/M, z7.s, z9.s
  Instr.fmla 25 3 6 9,  -- fmla z25.s, p3/M, z6.s, z9.s
  Instr.fmla 23 3 5 9,  -- fmla z23.s, p3/M, z5.s, z9.s
  Instr.fmla 22 3 4 9,  -- fmla z22.s, p3/M, z4.s, z9.s
  Instr.fmla 21 3 3 9,  -- fmla z21.s, p3/M, z3.s, z9.s
  Instr.fmla 19 3 2 9,  -- fmla z19.s, p3/M, z2.s, z9.s
  Instr.fmla 18 3 1 9,  -- fmla z18.s, p3/M, z1.s, z9.s
  Instr.fmla 17 3 0 9,  -- fmla z17.s, p3/M, z0.s, z9.s
  Instr.ld1w 9 2 (.base 15),  -- ld1w z9.s, p2/Z, [x15]
  Instr.fmla 31 3 1 12,  -- fmla z31.s, p3/M, z1.s, z12.s
  Instr.fmla 30 3 0 12,  -- fmla z30.s, p3/M, z0.s, z12.s
  Instr.ld1w 12 2 (.idx 15 27),  -- ld1w z12.s, p2/Z, [x15, x27, LSL #2]
  Instr.fmla 29 3 2 11,  -- fmla z29.s, p3/M, z2.s, z11.s
  Instr.fmla 28 3 1 11,  -- fmla z28.s, p3/M, z1.s, z11.s
  Instr.ld1w 11 2 (.base 12),  -- ld1w z11.s, p2/Z, [x12]
  Instr.fmla 26 3 8 10,  -- fmla z26.s, p3/M, z8.s, z10.s
  Instr.fmla 25 3 7 10,  -- fmla z25.s, p3/M, z7.s, z10.s
  Instr.fmla 24 3 6 10,  -- fmla z24.s, p3/M, z6.s, z10.s
  Instr.fmla 22 3 5 10,  -- fmla z22.s, p3/M, z5.s, z10.s
  Instr.fmla 21 3 4 10,  -- fmla z21.s, p3/M, z4.s, z10.s
  Instr.fmla 20 3 3 10,  -- fmla z20.s, p3/M, z3.s, z10.s
  Instr.fmla 18 3 2 10,  -- fmla z18.s, p3/M, z2.s, z10.s
  Instr.fmla 17 3 1 10,  -- fmla z17.s, p3/M, z1.s, z10.s
  Instr.fmla 16 3 0 10,  -- fmla z16.s, p3/M, z0.s, z10.s
  Instr.ld1w 10 2 (.idx 15 10),  -- ld1w z10.s, p2/Z, [x15, x10, LSL #2]
  Instr.fmla 31 3 3 9,  -- fmla z31.s, p3/M, z3.s, z9.s
  Instr.fmla 27 3 0 9,  -- fmla z27.s, p3/M, z0.s, z9.s
  Instr.fmla 28 3 5 12,  -- fmla z28.s, p3/M, z5.s, z12.s
  Instr.fmla 24 3 2 12,  -- fmla z24.s, p3/M, z2.s, z12.s
  Instr.ld1w 12 2 (.idx 15 9),  -- ld1w z12.s, p2/Z, [x15, x9, LSL #2]
  Instr.fmla 23 3 6 11,  -- fmla z23.s, p3/M, z6.s, z11.s
  Instr.fmla 19 3 3 11,  -- fmla z19.s, p3/M, z3.s, z11.s
  Instr.ld1w 11 2 (.idx 12 27),  -- ld1w z11.s, p2/Z, [x12, x27, LSL #2]
  Instr.fmla 31 3 5 10,  -- fmla z31.s, p3/M, z5.s, z10.s
  Instr.fmla 30 3 4 10,  -- fmla z30.s, p3/M, z4.s, z10.s
  Instr.fmla 29 3 3 10,  -- fmla z29.s, p3/M, z3.s, z10.s
  Instr.fmla 27 3 2 10,  -- fmla z27.s, p3/M, z2.s, z10.s
  Instr.fmla 26 3 1 10,  -- fmla z26.s, p3/M, z1.s, z10.s
  Instr.fmla 25 3 0 10,  -- fmla z25.s, p3/M, z0.s, z10.s
  Instr.ld1w 10 2 (.idx 14 7),  -- ld1w z10.s, p2/Z, [x14, x7, LSL #2]
  Instr.fmla 20 3 8 11,  -- fmla z20.s, p3/M, z8.s, z11.s
  Instr.fmla 16 3 5 11,  -- fmla z16.s, p3/M, z5.s, z11.s
  Instr.ld1w 11 2 (.idx 11 7),  -- ld1w z11.s, p2/Z, [x11, x7, LSL #2]
  Instr.fmla 30 3 5 12,  -- fmla z30.s, p3/M, z5.s, z12.s
  Instr.fmla 29 3 4 12,  -- fmla z29.s, p3/M, z4.s, z12.s
  Instr.fmla 28 3 3 12,  -- fmla z28.s, p3/M, z3.s, z12.s
  Instr.fmla 26 3 2 12,  -- fmla z26.s, p3/M, z2.s, z12.s
  Instr.fmla 25 3 1 12,  -- fmla z25.s, p3/M, z1.s, z12.s
  Instr.fmla 24 3 0 12,  -- fmla z24.s, p3/M, z0.s, z12.s
  Instr.ld1w 12 2 (.idx 14 28),  -- ld1w z12.s, p2/Z, [x14, x28, LSL #2]
  Instr.fmla 19 3 7 11,  -- fmla z19.s, p3/M, z7.s, z11.s
  Instr.fmla 18 3 6 11,  -- fmla z18.s, p3/M, z6.s, z11.s
  Instr.ld1w 11 2 (.idx 11 28),  -- ld1w z11.s, p2/Z, [x11, x28, LSL #2]
  Instr.fmla 31 3 7 10,  -- fmla z31.s, p3/M, z7.s, z10.s
  Instr.fmla 30 3 6 10,  -- fmla z30.s, p3/M, z6.s, z10.s
  Instr.fmla 27 3 4 10,  -- fmla z27.s, p3/M, z4.s, z10.s
  Instr.fmla 26 3 3 10,  -- fmla z26.s, p3/M, z3.s, z10.s
  Instr.fmla 23 3 1 10,  -- fmla z23.s, p3/M, z1.s, z10.s
  Instr.fmla 22 3 0 10,  -- fmla z22.s, p3/M, z0.s, z10.s
  Instr.ld1w 10 2 (.idx 8 10),  -- ld1w z10.s, p2/Z, [x8, x10, LSL #2]
  Instr.fmla 17 3 8 11,  -- fmla z17.s, p3/M, z8.s, z11.s
  Instr.fmla 16 3 7 11,  -- fmla z16.s, p3/M, z7.s, z11.s
  Instr.ld1w 11 2 (.idx 13 7),  -- ld1w z11.s, p2/Z, [x13, x7, LSL #2]
  Instr.fmla 29 3 8 12,  -- fmla z29.s, p3/M, z8.s, z12.s
  Instr.fmla 28 3 7 12,  -- fmla z28.s, p3/M, z7.s, z12.s
  Instr.fmla 25 3 5 12,  -- fmla z25.s, p3/M, z5.s, z12.s
  Instr.fmla 24 3 4 12,  -- fmla z24.s, p3/M, z4.s, z12.s
  Instr.fmla 21 3 2 12,  -- fmla z21.s, p3/M, z2.s, z12.s
  Instr.fmla 20 3 1 12,  -- fmla z20.s, p3/M, z1.s, z12.s
  Instr.ld1w 12 2 (.idx 8 9),  -- ld1w z12.s, p2/Z, [x8, x9, LSL #2]
  Instr.addvl 8 8 1,  -- addvl x8, x8, #1
  Instr.fmla 31 3 2 10,  -- fmla z31.s, p3/M, z2.s, z10.s
  Instr.fmla 30 3 1 10,  -- fmla z30.s, p3/M, z1.s, z10.s
  Instr.fmla 29 3 0 10,  -- fmla z29.s, p3/M, z0.s, z10.s
  Instr.ld1w 10 2 (.base 14),  -- ld1w z10.s, p2/Z, [x14]
  Instr.fmla 27 3 7 11,  -- fmla z27.s, p3/M, z7.s, z11.s
  Instr.fmla 26 3 6 11,  -- fmla z26.s, p3/M, z6.s, z11.s
  Instr.fmla 23 3 4 11,  -- fmla z23.s, p3/M, z4.s, z11.s
  Instr.fmla 22 3 3 11,  -- fmla z22.s, p3/M, z3.s, z11.s
  Instr.fmla 19 3 1 11,  -- fmla z19.s, p3/M, z1.s, z11.s
  Instr.fmla 18 3 0 11,  -- fmla z18.s, p3/M, z0.s, z11.s
  Instr.ld1w 11 2 (.idx 13 28),  -- ld1w z11.s, p2/Z, [x13, x28, LSL #2]
  Instr.fmla 30 3 2 12,  -- fmla z30.s, p3/M, z2.s, z12.s
  Instr.fmla 29 3 1 12,  -- fmla z29.s, p3/M, z1.s, z12.s
  Instr.fmla 28 3 0 12,  -- fmla z28.s, p3/M, z0.s, z12.s
  Instr.ld1w 12 2 (.idx 14 27),  -- ld1w z12.s, p2/Z, [x14, x27, LSL #2]
  Instr.addvl 14 14 1,  -- addvl x14, x14, #1
  Instr.fmla 31 3 6 10,  -- fmla z31.s, p3/M, z6.s, z10.s
  Instr.ld1w 9 1 (.idx 14 10),  -- ld1w z9.s, p1/Z, [x14, x10, LSL #2]
  Instr.fmla 27 3 3 10,  -- fmla z27.s, p3/M, z3.s, z10.s
  Instr.fmla 23 3 0 10,  -- fmla z23.s, p3/M, z0.s, z10.s
  Instr.ld1w 10 2 (.base 13),  -- ld1w z10.s, p2/Z, [x13]
  Instr.fmla 25 3 8 11,  -- fmla z25.s, p3/M, z8.s, z11.s
  Instr.fmla 24 3 7 11,  -- fmla z24.s, p3/M, z7.s, z11.s
  Instr.fmla 21 3 5 11,  -- fmla z21.s, p3/M, z5.s, z11.s
  Instr.fmla 20 3 4 11,  -- fmla z20.s, p3/M, z4.s, z11.s
  Instr.fmla 17 3 2 11,  -- fmla z17.s, p3/M, z2.s, z11.s
  Instr.fmla 16 3 1 11,  -- fmla z16.s, p3/M, z1.s, z11.s
  Instr.ld1w 11 2 (.idx 12 10),  -- ld1w z11.s, p2/Z, [x12, x10, LSL #2]
  Instr.fmla 28 3 8 12,  -- fmla z28.s, p3/M, z8.s, z12.s
  Instr.fmla 24 3 5 12,  -- fmla z24.s, p3/M, z5.s, z12.s
  Instr.fmla 20 3 2 12,  -- fmla z20.s, p3/M, z2.s, z12.s
  Instr.ld1w 12 2 (.idx 13 27),  -- ld1w z12.s, p2/Z, [x13, x27, LSL #2]
  Instr.addvl 13 13 1,  -- addvl x13, x13, #1
  Instr.fmla 27 3 6 10,  -- fmla z27.s, p3/M, z6.s, z10.s
  Instr.fmla 23 3 3 10,  -- fmla z23.s, p3/M, z3.s, z10.s
  Instr.fmla 19 3 0 10,  -- fmla z19.s, p3/M, z0.s, z10.s
  Instr.ld1w 10 2 (.idx 11 10),  -- ld1w z10.s, p2/Z, [x11, x10, LSL #2]
  Instr.fmla 22 3 7 11,  -- fmla z22.s, p3/M, z7.s, z11.s
  Instr.fmla 21 3 6 11,  -- fmla z21.s, p3/M, z6.s, z11.s
  Instr.fmla 23 3 8 11,  -- fmla z23.s, p3/M, z8.s, z11.s
  Instr.fmla 19 3 5 11,  -- fmla z19.s, p3/M, z5.s, z11.s
  Instr.fmla 18 3 4 11,  -- fmla z18.s, p3/M, z4.s, z11.s
  Instr.fmla 17 3 3 11,  -- fmla z17.s, p3/M, z3.s, z11.s
  Instr.ld1w 11 2 (.idx 12 9),  -- ld1w z11.s, p2/Z, [x12, x9, LSL #2]
  Instr.fmla 24 3 8 12,  -- fmla z24.s, p3/M, z8.s, z12.s
  Instr.fmla 20 3 5 12,  -- fmla z20.s, p3/M, z5.s, z12.s
  Instr.fmla 16 3 2 12,  -- fmla z16.s, p3/M, z2.s, z12.s
  Instr.ld1w 12 2 (.idx 11 9),  -- ld1w z12.s, p2/Z, [x11, x9, LSL #2]
  Instr.addvl 11 11 1,  -- addvl x11, x11, #1
  Instr.fmla 19 3 8 10,  -- fmla z19.s, p3/M, z8.s, z10.s
  Instr.fmla 18 3 7 10,  -- fmla z18.s, p3/M, z7.s, z10.s
  Instr.fmla 17 3 6 10,  -- fmla z17.s, p3/M, z6.s, z10.s
  Instr.ld1w 10 2 (.idx 15 7),  -- ld1w z10.s, p2/Z, [x15, x7, LSL #2]
  Instr.fmla 22 3 8 11,  -- fmla z22.s, p3/M, z8.s, z11.s
  Instr.fmla 21 3 7 11,  -- fmla z21.s, p3/M, z7.s, z11.s
  Instr.fmla 20 3 6 11,  -- fmla z20.s, p3/M, z6.s, z11.s
  Instr.fmla 18 3 5 11,  -- fmla z18.s, p3/M, z5.s, z11.s
  Instr.fmla 17 3 4 11,  -- fmla z17.s, p3/M, z4.s, z11.s
  Instr.fmla 16 3 3 11,  -- fmla z16.s, p3/M, z3.s, z11.s
  Instr.ld1w 11 2 (.idx 15 28),  -- ld1w z11.s, p2/Z, [x15, x28, LSL #2]
  Instr.addvl 15 15 1,  -- addvl x15, x15, #1
  Instr.fmla 18 3 8 12,  -- fmla z18.s, p3/M, z8.s, z12.s
  Instr.fmla 31 3 4 10,  -- fmla z31.s, p3/M, z4.s, z10.s
  Instr.fmla 17 3 7 12,  -- fmla z17.s, p3/M, z7.s, z12.s
  Instr.fmla 16 3 6 12,  -- fmla z16.s, p3/M, z6.s, z12.s
  Instr.ld1w 12 2 (.idx 12 7),  -- ld1w z12.s, p2/Z, [x12, x7, LSL #2]
  Instr.fmla 30 3 3 10,  -- fmla z30.s, p3/M, z3.s, z10.s
  Instr.fmla 27 3 1 10,  -- fmla z27.s, p3/M, z1.s, z10.s
  Instr.fmla 26 3 0 10,  -- fmla z26.s, p3/M, z0.s, z10.s
  Instr.ld1w 10 2 (.idx 12 28),  -- ld1w z10.s, p2/Z, [x12, x28, LSL #2]
  Instr.whilelt 2 (.x 5) .n_channels,  -- whilelt p2.s, x5, n_channels
  Instr.fmla 29 3 5 11,  -- fmla z29.s, p3/M, z5.s, z11.s
  Instr.ld1w 0 3 (.immvl 4 1),  -- ld1w z0.s, p3/Z, [x4, #1, MUL VL]
  Instr.addvl 12 12 1,  -- addvl x12, x12, #1
  Instr.fmla 28 3 4 11,  -- fmla z28.s, p3/M, z4.s, z11.s
  Instr.cmp (.x 6) .n_channels,  -- cmp x6, n_channels
  Instr.fmla 25 3 2 11,  -- fmla z25.s, p3/M, z2.s, z11.s
  Instr.ld1w 2 3 (.immvl 4 3),  -- ld1w z2.s, p3/Z, [x4, #3, MUL VL]
  Instr.fmla 24 3 1 11,  -- fmla z24.s, p3/M, z1.s, z11.s
  Instr.ld1w 11 1 (.idx 8 27),  -- ld1w z11.s, p1/Z, [x8, x27, LSL #2]
  Instr.fmla 23 3 7 12,  -- fmla z23.s, p3/M, z7.s, z12.s
  Instr.ld1w 1 3 (.immvl 4 2),  -- ld1w z1.s, p3/Z, [x4, #2, MUL VL]
  Instr.fmla 22 3 6 12,  -- fmla z22.s, p3/M, z6.s, z12.s
  Instr.ld1w 6 3 (.immvl 4 7),  -- ld1w z6.s, p3/Z, [x4, #7, MUL VL]
  Instr.fmla 19 3 4 12,  -- fmla z19.s, p3/M, z4.s, z12.s
  Instr.fmla 18 3 3 12,  -- fmla z18.s, p3/M, z3.s, z12.s
  Instr.ld1w 12 1 (.idx 14 9),  -- ld1w z12.s, p1/Z, [x14, x9, LSL #2]
  Instr.fmla 21 3 8 10,  -- fmla z21.s, p3/M, z8.s, z10.s
  Instr.ld1w 3 3 (.immvl 4 4),  -- ld1w z3.s, p3/Z, [x4, #4, MUL VL]
  Instr.fmla 20 3 7 10,  -- fmla z20.s, p3/M, z7.s, z10.s
  Instr.fmla 17 3 5 10,  -- fmla z17.s, p3/M, z5.s, z10.s
  Instr.ld1w 5 3 (.immvl 4 6),  -- ld1w z5.s, p3/Z, [x4, #6, MUL VL]
  Instr.fmla 16 3 4 10,  -- fmla z16.s, p3/M, z4.s, z10.s
  Instr.ld1w 10 1 (.base 8),  -- ld1w z10.s, p1/Z, [x8]
  Instr.fmax 31 3 15,  -- fmax z31.s, p3/M, z31.s, z15.s
  Instr.ld1w 4 3 (.immvl 4 5),  -- ld1w z4.s, p3/Z, [x4, #5, MUL VL]
  Instr.addvl 4 4 16,  -- addvl x4, x4, #16
  Instr.fmax 30 3 15,  -- fmax z30.s, p3/M, z30.s, z15.s
  Instr.ld1w 7 3 (.immvl 4 (-8)),  -- ld1w z7.s, p3/Z, [x4, #-8, MUL VL]
  Instr.fmax 29 3 15,  -- fmax z29.s, p3/M, z29.s, z15.s
  Instr.ld1w 8 3 (.immvl 4 (-7)),  -- ld1w z8.s, p3/Z, [x4, #-7, MUL VL]
  Instr.addvl 4 4 (-6),  -- addvl x4, x4, #-6
  Instr.fmin 31 3 14,  -- fmin z31.s, p3/M, z31.s, z14.s
  Instr.st1w 31 0 (.base 16),  -- st1w z31.s, p0, [x16]
  Instr.mov_z 31 13,  -- mov z31.d, z13.d
  Instr.fmin 30 3 14,  -- fmin z30.s, p3/M, z30.s, z14.s
  Instr.st1w 30 0 (.idx 16 17),  -- st1w z30.s, p0, [x16, x17, LSL #2]
  Instr.mov_z 30 13,  -- mov z30.d, z13.d
  Instr.fmin 29 3 14,  -- fmin z29.s, p3/M, z29.s, z14.s
  Instr.st1w 29 0 (.idx 16 23),  -- st1w z29.s, p0, [x16, x23, LSL #2]
  Instr.mov_z 29 13,  -- mov z29.d, z13.d
  Instr.fmax 28 3 15,  -- fmax z28.s, p3/M, z28.s, z15.s
  Instr.fmax 27 3 15,  -- fmax z27.s, p3/M, z27.s, z15.s
  Instr.fmax 26 3 15,  -- fmax z26.s, p3/M, z26.s, z15.s
  Instr.fmax 25 3 15,  -- fmax z25.s, p3/M, z25.s, z15.s
  Instr.fmin 28 3 14,  -- fmin z28.s, p3/M, z28.s, z14.s
  Instr.st1w 28 0 (.idx 16 22),  -- st1w z28.s, p0, [x16, x22, LSL #2]
  Instr.mov_z 28 13,  -- mov z28.d, z13.d
  Instr.addvl 16 16 1,  -- addvl x16, x16, #1
  Instr.fmin 27 3 14,  -- fmin z27.s, p3/M, z27.s, z14.s
  Instr.st1w 27 0 (.base 26),  -- st1w z27.s, p0, [x26]
  Instr.mov_z 27 13,  -- mov z27.d, z13.d
  Instr.fmin 26 3 14,  -- fmin z26.s, p3/M, z26.s, z14.s
  Instr.st1w 26 0 (.idx 26 17),  -- st1w z26.s, p0, [x26, x17, LSL #2]
  Instr.mov_z 26 13,  -- mov z26.d, z13.d
  Instr.fmin 25 3 14,  -- fmin z25.s, p3/M, z25.s, z14.s
  Instr.st1w 25 0 (.idx 26 23),  -- st1w z25.s, p0, [x26, x23, LSL #2]
  Instr.mov_z 25 13,  -- mov z25.d, z13.d
  Instr.fmax 24 3 15,  -- fmax z24.s, p3/M, z24.s, z15.s
  Instr.fmax 23 3 15,  -- fmax z23.s, p3/M, z23.s, z15.s
  Instr.fmax 22 3 15,  -- fmax z22.s, p3/M, z22.s, z15.s
  Instr.fmax 21 3 15,  -- fmax z21.s, p3/M, z21.s, z15.s
  Instr.fmin 24 3 14,  -- fmin z24.s, p3/M, z24.s, z14.s
  Instr.st1w 24 0 (.idx 26 22),  -- st1w z24.s, p0, [x26, x22, LSL #2]
  Instr.mov_z 24 13,  -- mov z24.d, z13.d
  Instr.addvl 26 26 1,  -- addvl x26, x26, #1
  Instr.fmin 23 3 14,  -- fmin z23.s, p3/M, z23.s, z14.s
  Instr.st1w 23 0 (.base 25),  -- st1w z23.s, p0, [x25]
  Instr.mov_z 23 13,  -- mov z23.d, z13.d
  Instr.fmin 22 3 14,  -- fmin z22.s, p3/M, z22.s, z14.s
  Instr.st1w 22 0 (.idx 25 17),  -- st1w z22.s, p0, [x25, x17, LSL #2]
  Instr.mov_z 22 13,  -- mov z22.d, z13.d
  Instr.fmin 21 3 14,  -- fmin z21.s, p3/M, z21.s, z14.s
  Instr.st1w 21 0 (.idx 25 23),  -- st1w z21.s, p0, [x25, x23, LSL #2]
  Instr.mov_z 21 13,  -- mov z21.d, z13.d
  Instr.fmax 20 3 15,  -- fmax z20.s, p3/M, z20.s, z15.s
  Instr.fmax 19 3 15,  -- fmax z19.s, p3/M, z19.s, z15.s
  Instr.fmax 18 3 15,  -- fmax z18.s, p3/M, z18.s, z15.s
  Instr.fmax 17 3 15,  -- fmax z17.s, p3/M, z17.s, z15.s
  Instr.fmin 20 3 14,  -- fmin z20.s, p3/M, z20.s, z14.s
  Instr.st1w 20 0 (.idx 25 22),  -- st1w z20.s, p0, [x25, x22, LSL #2]
  Instr.mov_z 20 13,  -- mov z20.d, z13.d
  Instr.addvl 25 25 1,  -- addvl x25, x25, #1
  Instr.fmin 19 3 14,  -- fmin z19.s, p3/M, z19.s, z14.s
  Instr.st1w 19 0 (.base 24),  -- st1w z19.s, p0, [x24]
  Instr.mov_z 19 13,  -- mov z19.d, z13.d
  Instr.fmin 18 3 14,  -- fmin z18.s, p3/M, z18.s, z14.s
  Instr.st1w 18 0 (.idx 24 17),  -- st1w z18.s, p0, [x24, x17, LSL #2]
  Instr.mov_z 18 13,  -- mov z18.d, z13.d
  Instr.fmin 17 3 14,  -- fmin z17.s, p3/M, z17.s, z14.s
  Instr.st1w 17 0 (.idx 24 23),  -- st1w z17.s, p0, [x24, x23, LSL #2]
  Instr.mov_z 17 13,  -- mov z17.d, z13.d
  Instr.fmax 16 3 15,  -- fmax z16.s, p3/M, z16.s, z15.s
  Instr.fmin 16 3 14,  -- fmin z16.s, p3/M, z16.s, z14.s
  Instr.st1w 16 0 (.idx 24 22),  -- st1w z16.s, p0, [x24, x22, LSL #2]
  Instr.mov_z 16 13,  -- mov z16.d, z13.d
  Instr.addvl 24 24 1  -- addvl x24, x24, #1
  -- blt 2b
]

/-- Label 3: the channel tail (the last pass of the tile) and the tile index update. -/
def channel_tail : List Instr := [
  Instr.label 3,  -- 3:
  Instr.fmla 31 3 8 9,  -- fmla z31.s, p3/M, z8.s, z9.s
  Instr.ldr 2 .tile_i,  -- ldr x2, [params_struct, offsetof(tile_i)]
  Instr.mov_p 0 2,  -- mov p0.b, p2.b
  Instr.fmla 30 3 7 9,  -- fmla z30.s, p3/M, z7.s, z9.s
  Instr.ldr 3 .tile_j,  -- ldr x3, [params_struct, offsetof(tile_j)]
  Instr.add_imm 21 2 1,  -- add x21, x2, #0x1
  Instr.fmla 29 3 6 9,  -- fmla z29.s, p3/M, z6.s, z9.s
  Instr.ldr 20 .n_tile_rows,  -- ldr x20, [params_struct, offsetof(n_tile_rows)]
  Instr.fmla 27 3 5 9,  -- fmla z27.s, p3/M, z5.s, z9.s
  Instr.ldr 19 .n_tile_cols,  -- ldr x19, [params_struct, offsetof(n_tile_cols)]
  Instr.add_imm 3 3 1,  -- add x3, x3, #0x1
  Instr.fmla 26 3 4 9,  -- fmla z26.s, p3/M, z4.s, z9.s
  Instr.cmp (.x 3) (.x 19),  -- cmp x3, x19
  Instr.fmla 25 3 3 9,  -- fmla z25.s, p3/M, z3.s, z9.s
  Instr.fmla 23 3 2 9,  -- fmla z23.s, p3/M, z2.s, z9.s
  Instr.csel_lt 3 (.x 3) .xzr,  -- csel x3, x3, XZR, LT
  Instr.fmla 22 3 1 9,  -- fmla z22.s, p3/M, z1.s, z9.s
  Instr.csel_lt 2 (.x 2) (.x 21),  -- csel x2, x2, x21, LT
  Instr.fmla 21 3 0 9,  -- fmla z21.s, p3/M, z0.s, z9.s
  Instr.ld1w 9 2 (.idx 13 10),  -- ld1w z9.s, p2/Z, [x13, x10, LSL #2]
  Instr.cmp (.x 2) (.x 20),  -- cmp x2, x20
  Instr.fmla 31 3 0 10,  -- fmla z31.s, p3/M, z0.s, z10.s
  Instr.ld1w 10 2 (.base 11),  -- ld1w z10.s, p2/Z, [x11]
  Instr.fmla 28 3 2 11,  -- fmla z28.s, p3/M, z2.s, z11.s
  Instr.ld1w 11 2 (.idx 11 27),  -- ld1w z11.s, p2/Z, [x11, x27, LSL #2]
  Instr.fmla 30 3 8 12,  -- fmla z30.s, p3/M, z8.s, z12.s
  Instr.fmla 29 3 7 12,  -- fmla z29.s, p3/M, z7.s, z12.s
  Instr.fmla 26 3 5 12,  -- fmla z26.s, p3/M, z5.s, z12.s
  Instr.fmla 28 3 6 12,  -- fmla z28.s, p3/M, z6.s, z12.s
  Instr.fmla 25 3 4 12,  -- fmla z25.s, p3/M, z4.s, z12.s
  Instr.fmla 24 3 3 12,  -- fmla z24.s, p3/M, z3.s, z12.s
  Instr.fmla 22 3 2 12,  -- fmla z22.s, p3/M, z2.s, z12.s
  Instr.fmla 21 3 1 12,  -- fmla z21.s, p3/M, z1.s, z12.s
  Instr.fmla 20 3 0 12,  -- fmla z20.s, p3/M, z0.s, z12.s
  Instr.ld1w 12 2 (.idx 8 7),  -- ld1w z12.s, p2/Z, [x8, x7, LSL #2]
  Instr.fmla 19 3 6 10,  -- fmla z19.s, p3/M, z6.s, z10.s
  Instr.ld1w 10 2 (.idx 13 9),  -- ld1w z10.s, p2/Z, [x13, x9, LSL #2]
  Instr.fmla 16 3 8 11,  -- fmla z16.s, p3/M, z8.s, z11.s
  Instr.ld1w 11 2 (.idx 8 28),  -- ld1w z11.s, p2/Z, [x8, x28, LSL #2]
  Instr.fmla 27 3 8 9,  -- fmla z27.s, p3/M, z8.s, z9.s
  Instr.fmla 26 3 7 9,  -- fmla z26.s, p3/M, z7.s, z9.s
  Instr.fmla 25 3 6 9,  -- fmla z25.s, p3/M, z6.s, z9.s
  Instr.fmla 23 3 5 9,  -- fmla z23.s, p3/M, z5.s, z9.s
  Instr.fmla 22 3 4 9,  -- fmla z22.s, p3/M, z4.s, z9.s
  Instr.fmla 21 3 3 9,  -- fmla z21.s, p3/M, z3.s, z9.s
  Instr.fmla 19 3 2 9,  -- fmla z19.s, p3/M, z2.s, z9.s
  Instr.fmla 18 3 1 9,  -- fmla z18.s, p3/M, z1.s, z9.s
  Instr.fmla 17 3 0 9,  -- fmla z17.s, p3/M, z0.s, z9.s
  Instr.ld1w 9 2 (.base 15),  -- ld1w z9.s, p2/Z, [x15]
  Instr.fmla 31 3 1 12,  -- fmla z31.s, p3/M, z1.s, z12.s
  Instr.fmla 30 3 0 12,  -- fmla z30.s, p3/M, z0.s, z12.s
  Instr.ld1w 12 2 (.idx 15 27),  -- ld1w z12.s, p2/Z, [x15, x27, LSL #2]
  Instr.fmla 29 3 2 11,  -- fmla z29.s, p3/M, z2.s, z11.s
  Instr.fmla 28 3 1 11,  -- fmla z28.s, p3/M, z1.s, z11.s
  Instr.ld1w 11 2 (.base 12),  -- ld1w z11.s, p2/Z, [x12]
  Instr.fmla 26 3 8 10,  -- fmla z26.s, p3/M, z8.s, z10.s
  Instr.fmla 25 3 7 10,  -- fmla z25.s, p3/M, z7.s, z10.s
  Instr.fmla 24 3 6 10,  -- fmla z24.s, p3/M, z6.s, z10.s
  Instr.fmla 22 3 5 10,  -- fmla z22.s, p3/M, z5.s, z10.s
  Instr.fmla 21 3 4 10,  -- fmla z21.s, p3/M, z4.s, z10.s
  Instr.fmla 20 3 3 10,  -- fmla z20.s, p3/M, z3.s, z10.s
  Instr.fmla 18 3 2 10,  -- fmla z18.s, p3/M, z2.s, z10.s
  Instr.fmla 17 3 1 10,  -- fmla z17.s, p3/M, z1.s, z10.s
  Instr.fmla 16 3 0 10,  -- fmla z16.s, p3/M, z0.s, z10.s
  Instr.ld1w 10 2 (.idx 15 10),  -- ld1w z10.s, p2/Z, [x15, x10, LSL #2]
  Instr.fmla 31 3 3 9,  -- fmla z31.s, p3/M, z3.s, z9.s
  Instr.fmla 27 3 0 9,  -- fmla z27.s, p3/M, z0.s, z9.s
  Instr.fmla 28 3 5 12,  -- fmla z28.s, p3/M, z5.s, z12.s
  Instr.fmla 24 3 2 12,  -- fmla z24.s, p3/M, z2.s, z12.s
  Instr.ld1w 12 2 (.idx 15 9),  -- ld1w z12.s, p2/Z, [x15, x9, LSL #2]
  Instr.fmla 23 3 6 11,  -- fmla z23.s, p3/M, z6.s, z11.s
  Instr.fmla 19 3 3 11,  -- fmla z19.s, p3/M, z3.s, z11.s
  Instr.ld1w 11 2 (.idx 12 27),  -- ld1w z11.s, p2/Z, [x12, x27, LSL #2]
  Instr.fmla 31 3 5 10,  -- fmla z31.s, p3/M, z5.s, z10.s
  Instr.fmla 30 3 4 10,  -- fmla z30.s, p3/M, z4.s, z10.s
  Instr.fmla 29 3 3 10,  -- fmla z29.s, p3/M, z3.s, z10.s
  Instr.fmla 27 3 2 10,  -- fmla z27.s, p3/M, z2.s, z10.s
  Instr.fmla 26 3 1 10,  -- fmla z26.s, p3/M, z1.s, z10.s
  Instr.fmla 25 3 0 10,  -- fmla z25.s, p3/M, z0.s, z10.s
  Instr.ld1w 10 2 (.idx 14 7),  -- ld1w z10.s, p2/Z, [x14, x7, LSL #2]
  Instr.fmla 20 3 8 11,  -- fmla z20.s, p3/M, z8.s, z11.s
  Instr.fmla 16 3 5 11,  -- fmla z16.s, p3/M, z5.s, z11.s
  Instr.ld1w 11 2 (.idx 11 7),  -- ld1w z11.s, p2/Z, [x11, x7, LSL #2]
  Instr.fmla 30 3 5 12,  -- fmla z30.s, p3/M, z5.s, z12.s
  Instr.fmla 29 3 4 12,  -- fmla z29.s, p3/M, z4.s, z12.s
  Instr.fmla 28 3 3 12,  -- fmla z28.s, p3/M, z3.s, z12.s
  Instr.fmla 26 3 2 12,  -- fmla z26.s, p3/M, z2.s, z12.s
  Instr.fmla 25 3 1 12,  -- fmla z25.s, p3/M, z1.s, z12.s
  Instr.fmla 24 3 0 12,  -- fmla z24.s, p3/M, z0.s, z12.s
  Instr.ld1w 12 2 (.idx 14 28),  -- ld1w z12.s, p2/Z, [x14, x28, LSL #2]
  Instr.fmla 19 3 7 11,  -- fmla z19.s, p3/M, z7.s, z11.s
  Instr.fmla 18 3 6 11,  -- fmla z18.s, p3/M, z6.s, z11.s
  Instr.ld1w 11 2 (.idx 11 28),  -- ld1w z11.s, p2/Z, [x11, x28, LSL #2]
  Instr.fmla 31 3 7 10,  -- fmla z31.s, p3/M, z7.s, z10.s
  Instr.fmla 30 3 6 10,  -- fmla z30.s, p3/M, z6.s, z10.s
  Instr.fmla 27 3 4 10,  -- fmla z27.s, p3/M, z4.s, z10.s
  Instr.fmla 26 3 3 10,  -- fmla z26.s, p3/M, z3.s, z10.s
  Instr.fmla 23 3 1 10,  -- fmla z23.s, p3/M, z1.s, z10.s
  Instr.fmla 22 3 0 10,  -- fmla z22.s, p3/M, z0.s, z10.s
  Instr.ld1w 10 2 (.idx 8 10),  -- ld1w z10.s, p2/Z, [x8, x10, LSL #2]
  Instr.fmla 17 3 8 11,  -- fmla z17.s, p3/M, z8.s, z11.s
  Instr.fmla 16 3 7 11,  -- fmla z16.s, p3/M, z7.s, z11.s
  Instr.ld1w 11 2 (.idx 13 7),  -- ld1w z11.s, p2/Z, [x13, x7, LSL #2]
  Instr.fmla 29 3 8 12,  -- fmla z29.s, p3/M, z8.s, z12.s
  Instr.fmla 28 3 7 12,  -- fmla z28.s, p3/M, z7.s, z12.s
  Instr.fmla 25 3 5 12,  -- fmla z25.s, p3/M, z5.s, z12.s
  Instr.fmla 24 3 4 12,  -- fmla z24.s, p3/M, z4.s, z12.s
  Instr.fmla 21 3 2 12,  -- fmla z21.s, p3/M, z2.s, z12.s
  Instr.fmla 20 3 1 12,  -- fmla z20.s, p3/M, z1.s, z12.s
  Instr.ld1w 12 2 (.idx 8 9),  -- ld1w z12.s, p2/Z, [x8, x9, LSL #2]
  Instr.fmla 31 3 2 10,  -- fmla z31.s, p3/M, z2.s, z10.s
  Instr.fmla 30 3 1 10,  -- fmla z30.s, p3/M, z1.s, z10.s
  Instr.fmla 29 3 0 10,  -- fmla z29.s, p3/M, z0.s, z10.s
  Instr.ld1w 10 2 (.base 14),  -- ld1w z10.s, p2/Z, [x14]
  Instr.fmla 27 3 7 11,  -- fmla z27.s, p3/M, z7.s, z11.s
  Instr.fmla 26 3 6 11,  -- fmla z26.s, p3/M, z6.s, z11.s
  Instr.fmla 23 3 4 11,  -- fmla z23.s, p3/M, z4.s, z11.s
  Instr.fmla 22 3 3 11,  -- fmla z22.s, p3/M, z3.s, z11.s
  Instr.fmla 19 3 1 11,  -- fmla z19.s, p3/M, z1.s, z11.s
  Instr.fmla 18 3 0 11,  -- fmla z18.s, p3/M, z0.s, z11.s
  Instr.ld1w 11 2 (.idx 13 28),  -- ld1w z11.s, p2/Z, [x13, x28, LSL #2]
  Instr.fmla 30 3 2 12,  -- fmla z30.s, p3/M, z2.s, z12.s
  Instr.fmla 29 3 1 12,  -- fmla z29.s, p3/M, z1.s, z12.s
  Instr.fmla 28 3 0 12,  -- fmla z28.s, p3/M, z0.s, z12.s
  Instr.ld1w 12 2 (.idx 14 27),  -- ld1w z12.s, p2/Z, [x14, x27, LSL #2]
  Instr.fmla 31 3 6 10,  -- fmla z31.s, p3/M, z6.s, z10.s
  Instr.fmla 27 3 3 10,  -- fmla z27.s, p3/M, z3.s, z10.s
  Instr.fmla 23 3 0 10,  -- fmla z23.s, p3/M, z0.s, z10.s
  Instr.ld1w 10 2 (.base 13),  -- ld1w z10.s, p2/Z, [x13]
  Instr.fmla 25 3 8 11,  -- fmla z25.s, p3/M, z8.s, z11.s
  Instr.fmla 24 3 7 11,  -- fmla z24.s, p3/M, z7.s, z11.s
  Instr.fmla 21 3 5 11,  -- fmla z21.s, p3/M, z5.s, z11.s
  Instr.fmla 20 3 4 11,  -- fmla z20.s, p3/M, z4.s, z11.s
  Instr.fmla 17 3 2 11,  -- fmla z17.s, p3/M, z2.s, z11.s
  Instr.fmla 16 3 1 11,  -- fmla z16.s, p3/M, z1.s, z11.s
  Instr.ld1w 11 2 (.idx 12 10),  -- ld1w z11.s, p2/Z, [x12, x10, LSL #2]
  Instr.fmla 28 3 8 12,  -- fmla z28.s, p3/M, z8.s, z12.s
  Instr.fmla 24 3 5 12,  -- fmla z24.s, p3/M, z5.s, z12.s
  Instr.fmla 20 3 2 12,  -- fmla z20.s, p3/M, z2.s, z12.s
  Instr.ld1w 12 2 (.idx 13 27),  -- ld1w z12.s, p2/Z, [x13, x27, LSL #2]
  Instr.fmla 27 3 6 10,  -- fmla z27.s, p3/M, z6.s, z10.s
  Instr.fmla 23 3 3 10,  -- fmla z23.s, p3/M, z3.s, z10.s
  Instr.fmla 19 3 0 10,  -- fmla z19.s, p3/M, z0.s, z10.s
  Instr.ld1w 10 2 (.idx 11 10),  -- ld1w z10.s, p2/Z, [x11, x10, LSL #2]
  Instr.fmla 22 3 7 11,  -- fmla z22.s, p3/M, z7.s, z11.s
  Instr.fmla 21 3 6 11,  -- fmla z21.s, p3/M, z6.s, z11.s
  Instr.fmla 23 3 8 11,  -- fmla z23.s, p3/M, z8.s, z11.s
  Instr.fmla 19 3 5 11,  -- fmla z19.s, p3/M, z5.s, z11.s
  Instr.fmla 18 3 4 11,  -- fmla z18.s, p3/M, z4.s, z11.s
  Instr.fmla 17 3 3 11,  -- fmla z17.s, p3/M, z3.s, z11.s
  Instr.ld1w 11 2 (.idx 12 9),  -- ld1w z11.s, p2/Z, [x12, x9, LSL #2]
  Instr.fmla 24 3 8 12,  -- fmla z24.s, p3/M, z8.s, z12.s
  Instr.fmla 20 3 5 12,  -- fmla z20.s, p3/M, z5.s, z12.s
  Instr.fmla 16 3 2 12,  -- fmla z16.s, p3/M, z2.s, z12.s
  Instr.ld1w 12 2 (.idx 11 9),  -- ld1w z12.s, p2/Z, [x11, x9, LSL #2]
  Instr.fmla 19 3 8 10,  -- fmla z19.s, p3/M, z8.s, z10.s
  Instr.fmla 18 3 7 10,  -- fmla z18.s, p3/M, z7.s, z10.s
  Instr.fmla 17 3 6 10,  -- fmla z17.s, p3/M, z6.s, z10.s
  Instr.ld1w 10 2 (.idx 15 7),  -- ld1w z10.s, p2/Z, [x15, x7, LSL #2]
  Instr.fmla 22 3 8 11,  -- fmla z22.s, p3/M, z8.s, z11.s
  Instr.fmla 21 3 7 11,  -- fmla z21.s, p3/M, z7.s, z11.s
  Instr.fmla 20 3 6 11,  -- fmla z20.s, p3/M, z6.s, z11.s
  Instr.fmla 18 3 5 11,  -- fmla z18.s, p3/M, z5.s, z11.s
  Instr.fmla 17 3 4 11,  -- fmla z17.s, p3/M, z4.s, z11.s
  Instr.fmla 16 3 3 11,  -- fmla z16.s, p3/M, z3.s, z11.s
  Instr.ld1w 11 2 (.idx 15 28),  -- ld1w z11.s, p2/Z, [x15, x28, LSL #2]
  Instr.fmla 31 3 4 10,  -- fmla z31.s, p3/M, z4.s, z10.s
  Instr.fmla 18 3 8 12,  -- fmla z18.s, p3/M, z8.s, z12.s
  Instr.fmla 17 3 7 12,  -- fmla z17.s, p3/M, z7.s, z12.s
  Instr.fmla 16 3 6 12,  -- fmla z16.s, p3/M, z6.s, z12.s
  Instr.ld1w 12 2 (.idx 12 7),  -- ld1w z12.s, p2/Z, [x12, x7, LSL #2]
  Instr.fmla 30 3 3 10,  -- fmla z30.s, p3/M, z3.s, z10.s
  Instr.fmla 27 3 1 10,  -- fmla z27.s, p3/M, z1.s, z10.s
  Instr.fmla 26 3 0 10,  -- fmla z26.s, p3/M, z0.s, z10.s
  Instr.ld1w 10 2 (.idx 12 28),  -- ld1w z10.s, p2/Z, [x12, x28, LSL #2]
  Instr.fmla 29 3 5 11,  -- fmla z29.s, p3/M, z5.s, z11.s
  Instr.fmla 28 3 4 11,  -- fmla z28.s, p3/M, z4.s, z11.s
  Instr.fmla 25 3 2 11,  -- fmla z25.s, p3/M, z2.s, z11.s
  Instr.fmla 24 3 1 11,  -- fmla z24.s, p3/M, z1.s, z11.s
  Instr.fmla 23 3 7 12,  -- fmla z23.s, p3/M, z7.s, z12.s
  Instr.fmla 22 3 6 12,  -- fmla z22.s, p3/M, z6.s, z12.s
  Instr.fmla 19 3 4 12,  -- fmla z19.s, p3/M, z4.s, z12.s
  Instr.fmla 18 3 3 12,  -- fmla z18.s, p3/M, z3.s, z12.s
  Instr.fmla 21 3 8 10,  -- fmla z21.s, p3/M, z8.s, z10.s
  Instr.fmla 20 3 7 10,  -- fmla z20.s, p3/M, z7.s, z10.s
  Instr.fmla 17 3 5 10,  -- fmla z17.s, p3/M, z5.s, z10.s
  Instr.fmla 16 3 4 10,  -- fmla z16.s, p3/M, z4.s, z10.s
  Instr.fmax 31 3 15,  -- fmax z31.s, p3/M, z31.s, z15.s
  Instr.fmax 30 3 15,  -- fmax z30.s, p3/M, z30.s, z15.s
  Instr.fmax 29 3 15,  -- fmax z29.s, p3/M, z29.s, z15.s
  Instr.fmax 28 3 15,  -- fmax z28.s, p3/M, z28.s, z15.s
  Instr.fmin 31 3 14,  -- fmin z31.s, p3/M, z31.s, z14.s
  Instr.st1w 31 0 (.base 16),  -- st1w z31.s, p0, [x16]
  Instr.fmin 30 3 14,  -- fmin z30.s, p3/M, z30.s, z14.s
  Instr.fmin 29 3 14,  -- fmin z29.s, p3/M, z29.s, z14.s
  Instr.st1w 30 0 (.idx 16 17),  -- st1w z30.s, p0, [x16, x17, LSL #2]
  Instr.fmin 28 3 14,  -- fmin z28.s, p3/M, z28.s, z14.s
  Instr.fmax 27 3 15,  -- fmax z27.s, p3/M, z27.s, z15.s
  Instr.st1w 29 0 (.idx 16 23),  -- st1w z29.s, p0, [x16, x23, LSL #2]
  Instr.fmax 26 3 15,  -- fmax z26.s, p3/M, z26.s, z15.s
  Instr.st1w 28 0 (.idx 16 22),  -- st1w z28.s, p0, [x16, x22, LSL #2]
  Instr.fmin 27 3 14,  -- fmin z27.s, p3/M, z27.s, z14.s
  Instr.fmax 25 3 15,  -- fmax z25.s, p3/M, z25.s, z15.s
  Instr.st1w 27 0 (.base 26),  -- st1w z27.s, p0, [x26]
  Instr.fmin 26 3 14,  -- fmin z26.s, p3/M, z26.s, z14.s
  Instr.fmin 25 3 14,  -- fmin z25.s, p3/M, z25.s, z14.s
  Instr.st1w 26 0 (.idx 26 17),  -- st1w z26.s, p0, [x26, x17, LSL #2]
  Instr.fmax 24 3 15,  -- fmax z24.s, p3/M, z24.s, z15.s
  Instr.fmax 23 3 15,  -- fmax z23.s, p3/M, z23.s, z15.s
  Instr.st1w 25 0 (.idx 26 23),  -- st1w z25.s, p0, [x26, x23, LSL #2]
  Instr.fmax 22 3 15,  -- fmax z22.s, p3/M, z22.s, z15.s
  Instr.fmax 21 3 15,  -- fmax z21.s, p3/M, z21.s, z15.s
  Instr.fmax 20 3 15,  -- fmax z20.s, p3/M, z20.s, z15.s
  Instr.fmin 24 3 14,  -- fmin z24.s, p3/M, z24.s, z14.s
  Instr.st1w 24 0 (.idx 26 22),  -- st1w z24.s, p0, [x26, x22, LSL #2]
  Instr.fmin 23 3 14,  -- fmin z23.s, p3/M, z23.s, z14.s
  Instr.fmin 22 3 14,  -- fmin z22.s, p3/M, z22.s, z14.s
  Instr.st1w 23 0 (.base 25),  -- st1w z23.s, p0, [x25]
  Instr.fmin 21 3 14,  -- fmin z21.s, p3/M, z21.s, z14.s
  Instr.fmin 20 3 14,  -- fmin z20.s, p3/M, z20.s, z14.s
  Instr.st1w 22 0 (.idx 25 17),  -- st1w z22.s, p0, [x25, x17, LSL #2]
  Instr.fmax 19 3 15,  -- fmax z19.s, p3/M, z19.s, z15.s
  Instr.st1w 21 0 (.idx 25 23),  -- st1w z21.s, p0, [x25, x23, LSL #2]
  Instr.fmax 18 3 15,  -- fmax z18.s, p3/M, z18.s, z15.s
  Instr.fmax 17 3 15,  -- fmax z17.s, p3/M, z17.s, z15.s
  Instr.st1w 20 0 (.idx 25 22),  -- st1w z20.s, p0, [x25, x22, LSL #2]
  Instr.fmin 19 3 14,  -- fmin z19.s, p3/M, z19.s, z14.s
  Instr.st1w 19 0 (.base 24),  -- st1w z19.s, p0, [x24]
  Instr.fmin 18 3 14,  -- fmin z18.s, p3/M, z18.s, z14.s
  Instr.fmin 17 3 14,  -- fmin z17.s, p3/M, z17.s, z14.s
  Instr.st1w 18 0 (.idx 24 17),  -- st1w z18.s, p0, [x24, x17, LSL #2]
  Instr.fmax 16 3 15,  -- fmax z16.s, p3/M, z16.s, z15.s
  Instr.st1w 17 0 (.idx 24 23),  -- st1w z17.s, p0, [x24, x23, LSL #2]
  Instr.fmin 16 3 14,  -- fmin z16.s, p3/M, z16.s, z14.s
  Instr.st1w 16 0 (.idx 24 22)  -- st1w z16.s, p0, [x24, x22, LSL #2]
  -- blt 1b
]

/-! ## Symbolic execution of straight-line blocks

The blocks are long, so their effect is computed once by a symbolic
executor over expressions in the registers of the block's entry state;
`exec_sym` shows that evaluating its result gives what `exec` gives. -/

/-- Scalar expressions over the entry state of a block; one constructor
per scalar computation of `step` and `Addr.ea`. -/
inductive XE
  | reg (n : Nat)
  | lit (k : Nat)
  | vl
  | nch
  | arg (f : Field)
  | sub (a b : XE)
  | mul (a b : XE)
  | madd (n m a : XE)
  | add (a b : XE)
  | add_lsl (a b : XE) (sh : Nat)
  | add_imm (a : XE) (k : Nat)
  | addvl (a : XE) (imm : Int)
  | incw (a : XE)
  | csel (p q a b : XE)
  | idx (a b : XE)
  deriving DecidableEq, Repr

/-- Symbolic flags: those of the entry state, of a `cmp` or of a `whilelt`. -/
inductive FE
  | init
  | cmp (a b : XE)
  | wlt (a b : XE)
  deriving DecidableEq, Repr

/-- Symbolic predicate registers. -/
inductive PE
  | reg (n : Nat)
  | ptrue
  | wlt (a b : XE)
  deriving DecidableEq, Repr

/-- Symbolic vector registers; `ld` reads the memory of the entry state. -/
inductive ZE
  | reg (n : Nat)
  | ld (a : XE) (p : PE)
  | bcast (f : FField) (p : PE)
  | fmla (acc : ZE) (p : PE) (a b : ZE)
  | fmax (a : ZE) (p : PE) (b : ZE)
  | fmin (a : ZE) (p : PE) (b : ZE)
  deriving DecidableEq, Repr

/-- Symbolic events; a vector access stands for the events of its active lanes. -/
inductive EE
  | label (n : Nat)
  | str (f : Field) (v : XE)
  | rdv (a : XE) (p : PE)
  | wrv (a : XE) (p : PE)
  deriving DecidableEq, Repr

/-- Symbolic state of a block: registers as expressions over the entry
state, the vector stores done so far (in program order) and the events. -/
structure Sym where
  x : Nat → XE
  z : Nat → ZE
  p : Nat → PE
  lt : FE
  args : Field → XE
  stores : List (XE × PE × ZE)
  trace : List EE

/-- The symbolic state at the entry of a block. -/
def Sym.init : Sym :=
  { x := XE.reg, z := ZE.reg, p := PE.reg, lt := FE.init, args := XE.arg, stores := [],
    trace := [] }

def XE.eval (c : Cfg) (s : State) : XE → Nat
  | .reg n => s.x n
  | .lit k => k
  | .vl => c.VL
  | .nch => c.n_channels
  | .arg f => s.args.get f
  | .sub a b => (a.eval c s + u64 (-(b.eval c s : Int))) % W
  | .mul a b => (a.eval c s * b.eval c s) % W
  | .madd n m a => (a.eval c s + n.eval c s * m.eval c s) % W
  | .add a b => (a.eval c s + b.eval c s) % W
  | .add_lsl a b sh => (a.eval c s + b.eval c s * 2 ^ sh) % W
  | .add_imm a k => (a.eval c s + k) % W
  | .addvl a imm => (a.eval c s + u64 (imm * (4 * (c.VL : Int)))) % W
  | .incw a => (a.eval c s + c.VL) % W
  | .csel p q a b => if sint (p.eval c s) < sint (q.eval c s) then a.eval c s else b.eval c s
  | .idx a b => (a.eval c s + b.eval c s * 4) % W

def FE.eval (c : Cfg) (s : State) : FE → Bool
  | .init => s.lt
  | .cmp a b => decide (sint (a.eval c s) < sint (b.eval c s))
  | .wlt a b => whileltPred (a.eval c s) (b.eval c s) 0

def PE.eval (c : Cfg) (s : State) : PE → Nat → Bool
  | .reg n => s.p n
  | .ptrue => fun _ => true
  | .wlt a b => whileltPred (a.eval c s) (b.eval c s)

def ZE.eval (c : Cfg) (s : State) : ZE → Nat → Int
  | .reg n => s.z n
  | .ld a p => loadVec s.mem (a.eval c s) (p.eval c s)
  | .bcast f p => fun l => if p.eval c s l then s.args.getF f else 0
  | .fmla acc p a b => fun l =>
      if p.eval c s l then acc.eval c s l + a.eval c s l * b.eval c s l else acc.eval c s l
  | .fmax a p b => fun l =>
      if p.eval c s l then max (a.eval c s l) (b.eval c s l) else a.eval c s l
  | .fmin a p b => fun l =>
      if p.eval c s l then min (a.eval c s l) (b.eval c s l) else a.eval c s l

def EE.eval (c : Cfg) (s : State) : EE → List Event
  | .label n => [.label n]
  | .str f v => [.str f (v.eval c s)]
  | .rdv a p => (lanes c.VL (p.eval c s)).map (fun l => .rd (laneAddr (a.eval c s) l))
  | .wrv a p => (lanes c.VL (p.eval c s)).map (fun l => .wr (laneAddr (a.eval c s) l))

/-- The argument block a symbolic state stands for. -/
def evalArgs (c : Cfg) (s : State) (a : Field → XE) : Args :=
  { n_tile_rows := (a .n_tile_rows).eval c s
    n_tile_cols := (a .n_tile_cols).eval c s
    inptr := (a .inptr).eval c s
    ld_input_row := (a .ld_input_row).eval c s
    ld_input_col := (a .ld_input_col).eval c s
    outptr := (a .outptr).eval c s
    ld_output_row := (a .ld_output_row).eval c s
    ld_output_col := (a .ld_output_col).eval c s
    params := (a .params).eval c s
    min := s.args.min
    max := s.args.max
    tile_i := (a .tile_i).eval c s
    tile_j := (a .tile_j).eval c s }

/-- The memory after a list of vector stores. -/
def applyStores (VL : Nat) (m : Nat → Int) (l : List (Nat × (Nat → Bool) × (Nat → Int))) :
    Nat → Int :=
  l.foldl (fun m t => storeVec VL m t.1 t.2.1 t.2.2) m

/-- The state a symbolic state stands for, over the entry state `s`. -/
def Sym.eval (c : Cfg) (s : State) (σ : Sym) : State :=
  { x := fun r => (σ.x r).eval c s
    z := fun r => (σ.z r).eval c s
    p := fun r => (σ.p r).eval c s
    lt := σ.lt.eval c s
    args := evalArgs c s σ.args
    mem := applyStores c.VL s.mem
      (σ.stores.map fun t => (t.1.eval c s, t.2.1.eval c s, t.2.2.eval c s))
    trace := s.trace ++ σ.trace.flatMap (EE.eval c s) }

def XOp.sym (σ : Sym) : XOp → XE
  | .x n => σ.x n
  | .xzr => .lit 0
  | .n_channels => .nch

def Addr.sym (σ : Sym) : Addr → XE
  | .base n => σ.x n
  | .immvl n imm => .addvl (σ.x n) imm
  | .idx n m => .idx (σ.x n) (σ.x m)

/-- One instruction, symbolically.  `none` for what the expressions do not
cover: a conditional select on flags that no `cmp` of the block has set,
and a vector load after a vector store of the block. -/
def symStep : Instr → Sym → Option Sym
  | .label n, σ => some { σ with trace := σ.trace ++ [.label n] }
  | .ptrue pd, σ => some { σ with p := upd σ.p pd .ptrue }
  | .mov_imm xd imm, σ => some { σ with x := upd σ.x xd (.lit imm) }
  | .str xt f, σ =>
      some { σ with args := fun g => if g = f then σ.x xt else σ.args g,
                    trace := σ.trace ++ [.str f (σ.x xt)] }
  | .ldr xt f, σ => some { σ with x := upd σ.x xt (σ.args f) }
  | .cntw xd, σ => some { σ with x := upd σ.x xd .vl }
  | .sub xd a b, σ => some { σ with x := upd σ.x xd (.sub (a.sym σ) (b.sym σ)) }
  | .mul xd xn xm, σ => some { σ with x := upd σ.x xd (.mul (σ.x xn) (σ.x xm)) }
  | .madd xd xn xm xa, σ => some { σ with x := upd σ.x xd (.madd (σ.x xn) (σ.x xm) (σ.x xa)) }
  | .add xd xn xm, σ => some { σ with x := upd σ.x xd (.add (σ.x xn) (σ.x xm)) }
  | .add_lsl xd xn xm sh, σ => some { σ with x := upd σ.x xd (.add_lsl (σ.x xn) (σ.x xm) sh) }
  | .add_imm xd xn imm, σ => some { σ with x := upd σ.x xd (.add_imm (σ.x xn) imm) }
  | .addvl xd xn imm, σ => some { σ with x := upd σ.x xd (.addvl (σ.x xn) imm) }
  | .incw xd, σ => some { σ with x := upd σ.x xd (.incw (σ.x xd)) }
  | .cmp a b, σ => some { σ with lt := .cmp (a.sym σ) (b.sym σ) }
  | .csel_lt xd a b, σ =>
      match σ.lt with
      | .cmp p q => some { σ with x := upd σ.x xd (.csel p q (a.sym σ) (b.sym σ)) }
      | _ => none
  | .whilelt pd a b, σ =>
      some { σ with p := upd σ.p pd (.wlt (a.sym σ) (b.sym σ)), lt := .wlt (a.sym σ) (b.sym σ) }
  | .mov_p pd pn, σ => some { σ with p := upd σ.p pd (σ.p pn) }
  | .ld1rw zt pg f, σ => some { σ with z := upd σ.z zt (.bcast f (σ.p pg)) }
  | .ld1w zt pg a, σ =>
      match σ.stores with
      | [] => some { σ with z := upd σ.z zt (.ld (a.sym σ) (σ.p pg)),
                            trace := σ.trace ++ [.rdv (a.sym σ) (σ.p pg)] }
      | _ :: _ => none
  | .st1w zt pg a, σ =>
      some { σ with stores := σ.stores ++ [(a.sym σ, σ.p pg, σ.z zt)],
                    trace := σ.trace ++ [.wrv (a.sym σ) (σ.p pg)] }
  | .mov_z zd zn, σ => some { σ with z := upd σ.z zd (σ.z zn) }
  | .fmla zda pg zn zm, σ => some { σ with z := upd σ.z zda (.fmla (σ.z zda) (σ.p pg) (σ.z zn) (σ.z zm)) }
  | .fmax zdn pg zm, σ => some { σ with z := upd σ.z zdn (.fmax (σ.z zdn) (σ.p pg) (σ.z zm)) }
  | .fmin zdn pg zm, σ => some { σ with z := upd σ.z zdn (.fmin (σ.z zdn) (σ.p pg) (σ.z zm)) }

/-- A straight-line sequence, symbolically. -/
def symExec : List Instr → Sym → Option Sym
  | [], σ => some σ
  | i :: is, σ => (symStep i σ).bind (symExec is)

/-- The channel loop from label 2: the body runs, and `blt 2b` repeats it
while the comparison of the look-ahead offset with `n_channels` says
less-than.  `none` when the fuel runs out. -/
def channel_loop_run (c : Cfg) : Nat → State → Option State
  | 0, _ => none
  | fuel + 1, s =>
      let s1 := exec c channel_loop s
      if s1.lt then channel_loop_run c fuel s1 else some s1

/-- One tile, from label 1 to the `blt 1b` at the end of the tail:
the setup, `bge 3f` (the channel loop is skipped unless the comparison
says less-than), the channel loop and the tail. -/
def tile (c : Cfg) (fuel : Nat) (s : State) : Option State :=
  let s1 := exec c tile_setup s
  (if s1.lt then channel_loop_run c fuel s1 else some s1).map (exec c channel_tail)

/-- The tile loop from label 1: `blt 1b` repeats it while the comparison
of the updated row index with `n_tile_rows` says less-than. -/
def tile_loop (c : Cfg) : Nat → State → Option State
  | 0, _ => none
  | fuel + 1, s =>
      match tile c (fuel + 1) s with
      | none => none
      | some s1 => if s1.lt then tile_loop c fuel s1 else some s1

/-- The kernel: the argument block is built from the arguments (the
signed strides go into unsigned 64-bit fields) and the assembly block runs
on it, from the incoming machine state `s0`. -/
def sve_fp32_nhwc_3x3_s1_output4x4_mla_depthfirst_direct_impl (VL fuel : Nat)
    (n_tile_rows n_tile_cols : Nat) (inptr : Nat) (ld_input_row ld_input_col : Int)
    (outptr : Nat) (ld_output_row ld_output_col : Int) (params : Nat) (n_channels : Nat)
    (activation_min activation_max : Int) (s0 : State) : Option State :=
  let params_struct : Args :=
    { n_tile_rows := n_tile_rows, n_tile_cols := n_tile_cols, inptr := inptr,
      ld_input_row := u64 ld_input_row, ld_input_col := u64 ld_input_col, outptr := outptr,
      ld_output_row := u64 ld_output_row, ld_output_col := u64 ld_output_col,
      params := params, min := activation_min, max := activation_max }
  tile_loop ⟨VL, n_channels⟩ fuel (exec ⟨VL, n_channels⟩ prologue { s0 with args := params_struct })

/-! ## Register allocation of the kernel and specification-side definitions -/

/-- The symbolic results of the three blocks. -/
def sigS : Sym := (symExec tile_setup Sym.init).getD Sym.init
def sigL : Sym := (symExec channel_loop Sym.init).getD Sym.init
def sigT : Sym := (symExec channel_tail Sym.init).getD Sym.init

/-- Accumulator register of output pixel `(r, c)` of the tile: `z31` down to `z16`. -/
def accReg (r c : Nat) : Nat := 31 - (4 * r + c)

/-- Row pointer registers of the six input rows: `x8, x15, x14, x13, x12, x11`. -/
def inRowReg : Nat → Nat
  | 0 => 8 | 1 => 15 | 2 => 14 | 3 => 13 | 4 => 12 | _ => 11

/-- Column offset registers of input columns 1 to 5: `x7, x10, x9, x28, x27`. -/
def inColReg : Nat → Nat
  | 1 => 7 | 2 => 10 | 3 => 9 | 4 => 28 | _ => 27

/-- Row pointer registers of the four output rows: `x16, x26, x25, x24`. -/
def outRowReg : Nat → Nat
  | 0 => 16 | 1 => 26 | 2 => 25 | _ => 24

/-- Column offset registers of output columns 1 to 3: `x17, x23, x22`. -/
def outColReg : Nat → Nat
  | 1 => 17 | 2 => 23 | _ => 22

/-- Address expression of input vector `(R, C)` at the entry of a pass. -/
def inE (R C : Nat) : XE :=
  if C = 0 then .reg (inRowReg R) else .idx (.reg (inRowReg R)) (.reg (inColReg C))

/-- Address expression of output vector `(r, c)` at the entry of a pass. -/
def outE (r c : Nat) : XE :=
  if c = 0 then .reg (outRowReg r) else .idx (.reg (outRowReg r)) (.reg (outColReg c))

/-- The four input vectors a pass finds preloaded: register, window row, window column. -/
def preloads : List (Nat × Nat × Nat) := [(9, 2, 2), (10, 0, 0), (11, 0, 5), (12, 2, 3)]

/-- Input vector `(R, C)` of a pass: preloaded in `z9..z12`, or loaded
under `p2` from its address. -/
def inZ (R C : Nat) : ZE :=
  match preloads.find? (fun t => t.2.1 == R && t.2.2 == C) with
  | some t => .reg t.1
  | none => .ld (inE R C) (.reg 2)

/-- The nine kernel positions, row-major. -/
def taps : List (Nat × Nat) :=
  [(0, 0), (0, 1), (0, 2), (1, 0), (1, 1), (1, 2), (2, 0), (2, 1), (2, 2)]

/-- The sixteen output pixels of a tile, row-major (the order of the stores). -/
def pixels : List (Nat × Nat) :=
  [(0, 0), (0, 1), (0, 2), (0, 3), (1, 0), (1, 1), (1, 2), (1, 3),
   (2, 0), (2, 1), (2, 2), (2, 3), (3, 0), (3, 1), (3, 2), (3, 3)]

/-- The multiply-accumulates of output pixel `(r, c)`: weight register
`3 * kr + kc` times input vector `(r + kr, c + kc)`. -/
def expTerms (r c : Nat) : List (Nat × ZE) :=
  taps.map fun t => (3 * t.1 + t.2, inZ (r + t.1) (c + t.2))

/-- The register a symbolic vector value is, when it is an entry register. -/
def ZE.regNum : ZE → Option Nat
  | .reg n => some n
  | _ => none

/-- A chain of `fmla` under `p3` on an accumulator register, weight
registers times input vectors: the accumulator and the products. -/
def macChain : ZE → Option (Nat × List (Nat × ZE))
  | .reg a => some (a, [])
  | .fmla acc p x b =>
      if p = .reg 3 then
        (macChain acc).bind fun t => x.regNum.map fun w => (t.1, (w, b) :: t.2)
      else none
  | _ => none

/-- Whether `v` is the clamp (`fmax` with `z15`, then `fmin` with `z14`) of
the accumulator of pixel `(r, c)` after exactly its nine multiply-accumulates. -/
def isPassVal (v : ZE) (r c : Nat) : Bool :=
  match v with
  | .fmin (.fmax ch (.reg 3) (.reg 15)) (.reg 3) (.reg 14) =>
      match macChain ch with
      | some (a, ts) => a == accReg r c && decide (ts.Perm (expTerms r c))
      | none => false
  | _ => false

/-- Whether the stores of a block are those of a pass: the sixteen pixels
in order, each under the pass predicate, at its address, with its value. -/
def storesOk (l : List (XE × PE × ZE)) : Bool :=
  l.length == 16 &&
    (List.zip pixels l).all fun t =>
      t.2.1 == outE t.1.1 t.1.2 && t.2.2.1 == PE.reg 2 && isPassVal t.2.2.2 t.1.1 t.1.2

/-- The value a pass stores for pixel `(r, c)`, per lane, from the entry
state of the pass. -/
def passVal (c : Cfg) (s : State) (r c' : Nat) : Nat → Int := fun l =>
  min (max (s.z (accReg r c') l
    + (taps.map fun t => s.z (3 * t.1 + t.2) l * (inZ (r + t.1) (c' + t.2)).eval c s l).sum)
    (s.z 15 l)) (s.z 14 l)

/-- The sixteen vector stores of a pass, from the entry state of the pass. -/
def passStores (c : Cfg) (s : State) : List (Nat × (Nat → Bool) × (Nat → Int)) :=
  pixels.map fun rc => ((outE rc.1 rc.2).eval c s, s.p 2, passVal c s rc.1 rc.2)

/-- A vector load of a block: params vector `v` of the group being loaded,
input vector `(R, C)` of the current pass, or input vector `(R, C)` of the
next pass. -/
inductive Access
  | par (v : Nat)
  | inp (R C : Nat)
  | nxt (R C : Nat)
  deriving DecidableEq, Repr

/-- The vector loads of `tile_setup`, in program order. -/
def setupAcc : List Access :=
  [.par 0, .par 1, .par 2, .par 3, .par 4, .par 5, .par 6, .par 7,
   .inp 2 2, .inp 0 0, .inp 0 5, .par 8, .par 9, .inp 2 3]

/-- The vector loads of `channel_tail`, in program order. -/
def tailAcc : List Access :=
  [.inp 3 2, .inp 5 0, .inp 5 5, .inp 0 1, .inp 3 3, .inp 0 4, .inp 1 0, .inp 1 5,
   .inp 4 0, .inp 1 2, .inp 1 3, .inp 4 5, .inp 2 1, .inp 5 1, .inp 2 4, .inp 5 4,
   .inp 0 2, .inp 3 1, .inp 0 3, .inp 2 0, .inp 3 4, .inp 2 5, .inp 3 0, .inp 4 2,
   .inp 3 5, .inp 5 2, .inp 4 3, .inp 5 3, .inp 1 1, .inp 1 4, .inp 4 1, .inp 4 4]

/-- The vector loads of `channel_loop`, in program order. -/
def loopAcc : List Access :=
  [.par 0, .inp 3 2, .inp 5 0, .inp 5 5, .inp 0 1, .inp 3 3, .inp 0 4, .inp 1 0,
   .inp 1 5, .inp 4 0, .inp 1 2, .inp 1 3, .inp 4 5, .inp 2 1, .inp 5 1, .inp 2 4,
   .inp 5 4, .inp 0 2, .inp 3 1, .inp 0 3, .inp 2 0, .inp 3 4, .inp 2 5, .nxt 2 2,
   .inp 3 0, .inp 4 2, .inp 3 5, .inp 5 2, .inp 4 3, .inp 5 3, .inp 1 1, .inp 1 4,
   .inp 4 1, .inp 4 4, .par 1, .par 3, .nxt 0 5, .par 2, .par 7, .nxt 2 3, .par 4,
   .par 6, .nxt 0 0, .par 5, .par 8, .par 9]

/-- Address expression of params vector `v` relative to a params pointer
expression, as the loads address it (`x4` is moved by 16 vectors before
vectors 8 and 9 are loaded). -/
def parE (base : XE) : Nat → XE
  | 0 => base
  | 8 => .addvl (.addvl base 16) (-8)
  | 9 => .addvl (.addvl base 16) (-7)
  | v => .addvl base v

/-- Address expression of input vector `(R, C)` of the next pass, in `channel_loop`. -/
def inEL (R C : Nat) : XE :=
  if C = 0 then .addvl (.reg (inRowReg R)) 1
  else .idx (.addvl (.reg (inRowReg R)) 1) (.reg (inColReg C))

/-- The registers of `channel_loop` and `channel_tail` that hold addresses,
offsets and the channel counters. -/
def passRegs : List Nat :=
  [4, 5, 6, 7, 8, 9, 10, 11, 12, 13, 14, 15, 16, 17, 22, 23, 24, 25, 26, 27, 28]

/-- The scalar registers after `channel_loop`. -/
def loopXE (r : Nat) : XE :=
  if r = 4 then .addvl (.addvl (.reg 4) 16) (-6)
  else if r = 5 ∨ r = 6 ∨ r = 21 then .incw (.reg r)
  else if r ∈ [8, 15, 14, 13, 12, 11, 16, 26, 25, 24] then .addvl (.reg r) 1
  else .reg r

/-- The vector registers after `channel_loop`: the weights and the bias of
the next group, the accumulators seeded with that bias, the first four
input vectors of the next pass, and the clamp bounds. -/
def loopZE (r : Nat) : ZE :=
  if r = 9 then .ld (inEL 2 2) (.wlt (.reg 6) .nch)
  else if r = 10 then .ld (inEL 0 0) (.wlt (.reg 6) .nch)
  else if r = 11 then .ld (inEL 0 5) (.wlt (.reg 6) .nch)
  else if r = 12 then .ld (inEL 2 3) (.wlt (.reg 6) .nch)
  else if r = 14 ∨ r = 15 then .reg r
  else if r < 9 then .ld (parE (.reg 4) (r + 1)) (.reg 3)
  else .ld (.reg 4) (.reg 3)

/-- The input row pointers `tile_setup` computes: the tile base, then
repeated addition of the input row stride. -/
def setupInRow : Nat → XE
  | 0 => .add_lsl (.arg .inptr)
      (.mul (.madd (.reg 3) (.arg .ld_input_col) (.mul (.reg 2) (.arg .ld_input_row))) (.lit 4)) 2
  | R + 1 => .add_lsl (setupInRow R) (.arg .ld_input_row) 2

/-- The input column offsets `tile_setup` computes, by repeated addition. -/
def setupInCol : Nat → XE
  | 0 => .lit 0
  | 1 => .arg .ld_input_col
  | C + 1 => .add (setupInCol C) (.arg .ld_input_col)

/-- The output row pointers `tile_setup` computes. -/
def setupOutRow : Nat → XE
  | 0 => .add_lsl (.arg .outptr)
      (.mul (.madd (.reg 3) (.arg .ld_output_col) (.mul (.reg 2) (.arg .ld_output_row))) (.lit 4)) 2
  | r + 1 => .add_lsl (setupOutRow r) (.arg .ld_output_row) 2

/-- The output column offsets `tile_setup` computes. -/
def setupOutCol : Nat → XE
  | 0 => .lit 0
  | 1 => .arg .ld_output_col
  | c + 1 => .add (setupOutCol c) (.arg .ld_output_col)

/-- The scalar registers of `passRegs` after `tile_setup`. -/
def setupXE (r : Nat) : XE :=
  if r = 4 then .addvl (.addvl (.arg .params) 16) (-6)
  else if r = 5 then .lit 0
  else if r = 6 then .vl
  else if r = 7 then setupInCol 1 else if r = 10 then setupInCol 2
  else if r = 9 then setupInCol 3 else if r = 28 then setupInCol 4
  else if r = 27 then setupInCol 5
  else if r = 8 then setupInRow 0 else if r = 15 then setupInRow 1
  else if r = 14 then setupInRow 2 else if r = 13 then setupInRow 3
  else if r = 12 then setupInRow 4 else if r = 11 then setupInRow 5
  else if r = 16 then setupOutRow 0 else if r = 26 then setupOutRow 1
  else if r = 25 then setupOutRow 2 else if r = 24 then setupOutRow 3
  else if r = 17 then setupOutCol 1 else if r = 23 then setupOutCol 2
  else setupOutCol 3

/-- Address expression of input vector `(R, C)` in `tile_setup`. -/
def inES (R C : Nat) : XE :=
  if C = 0 then setupInRow R else .idx (setupInRow R) (setupInCol C)

/-- The vector registers after `tile_setup`. -/
def setupZE (r : Nat) : ZE :=
  if r = 9 then .ld (inES 2 2) (.wlt (.lit 0) .nch)
  else if r = 10 then .ld (inES 0 0) (.wlt (.lit 0) .nch)
  else if r = 11 then .ld (inES 0 5) (.wlt (.lit 0) .nch)
  else if r = 12 then .ld (inES 2 3) (.wlt (.lit 0) .nch)
  else if r = 14 then .bcast .max (.reg 3)
  else if r = 15 then .bcast .min (.reg 3)
  else if r < 9 then .ld (parE (.arg .params) (r + 1)) (.reg 3)
  else .ld (.arg .params) (.reg 3)

/-- The symbolic event of a load of `tile_setup`. -/
def Access.symS : Access → EE
  | .par v => .rdv (parE (.arg .params) v) (.reg 3)
  | .inp R C => .rdv (inES R C) (.wlt (.lit 0) .nch)
  | .nxt R C => .rdv (inES R C) (.wlt (.lit 0) .nch)

/-- The symbolic event of a load of `channel_loop` or `channel_tail`. -/
def Access.symL : Access → EE
  | .par v => .rdv (parE (.reg 4) v) (.reg 3)
  | .inp R C => .rdv (inE R C) (.reg 2)
  | .nxt R C => .rdv (inEL R C) (.wlt (.reg 6) .nch)

/-- The symbolic store events of a pass. -/
def wrSym : List EE := pixels.map fun rc => .wrv (outE rc.1 rc.2) (.reg 2)

/-- All fields of `Args`. -/
def allFields : List Field :=
  [.n_tile_rows, .n_tile_cols, .inptr, .ld_input_row, .ld_input_col, .outptr,
   .ld_output_row, .ld_output_col, .params, .tile_i, .tile_j]

/-- The tile indices after the update at the end of `channel_tail`. -/
def nextJE : XE :=
  .csel (.add_imm (.arg .tile_j) 1) (.arg .n_tile_cols) (.add_imm (.arg .tile_j) 1) (.lit 0)
def nextIE : XE :=
  .csel (.add_imm (.arg .tile_j) 1) (.arg .n_tile_cols) (.arg .tile_i)
    (.add_imm (.arg .tile_i) 1)

/-! ## Closed forms -/

/-- The argument block with the tile indices set. -/
def Args.withTile (A : Args) (i j : Nat) : Args := { A with tile_i := i, tile_j := j }

/-- Byte address of input vector `(R, C)` of tile `(i, j)` in pass `k`: the
element offset `4 * (i * ld_input_row + j * ld_input_col) + R * ld_input_row
+ C * ld_input_col + k * VL`, times four, from `inptr`. -/
def inVecAddr (A : Args) (VL i j R C k : Nat) : Nat :=
  (A.inptr + 4 * (4 * (i * A.ld_input_row + j * A.ld_input_col)
    + R * A.ld_input_row + C * A.ld_input_col + k * VL)) % W

/-- Byte address of output vector `(r, c)` of tile `(i, j)` in pass `k`. -/
def outVecAddr (A : Args) (VL i j r c k : Nat) : Nat :=
  (A.outptr + 4 * (4 * (i * A.ld_output_row + j * A.ld_output_col)
    + r * A.ld_output_row + c * A.ld_output_col + k * VL)) % W

/-- Byte address of params vector `v`. -/
def parVecAddr (A : Args) (VL v : Nat) : Nat := (A.params + 4 * (v * VL)) % W

/-- The active-lane predicate of pass `k`: lane `l` stands for channel
`k * VL + l`, active when below `n_channels`. -/
def predAt (c : Cfg) (k : Nat) : Nat → Bool := fun l => decide (k * c.VL + l < c.n_channels)

/-- Number of `channel_loop` iterations of a tile; the tail is pass number `main_iters`. -/
def main_iters (c : Cfg) : Nat := (c.n_channels - 1) / c.VL

/-- The registers of `passRegs` at the entry of pass `k` of tile `(i, j)`. -/
def passX (c : Cfg) (A : Args) (i j k r : Nat) : Nat :=
  if r = 4 then parVecAddr A c.VL (10 * (k + 1))
  else if r = 5 then k * c.VL
  else if r = 6 then (k + 1) * c.VL
  else if r = 7 then A.ld_input_col
  else if r = 10 then 2 * A.ld_input_col % W
  else if r = 9 then 3 * A.ld_input_col % W
  else if r = 28 then 4 * A.ld_input_col % W
  else if r = 27 then 5 * A.ld_input_col % W
  else if r = 8 then inVecAddr A c.VL i j 0 0 k
  else if r = 15 then inVecAddr A c.VL i j 1 0 k
  else if r = 14 then inVecAddr A c.VL i j 2 0 k
  else if r = 13 then inVecAddr A c.VL i j 3 0 k
  else if r = 12 then inVecAddr A c.VL i j 4 0 k
  else if r = 11 then inVecAddr A c.VL i j 5 0 k
  else if r = 16 then outVecAddr A c.VL i j 0 0 k
  else if r = 26 then outVecAddr A c.VL i j 1 0 k
  else if r = 25 then outVecAddr A c.VL i j 2 0 k
  else if r = 24 then outVecAddr A c.VL i j 3 0 k
  else if r = 17 then A.ld_output_col
  else if r = 23 then 2 * A.ld_output_col % W
  else 3 * A.ld_output_col % W

/-- The state at label 1 for tile `(i, j)`: the tile indices are in `x2`
and `x3`, `p3` is all-true and the argument block is the one of the call. -/
structure TileInv (A : Args) (i j : Nat) (s : State) : Prop where
  x2 : s.x 2 = i
  x3 : s.x 3 = j
  p3 : s.p 3 = fun _ => true
  args : ∃ pi pj, s.args = A.withTile pi pj

/-- The state at the entry of pass `k` of tile `(i, j)` (label 2 or 3). -/
structure PassInv (c : Cfg) (A : Args) (i j k : Nat) (s : State) : Prop where
  x : ∀ r ∈ passRegs, s.x r = passX c A i j k r
  p2 : s.p 2 = predAt c k
  p3 : s.p 3 = fun _ => true
  lt : s.lt = decide ((k + 1) * c.VL < c.n_channels)
  args : s.args = A.withTile i j

/-- The state at the entry of pass `k` of the tile that starts in `s`. -/
def pass_entry (c : Cfg) (s : State) (k : Nat) : State :=
  (exec c channel_loop)^[k] (exec c tile_setup s)

/-- The state at the end of the tile that starts in `s`. -/
def tile_exit (c : Cfg) (s : State) : State :=
  exec c channel_tail (pass_entry c s (main_iters c))

/-- The tile after `(i, j)`: the column advances, and wraps to the next
row when it reaches `n_tile_cols`. -/
def nextTile (A : Args) (ij : Nat × Nat) : Nat × Nat :=
  if ij.2 + 1 < A.n_tile_cols then (ij.1, ij.2 + 1) else (ij.1 + 1, 0)

/-- The `t`-th tile in row-major order (a row has at least one tile: the
bound is only tested after the tile body). -/
def tileAt (A : Args) (t : Nat) : Nat × Nat :=
  (t / max A.n_tile_cols 1, t % max A.n_tile_cols 1)

/-- Number of tiles the tile loop processes. -/
def numTiles (A : Args) : Nat :=
  if A.n_tile_rows = 0 then 1 else A.n_tile_rows * max A.n_tile_cols 1

/-- The state at label 1 of the `t`-th tile, from the state `s` at label 1 of the first. -/
def tile_entry (c : Cfg) (s : State) (t : Nat) : State := (tile_exit c)^[t] s

/-- The argument block the kernel builds. -/
def mkArgs (n_tile_rows n_tile_cols inptr : Nat) (ld_input_row ld_input_col : Int)
    (outptr : Nat) (ld_output_row ld_output_col : Int) (params : Nat)
    (activation_min activation_max : Int) : Args :=
  { n_tile_rows := n_tile_rows, n_tile_cols := n_tile_cols, inptr := inptr,
    ld_input_row := u64 ld_input_row, ld_input_col := u64 ld_input_col, outptr := outptr,
    ld_output_row := u64 ld_output_row, ld_output_col := u64 ld_output_col,
    params := params, min := activation_min, max := activation_max }

/-- The state at label 1 of the first tile. -/
def first_entry (c : Cfg) (A : Args) (s0 : State) : State :=
  exec c prologue { s0 with args := A }

/-! ## The events of a run, in closed form -/

/-- The read events of a vector load at `a` under `p`. -/
def rdLanes (VL a : Nat) (p : Nat → Bool) : List Event :=
  (lanes VL p).map fun l => .rd (laneAddr a l)

/-- The write events of a vector store at `a` under `p`. -/
def wrLanes (VL a : Nat) (p : Nat → Bool) : List Event :=
  (lanes VL p).map fun l => .wr (laneAddr a l)

/-- Index bounds of an access. -/
def Access.ok : Access → Bool
  | .par v => v < 10
  | .inp R C => R < 6 && C < 6
  | .nxt R C => R < 6 && C < 6

/-- The events of a load of pass `k` of tile `(i, j)` (`channel_loop` or
`channel_tail`): the params vectors are those of group `k + 1`, read at full
width; the input vectors are read under the predicate of their pass. -/
def Access.events (c : Cfg) (A : Args) (i j k : Nat) : Access → List Event
  | .par v => rdLanes c.VL (parVecAddr A c.VL (10 * (k + 1) + v)) (fun _ => true)
  | .inp R C => rdLanes c.VL (inVecAddr A c.VL i j R C k) (predAt c k)
  | .nxt R C => rdLanes c.VL (inVecAddr A c.VL i j R C (k + 1)) (predAt c (k + 1))

/-- The events of a load of `tile_setup` for tile `(i, j)`: the params
vectors of group 0 and the first four input vectors of pass 0. -/
def Access.eventsS (c : Cfg) (A : Args) (i j : Nat) : Access → List Event
  | .par v => rdLanes c.VL (parVecAddr A c.VL v) (fun _ => true)
  | .inp R C => rdLanes c.VL (inVecAddr A c.VL i j R C 0) (predAt c 0)
  | .nxt R C => rdLanes c.VL (inVecAddr A c.VL i j R C 0) (predAt c 0)

/-- The write events of pass `k` of tile `(i, j)`. -/
def passWr (c : Cfg) (A : Args) (i j k : Nat) : List Event :=
  pixels.flatMap fun rc => wrLanes c.VL (outVecAddr A c.VL i j rc.1 rc.2 k) (predAt c k)

/-- The events of `tile_setup` for tile `(i, j)`. -/
def setupTrace (c : Cfg) (A : Args) (i j : Nat) : List Event :=
  .label 1 :: .str .tile_i i :: .str .tile_j j :: setupAcc.flatMap (Access.eventsS c A i j)

/-- The events of `channel_loop` in pass `k` of tile `(i, j)`. -/
def loopTrace (c : Cfg) (A : Args) (i j k : Nat) : List Event :=
  .label 2 :: (loopAcc.flatMap (Access.events c A i j k) ++ passWr c A i j k)

/-- The events of `channel_tail` in pass `k` of tile `(i, j)`. -/
def tailTrace (c : Cfg) (A : Args) (i j k : Nat) : List Event :=
  .label 3 :: (tailAcc.flatMap (Access.events c A i j k) ++ passWr c A i j k)

/-- The events of the passes `0 .. k - 1` of tile `(i, j)`, after its setup. -/
def passesTrace (c : Cfg) (A : Args) (i j k : Nat) : List Event :=
  setupTrace c A i j ++ (List.range k).flatMap (loopTrace c A i j)

/-- The events of tile `(i, j)`. -/
def tileTrace (c : Cfg) (A : Args) (i j : Nat) : List Event :=
  passesTrace c A i j (main_iters c) ++ tailTrace c A i j (main_iters c)

/-- The events of the first `t` tiles. -/
def tilesTrace (c : Cfg) (A : Args) (t : Nat) : List Event :=
  (List.range t).flatMap fun u => tileTrace c A (tileAt A u).1 (tileAt A u).2

/-! ## Positions, regions and the reference values -/

/-- Byte address of input element `(y, x, ch)`. -/
def inAt (A : Args) (y x ch : Nat) : Nat :=
  (A.inptr + 4 * (y * A.ld_input_row + x * A.ld_input_col + ch)) % W

/-- Byte address of output element `(y, x, ch)`. -/
def outAt (A : Args) (y x ch : Nat) : Nat :=
  (A.outptr + 4 * (y * A.ld_output_row + x * A.ld_output_col + ch)) % W

/-- Byte address of params element `e`. -/
def parAt (A : Args) (e : Nat) : Nat := (A.params + 4 * e) % W

/-- The lane writes of a list of vector stores, in order: address and value. -/
def laneWrites (VL : Nat) (l : List (Nat × (Nat → Bool) × (Nat → Int))) : List (Nat × Int) :=
  l.flatMap fun t => (lanes VL t.2.1).map fun i => (laneAddr t.1 i, t.2.2 i)

/-- The value the kernel computes for output element `(y, x, ch)` from the
memory `m`: the bias of the channel plus the nine products, clamped. The
bias is element `ch % VL` of params vector `10 * (ch / VL)`, the tap at
`(kr, kc)` is that element of vector `10 * (ch / VL) + 1 + 3 * kr + kc`. -/
def refOut (c : Cfg) (A : Args) (m : Nat → Int) (y x ch : Nat) : Int :=
  min (max (m (parAt A (10 * (ch / c.VL) * c.VL + ch % c.VL))
    + (taps.map fun t =>
        m (parAt A ((10 * (ch / c.VL) + 1 + (3 * t.1 + t.2)) * c.VL + ch % c.VL))
          * m (inAt A (y + t.1) (x + t.2) ch)).sum) A.min) A.max

/-- The output elements of the call are those of the tile grid with a channel below `n_channels`. -/
def InGrid (c : Cfg) (A : Args) (y x ch : Nat) : Prop :=
  y < 4 * A.n_tile_rows ∧ x < 4 * A.n_tile_cols ∧ ch < c.n_channels

/-- The output region shares no address with the input window or the
params block the call reads. -/
structure NoAlias (c : Cfg) (A : Args) : Prop where
  inp : ∀ y x ch y' x' ch', InGrid c A y x ch → y' < 4 * A.n_tile_rows + 2 →
    x' < 4 * A.n_tile_cols + 2 → ch' < c.n_channels → outAt A y x ch ≠ inAt A y' x' ch'
  par : ∀ y x ch e, InGrid c A y x ch → e < 10 * c.VL * (main_iters c + 1) →
    outAt A y x ch ≠ parAt A e

/-- Distinct output elements have distinct addresses. -/
def OutInj (c : Cfg) (A : Args) : Prop :=
  ∀ y x ch y' x' ch', InGrid c A y x ch → InGrid c A y' x' ch' →
    outAt A y x ch = outAt A y' x' ch' → y = y' ∧ x = x' ∧ ch = ch'

/-- Row-major index of the tile of output position `(y, x)`. -/
def tileIdx (A : Args) (y x : Nat) : Nat := (y / 4) * A.n_tile_cols + x / 4

/-- Outside the output region the memory `m` is the initial memory `m0`. -/
def Frame (c : Cfg) (A : Args) (m0 m : Nat → Int) : Prop :=
  ∀ a, (∀ y x ch, InGrid c A y x ch → a ≠ outAt A y x ch) → m a = m0 a

/-- The memory when the run is at pass `k` of tile number `t`: the output
elements of earlier tiles and of earlier passes of this tile hold their values. -/
def Done (c : Cfg) (A : Args) (m0 : Nat → Int) (t k : Nat) (m : Nat → Int) : Prop :=
  ∀ y x ch, InGrid c A y x ch →
    (tileIdx A y x < t ∨ (tileIdx A y x = t ∧ ch < k * c.VL)) →
    m (outAt A y x ch) = refOut c A m0 y x ch

/-- The vector registers at the entry of pass `k` of tile `(i, j)`, in
terms of the initial memory `m0`: the weights and the bias of group `k`, the
four preloaded input vectors and the clamp bounds. -/
structure PassData (c : Cfg) (A : Args) (m0 : Nat → Int) (i j k : Nat) (s : State) : Prop where
  w : ∀ t l, t < 9 → l < c.VL → s.z t l = m0 (laneAddr (parVecAddr A c.VL (10 * k + 1 + t)) l)
  acc : ∀ r l, 16 ≤ r → r < 32 → l < c.VL →
    s.z r l = m0 (laneAddr (parVecAddr A c.VL (10 * k)) l)
  pre : ∀ t ∈ preloads, ∀ l, l < c.VL → predAt c k l = true →
    s.z t.1 l = m0 (laneAddr (inVecAddr A c.VL i j t.2.1 t.2.2 k) l)
  zmin : ∀ l, s.z 15 l = A.min
  zmax : ∀ l, s.z 14 l = A.max

/-! ## The tensors of a call -/

/-- Byte address of input element `(y, x, ch)`: `inptr` plus four times the
element offset, with the signed strides of the call, modulo `2 ^ 64`. -/
def in_addr (inptr : Nat) (ld_input_row ld_input_col : Int) (y x ch : Nat) : Nat :=
  u64 ((inptr : Int) + 4 * ((y : Int) * ld_input_row + (x : Int) * ld_input_col + (ch : Int)))

/-- Byte address of output element `(y, x, ch)`. -/
def out_addr (outptr : Nat) (ld_output_row ld_output_col : Int) (y x ch : Nat) : Nat :=
  u64 ((outptr : Int) + 4 * ((y : Int) * ld_output_row + (x : Int) * ld_output_col + (ch : Int)))

/-- Byte address of element `e` of the params block. -/
def par_addr (params e : Nat) : Nat := u64 ((params : Int) + 4 * (e : Int))

/-- The params block in memory `m` is the packing of the per-channel bias
and taps for vector width `VL`: channel `ch` is lane `ch % VL` of group
`ch / VL`, a group is ten vectors, the bias and then the nine taps row-major. -/
def Packed (VL n_channels params : Nat) (m : Nat → Int) (bias : Nat → Int)
    (w : Nat → Nat → Nat → Int) : Prop :=
  ∀ ch, ch < n_channels →
    m (par_addr params (10 * (ch / VL) * VL + ch % VL)) = bias ch ∧
    ∀ kr, kr < 3 → ∀ kc, kc < 3 →
      m (par_addr params ((10 * (ch / VL) + 1 + (3 * kr + kc)) * VL + ch % VL)) = w kr kc ch

/-- Distinct output elements of the tile grid have distinct addresses. -/
def OutDistinct (n_tile_rows n_tile_cols n_channels outptr : Nat)
    (ld_output_row ld_output_col : Int) : Prop :=
  ∀ y, y < 4 * n_tile_rows → ∀ x, x < 4 * n_tile_cols → ∀ ch, ch < n_channels →
  ∀ y', y' < 4 * n_tile_rows → ∀ x', x' < 4 * n_tile_cols → ∀ ch', ch' < n_channels →
    out_addr outptr ld_output_row ld_output_col y x ch
      = out_addr outptr ld_output_row ld_output_col y' x' ch' → y = y' ∧ x = x' ∧ ch = ch'

/-- No output element of the tile grid is at the address of an input
element of the window the call reads. -/
def OutNotInput (n_tile_rows n_tile_cols n_channels inptr : Nat)
    (ld_input_row ld_input_col : Int) (outptr : Nat) (ld_output_row ld_output_col : Int) : Prop :=
  ∀ y, y < 4 * n_tile_rows → ∀ x, x < 4 * n_tile_cols → ∀ ch, ch < n_channels →
  ∀ y', y' < 4 * n_tile_rows + 2 → ∀ x', x' < 4 * n_tile_cols + 2 → ∀ ch', ch' < n_channels →
    out_addr outptr ld_output_row ld_output_col y x ch
      ≠ in_addr inptr ld_input_row ld_input_col y' x' ch'

/-- No output element of the tile grid is at the address of an element of
the params block the call reads (ten vectors per channel group). -/
def OutNotParams (VL n_tile_rows n_tile_cols n_channels outptr : Nat)
    (ld_output_row ld_output_col : Int) (params : Nat) : Prop :=
  ∀ y, y < 4 * n_tile_rows → ∀ x, x < 4 * n_tile_cols → ∀ ch, ch < n_channels →
  ∀ e, e < 10 * VL * ((n_channels - 1) / VL + 1) →
    out_addr outptr ld_output_row ld_output_col y x ch ≠ par_addr params e

/-- A machine state with cleared registers, the memory `m` and no events. -/
def State.init (m : Nat → Int) : State :=
  { x := fun _ => 0, z := fun _ _ => 0, p := fun _ _ => false, lt := false,
    args := ⟨0, 0, 0, 0, 0, 0, 0, 0, 0, 0, 0, 0, 0⟩, mem := m, trace := [] }

/-- The labels of a trace. -/
def labelsOf (tr : List Event) : List Nat :=
  tr.filterMap fun e => match e with
    | .label n => some n
    | _ => none

/-- The tile indices a trace stores to the argument block, in order. -/
def tileStores (tr : List Event) : List (Field × Nat) :=
  tr.filterMap fun e => match e with
    | .str f v => some (f, v)
    | _ => none

/-- The tiles of a grid in row-major order. -/
def rowMajor (n_tile_rows n_tile_cols : Nat) : List (Nat × Nat) :=
  (List.range n_tile_rows).flatMap fun i => (List.range n_tile_cols).map fun j => (i, j)

/-! ## Concrete calls

A memory of small integers, and the two calls the general statements are
instantiated at: a 2x2 tile grid with nine channels and vector width four
(a dense 10x10x9 input at byte address 0, a dense 8x8x9 output at 4000 and
three packed groups at 8000), and a single tile with three channels and
vector width two (a dense 6x6x3 input at 0, a dense 4x4x3 output at 1000
and two packed groups at 2000). -/

/-- The memory of the concrete calls. -/
def memW (a : Nat) : Int := ((a / 4 : Nat) : Int) % 7 - 3

/-- The bias the params block at 8000 packs for vector width four. -/
def biasW (ch : Nat) : Int := memW (par_addr 8000 (10 * (ch / 4) * 4 + ch % 4))

/-- The taps the params block at 8000 packs for vector width four. -/
def wW (kr kc ch : Nat) : Int :=
  memW (par_addr 8000 ((10 * (ch / 4) + 1 + (3 * kr + kc)) * 4 + ch % 4))

/-! ## The passes of a call -/

/-- Number of channel passes of a tile: `n_channels / VL`, rounded up. -/
def passCount (VL n_channels : Nat) : Nat := (n_channels + VL - 1) / VL

/-- The state of a call at the entry of pass `k` (label 2, or label 3 for
the tail) of tile `(i, j)`: the prologue, the tiles before `(i, j)` in
row-major order, the setup of the tile and `k` iterations of `channel_loop`. -/
def at_pass (VL n_tile_rows n_tile_cols inptr : Nat) (ld_input_row ld_input_col : Int)
    (outptr : Nat) (ld_output_row ld_output_col : Int) (params n_channels : Nat)
    (activation_min activation_max : Int) (s0 : State) (i j k : Nat) : State :=
  pass_entry ⟨VL, n_channels⟩
    (tile_entry ⟨VL, n_channels⟩
      (first_entry ⟨VL, n_channels⟩
        (mkArgs n_tile_rows n_tile_cols inptr ld_input_row ld_input_col outptr ld_output_row
          ld_output_col params activation_min activation_max) s0)
      (i * n_tile_cols + j)) k

/-- Element offset, in floats from `inptr`, of input vector `(R, C)` of tile
`(i, j)` in pass `k`: four times the tile offset, plus the position in the
window, plus the channel offset. -/
def input_offset (VL : Nat) (ld_input_row ld_input_col : Int) (i j R C k : Nat) : Int :=
  4 * ((i : Int) * ld_input_row + (j : Int) * ld_input_col)
    + (R : Int) * ld_input_row + (C : Int) * ld_input_col + ((k * VL : Nat) : Int)

/-- Element offset, in floats from `outptr`, of output vector `(r, c)` of
tile `(i, j)` in pass `k`. -/
def output_offset (VL : Nat) (ld_output_row ld_output_col : Int) (i j r c k : Nat) : Int :=
  4 * ((i : Int) * ld_output_row + (j : Int) * ld_output_col)
    + (r : Int) * ld_output_row + (c : Int) * ld_output_col + ((k * VL : Nat) : Int)

/-- Byte address of lane `l` of the vector at element offset `off` from
`ptr`: the offset is scaled by four once, modulo `2 ^ 64`. -/
def lane_addr (ptr : Nat) (off : Int) (l : Nat) : Nat :=
  u64 ((ptr : Int) + 4 * (off + (l : Int)))

/-- The governing predicate of the vector instructions of `channel_tail`,
by kind: `p2` for the loads, `p0` for the stores and `p3` for the
multiply-accumulates and the clamps. -/
def tailGov : Instr → Bool
  | .ld1w _ pg _ => pg == 2
  | .st1w _ pg _ => pg == 0
  | .fmla _ pg _ _ => pg == 3
  | .fmax _ pg _ => pg == 3
  | .fmin _ pg _ => pg == 3
  | .ld1rw _ _ _ => false
  | _ => true

/-! ## The address operands of the loads -/

/-- The row pointer registers of the input window: `x8, x15, x14, x13, x12, x11`. -/
def inRowRegs : List Nat := [8, 15, 14, 13, 12, 11]

/-- The column offset registers of the input window: `x7, x10, x9, x28, x27`. -/
def inColRegs : List Nat := [7, 10, 9, 28, 27]

/-- Whether a vector load is a params load (under `p3`, from the params
pointer `x4`) or an input load whose address operand is a row pointer, alone
or indexed by a column offset register. -/
def loadAddrOk : Instr → Bool
  | .ld1w _ pg a =>
      if pg = 3 then
        match a with
        | .base n => n == 4
        | .immvl n _ => n == 4
        | .idx _ _ => false
      else
        match a with
        | .base n => inRowRegs.contains n
        | .idx n m => inRowRegs.contains n && inColRegs.contains m
        | .immvl _ _ => false
  | _ => true

/-- Whether a block has a vector load with the address operand `a`. -/
def loadsFrom (blk : List Instr) (a : Addr) : Bool :=
  blk.any fun ins =>
    match ins with
    | .ld1w _ _ b => b == a
    | _ => false

/-! ## The all-ones scenario

One tile, three channels, vector width four: an all-ones 6x6x3 input at
byte address 0, a 4x4x3 output at 1000 and one packed group at 2000 whose
bias vector is zero and whose nine tap vectors are one. -/

/-- The memory of the all-ones scenario: zero in the bias vector of the
params block (bytes 2000 to 2015), one everywhere else. -/
def memOnes (a : Nat) : Int := if 2000 ≤ a ∧ a < 2016 then 0 else 1

/-! ## The activation clamp -/

/-- The clamp of the kernel: the maximum with the lower bound, then the
minimum with the upper bound. -/
def clamp (x lo hi : Int) : Int := min (max x lo) hi

/-- The two instructions that clamp accumulator `zd`: `fmax` against `z15`
(the broadcast `activation_min`), then `fmin` against `z14` (the broadcast
`activation_max`), both under `p3`. -/
def clampAcc (zd : Nat) : List Instr := [Instr.fmax zd 3 15, Instr.fmin zd 3 14]

/-- Whether an instruction is an `fmax` or `fmin` on the vector register `zd`. -/
def isClampOf (zd : Nat) : Instr → Bool
  | .fmax d _ _ => d == zd
  | .fmin d _ _ => d == zd
  | _ => false

/-! ## Variants of the concrete memory -/

/-- The memory `memW` with two cells changed: the input element `(0, 0)` of
channel 1 of the dense input at 0 (byte 4) and the bias of channel 1 of the
params block at 8000 (byte 8004). -/
def memV (a : Nat) : Int := if a = 4 ∨ a = 8004 then 100 else memW a

/-- Element `e` of the packing of `biasW` and `wW` for vector width two:
vector `e / 2` is vector `(e / 2) % 10` of group `(e / 2) / 10`, lane
`e % 2` stands for channel `2 * ((e / 2) / 10) + e % 2`; vector 0 of a group
is the bias and vector `1 + 3 * kr + kc` is tap `(kr, kc)`. -/
def packed2 (e : Nat) : Int :=
  if (e / 2) % 10 = 0 then biasW (2 * ((e / 2) / 10) + e % 2)
  else wW (((e / 2) % 10 - 1) / 3) (((e / 2) % 10 - 1) % 3) (2 * ((e / 2) / 10) + e % 2)

/-- The memory `memW` with a second params block at 12000, packed for
vector width two from the same bias and taps. -/
def memX (a : Nat) : Int := if 12000 ≤ a then packed2 ((a - 12000) / 4) else memW a

/-! ## The multiply-accumulate schedule of a block -/

/-- The window row a row pointer register stands for. -/
def rowOfReg (n : Nat) : Option Nat :=
  if n = 8 then some 0 else if n = 15 then some 1 else if n = 14 then some 2
  else if n = 13 then some 3 else if n = 12 then some 4 else if n = 11 then some 5 else none

/-- The window column a column offset register stands for. -/
def colOfReg (m : Nat) : Option Nat :=
  if m = 7 then some 1 else if m = 10 then some 2 else if m = 9 then some 3
  else if m = 28 then some 4 else if m = 27 then some 5 else none

/-- The window position an address operand of an input load stands for:
`[row]` is column 0 of the row, `[row, col, LSL #2]` is the column of the
offset register. -/
def winPos : Addr → Option (Nat × Nat)
  | .base n => (rowOfReg n).map fun R => (R, 0)
  | .idx n m => (rowOfReg n).bind fun R => (colOfReg m).map fun C => (R, C)
  | .immvl _ _ => none

/-- The window positions of the input vectors a pass finds preloaded:
`z9`, `z10`, `z11` and `z12` hold `(2, 2)`, `(0, 0)`, `(0, 5)` and `(2, 3)`. -/
def preHeld (z : Nat) : Option (Nat × Nat) :=
  if z = 9 then some (2, 2) else if z = 10 then some (0, 0)
  else if z = 11 then some (0, 5) else if z = 12 then some (2, 3) else none

/-- The multiply-accumulates of a block in program order: accumulator
register, weight register, and the window position of the input vector the
second operand holds when the instruction runs.  `held` tells which window
position of the current pass each vector register holds: a load under `p2`
puts the position of its address operand there, any other load (params
under `p3`, the next pass under `p1`) none. -/
def macSchedule : List Instr → (Nat → Option (Nat × Nat)) → List (Nat × Nat × Option (Nat × Nat))
  | [], _ => []
  | .ld1w zt pg a :: is, held =>
      macSchedule is (upd held zt (if pg = 2 then winPos a else none))
  | .ld1rw zt _ _ :: is, held => macSchedule is (upd held zt none)
  | .mov_z zd zn :: is, held => macSchedule is (upd held zd (held zn))
  | .fmla zda _ zn zm :: is, held => (zda, zn, held zm) :: macSchedule is held
  | _ :: is, held => macSchedule is held

/-- The multiply-accumulates the accumulator of output pixel `(r, c)` is to
receive: for each tap `(kr, kc)`, weight register `3 * kr + kc` times the
input vector of window position `(r + kr, c + kc)`. -/
def expMacs (r c : Nat) : List (Nat × Nat × Option (Nat × Nat)) :=
  taps.map fun t => (accReg r c, 3 * t.1 + t.2, some (r + t.1, c + t.2))

/-- The sources of the register moves into the vector register `zd`, in program order. -/
def seedsOf (blk : List Instr) (zd : Nat) : List Nat :=
  blk.filterMap fun ins =>
    match ins with
    | .mov_z d n => if d = zd then some n else none
    | _ => none

/-! ## The tile base address under wrap-around arithmetic -/

/-- The tile base address as `tile_setup` computes it from a pointer, the
two stride fields and the tile indices, every step modulo `2 ^ 64`:
`mul x19, x2, ld_row`, `madd x19, x3, ld_col, x19`, `mul x19, x19, #4` and
`add ptr, ptr, x19, LSL #2`. -/
def tile_base_wrap (ptr ld_row ld_col tile_i tile_j : Nat) : Nat :=
  (ptr + (((tile_i * ld_row % W + tile_j * ld_col) % W * 4) % W) * 2 ^ 2) % W

/-! ## The read set of a tile -/

/-- The 36 positions of the 6x6 input window of a tile, row-major. -/
def window : List (Nat × Nat) :=
  (List.range 6).flatMap fun R => (List.range 6).map fun C => (R, C)

/-- The window positions of the input loads of the current pass in a list of loads. -/
def inpOf (l : List Access) : List (Nat × Nat) :=
  l.filterMap fun a => match a with
    | .inp R C => some (R, C)
    | _ => none

/-- The window positions of the input loads for the next pass in a list of loads. -/
def nxtOf (l : List Access) : List (Nat × Nat) :=
  l.filterMap fun a => match a with
    | .nxt R C => some (R, C)
    | _ => none

/-- The params vectors of the params loads in a list of loads. -/
def parOf (l : List Access) : List Nat :=
  l.filterMap fun a => match a with
    | .par v => some v
    | _ => none

/-- The window positions of the four preloaded input vectors. -/
def preloadPos : List (Nat × Nat) := preloads.map fun t => (t.2.1, t.2.2)

/-- The address `b` is that of an element of the input window of tile
`(i, j)` at a channel below `n_channels`. -/
def InRead (c : Cfg) (A : Args) (i j b : Nat) : Prop :=
  ∃ R C ch, R < 6 ∧ C < 6 ∧ ch < c.n_channels ∧ b = inAt A (4 * i + R) (4 * j + C) ch

/-- The address `b` is that of one of the first `10 * VL` elements per
channel group of the params block: ten whole vectors for each of the
`main_iters c + 1` groups. -/
def ParRead (c : Cfg) (A : Args) (b : Nat) : Prop :=
  ∃ e, e < 10 * c.VL * (main_iters c + 1) ∧ b = parAt A e

/-- Whether an address operand is relative to the params pointer `x4`. -/
def fromParams : Addr → Bool
  | .base n => n == 4
  | .immvl n _ => n == 4
  | .idx n _ => n == 4

/-- Whether a vector load is relative to the params pointer `x4` exactly
when it is governed by the all-true predicate `p3`. -/
def parLoadOk : Instr → Bool
  | .ld1w _ pg a => fromParams a == (pg == 3)
  | _ => true

/-! ## A state of the concrete 2x2 call -/

/-- The configuration of the concrete 2x2 call: vector width four, nine channels. -/
def cfgW : Cfg := ⟨4, 9⟩

/-- The state of the concrete 2x2 call at the entry of pass 1 of tile `(1, 1)`. -/
def stW : State := at_pass 4 2 2 0 90 9 4000 72 9 8000 9 (-5) 20 (State.init memW) 1 1 1

/-! ## The reset part of the per-tile setup -/

/-- The first 66 instructions of `tile_setup`, from label 1 to the
instruction before `addvl x4, x4, #16`: the tile indices are stored, the
channel offsets, the pointers and the strides are set up, the clamp bounds
are broadcast, the bias vector and the weight vectors 1 to 7 of group 0 are
loaded and the sixteen accumulators are seeded. -/
def tile_reset : List Instr := tile_setup.take 66

/-- The symbolic result of `tile_reset`. -/
def sigR : Sym := (symExec tile_reset Sym.init).getD Sym.init

/-! ## One call per tile -/

/-- The call for tile `(i, j)` alone, as the decomposition describes it: a
1x1 tile grid, `inptr` moved by `4 * (i * ld_input_row + j * ld_input_col)`
floats and `outptr` by `4 * (i * ld_output_row + j * ld_output_col)` floats
(pointers are byte addresses, modulo `2 ^ 64`), and the same strides, params,
`n_channels` and activation bounds. -/
def tile_call (VL fuel inptr : Nat) (ld_input_row ld_input_col : Int) (outptr : Nat)
    (ld_output_row ld_output_col : Int) (params n_channels : Nat)
    (activation_min activation_max : Int) (i j : Nat) (s : State) : Option State :=
  sve_fp32_nhwc_3x3_s1_output4x4_mla_depthfirst_direct_impl VL fuel 1 1
    (u64 ((inptr : Int) + 4 * (4 * ((i : Int) * ld_input_row + (j : Int) * ld_input_col))))
    ld_input_row ld_input_col
    (u64 ((outptr : Int) + 4 * (4 * ((i : Int) * ld_output_row + (j : Int) * ld_output_col))))
    ld_output_row ld_output_col params n_channels activation_min activation_max s

/-- The calls for a list of tiles, one after the other, each on the machine
state the one before it leaves. -/
def tile_calls (VL fuel inptr : Nat) (ld_input_row ld_input_col : Int) (outptr : Nat)
    (ld_output_row ld_output_col : Int) (params n_channels : Nat)
    (activation_min activation_max : Int) : List (Nat × Nat) → State → Option State
  | [], s => some s
  | ij :: rest, s =>
    (tile_call VL fuel inptr ld_input_row ld_input_col outptr ld_output_row ld_output_col
      params n_channels activation_min activation_max ij.1 ij.2 s).bind
      (tile_calls VL fuel inptr ld_input_row ld_input_col outptr ld_output_row ld_output_col
        params n_channels activation_min activation_max rest)

/-- Outside the output elements of the tile grid the memory `m` is `m0`. -/
def OutFrame (n_tile_rows n_tile_cols n_channels outptr : Nat)
    (ld_output_row ld_output_col : Int) (m0 m : Nat → Int) : Prop :=
  ∀ a, (∀ y, y < 4 * n_tile_rows → ∀ x, x < 4 * n_tile_cols → ∀ ch, ch < n_channels →
    a ≠ out_addr outptr ld_output_row ld_output_col y x ch) → m a = m0 a

/-! ## The same instruction stream over values with infinities and NaN

A second semantics of the instructions, in which a vector lane and a memory
cell hold a single-precision value that is a finite number (still taken
exactly), an infinity or NaN, and `fmla`, `fmax` and `fmin` treat the
special values as the SVE instructions do: `FMAX` and `FMIN` return NaN when
an operand is NaN.  The general-purpose registers, the predicates, the flags,
the addresses and the events are as in `step`. -/

/-- A single-precision value as far as `FMLA`, `FMAX` and `FMIN` tell values
apart: a finite number, an infinity with its sign (`neg` for minus
infinity), or NaN. -/
inductive FVal
  | num (v : Int)
  | inf (neg : Bool)
  | nan
  deriving DecidableEq, Repr

/-- Product: NaN when an operand is NaN and for zero times an infinity. -/
def FVal.mul : FVal → FVal → FVal
  | .nan, _ => .nan
  | .num _, .nan => .nan
  | .inf _, .nan => .nan
  | .num a, .num b => .num (a * b)
  | .num a, .inf s => if a = 0 then .nan else .inf (xor s (decide (a < 0)))
  | .inf s, .num b => if b = 0 then .nan else .inf (xor s (decide (b < 0)))
  | .inf s, .inf t => .inf (xor s t)

/-- Sum: NaN when an operand is NaN and for infinities of opposite signs. -/
def FVal.add : FVal → FVal → FVal
  | .nan, _ => .nan
  | .num _, .nan => .nan
  | .inf _, .nan => .nan
  | .num a, .num b => .num (a + b)
  | .num _, .inf s => .inf s
  | .inf s, .num _ => .inf s
  | .inf s, .inf t => if s = t then .inf s else .nan

/-- The ordered comparison `a <= b`: false when an operand is NaN. -/
def FVal.le : FVal → FVal → Bool
  | .nan, _ => false
  | .num _, .nan => false
  | .inf _, .nan => false
  | .num a, .num b => decide (a ≤ b)
  | .num _, .inf s => !s
  | .inf s, .num _ => s
  | .inf s, .inf t => s || !t

/-- The ordered comparison `a < b`: false when an operand is NaN. -/
def FVal.lt (a b : FVal) : Bool := a.le b && !b.le a

/-- The result of `FMAX`: NaN when an operand is NaN, otherwise the larger. -/
def FVal.fmax (a b : FVal) : FVal :=
  if a = .nan ∨ b = .nan then .nan else if a.le b then b else a

/-- The result of `FMIN`: NaN when an operand is NaN, otherwise the smaller. -/
def FVal.fmin (a b : FVal) : FVal :=
  if a = .nan ∨ b = .nan then .nan else if a.le b then a else b

/-- The clamp of the kernel on these values: `FMAX` with the lower bound,
then `FMIN` with the upper bound. -/
def clampF (a lo hi : FVal) : FVal := (a.fmax lo).fmin hi

/-- The argument block: the 64-bit fields and the `float` fields. -/
structure ArgsF where
  w : Field → Nat
  f : FField → FVal

/-- Write a 64-bit field (`str xt, [params_struct, offsetof(field)]`). -/
def ArgsF.set (a : ArgsF) (fld : Field) (v : Nat) : ArgsF :=
  { a with w := fun g => if g = fld then v else a.w g }

/-- Machine state with lanes and memory cells in `FVal`. -/
structure StateF where
  x : Nat → Nat
  z : Nat → Nat → FVal
  p : Nat → Nat → Bool
  lt : Bool
  args : ArgsF
  mem : Nat → FVal
  trace : List Event

/-- What is known of a vector register: nothing, that every lane is the
`FMAX` of some value with the lower bound, or that every lane is the clamp
of some value. -/
inductive Tag
  | raw | maxed | clamped
  deriving DecidableEq, Repr

/-- What is known of the state at a point of a block: whether `p3` is
all-true, whether `z15` and `z14` hold the lower and the upper bound in every
lane, and the tag of each vector register. -/
structure Abs where
  p3 : Bool
  lo : Bool
  hi : Bool
  tag : Nat → Tag

/-- Known at label 1: `p3` is all-true. -/
def Abs.tile : Abs := ⟨true, false, false, fun _ => .raw⟩

/-- A machine state with cleared registers, the memory `m` and no events. -/
def StateF.init (m : Nat → FVal) : StateF :=
  { x := fun _ => 0, z := fun _ _ => .num 0, p := fun _ _ => false, lt := false,
    args := ⟨fun _ => 0, fun _ => .num 0⟩, mem := m, trace := [] }

end arm_conv.depthwise

namespace arm_compute

/-!
Data type support of the validation tests and of the add kernel

The tables of the tests `validate_data_types` (`Cast.cpp`) and
`SupportDataType` (`Scale.cpp`) and of the documentation of
`CpuAddKernel.h`.  The functions `validate` these are about are not among
the sources: the tests take them as a parameter, and each has a model after
what is said of it.
-/

/-- Modelled from the spec: the enumeration `DataType` is declared outside
the sources; its enumerators here are those that the sources name. -/
inductive DataType
  | U8 | S8 | QSYMM8 | QASYMM8 | QASYMM8_SIGNED | QSYMM8_PER_CHANNEL | U16 | S16 | QSYMM16
  | QASYMM16 | U32 | S32 | U64 | S64 | BFLOAT16 | F16 | F32 | F64 | SIZET
  deriving DecidableEq, Repr

/-- Modelled from the spec: the enumeration `DataLayout` is declared outside
the sources, which name these two enumerators. -/
inductive DataLayout
  | NCHW | NHWC
  deriving DecidableEq, Repr

/-- Modelled from the spec: the enumeration `ConvertPolicy` is declared
outside the sources, which name `SATURATE`; `WRAP` is the other overflow
policy. -/
inductive ConvertPolicy
  | WRAP | SATURATE
  deriving DecidableEq, Repr

/-- Modelled from the spec: the enumeration `InterpolationPolicy` is declared
outside the sources, which name these three enumerators. -/
inductive InterpolationPolicy
  | NEAREST_NEIGHBOR | BILINEAR | AREA
  deriving DecidableEq, Repr

/-- Modelled from the spec: the enumeration `BorderMode` is declared outside
the sources, which name these two enumerators. -/
inductive BorderMode
  | UNDEFINED | CONSTANT
  deriving DecidableEq, Repr

/-- Modelled from the spec: the enumeration `SamplingPolicy` is declared
outside the sources, which name these two enumerators. -/
inductive SamplingPolicy
  | CENTER | TOP_LEFT
  deriving DecidableEq, Repr

/-- Modelled from the spec: the class `TensorInfo` is declared outside the
sources; these are the arguments its constructors take in the tests: shape,
number of channels, data type and, where given, data layout. -/
structure TensorInfo where
  tensor_shape : List Nat
  num_channels : Nat
  data_type : DataType
  data_layout : Option DataLayout
  deriving DecidableEq, Repr

/-- Modelled from the spec: the structure `ScaleKernelInfo` is declared
outside the sources; these are the arguments its constructor takes in the
tests, the constant border value being the default `PixelValue()`, here
`0`. -/
structure ScaleKernelInfo where
  interpolation_policy : InterpolationPolicy
  border_mode : BorderMode
  constant_border_value : Int
  sampling_policy : SamplingPolicy
  use_padding : Bool
  deriving DecidableEq, Repr

/-- Modelled from the spec: the dataset `datasets::AllDataTypes` is declared
outside the sources; it is taken to run over every enumerator of
`DataType`. -/
def AllDataTypes : List DataType :=
  [.U8, .S8, .QSYMM8, .QASYMM8, .QASYMM8_SIGNED, .QSYMM8_PER_CHANNEL, .U16, .S16, .QSYMM16,
   .QASYMM16, .U32, .S32, .U64, .S64, .BFLOAT16, .F16, .F32, .F64, .SIZET]

namespace test.validation

/-- The macro `U8Types` of `Cast.cpp`. -/
def U8Types : List DataType := [.U8, .QASYMM8]

/-- The macro `S8Types` of `Cast.cpp`. -/
def S8Types : List DataType := [.S8, .QSYMM8, .QSYMM8_PER_CHANNEL, .QASYMM8_SIGNED]

/-- The macro `U16Types` of `Cast.cpp`. -/
def U16Types : List DataType := [.QASYMM16, .U16]

/-- The macro `S16Types` of `Cast.cpp`. -/
def S16Types : List DataType := [.S16, .QSYMM16]

/-- A `std::map<DataType, std::vector<DataType>>`, kept as an association
list with one entry for each key. -/
abbrev DTypeMap := List (DataType × List DataType)

/-- The lookup `m.find(k)`: the vector of key `k`, if the map has the key. -/
def DTypeMap.find (m : DTypeMap) (k : DataType) : Option (List DataType) :=
  (List.find? (fun e => e.1 == k) m).map Prod.snd

/-- The read `m[k]`: the vector of key `k`, empty for a key without entry. -/
def DTypeMap.get (m : DTypeMap) (k : DataType) : List DataType :=
  (m.find k).getD []

/-- The assignment `m[k] = v`: replaces the entry of `k` or adds one. -/
def DTypeMap.assign (m : DTypeMap) (k : DataType) (v : List DataType) : DTypeMap :=
  if m.any (fun e => e.1 == k) then m.map (fun e => if e.1 == k then (k, v) else e)
  else m ++ [(k, v)]

/-- The right-hand side of an assignment to the map: a vector written out,
or the vector the map has for another key at that point. -/
inductive Rhs
  | vec (v : List DataType)
  | of (k : DataType)

/-- The sixteen assignments `supported_dtypes[key] = ...` of
`validate_data_types`, in their order. -/
def assignments : List (DataType × Rhs) :=
  [(.U8, .vec (S8Types ++ U16Types ++ S16Types ++ [.U32, .S32, .F16, .F32])),
   (.S8, .vec (U8Types ++ U16Types ++ S16Types ++ [.U32, .S32, .F16, .F32])),
   (.U16, .vec [.U8, .S8, .S16, .U32, .S32, .F16, .F32, .QSYMM8, .QASYMM8,
      .QSYMM8_PER_CHANNEL, .QASYMM8_SIGNED, .QSYMM16]),
   (.S16, .vec (S8Types ++ U8Types ++ U16Types ++ [.U32, .S32, .F16, .F32])),
   (.U32, .vec (S8Types ++ U8Types ++ U16Types ++ S16Types ++ [.S32, .F16, .F32])),
   (.S32, .vec (S8Types ++ U8Types ++ U16Types ++ S16Types ++ [.U32, .F16, .F32])),
   (.U64, .vec (S8Types ++ U8Types ++ U16Types ++ S16Types ++ [.U32, .S32, .F16, .F32])),
   (.S64, .vec (S8Types ++ U8Types ++ U16Types ++ S16Types ++ [.U32, .S32, .F16, .F32])),
   (.F16, .vec (S8Types ++ U8Types ++ U16Types ++ S16Types ++ [.U32, .S32, .F32])),
   (.F32, .vec (S8Types ++ U8Types ++ U16Types ++ S16Types ++ [.U32, .S32, .F16])),
   (.QSYMM8, .of .S8),
   (.QASYMM8_SIGNED, .of .S8),
   (.QSYMM8_PER_CHANNEL, .vec (U16Types ++ S16Types ++ [.U8, .U32, .S32, .F16, .F32])),
   (.QASYMM8, .of .U8),
   (.QSYMM16, .of .S16),
   (.QASYMM16, .of .U16)]

/-- One assignment to the map `m`. -/
def assign_one (m : DTypeMap) (a : DataType × Rhs) : DTypeMap :=
  match a.2 with
  | .vec v => m.assign a.1 v
  | .of k => m.assign a.1 (m.get k)

/-- The assignments `validate_data_types` makes to its static map
`supported_dtypes` in one call, from the map `m` of the previous call. -/
def supported_dtypes_assign (m : DTypeMap) : DTypeMap :=
  assignments.foldl assign_one m

/-- The static map `supported_dtypes` of `validate_data_types` after the
assignments of the first call. -/
def supported_dtypes : DTypeMap := supported_dtypes_assign []

/-- The value `expected` of `validate_data_types`: whether the output type is
in the vector the map has for the input type, `false` for an input type
without entry. -/
def expected (input_dtype output_dtype : DataType) : Bool :=
  match supported_dtypes.find input_dtype with
  | some _ => (supported_dtypes.get input_dtype).contains output_dtype
  | none => false

/-- The test `validate_data_types` of `Cast.cpp`, over the function
`validate` it calls, a status being kept as its conversion to `bool`: the
outcome of `ARM_COMPUTE_EXPECT_EQUAL(is_valid, expected, ...)`. -/
def validate_data_types (validate : TensorInfo → TensorInfo → ConvertPolicy → Bool)
    (input_dtype output_dtype : DataType) : Bool :=
  let input : TensorInfo := ⟨[16, 16, 5], 1, input_dtype, none⟩
  let output : TensorInfo := ⟨[16, 16, 5], 1, output_dtype, none⟩
  let is_valid := validate input output .SATURATE
  is_valid == expected input_dtype output_dtype

/-- The data test case `ValidateAllDataTypes` of `Cast.cpp`: the test
`validate_data_types` on every pair of `AllDataTypes`. -/
def ValidateAllDataTypes (validate : TensorInfo → TensorInfo → ConvertPolicy → Bool) : Bool :=
  AllDataTypes.all fun input_dtype =>
    AllDataTypes.all fun output_dtype => validate_data_types validate input_dtype output_dtype

/-- The constant `input_shape` of `Scale.cpp`. -/
def input_shape : List Nat := [2, 3, 3, 2]

/-- The constant `output_shape` of `Scale.cpp`. -/
def output_shape : List Nat := [4, 6, 3, 2]

/-- The constant `default_data_layout` of `Scale.cpp`. -/
def default_data_layout : DataLayout := .NHWC

/-- The constant `default_interpolation_policy` of `Scale.cpp`. -/
def default_interpolation_policy : InterpolationPolicy := .NEAREST_NEIGHBOR

/-- The constant `default_border_mode` of `Scale.cpp`. -/
def default_border_mode : BorderMode := .CONSTANT

/-- The table `supported_data_types` of the test case `SupportDataType` of
`Scale.cpp`; `fp16` is whether `ARM_COMPUTE_ENABLE_FP16` is defined. -/
def supported_data_types (fp16 : Bool) : List (DataType × Bool) :=
  [(.U8, true), (.S8, false), (.QSYMM8, false), (.QASYMM8, true), (.QASYMM8_SIGNED, true),
   (.QSYMM8_PER_CHANNEL, false), (.U16, false), (.S16, true), (.QSYMM16, false),
   (.QASYMM16, false), (.U32, false), (.S32, false), (.U64, false), (.S64, false),
   (.BFLOAT16, false)]
  ++ (if fp16 then [(.F16, true)] else [])
  ++ [(.F32, true), (.F64, false), (.SIZET, false)]

/-- The input tensor info of `SupportDataType` for data type `T`. -/
def scale_input (T : DataType) : TensorInfo := ⟨input_shape, 1, T, some default_data_layout⟩

/-- The output tensor info of `SupportDataType` for data type `T`. -/
def scale_output (T : DataType) : TensorInfo := ⟨output_shape, 1, T, some default_data_layout⟩

/-- The kernel info of `SupportDataType`. -/
def scale_info : ScaleKernelInfo :=
  ⟨default_interpolation_policy, default_border_mode, 0, .CENTER, false⟩

/-- The test case `SupportDataType` of `Scale.cpp`, over the functions
`cpu_supports_dtypes` and `validate` it calls: every entry of the table the
CPU supports meets its `ARM_COMPUTE_EXPECT_EQUAL(bool(result), kv.second,
...)`, the others are skipped. -/
def SupportDataType (fp16 : Bool) (cpu_supports_dtypes : List DataType → Bool)
    (validate : TensorInfo → TensorInfo → ScaleKernelInfo → Bool) : Bool :=
  (supported_data_types fp16).all fun kv =>
    let input := scale_input kv.1
    let output := scale_output kv.1
    if cpu_supports_dtypes [kv.1] then
      validate input output scale_info == kv.2
    else true

end test.validation

/-- Modelled from the spec: `CLCast::validate` is not among the sources, only
its test `validate_data_types` is.  It succeeds if and only if the output
type is in the list of supported destination types that
`validate_data_types` gives for the input type; an input type with no entry
in the table is rejected. -/
def CLCast.validate (input output : TensorInfo) (_policy : ConvertPolicy) : Bool :=
  match test.validation.supported_dtypes.find input.data_type with
  | some supports => decide (output.data_type ∈ supports)
  | none => false

/-- Modelled from the spec: `NEScale::validate` is not among the sources,
only its tests are.  On an input and an output both of type `T` it succeeds
if and only if `T` is one of U8, QASYMM8, QASYMM8_SIGNED, S16, F16 (when
FP16 is enabled) or F32. -/
def NEScale.validate (fp16 : Bool) (input output : TensorInfo) (_info : ScaleKernelInfo) :
    Bool :=
  input.data_type == output.data_type &&
    (input.data_type == .U8 || input.data_type == .QASYMM8 ||
      input.data_type == .QASYMM8_SIGNED || input.data_type == .S16 ||
      (fp16 && input.data_type == .F16) || input.data_type == .F32)

namespace cpu.kernels

/-- The list `Valid configurations (src0,src1) -> dst` of the documentation
of `CpuAddKernel::configure` in `CpuAddKernel.h`. -/
def CpuAddKernel.valid_configurations : List (DataType × DataType × DataType) :=
  [(.U8, .U8, .U8), (.U8, .U8, .S16), (.S16, .U8, .S16), (.U8, .S16, .S16),
   (.S16, .S16, .S16), (.S32, .S32, .S32), (.F16, .F16, .F16), (.F32, .F32, .F32),
   (.QASYMM8, .QASYMM8, .QASYMM8), (.QASYMM8_SIGNED, .QASYMM8_SIGNED, .QASYMM8_SIGNED),
   (.QSYMM16, .QSYMM16, .QSYMM16)]

/-- The list `Data types supported` of the documentation of the parameters
of `CpuAddKernel::validate` in `CpuAddKernel.h`, the same for `src0`, `src1`
and `dst`. -/
def CpuAddKernel.data_types_supported : List DataType :=
  [.U8, .QASYMM8, .QASYMM8_SIGNED, .S16, .QSYMM16, .F16, .S32, .F32]

/-- Modelled from the spec: `CpuAddKernel::validate` is only declared in
`CpuAddKernel.h`, its body is not among the sources.  After the
documentation of the declaration it checks whether the given infos lead to a
valid configuration: the three data types are supported ones and
`(src0, src1) -> dst` is one of the valid configurations. -/
def CpuAddKernel.validate (src0 src1 dst : TensorInfo) (_policy : ConvertPolicy) : Bool :=
  CpuAddKernel.data_types_supported.contains src0.data_type &&
  CpuAddKernel.data_types_supported.contains src1.data_type &&
  CpuAddKernel.data_types_supported.contains dst.data_type &&
  CpuAddKernel.valid_configurations.contains (src0.data_type, src1.data_type, dst.data_type)

end cpu.kernels

end arm_compute

namespace arm_conv.depthwise

theorem upd_eval {α β : Type} (F : α → β) (g : Nat → α) (i : Nat) (v : α) :
    (fun r => F (upd g i v r)) = upd (fun r => F (g r)) i (F v) := by
  funext r
  unfold upd
  split <;> rfl

theorem xop_sym_eval (c : Cfg) (s : State) (σ : Sym) (a : XOp) :
    a.val c (σ.eval c s) = (a.sym σ).eval c s := by
  cases a <;> rfl

theorem addr_sym_eval (c : Cfg) (s : State) (σ : Sym) (a : Addr) :
    a.ea c (σ.eval c s) = (a.sym σ).eval c s := by
  cases a <;> rfl

theorem evalArgs_getF (c : Cfg) (s : State) (a : Field → XE) (f : FField) :
    (evalArgs c s a).getF f = s.args.getF f := by
  cases f <;> rfl

theorem evalArgs_get (c : Cfg) (s : State) (a : Field → XE) (f : Field) :
    (evalArgs c s a).get f = (a f).eval c s := by
  cases f <;> rfl

theorem evalArgs_set (c : Cfg) (s : State) (a : Field → XE) (f : Field) (e : XE) :
    (evalArgs c s a).set f (e.eval c s) = evalArgs c s (fun g => if g = f then e else a g) := by
  cases f <;> rfl

theorem applyStores_append (VL : Nat) (m : Nat → Int)
    (l₁ l₂ : List (Nat × (Nat → Bool) × (Nat → Int))) :
    applyStores VL m (l₁ ++ l₂) = applyStores VL (applyStores VL m l₁) l₂ := by
  simp [applyStores, List.foldl_append]

theorem Sym.eval_x (c : Cfg) (s : State) (σ : Sym) (r : Nat) :
    (σ.eval c s).x r = (σ.x r).eval c s := rfl

theorem Sym.eval_z (c : Cfg) (s : State) (σ : Sym) (r : Nat) :
    (σ.eval c s).z r = (σ.z r).eval c s := rfl

theorem Sym.eval_p (c : Cfg) (s : State) (σ : Sym) (r : Nat) :
    (σ.eval c s).p r = (σ.p r).eval c s := rfl

theorem Sym.eval_lt (c : Cfg) (s : State) (σ : Sym) :
    (σ.eval c s).lt = σ.lt.eval c s := rfl

theorem Sym.eval_args (c : Cfg) (s : State) (σ : Sym) :
    (σ.eval c s).args = evalArgs c s σ.args := rfl

theorem Sym.eval_trace (c : Cfg) (s : State) (σ : Sym) :
    (σ.eval c s).trace = s.trace ++ σ.trace.flatMap (EE.eval c s) := rfl

theorem Sym.eval_mem (c : Cfg) (s : State) (σ : Sym) :
    (σ.eval c s).mem = applyStores c.VL s.mem
      (σ.stores.map fun t => (t.1.eval c s, t.2.1.eval c s, t.2.2.eval c s)) := rfl

theorem symStep_sound (c : Cfg) (s : State) (i : Instr) (σ σ1 : Sym)
    (h : symStep i σ = some σ1) : step c i (σ.eval c s) = σ1.eval c s := by
  cases i with
  | csel_lt xd a b =>
    obtain ⟨x, z, p, lt, args, stores, trace⟩ := σ
    cases lt with
    | cmp u v =>
      injection h with h; subst h
      simp only [step, xop_sym_eval, Sym.eval_lt, FE.eval, decide_eq_true_eq]
      simp only [Sym.eval, upd_eval, XE.eval, FE.eval]
    | _ => exact absurd h (by simp [symStep])
  | ld1w zt pg a =>
    obtain ⟨x, z, p, lt, args, stores, trace⟩ := σ
    cases stores with
    | nil =>
      injection h with h; subst h
      simp only [step, addr_sym_eval, Sym.eval_mem, Sym.eval_p, Sym.eval_trace, List.map_nil]
      simp only [Sym.eval, upd_eval, ZE.eval, List.map_nil, applyStores, List.foldl_nil,
        List.flatMap_append, List.append_assoc, EE.eval, List.flatMap_cons, List.flatMap_nil,
        List.append_nil]
    | cons _ _ => exact absurd h (by simp [symStep])
  | str xt f =>
    injection h with h; subst h
    simp only [step, Sym.eval_x, Sym.eval_args, Sym.eval_trace, evalArgs_set]
    simp only [Sym.eval, List.flatMap_append, List.append_assoc, EE.eval,
        List.flatMap_cons, List.flatMap_nil, List.append_nil]
  | st1w zt pg a =>
    injection h with h; subst h
    simp only [step, addr_sym_eval, Sym.eval_mem, Sym.eval_p, Sym.eval_z, Sym.eval_trace]
    simp only [Sym.eval, List.flatMap_append, List.append_assoc, EE.eval,
        List.flatMap_cons, List.flatMap_nil, List.append_nil, List.map_append,
        applyStores_append, List.map_cons, List.map_nil]
    rfl
  | _ =>
    injection h with h; subst h
    simp only [step, xop_sym_eval, Sym.eval_x, Sym.eval_z, Sym.eval_p, Sym.eval_lt,
      Sym.eval_args, Sym.eval_trace, evalArgs_getF, evalArgs_get]
    simp only [Sym.eval, upd_eval, List.flatMap_append, List.append_assoc,
      List.flatMap_cons, List.flatMap_nil, List.append_nil] <;> rfl

theorem symExec_sound (c : Cfg) (s : State) (is : List Instr) :
    ∀ (σ σ1 : Sym), symExec is σ = some σ1 → exec c is (σ.eval c s) = σ1.eval c s := by
  induction is with
  | nil => intro σ σ1 h; injection h with h; subst h; rfl
  | cons i is ih =>
    intro σ σ1 h
    simp only [symExec, Option.bind_eq_some] at h
    obtain ⟨σ2, h1, h2⟩ := h
    simp only [exec]
    rw [symStep_sound c s i σ σ2 h1]
    exact ih σ2 σ1 h2

theorem Sym.init_eval (c : Cfg) (s : State) : Sym.init.eval c s = s := by
  cases s with
  | mk x z p lt args mem trace =>
    cases args
    simp [Sym.eval, Sym.init, evalArgs, XE.eval, ZE.eval, PE.eval, FE.eval, applyStores,
      Args.get]

/-- What `exec` gives on a block is what the symbolic result stands for. -/
theorem exec_sym (c : Cfg) (s : State) (is : List Instr) (σ : Sym)
    (h : symExec is Sym.init = some σ) : exec c is s = σ.eval c s := by
  have := symExec_sound c s is Sym.init σ h
  rwa [Sym.init_eval] at this

theorem some_getD_of_isSome {α : Type} {o : Option α} (d : α) (h : o.isSome = true) :
    o = some (o.getD d) := by
  cases o with
  | none => exact absurd h (by simp)
  | some a => rfl

theorem setup_ok : symExec tile_setup Sym.init = some sigS :=
  some_getD_of_isSome _ (by decide!)
theorem loop_ok : symExec channel_loop Sym.init = some sigL :=
  some_getD_of_isSome _ (by decide!)
theorem tail_ok : symExec channel_tail Sym.init = some sigT :=
  some_getD_of_isSome _ (by decide!)

theorem mem_allFields (f : Field) : f ∈ allFields := by
  cases f <;> simp [allFields]

/-! ### What the symbolic results of the blocks are -/

theorem tail_storesOk : storesOk sigT.stores = true := by decide!
theorem loop_storesOk : storesOk sigL.stores = true := by decide!
theorem setup_stores : sigS.stores = [] := by decide!

theorem tail_trace : sigT.trace = .label 3 :: (tailAcc.map Access.symL ++ wrSym) := by decide!
theorem loop_trace : sigL.trace = .label 2 :: (loopAcc.map Access.symL ++ wrSym) := by decide!
theorem setup_trace : sigS.trace =
    .label 1 :: .str .tile_i (.reg 2) :: .str .tile_j (.reg 3) :: setupAcc.map Access.symS := by
  decide!

theorem loop_x : ∀ r < 32, sigL.x r = loopXE r := by decide!
theorem loop_z : ∀ r < 32, sigL.z r = loopZE r := by decide!
theorem loop_p : sigL.p 0 = .reg 2 ∧ sigL.p 1 = .wlt (.reg 6) .nch ∧
    sigL.p 2 = .wlt (.incw (.reg 5)) .nch ∧ sigL.p 3 = .reg 3 := by decide!
theorem loop_lt : sigL.lt = .cmp (.incw (.reg 6)) .nch := by decide!
theorem loop_args : ∀ f ∈ allFields, sigL.args f = .arg f := by decide!

theorem setup_x : ∀ r ∈ passRegs, sigS.x r = setupXE r := by decide!
theorem setup_x23 : sigS.x 2 = .reg 2 ∧ sigS.x 3 = .reg 3 := by decide!
theorem setup_z : ∀ r < 32, sigS.z r = setupZE r := by decide!
theorem setup_p : sigS.p 2 = .wlt (.lit 0) .nch ∧ sigS.p 3 = .reg 3 := by decide!
theorem setup_lt : sigS.lt = .cmp .vl .nch := by decide!
theorem setup_args : ∀ f ∈ allFields, sigS.args f =
    if f = .tile_i then .reg 2 else if f = .tile_j then .reg 3 else .arg f := by decide!

theorem tail_x : sigT.x 2 = nextIE ∧ sigT.x 3 = nextJE := by decide!
theorem tail_p : sigT.p 3 = .reg 3 := by decide!
theorem tail_lt : sigT.lt = .cmp nextIE (.arg .n_tile_rows) := by decide!
theorem tail_args : ∀ f ∈ allFields, sigT.args f = .arg f := by decide!

/-! ### Arithmetic modulo `2 ^ 64` -/

theorem u64_lt (i : Int) : u64 i < W := by
  unfold u64
  have h : i % (W : Int) < (W : Int) := Int.emod_lt_of_pos _ (by norm_num [W])
  have h0 : 0 ≤ i % (W : Int) := Int.emod_nonneg _ (by norm_num [W])
  omega

theorem u64_cast (i : Int) : ((u64 i : Nat) : ZMod W) = (i : ZMod W) := by
  unfold u64
  have h0 : 0 ≤ i % (W : Int) := Int.emod_nonneg _ (by norm_num [W])
  have h1 : (((i % (W : Int)).toNat : Nat) : Int) = i % (W : Int) := Int.toNat_of_nonneg h0
  have h2 : (((i % (W : Int)).toNat : Nat) : ZMod W) = (((i % (W : Int)).toNat : Int) : ZMod W) :=
    (Int.cast_natCast _).symm
  rw [h2, h1]
  exact ZMod.intCast_mod i W

theorem modW_eq_of_cast {a b : Nat} (h : (a : ZMod W) = (b : ZMod W)) : a % W = b % W :=
  (ZMod.natCast_eq_natCast_iff' a b W).mp h

theorem sint_of_lt {v : Nat} (h : v < 2 ^ 63) : sint v = (v : Int) := by
  unfold sint
  have : v % W = v := Nat.mod_eq_of_lt (by simp only [W]; omega)
  rw [this, if_pos h]

/-! ### Addresses at the entry of a pass -/

theorem inRowReg_spec (c : Cfg) (A : Args) (i j k R : Nat) (hR : R < 6) :
    inRowReg R ∈ passRegs ∧ passX c A i j k (inRowReg R) = inVecAddr A c.VL i j R 0 k := by
  interval_cases R <;> exact ⟨by decide, rfl⟩

theorem outRowReg_spec (c : Cfg) (A : Args) (i j k r : Nat) (hr : r < 4) :
    outRowReg r ∈ passRegs ∧ passX c A i j k (outRowReg r) = outVecAddr A c.VL i j r 0 k := by
  interval_cases r <;> exact ⟨by decide, rfl⟩

theorem inColReg_spec (c : Cfg) (A : Args) (i j k C : Nat) (h1 : 1 ≤ C) (hC : C < 6) :
    inColReg C ∈ passRegs ∧
      ((passX c A i j k (inColReg C) : Nat) : ZMod W) = (C : ZMod W) * A.ld_input_col := by
  interval_cases C <;> refine ⟨by decide, ?_⟩ <;>
    simp [passX, inColReg, ZMod.natCast_mod]

theorem outColReg_spec (c : Cfg) (A : Args) (i j k C : Nat) (h1 : 1 ≤ C) (hC : C < 4) :
    outColReg C ∈ passRegs ∧
      ((passX c A i j k (outColReg C) : Nat) : ZMod W) = (C : ZMod W) * A.ld_output_col := by
  interval_cases C <;> refine ⟨by decide, ?_⟩ <;>
    simp [passX, outColReg, ZMod.natCast_mod]

theorem inVecAddr_mod (A : Args) (VL i j R C k : Nat) :
    inVecAddr A VL i j R C k % W = inVecAddr A VL i j R C k := by
  unfold inVecAddr; exact Nat.mod_mod _ _

theorem outVecAddr_mod (A : Args) (VL i j R C k : Nat) :
    outVecAddr A VL i j R C k % W = outVecAddr A VL i j R C k := by
  unfold outVecAddr; exact Nat.mod_mod _ _

theorem parVecAddr_mod (A : Args) (VL v : Nat) :
    parVecAddr A VL v % W = parVecAddr A VL v := by
  unfold parVecAddr; exact Nat.mod_mod _ _

theorem inE_eval {c : Cfg} {A : Args} {i j k : Nat} {s : State} (h : PassInv c A i j k s)
    (R C : Nat) (hR : R < 6) (hC : C < 6) :
    (inE R C).eval c s = inVecAddr A c.VL i j R C k := by
  obtain ⟨hm, hx⟩ := inRowReg_spec c A i j k R hR
  unfold inE
  split
  · next h0 => subst h0; simp only [XE.eval]; rw [h.x _ hm, hx]
  · next h0 =>
    obtain ⟨hcm, hcx⟩ := inColReg_spec c A i j k C (by omega) hC
    simp only [XE.eval]
    rw [h.x _ hm, hx, h.x _ hcm, ← inVecAddr_mod A c.VL i j R C k]
    apply modW_eq_of_cast
    push_cast [hcx]
    simp only [inVecAddr]
    push_cast [ZMod.natCast_mod]
    ring

theorem inEL_eval {c : Cfg} {A : Args} {i j k : Nat} {s : State} (h : PassInv c A i j k s)
    (R C : Nat) (hR : R < 6) (hC : C < 6) :
    (inEL R C).eval c s = inVecAddr A c.VL i j R C (k + 1) := by
  obtain ⟨hm, hx⟩ := inRowReg_spec c A i j k R hR
  unfold inEL
  split
  · next h0 =>
    subst h0; simp only [XE.eval]; rw [h.x _ hm, hx, ← inVecAddr_mod A c.VL i j R 0 (k + 1)]
    apply modW_eq_of_cast
    simp only [inVecAddr]
    push_cast [ZMod.natCast_mod, u64_cast]
    ring
  · next h0 =>
    obtain ⟨hcm, hcx⟩ := inColReg_spec c A i j k C (by omega) hC
    simp only [XE.eval]
    rw [h.x _ hm, hx, h.x _ hcm, ← inVecAddr_mod A c.VL i j R C (k + 1)]
    apply modW_eq_of_cast
    push_cast [hcx, ZMod.natCast_mod, u64_cast]
    simp only [inVecAddr]
    push_cast [ZMod.natCast_mod]
    ring

theorem outE_eval {c : Cfg} {A : Args} {i j k : Nat} {s : State} (h : PassInv c A i j k s)
    (r c' : Nat) (hr : r < 4) (hc : c' < 4) :
    (outE r c').eval c s = outVecAddr A c.VL i j r c' k := by
  obtain ⟨hm, hx⟩ := outRowReg_spec c A i j k r hr
  unfold outE
  split
  · next h0 => subst h0; simp only [XE.eval]; rw [h.x _ hm, hx]
  · next h0 =>
    obtain ⟨hcm, hcx⟩ := outColReg_spec c A i j k c' (by omega) hc
    simp only [XE.eval]
    rw [h.x _ hm, hx, h.x _ hcm, ← outVecAddr_mod A c.VL i j r c' k]
    apply modW_eq_of_cast
    push_cast [hcx]
    simp only [outVecAddr]
    push_cast [ZMod.natCast_mod]
    ring

theorem parE_eval_gen (c : Cfg) (s : State) (A : Args) (base : XE) (g v : Nat) (hv : v < 10)
    (hb : base.eval c s % W = parVecAddr A c.VL g % W) :
    (parE base v).eval c s % W = parVecAddr A c.VL (g + v) := by
  have hb2 : ((base.eval c s : Nat) : ZMod W) = ((parVecAddr A c.VL g : Nat) : ZMod W) :=
    (ZMod.natCast_eq_natCast_iff' _ _ W).mpr hb
  rw [← parVecAddr_mod A c.VL (g + v)]
  apply modW_eq_of_cast
  interval_cases v <;> simp only [parE, XE.eval] <;>
    push_cast [ZMod.natCast_mod, u64_cast, hb2] <;> simp only [parVecAddr] <;>
    push_cast [ZMod.natCast_mod] <;> ring

theorem parE_eval_lt (c : Cfg) (s : State) (base : XE) (v : Nat) (hv : v < 10) (h0 : 0 < v) :
    (parE base v).eval c s < W := by
  interval_cases v <;> simp only [parE, XE.eval] <;> exact Nat.mod_lt _ (by norm_num [W])

theorem whileltPred_eq (a n : Nat) (ha : a < 2 ^ 63) (hn : n < 2 ^ 63) :
    whileltPred a n = fun l => decide (a + l < n) := by
  funext l
  simp only [whileltPred, sint_of_lt ha, sint_of_lt hn]
  congr 1
  apply propext
  constructor <;> intro h <;> omega

theorem sint_lt_iff {a b : Nat} (ha : a < 2 ^ 63) (hb : b < 2 ^ 63) :
    sint a < sint b ↔ a < b := by
  rw [sint_of_lt ha, sint_of_lt hb]
  exact Int.ofNat_lt

theorem withTile_withTile (A : Args) (a b i j : Nat) :
    (A.withTile a b).withTile i j = A.withTile i j := rfl

theorem setupInRow_eval {c : Cfg} {A : Args} {i j : Nat} {s : State} (h : TileInv A i j s)
    (R : Nat) : (setupInRow R).eval c s = inVecAddr A c.VL i j R 0 0 := by
  obtain ⟨pi, pj, ha⟩ := h.args
  induction R with
  | zero =>
    simp only [setupInRow, XE.eval, h.x2, h.x3, ha, Args.get, Args.withTile, inVecAddr]
    apply modW_eq_of_cast
    push_cast [ZMod.natCast_mod]
    ring
  | succ R ih =>
    simp only [setupInRow, XE.eval, ih, ha, Args.get, Args.withTile, inVecAddr]
    apply modW_eq_of_cast
    push_cast [ZMod.natCast_mod]
    ring

theorem setupOutRow_eval {c : Cfg} {A : Args} {i j : Nat} {s : State} (h : TileInv A i j s)
    (R : Nat) : (setupOutRow R).eval c s = outVecAddr A c.VL i j R 0 0 := by
  obtain ⟨pi, pj, ha⟩ := h.args
  induction R with
  | zero =>
    simp only [setupOutRow, XE.eval, h.x2, h.x3, ha, Args.get, Args.withTile, outVecAddr]
    apply modW_eq_of_cast
    push_cast [ZMod.natCast_mod]
    ring
  | succ R ih =>
    simp only [setupOutRow, XE.eval, ih, ha, Args.get, Args.withTile, outVecAddr]
    apply modW_eq_of_cast
    push_cast [ZMod.natCast_mod]
    ring

theorem setupInCol_eval {c : Cfg} {A : Args} {i j : Nat} {s : State} (h : TileInv A i j s)
    (C : Nat) (h1 : 1 ≤ C) (hC : C < 6) :
    (setupInCol C).eval c s = passX c A i j 0 (inColReg C) := by
  obtain ⟨pi, pj, ha⟩ := h.args
  interval_cases C <;>
    simp only [setupInCol, XE.eval, ha, Args.get, Args.withTile, passX, inColReg] <;>
    first
    | rfl
    | (apply modW_eq_of_cast; push_cast [ZMod.natCast_mod]; ring)

theorem setupOutCol_eval {c : Cfg} {A : Args} {i j : Nat} {s : State} (h : TileInv A i j s)
    (C : Nat) (h1 : 1 ≤ C) (hC : C < 4) :
    (setupOutCol C).eval c s = passX c A i j 0 (outColReg C) := by
  obtain ⟨pi, pj, ha⟩ := h.args
  interval_cases C <;>
    simp only [setupOutCol, XE.eval, ha, Args.get, Args.withTile, passX, outColReg] <;>
    first
    | rfl
    | (apply modW_eq_of_cast; push_cast [ZMod.natCast_mod]; ring)

theorem setup_x_eval {c : Cfg} {A : Args} {i j : Nat} {s : State} (h : TileInv A i j s) :
    ∀ r ∈ passRegs, (setupXE r).eval c s = passX c A i j 0 r := by
  obtain ⟨pi, pj, ha⟩ := h.args
  intro r hr
  simp only [passRegs, List.mem_cons, List.mem_singleton, List.not_mem_nil, or_false] at hr
  rcases hr with rfl | rfl | rfl | rfl | rfl | rfl | rfl | rfl | rfl | rfl | rfl | rfl | rfl |
    rfl | rfl | rfl | rfl | rfl | rfl | rfl | rfl
  · show (XE.addvl (XE.addvl (XE.arg .params) 16) (-6)).eval c s = parVecAddr A c.VL (10 * (0 + 1))
    simp only [XE.eval, ha, Args.get, Args.withTile, parVecAddr]
    apply modW_eq_of_cast
    push_cast [ZMod.natCast_mod, u64_cast]
    ring
  · show (0 : Nat) = 0 * c.VL
    simp
  · show c.VL = (0 + 1) * c.VL
    simp
  · exact setupInCol_eval h 1 (by decide) (by decide)
  · exact (setupInRow_eval h 0).trans (inRowReg_spec c A i j 0 0 (by decide)).2.symm
  · exact setupInCol_eval h 3 (by decide) (by decide)
  · exact setupInCol_eval h 2 (by decide) (by decide)
  · exact (setupInRow_eval h 5).trans (inRowReg_spec c A i j 0 5 (by decide)).2.symm
  · exact (setupInRow_eval h 4).trans (inRowReg_spec c A i j 0 4 (by decide)).2.symm
  · exact (setupInRow_eval h 3).trans (inRowReg_spec c A i j 0 3 (by decide)).2.symm
  · exact (setupInRow_eval h 2).trans (inRowReg_spec c A i j 0 2 (by decide)).2.symm
  · exact (setupInRow_eval h 1).trans (inRowReg_spec c A i j 0 1 (by decide)).2.symm
  · exact (setupOutRow_eval h 0).trans (outRowReg_spec c A i j 0 0 (by decide)).2.symm
  · exact setupOutCol_eval h 1 (by decide) (by decide)
  · exact setupOutCol_eval h 3 (by decide) (by decide)
  · exact setupOutCol_eval h 2 (by decide) (by decide)
  · exact (setupOutRow_eval h 3).trans (outRowReg_spec c A i j 0 3 (by decide)).2.symm
  · exact (setupOutRow_eval h 2).trans (outRowReg_spec c A i j 0 2 (by decide)).2.symm
  · exact (setupOutRow_eval h 1).trans (outRowReg_spec c A i j 0 1 (by decide)).2.symm
  · exact setupInCol_eval h 5 (by decide) (by decide)
  · exact setupInCol_eval h 4 (by decide) (by decide)

theorem evalArgs_setup {c : Cfg} {A : Args} {i j : Nat} {s : State} (h : TileInv A i j s) :
    evalArgs c s sigS.args = A.withTile i j := by
  obtain ⟨pi, pj, ha⟩ := h.args
  have hf := fun f => setup_args f (mem_allFields f)
  simp only [evalArgs, hf, XE.eval, h.x2, h.x3, ha, Args.get, Args.withTile]

/-- `tile_setup` establishes the entry state of pass 0. -/
theorem setup_inv {c : Cfg} {A : Args} {i j : Nat} {s : State} (h : TileInv A i j s)
    (hV : c.VL < 2 ^ 32) (hn : c.n_channels < 2 ^ 32) :
    PassInv c A i j 0 (exec c tile_setup s) := by
  rw [exec_sym c s _ _ setup_ok]
  refine ⟨?_, ?_, ?_, ?_, evalArgs_setup h⟩
  · intro r hr
    rw [Sym.eval_x, setup_x r hr]
    exact setup_x_eval h r hr
  · rw [Sym.eval_p, setup_p.1]
    simp only [PE.eval, XE.eval]
    rw [whileltPred_eq 0 _ (by norm_num) (by omega)]
    funext l
    simp [predAt]
  · rw [Sym.eval_p, setup_p.2]
    exact h.p3
  · rw [Sym.eval_lt, setup_lt]
    simp only [FE.eval, XE.eval]
    exact decide_eq_decide.mpr (by rw [sint_lt_iff (by omega) (by omega)]; simp)

theorem outRow_next {c : Cfg} {A : Args} {i j k : Nat} (r : Nat) :
    (outVecAddr A c.VL i j r 0 k + u64 (1 * (4 * (c.VL : Int)))) % W
      = outVecAddr A c.VL i j r 0 (k + 1) := by
  rw [← outVecAddr_mod A c.VL i j r 0 (k + 1)]
  apply modW_eq_of_cast
  simp only [outVecAddr]
  push_cast [ZMod.natCast_mod, u64_cast]
  ring

theorem inRow_next {c : Cfg} {A : Args} {i j k : Nat} (r : Nat) :
    (inVecAddr A c.VL i j r 0 k + u64 (1 * (4 * (c.VL : Int)))) % W
      = inVecAddr A c.VL i j r 0 (k + 1) := by
  rw [← inVecAddr_mod A c.VL i j r 0 (k + 1)]
  apply modW_eq_of_cast
  simp only [inVecAddr]
  push_cast [ZMod.natCast_mod, u64_cast]
  ring

theorem loop_x_eval {c : Cfg} {A : Args} {i j k : Nat} {s : State} (h : PassInv c A i j k s)
    (hV : c.VL < 2 ^ 32) (hn : c.n_channels < 2 ^ 32) (hlt : (k + 1) * c.VL < c.n_channels) :
    ∀ r ∈ passRegs, (loopXE r).eval c s = passX c A i j (k + 1) r := by
  intro r hr
  have hx := h.x r hr
  simp only [passRegs, List.mem_cons, List.mem_singleton, List.not_mem_nil, or_false] at hr
  rcases hr with rfl | rfl | rfl | rfl | rfl | rfl | rfl | rfl | rfl | rfl | rfl | rfl | rfl |
    rfl | rfl | rfl | rfl | rfl | rfl | rfl | rfl
  · show (XE.addvl (XE.addvl (XE.reg 4) 16) (-6)).eval c s = parVecAddr A c.VL (10 * (k + 1 + 1))
    simp only [XE.eval, hx]
    show _ = parVecAddr A c.VL (10 * (k + 1 + 1))
    rw [← parVecAddr_mod A c.VL (10 * (k + 1 + 1))]
    apply modW_eq_of_cast
    simp only [passX, parVecAddr, if_true]
    push_cast [ZMod.natCast_mod, u64_cast]
    ring
  · show (XE.incw (XE.reg 5)).eval c s = (k + 1) * c.VL
    simp only [XE.eval, hx]
    show (k * c.VL + c.VL) % W = _
    rw [Nat.mod_eq_of_lt (by simp only [W]; nlinarith)]
    ring
  · show (XE.incw (XE.reg 6)).eval c s = (k + 1 + 1) * c.VL
    simp only [XE.eval, hx]
    show ((k + 1) * c.VL + c.VL) % W = _
    rw [Nat.mod_eq_of_lt (by simp only [W]; nlinarith)]
    ring
  · exact hx
  · show (XE.addvl (XE.reg 8) 1).eval c s = _
    simp only [XE.eval, hx]; exact inRow_next 0
  · exact hx
  · exact hx
  · show (XE.addvl (XE.reg 11) 1).eval c s = _
    simp only [XE.eval, hx]; exact inRow_next 5
  · show (XE.addvl (XE.reg 12) 1).eval c s = _
    simp only [XE.eval, hx]; exact inRow_next 4
  · show (XE.addvl (XE.reg 13) 1).eval c s = _
    simp only [XE.eval, hx]; exact inRow_next 3
  · show (XE.addvl (XE.reg 14) 1).eval c s = _
    simp only [XE.eval, hx]; exact inRow_next 2
  · show (XE.addvl (XE.reg 15) 1).eval c s = _
    simp only [XE.eval, hx]; exact inRow_next 1
  · show (XE.addvl (XE.reg 16) 1).eval c s = _
    simp only [XE.eval, hx]; exact outRow_next 0
  · exact hx
  · exact hx
  · exact hx
  · show (XE.addvl (XE.reg 24) 1).eval c s = _
    simp only [XE.eval, hx]; exact outRow_next 3
  · show (XE.addvl (XE.reg 25) 1).eval c s = _
    simp only [XE.eval, hx]; exact outRow_next 2
  · show (XE.addvl (XE.reg 26) 1).eval c s = _
    simp only [XE.eval, hx]; exact outRow_next 1
  · exact hx
  · exact hx

theorem evalArgs_init (c : Cfg) (s : State) (a : Field → XE)
    (h : ∀ f ∈ allFields, a f = .arg f) : evalArgs c s a = s.args := by
  have hf := fun f => h f (mem_allFields f)
  simp only [evalArgs, hf, XE.eval, Args.get]

/-- `channel_loop` takes the entry state of pass `k` to that of pass `k + 1`. -/
theorem loop_inv {c : Cfg} {A : Args} {i j k : Nat} {s : State} (h : PassInv c A i j k s)
    (hV : c.VL < 2 ^ 32) (hn : c.n_channels < 2 ^ 32) (hlt : (k + 1) * c.VL < c.n_channels) :
    PassInv c A i j (k + 1) (exec c channel_loop s) := by
  rw [exec_sym c s _ _ loop_ok]
  have h5 : s.x 5 = k * c.VL := h.x 5 (by decide)
  have h6 : s.x 6 = (k + 1) * c.VL := h.x 6 (by decide)
  refine ⟨?_, ?_, ?_, ?_, ?_⟩
  · intro r hr
    have hr32 : r < 32 := by
      simp only [passRegs, List.mem_cons, List.mem_singleton, List.not_mem_nil, or_false] at hr
      omega
    rw [Sym.eval_x, loop_x r hr32]
    exact loop_x_eval h hV hn hlt r hr
  · rw [Sym.eval_p, loop_p.2.2.1]
    simp only [PE.eval, XE.eval, h5]
    rw [Nat.mod_eq_of_lt (by simp only [W]; nlinarith),
      whileltPred_eq _ _ (by nlinarith) (by omega)]
    funext l
    simp only [predAt]
    exact decide_eq_decide.mpr (by rw [Nat.add_mul, Nat.one_mul])
  · rw [Sym.eval_p, loop_p.2.2.2]
    exact h.p3
  · rw [Sym.eval_lt, loop_lt]
    simp only [FE.eval, XE.eval, h6]
    rw [Nat.mod_eq_of_lt (by simp only [W]; nlinarith)]
    exact decide_eq_decide.mpr (by
      rw [sint_lt_iff (by nlinarith) (by omega)]
      constructor <;> intro h <;> nlinarith)
  · rw [Sym.eval_args, evalArgs_init c s _ loop_args]
    exact h.args

/-! ### The channel loop and the tile loop as iterations -/

theorem lt_iff_main (c : Cfg) (hV1 : 1 ≤ c.VL) (k : Nat) :
    (k + 1) * c.VL < c.n_channels ↔ k < main_iters c := by
  unfold main_iters
  have h1 : k < (c.n_channels - 1) / c.VL ↔ (k + 1) * c.VL ≤ c.n_channels - 1 :=
    Nat.le_div_iff_mul_le (by omega)
  rw [h1]
  have : 1 ≤ (k + 1) * c.VL := Nat.mul_pos (by omega) hV1
  omega

theorem pass_entry_succ (c : Cfg) (s : State) (k : Nat) :
    pass_entry c s (k + 1) = exec c channel_loop (pass_entry c s k) := by
  unfold pass_entry
  exact Function.iterate_succ_apply' _ _ _

/-- The entry state of every pass of a tile. -/
theorem pass_entry_inv {c : Cfg} {A : Args} {i j : Nat} {s : State} (h : TileInv A i j s)
    (hV1 : 1 ≤ c.VL) (hV : c.VL < 2 ^ 32) (hn : c.n_channels < 2 ^ 32) :
    ∀ k, k ≤ main_iters c → PassInv c A i j k (pass_entry c s k) := by
  intro k
  induction k with
  | zero => intro _; exact setup_inv h hV hn
  | succ k ih =>
    intro hk
    rw [pass_entry_succ]
    exact loop_inv (ih (by omega)) hV hn ((lt_iff_main c hV1 k).mpr (by omega))

theorem channel_loop_run_eq {c : Cfg} {A : Args} {i j : Nat} (hV1 : 1 ≤ c.VL)
    (hV : c.VL < 2 ^ 32) (hn : c.n_channels < 2 ^ 32) :
    ∀ d fuel k s, PassInv c A i j k s → k + (d + 1) = main_iters c → d + 1 ≤ fuel →
      channel_loop_run c fuel s = some ((exec c channel_loop)^[d + 1] s) := by
  intro d
  induction d with
  | zero =>
    intro fuel k s h hk hf
    obtain ⟨fuel, rfl⟩ : ∃ f, fuel = f + 1 := ⟨fuel - 1, by omega⟩
    have h1 := loop_inv h hV hn ((lt_iff_main c hV1 k).mpr (by omega))
    have hlt : (exec c channel_loop s).lt = false := by
      rw [h1.lt]
      exact decide_eq_false (fun hh => by
        have := (lt_iff_main c hV1 (k + 1)).mp hh
        omega)
    simp only [channel_loop_run, hlt, Function.iterate_succ, Function.iterate_zero,
      Function.comp_apply, id_eq]
    rfl
  | succ d ih =>
    intro fuel k s h hk hf
    obtain ⟨fuel, rfl⟩ : ∃ f, fuel = f + 1 := ⟨fuel - 1, by omega⟩
    have h1 := loop_inv h hV hn ((lt_iff_main c hV1 k).mpr (by omega))
    have hlt : (exec c channel_loop s).lt = true := by
      rw [h1.lt]
      exact decide_eq_true ((lt_iff_main c hV1 (k + 1)).mpr (by omega))
    simp only [channel_loop_run, hlt, if_true]
    rw [ih fuel (k + 1) _ h1 (by omega) (by omega)]
    rfl

/-- One tile runs the setup, `main_iters` iterations of the channel loop and the tail. -/
theorem tile_eq {c : Cfg} {A : Args} {i j : Nat} {s : State} (h : TileInv A i j s)
    (hV1 : 1 ≤ c.VL) (hV : c.VL < 2 ^ 32) (hn : c.n_channels < 2 ^ 32) (fuel : Nat)
    (hf : main_iters c ≤ fuel) : tile c fuel s = some (tile_exit c s) := by
  have h0 := setup_inv (c := c) h hV hn
  unfold tile tile_exit pass_entry
  by_cases hm : main_iters c = 0
  · have hlt : (exec c tile_setup s).lt = false := by
      rw [h0.lt]
      exact decide_eq_false (fun hh => by
        have := (lt_iff_main c hV1 0).mp hh
        omega)
    simp [hlt, hm]
  · have hlt : (exec c tile_setup s).lt = true := by
      rw [h0.lt]
      exact decide_eq_true ((lt_iff_main c hV1 0).mpr (by omega))
    obtain ⟨d, hd⟩ : ∃ d, main_iters c = d + 1 := ⟨main_iters c - 1, by omega⟩
    simp only [hlt, if_true]
    rw [channel_loop_run_eq hV1 hV hn d fuel 0 _ h0 (by omega) (by omega), hd]
    rfl

theorem withTile_get (A : Args) (i j : Nat) :
    (A.withTile i j).get .tile_i = i ∧ (A.withTile i j).get .tile_j = j ∧
    (A.withTile i j).get .n_tile_cols = A.n_tile_cols ∧
    (A.withTile i j).get .n_tile_rows = A.n_tile_rows := ⟨rfl, rfl, rfl, rfl⟩

theorem withTile_get_i (A : Args) (i j : Nat) : (A.withTile i j).get .tile_i = i := rfl
theorem withTile_get_j (A : Args) (i j : Nat) : (A.withTile i j).get .tile_j = j := rfl
theorem withTile_get_nc (A : Args) (i j : Nat) :
    (A.withTile i j).get .n_tile_cols = A.n_tile_cols := rfl
theorem withTile_get_nr (A : Args) (i j : Nat) :
    (A.withTile i j).get .n_tile_rows = A.n_tile_rows := rfl

theorem nextJE_eval {c : Cfg} {A : Args} {i j : Nat} {s : State}
    (ha : s.args = A.withTile i j) (hj : j < 2 ^ 32) (hnc : A.n_tile_cols < 2 ^ 32) :
    nextJE.eval c s = (nextTile A (i, j)).2 := by
  have e : sint ((j + 1) % W) < sint A.n_tile_cols ↔ j + 1 < A.n_tile_cols := by
    rw [Nat.mod_eq_of_lt (by simp only [W]; omega)]
    exact sint_lt_iff (by omega) (by omega)
  simp only [nextJE, XE.eval, ha, withTile_get_i, withTile_get_j, withTile_get_nc, e]
  unfold nextTile
  split
  · exact Nat.mod_eq_of_lt (by simp only [W]; omega)
  · rfl

theorem nextIE_eval {c : Cfg} {A : Args} {i j : Nat} {s : State}
    (ha : s.args = A.withTile i j) (hi : i < 2 ^ 32) (hj : j < 2 ^ 32)
    (hnc : A.n_tile_cols < 2 ^ 32) :
    nextIE.eval c s = (nextTile A (i, j)).1 := by
  have e : sint ((j + 1) % W) < sint A.n_tile_cols ↔ j + 1 < A.n_tile_cols := by
    rw [Nat.mod_eq_of_lt (by simp only [W]; omega)]
    exact sint_lt_iff (by omega) (by omega)
  simp only [nextIE, XE.eval, ha, withTile_get_i, withTile_get_j, withTile_get_nc, e]
  unfold nextTile
  split
  · rfl
  · exact Nat.mod_eq_of_lt (by simp only [W]; omega)

/-- The tail leaves the indices of the next tile in `x2` and `x3`, and the
comparison of the row index with `n_tile_rows` in the flags. -/
theorem tail_next {c : Cfg} {A : Args} {i j k : Nat} {s : State} (h : PassInv c A i j k s)
    (hi : i < 2 ^ 32) (hj : j < 2 ^ 32) (hnc : A.n_tile_cols < 2 ^ 32)
    (hnr : A.n_tile_rows < 2 ^ 32) :
    TileInv A (nextTile A (i, j)).1 (nextTile A (i, j)).2 (exec c channel_tail s) ∧
      (exec c channel_tail s).lt = decide ((nextTile A (i, j)).1 < A.n_tile_rows) := by
  rw [exec_sym c s _ _ tail_ok]
  have hI := nextIE_eval (c := c) h.args hi hj hnc
  have hle : (nextTile A (i, j)).1 ≤ i + 1 := by
    unfold nextTile; split <;> simp
  refine ⟨⟨?_, ?_, ?_, ⟨i, j, ?_⟩⟩, ?_⟩
  · rw [Sym.eval_x, tail_x.1]; exact hI
  · rw [Sym.eval_x, tail_x.2]; exact nextJE_eval h.args hj hnc
  · rw [Sym.eval_p, tail_p]; exact h.p3
  · rw [Sym.eval_args, evalArgs_init c s _ tail_args]; exact h.args
  · rw [Sym.eval_lt, tail_lt]
    show decide (sint (nextIE.eval c s) < sint (s.args.get .n_tile_rows)) = _
    rw [hI, h.args, withTile_get_nr]
    exact decide_eq_decide.mpr (sint_lt_iff (by omega) (by omega))

theorem nextTile_tileAt (A : Args) (t : Nat) : nextTile A (tileAt A t) = tileAt A (t + 1) := by
  unfold nextTile tileAt
  by_cases h0 : A.n_tile_cols = 0
  · simp [h0, Nat.mod_one]
  · have hmax : max A.n_tile_cols 1 = A.n_tile_cols := by omega
    rw [hmax]
    have hpos : 0 < A.n_tile_cols := by omega
    have hr := Nat.mod_lt t hpos
    have hqr := Nat.mod_add_div t A.n_tile_cols
    simp only []
    split
    · next hlt =>
      have := (Nat.div_mod_unique hpos (a := t + 1) (d := t / A.n_tile_cols)
        (c := t % A.n_tile_cols + 1)).mpr ⟨by omega, hlt⟩
      rw [this.1, this.2]
    · next hge =>
      have := (Nat.div_mod_unique hpos (a := t + 1) (d := t / A.n_tile_cols + 1)
        (c := 0)).mpr ⟨by rw [Nat.mul_add]; omega, hpos⟩
      rw [this.1, this.2]

theorem tileAt_fst_lt (A : Args) (t : Nat) (hr : A.n_tile_rows ≠ 0) :
    (tileAt A t).1 < A.n_tile_rows ↔ t < numTiles A := by
  unfold tileAt numTiles
  rw [if_neg hr]
  simp only []
  rw [Nat.div_lt_iff_lt_mul (by omega)]

theorem tile_exit_inv {c : Cfg} {A : Args} {i j : Nat} {s : State} (h : TileInv A i j s)
    (hV1 : 1 ≤ c.VL) (hV : c.VL < 2 ^ 32) (hn : c.n_channels < 2 ^ 32)
    (hi : i < 2 ^ 32) (hj : j < 2 ^ 32) (hnc : A.n_tile_cols < 2 ^ 32)
    (hnr : A.n_tile_rows < 2 ^ 32) :
    TileInv A (nextTile A (i, j)).1 (nextTile A (i, j)).2 (tile_exit c s) ∧
      (tile_exit c s).lt = decide ((nextTile A (i, j)).1 < A.n_tile_rows) :=
  tail_next (pass_entry_inv h hV1 hV hn _ (Nat.le_refl _)) hi hj hnc hnr

theorem tileAt_bound (A : Args) (t : Nat) (hnc : A.n_tile_cols < 2 ^ 32)
    (hnr : A.n_tile_rows < 2 ^ 32) (ht : t < numTiles A) :
    (tileAt A t).1 < 2 ^ 32 ∧ (tileAt A t).2 < 2 ^ 32 := by
  have h2 : (tileAt A t).2 < max A.n_tile_cols 1 := Nat.mod_lt _ (by omega)
  refine ⟨?_, by omega⟩
  by_cases hr : A.n_tile_rows = 0
  · simp only [numTiles, hr, if_true] at ht
    have : t = 0 := by omega
    subst this
    simp [tileAt]
  · have := (tileAt_fst_lt A t hr).mpr ht
    omega

theorem first_entry_inv (c : Cfg) (A : Args) (s0 : State) :
    TileInv A 0 0 (first_entry c A s0) :=
  ⟨rfl, rfl, rfl, ⟨A.tile_i, A.tile_j, rfl⟩⟩

theorem tile_entry_succ (c : Cfg) (s : State) (t : Nat) :
    tile_entry c s (t + 1) = tile_exit c (tile_entry c s t) := by
  unfold tile_entry
  exact Function.iterate_succ_apply' _ _ _

/-- The state at label 1 of every tile of the run. -/
theorem tile_entry_inv {c : Cfg} {A : Args} {s : State} (h : TileInv A 0 0 s)
    (hV1 : 1 ≤ c.VL) (hV : c.VL < 2 ^ 32) (hn : c.n_channels < 2 ^ 32)
    (hnc : A.n_tile_cols < 2 ^ 32) (hnr : A.n_tile_rows < 2 ^ 32) :
    ∀ t, t < numTiles A → TileInv A (tileAt A t).1 (tileAt A t).2 (tile_entry c s t) := by
  intro t
  induction t with
  | zero =>
    intro _
    have : tileAt A 0 = (0, 0) := by simp [tileAt]
    rw [this]; exact h
  | succ t ih =>
    intro ht
    have hb := tileAt_bound A t hnc hnr (by omega)
    have := (tile_exit_inv (ih (by omega)) hV1 hV hn hb.1 hb.2 hnc hnr).1
    rw [tile_entry_succ]
    rw [show ((tileAt A t).1, (tileAt A t).2) = tileAt A t from rfl, nextTile_tileAt] at this
    exact this

theorem tile_entry_lt {c : Cfg} {A : Args} {s : State} (h : TileInv A 0 0 s)
    (hV1 : 1 ≤ c.VL) (hV : c.VL < 2 ^ 32) (hn : c.n_channels < 2 ^ 32)
    (hnc : A.n_tile_cols < 2 ^ 32) (hnr : A.n_tile_rows < 2 ^ 32) (t : Nat)
    (ht : t < numTiles A) :
    (tile_entry c s (t + 1)).lt = decide (t + 1 < numTiles A) := by
  have hb := tileAt_bound A t hnc hnr ht
  have := (tile_exit_inv (tile_entry_inv h hV1 hV hn hnc hnr t ht) hV1 hV hn hb.1 hb.2
    hnc hnr).2
  rw [tile_entry_succ, this]
  rw [show ((tileAt A t).1, (tileAt A t).2) = tileAt A t from rfl, nextTile_tileAt]
  apply decide_eq_decide.mpr
  by_cases hr : A.n_tile_rows = 0
  · simp only [numTiles, hr, if_true] at ht ⊢
    omega
  · exact tileAt_fst_lt A (t + 1) hr

/-- The tile loop runs `numTiles` tiles. -/
theorem tile_loop_eq {c : Cfg} {A : Args} {s : State} (h : TileInv A 0 0 s)
    (hV1 : 1 ≤ c.VL) (hV : c.VL < 2 ^ 32) (hn : c.n_channels < 2 ^ 32)
    (hnc : A.n_tile_cols < 2 ^ 32) (hnr : A.n_tile_rows < 2 ^ 32) :
    ∀ d fuel t, t + (d + 1) = numTiles A → d + 1 + main_iters c ≤ fuel →
      tile_loop c fuel (tile_entry c s t) = some (tile_entry c s (numTiles A)) := by
  intro d
  induction d with
  | zero =>
    intro fuel t ht hf
    obtain ⟨fuel, rfl⟩ : ∃ f, fuel = f + 1 := ⟨fuel - 1, by omega⟩
    have hT := tile_entry_inv h hV1 hV hn hnc hnr t (by omega)
    have hlt := tile_entry_lt h hV1 hV hn hnc hnr t (by omega)
    rw [tile_entry_succ] at hlt
    simp only [tile_loop, tile_eq hT hV1 hV hn (fuel + 1) (by omega), hlt]
    rw [← tile_entry_succ, ← ht]
    simp
  | succ d ih =>
    intro fuel t ht hf
    obtain ⟨fuel, rfl⟩ : ∃ f, fuel = f + 1 := ⟨fuel - 1, by omega⟩
    have hT := tile_entry_inv h hV1 hV hn hnc hnr t (by omega)
    have hlt := tile_entry_lt h hV1 hV hn hnc hnr t (by omega)
    rw [tile_entry_succ] at hlt
    simp only [tile_loop, tile_eq hT hV1 hV hn (fuel + 1) (by omega), hlt]
    rw [← tile_entry_succ]
    have : decide (t + 1 < numTiles A) = true := decide_eq_true (by omega)
    simp only [this, if_true]
    exact ih fuel (t + 1) (by omega) (by omega)

theorem numTiles_pos (A : Args) (hnc : A.n_tile_cols < 2 ^ 32) : 0 < numTiles A := by
  unfold numTiles
  split
  · omega
  · exact Nat.mul_pos (by omega) (by omega)

/-- The kernel returns, with enough fuel, the state after `numTiles` tiles. -/
theorem impl_eq (VL fuel n_tile_rows n_tile_cols inptr : Nat) (ld_input_row ld_input_col : Int)
    (outptr : Nat) (ld_output_row ld_output_col : Int) (params n_channels : Nat)
    (activation_min activation_max : Int) (s0 : State)
    (hV1 : 1 ≤ VL) (hV : VL < 2 ^ 32) (hn : n_channels < 2 ^ 32)
    (hnr : n_tile_rows < 2 ^ 32) (hnc : n_tile_cols < 2 ^ 32) :
    let A := mkArgs n_tile_rows n_tile_cols inptr ld_input_row ld_input_col outptr
      ld_output_row ld_output_col params activation_min activation_max
    let c : Cfg := ⟨VL, n_channels⟩
    numTiles A + main_iters c ≤ fuel →
    sve_fp32_nhwc_3x3_s1_output4x4_mla_depthfirst_direct_impl VL fuel n_tile_rows n_tile_cols
      inptr ld_input_row ld_input_col outptr ld_output_row ld_output_col params n_channels
      activation_min activation_max s0
      = some (tile_entry c (first_entry c A s0) (numTiles A)) := by
  intro A c hf
  have hT := first_entry_inv c A s0
  have hpos := numTiles_pos A hnc
  exact tile_loop_eq (c := c) hT hV1 hV hn hnc hnr (numTiles A - 1) fuel 0 (by omega) (by omega)

/-! ### The events of the blocks -/

theorem laneAddr_mod (a l : Nat) : laneAddr (a % W) l = laneAddr a l := by
  unfold laneAddr
  exact Nat.mod_add_mod _ _ _

theorem laneAddr_congr {a b : Nat} (h : a % W = b % W) (l : Nat) : laneAddr a l = laneAddr b l := by
  rw [← laneAddr_mod a, ← laneAddr_mod b, h]

theorem rdLanes_congr {a b : Nat} (h : a % W = b % W) (VL : Nat) (p : Nat → Bool) :
    rdLanes VL a p = rdLanes VL b p := by
  unfold rdLanes
  exact List.map_congr_left (fun l _ => by rw [laneAddr_congr h])

theorem main_iters_mul_le (c : Cfg) : main_iters c * c.VL ≤ c.n_channels - 1 :=
  Nat.div_mul_le_self _ _

theorem pass_bound (c : Cfg) (hV : c.VL < 2 ^ 32) (hn : c.n_channels < 2 ^ 32) (k : Nat)
    (hk : k ≤ main_iters c) : (k + 1) * c.VL < 2 ^ 34 := by
  have h1 := main_iters_mul_le c
  have h2 : k * c.VL ≤ main_iters c * c.VL := Nat.mul_le_mul_right _ hk
  rw [Nat.add_mul, Nat.one_mul]
  omega

theorem tailAcc_ok : ∀ a ∈ tailAcc, a.ok = true := by decide
theorem loopAcc_ok : ∀ a ∈ loopAcc, a.ok = true := by decide
theorem setupAcc_ok : ∀ a ∈ setupAcc, a.ok = true := by decide

theorem symL_eval {c : Cfg} {A : Args} {i j k : Nat} {s : State} (h : PassInv c A i j k s)
    (hn : c.n_channels < 2 ^ 32) (hk : (k + 1) * c.VL < 2 ^ 34) (a : Access)
    (ha : a.ok = true) : a.symL.eval c s = a.events c A i j k := by
  cases a with
  | par v =>
    simp only [Access.ok, decide_eq_true_eq] at ha
    show rdLanes c.VL ((parE (.reg 4) v).eval c s) (s.p 3) = _
    rw [h.p3]
    have h4 : s.x 4 = parVecAddr A c.VL (10 * (k + 1)) := h.x 4 (by decide)
    exact rdLanes_congr (by
      rw [parE_eval_gen c s A (.reg 4) (10 * (k + 1)) v ha (by simp only [XE.eval, h4]),
        parVecAddr_mod]) _ _
  | inp R C =>
    simp only [Access.ok, Bool.and_eq_true, decide_eq_true_eq] at ha
    show rdLanes c.VL ((inE R C).eval c s) (s.p 2) = _
    rw [h.p2, inE_eval h R C ha.1 ha.2]
    rfl
  | nxt R C =>
    simp only [Access.ok, Bool.and_eq_true, decide_eq_true_eq] at ha
    show rdLanes c.VL ((inEL R C).eval c s) (whileltPred (s.x 6) c.n_channels) = _
    have h6 : s.x 6 = (k + 1) * c.VL := h.x 6 (by decide)
    rw [inEL_eval h R C ha.1 ha.2, h6, whileltPred_eq _ _ (by omega) (by omega)]
    rfl

theorem wrSym_eval {c : Cfg} {A : Args} {i j k : Nat} {s : State} (h : PassInv c A i j k s) :
    wrSym.flatMap (EE.eval c s) = passWr c A i j k := by
  unfold wrSym passWr
  rw [List.flatMap_map]
  apply List.flatMap_congr
  intro rc hrc
  have hb : rc.1 < 4 ∧ rc.2 < 4 := by
    revert rc; decide
  show wrLanes c.VL ((outE rc.1 rc.2).eval c s) (s.p 2) = _
  rw [h.p2, outE_eval h rc.1 rc.2 hb.1 hb.2]

/-- The events of `channel_tail`. -/
theorem tail_trace_eq {c : Cfg} {A : Args} {i j k : Nat} {s : State} (h : PassInv c A i j k s)
    (hn : c.n_channels < 2 ^ 32) (hk : (k + 1) * c.VL < 2 ^ 34) :
    (exec c channel_tail s).trace = s.trace ++ tailTrace c A i j k := by
  rw [exec_sym c s _ _ tail_ok, Sym.eval_trace, tail_trace]
  have key : (tailAcc.flatMap fun a => EE.eval c s a.symL) = tailAcc.flatMap (Access.events c A i j k) :=
    List.flatMap_congr (fun a ha => symL_eval h hn hk a (tailAcc_ok a ha))
  simp only [List.flatMap_cons, List.flatMap_append, List.flatMap_map, wrSym_eval h, key]
  rfl

/-- The events of `channel_loop`. -/
theorem loop_trace_eq {c : Cfg} {A : Args} {i j k : Nat} {s : State} (h : PassInv c A i j k s)
    (hn : c.n_channels < 2 ^ 32) (hk : (k + 1) * c.VL < 2 ^ 34) :
    (exec c channel_loop s).trace = s.trace ++ loopTrace c A i j k := by
  rw [exec_sym c s _ _ loop_ok, Sym.eval_trace, loop_trace]
  have key : (loopAcc.flatMap fun a => EE.eval c s a.symL) = loopAcc.flatMap (Access.events c A i j k) :=
    List.flatMap_congr (fun a ha => symL_eval h hn hk a (loopAcc_ok a ha))
  simp only [List.flatMap_cons, List.flatMap_append, List.flatMap_map, wrSym_eval h, key]
  rfl

theorem inES_eval {c : Cfg} {A : Args} {i j : Nat} {s : State} (h : TileInv A i j s)
    (R C : Nat) (_hR : R < 6) (hC : C < 6) :
    (inES R C).eval c s = inVecAddr A c.VL i j R C 0 := by
  unfold inES
  split
  · next h0 => subst h0; exact setupInRow_eval h R
  · next h0 =>
    obtain ⟨hcm, hcx⟩ := inColReg_spec c A i j 0 C (by omega) hC
    simp only [XE.eval]
    rw [setupInRow_eval h R, setupInCol_eval h C (by omega) hC,
      ← inVecAddr_mod A c.VL i j R C 0]
    apply modW_eq_of_cast
    push_cast [hcx]
    simp only [inVecAddr]
    push_cast [ZMod.natCast_mod]
    ring

theorem symS_eval {c : Cfg} {A : Args} {i j : Nat} {s : State} (h : TileInv A i j s)
    (hn : c.n_channels < 2 ^ 32) (a : Access) (ha : a.ok = true) :
    a.symS.eval c s = a.eventsS c A i j := by
  obtain ⟨pi, pj, hargs⟩ := h.args
  have hp : ∀ R C, R < 6 → C < 6 →
      rdLanes c.VL ((inES R C).eval c s) (whileltPred 0 c.n_channels)
        = rdLanes c.VL (inVecAddr A c.VL i j R C 0) (predAt c 0) := by
    intro R C hR hC
    rw [inES_eval h R C hR hC, whileltPred_eq 0 _ (by norm_num) (by omega)]
    congr 1
    funext l
    simp [predAt]
  cases a with
  | par v =>
    simp only [Access.ok, decide_eq_true_eq] at ha
    show rdLanes c.VL ((parE (.arg .params) v).eval c s) (s.p 3) = _
    rw [h.p3]
    exact rdLanes_congr (by
      have := parE_eval_gen c s A (.arg .params) 0 v ha (by
        simp only [XE.eval, hargs, parVecAddr]
        show A.params % W = _
        simp)
      rw [this, parVecAddr_mod, Nat.zero_add]) _ _
  | inp R C =>
    simp only [Access.ok, Bool.and_eq_true, decide_eq_true_eq] at ha
    exact hp R C ha.1 ha.2
  | nxt R C =>
    simp only [Access.ok, Bool.and_eq_true, decide_eq_true_eq] at ha
    exact hp R C ha.1 ha.2

/-- The events of `tile_setup`. -/
theorem setup_trace_eq {c : Cfg} {A : Args} {i j : Nat} {s : State} (h : TileInv A i j s)
    (hn : c.n_channels < 2 ^ 32) :
    (exec c tile_setup s).trace = s.trace ++ setupTrace c A i j := by
  rw [exec_sym c s _ _ setup_ok, Sym.eval_trace, setup_trace]
  have key : (setupAcc.flatMap fun a => EE.eval c s a.symS) = setupAcc.flatMap (Access.eventsS c A i j) :=
    List.flatMap_congr (fun a ha => symS_eval h hn a (setupAcc_ok a ha))
  simp only [List.flatMap_cons, List.flatMap_map, key]
  show s.trace ++ (Event.label 1 :: Event.str .tile_i (s.x 2) :: Event.str .tile_j (s.x 3) :: _) = _
  rw [h.x2, h.x3]
  rfl

/-! ### The stores of a pass -/

theorem macChain_eval (c : Cfg) (s : State) (hp3 : s.p 3 = fun _ => true) (l : Nat) :
    ∀ (v : ZE) (a : Nat) (ts : List (Nat × ZE)), macChain v = some (a, ts) →
      v.eval c s l = s.z a l + (ts.map fun t => s.z t.1 l * t.2.eval c s l).sum := by
  intro v
  induction v with
  | reg n =>
    intro a ts h
    simp only [macChain, Option.some.injEq, Prod.mk.injEq] at h
    obtain ⟨rfl, rfl⟩ := h
    simp [ZE.eval]
  | fmla acc p x y ih _ _ =>
    intro a ts h
    simp only [macChain] at h
    split at h
    · next hp =>
      subst hp
      simp only [Option.bind_eq_some, Option.map_eq_some', Prod.mk.injEq] at h
      obtain ⟨t, hacc, w, hx, rfl, rfl⟩ := h
      cases x with
      | reg n =>
        simp only [ZE.regNum, Option.some.injEq] at hx
        subst hx
        simp only [ZE.eval, PE.eval, hp3, if_true, List.map_cons, List.sum_cons]
        rw [ih t.1 t.2 hacc]
        ring
      | _ => simp [ZE.regNum] at hx
    · exact absurd h (by simp)
  | ld a p => intro a ts h; simp [macChain] at h
  | bcast f p => intro a ts h; simp [macChain] at h
  | fmax a p b _ _ => intro a ts h; simp [macChain] at h
  | fmin a p b _ _ => intro a ts h; simp [macChain] at h

theorem isPassVal_eval (c : Cfg) (s : State) (hp3 : s.p 3 = fun _ => true) (v : ZE)
    (r c' : Nat) (h : isPassVal v r c' = true) : v.eval c s = passVal c s r c' := by
  funext l
  unfold isPassVal at h
  split at h
  · next ch =>
    split at h
    · next a ts hch =>
      simp only [Bool.and_eq_true, beq_iff_eq, decide_eq_true_eq] at h
      obtain ⟨rfl, hperm2⟩ := h
      simp only [ZE.eval, PE.eval, hp3, if_true, passVal]
      rw [macChain_eval c s hp3 l ch _ ts hch]
      have := (hperm2.map fun t => s.z t.1 l * t.2.eval c s l).sum_eq
      rw [this]
      simp only [expTerms, List.map_map]
      rfl
    · exact absurd h (by simp)
  · exact absurd h (by simp)

theorem map_eq_of_zip_all {α β γ : Type} (P : α × β → Bool) (f : β → γ) (g : α → γ)
    (hP : ∀ a b, P (a, b) = true → f b = g a) :
    ∀ (as : List α) (bs : List β), bs.length = as.length → (List.zip as bs).all P = true →
      bs.map f = as.map g := by
  intro as
  induction as with
  | nil =>
    intro bs hl _
    cases bs with
    | nil => rfl
    | cons b bs => simp at hl
  | cons a as ih =>
    intro bs hl hall
    cases bs with
    | nil => simp at hl
    | cons b bs =>
      simp only [List.zip_cons_cons, List.all_cons, Bool.and_eq_true] at hall
      simp only [List.map_cons]
      rw [hP a b hall.1, ih bs (by simpa using hl) hall.2]

theorem storesOk_eval (c : Cfg) (s : State) (hp3 : s.p 3 = fun _ => true)
    (l : List (XE × PE × ZE)) (h : storesOk l = true) :
    (l.map fun t => (t.1.eval c s, t.2.1.eval c s, t.2.2.eval c s)) = passStores c s := by
  unfold storesOk at h
  simp only [Bool.and_eq_true, beq_iff_eq] at h
  unfold passStores
  apply map_eq_of_zip_all _ _ _ _ pixels l (by rw [h.1]; rfl) h.2
  intro rc t ht
  simp only [Bool.and_eq_true, beq_iff_eq] at ht
  obtain ⟨⟨h1, h2⟩, h3⟩ := ht
  rw [h1, h2, isPassVal_eval c s hp3 _ _ _ h3]
  rfl

/-- The memory after `channel_tail`: the sixteen stores of the pass. -/
theorem tail_mem (c : Cfg) (s : State) (hp3 : s.p 3 = fun _ => true) :
    (exec c channel_tail s).mem = applyStores c.VL s.mem (passStores c s) := by
  rw [exec_sym c s _ _ tail_ok, Sym.eval_mem, storesOk_eval c s hp3 _ tail_storesOk]

/-- The memory after `channel_loop`: the sixteen stores of the pass. -/
theorem loop_mem (c : Cfg) (s : State) (hp3 : s.p 3 = fun _ => true) :
    (exec c channel_loop s).mem = applyStores c.VL s.mem (passStores c s) := by
  rw [exec_sym c s _ _ loop_ok, Sym.eval_mem, storesOk_eval c s hp3 _ loop_storesOk]

/-- `tile_setup` writes nothing. -/
theorem setup_mem (c : Cfg) (s : State) : (exec c tile_setup s).mem = s.mem := by
  rw [exec_sym c s _ _ setup_ok, Sym.eval_mem, setup_stores]
  rfl

/-! ### Memory after a list of stores -/

theorem foldl_upd_other (a : Nat) :
    ∀ (ws : List (Nat × Int)) (m : Nat → Int), (∀ w ∈ ws, w.1 ≠ a) →
      (ws.foldl (fun m w => upd m w.1 w.2) m) a = m a := by
  intro ws
  induction ws with
  | nil => intro m _; rfl
  | cons w ws ih =>
    intro m h
    simp only [List.foldl_cons]
    rw [ih _ (fun w' hw' => h w' (List.mem_cons_of_mem _ hw'))]
    have := h w (List.mem_cons_self _ _)
    simp only [upd]
    rw [if_neg (fun e => this e.symm)]

theorem foldl_upd_agree (a : Nat) (val : Int) :
    ∀ (ws : List (Nat × Int)) (m : Nat → Int), (∀ w ∈ ws, w.1 = a → w.2 = val) →
      ((∃ w ∈ ws, w.1 = a) ∨ m a = val) →
      (ws.foldl (fun m w => upd m w.1 w.2) m) a = val := by
  intro ws
  induction ws with
  | nil =>
    intro m _ h
    rcases h with ⟨w, hw, _⟩ | h
    · simp at hw
    · exact h
  | cons w ws ih =>
    intro m hag h
    simp only [List.foldl_cons]
    apply ih _ (fun w' hw' => hag w' (List.mem_cons_of_mem _ hw'))
    by_cases hex : ∃ w' ∈ ws, w'.1 = a
    · exact Or.inl hex
    · right
      simp only [upd]
      by_cases hwa : w.1 = a
      · rw [if_pos hwa.symm]; exact hag w (List.mem_cons_self _ _) hwa
      · rw [if_neg (fun e => hwa e.symm)]
        rcases h with ⟨w', hw', hw'a⟩ | h
        · rcases List.mem_cons.mp hw' with e | e
          · subst e; exact absurd hw'a hwa
          · exact absurd ⟨w', e, hw'a⟩ hex
        · exact h

theorem storeVec_eq_foldl (VL : Nat) (m : Nat → Int) (ea : Nat) (p : Nat → Bool)
    (v : Nat → Int) :
    storeVec VL m ea p v
      = (((lanes VL p).map fun i => (laneAddr ea i, v i)).foldl (fun m w => upd m w.1 w.2) m) := by
  unfold storeVec
  rw [List.foldl_map]

theorem applyStores_eq_foldl (VL : Nat) :
    ∀ (l : List (Nat × (Nat → Bool) × (Nat → Int))) (m : Nat → Int),
      applyStores VL m l = (laneWrites VL l).foldl (fun m w => upd m w.1 w.2) m := by
  intro l
  induction l with
  | nil => intro m; rfl
  | cons t l ih =>
    intro m
    simp only [applyStores, List.foldl_cons, laneWrites, List.flatMap_cons, List.foldl_append]
    rw [← storeVec_eq_foldl]
    exact ih _

theorem mem_lanes (VL : Nat) (p : Nat → Bool) (l : Nat) : l ∈ lanes VL p ↔ l < VL ∧ p l = true := by
  simp [lanes, List.mem_filter]

theorem mem_laneWrites (VL : Nat) (l : List (Nat × (Nat → Bool) × (Nat → Int)))
    (w : Nat × Int) :
    w ∈ laneWrites VL l ↔ ∃ t ∈ l, ∃ i, i < VL ∧ t.2.1 i = true ∧ w = (laneAddr t.1 i, t.2.2 i) := by
  simp only [laneWrites, List.mem_flatMap, List.mem_map, mem_lanes]
  constructor
  · rintro ⟨t, ht, i, ⟨h1, h2⟩, rfl⟩
    exact ⟨t, ht, i, h1, h2, rfl⟩
  · rintro ⟨t, ht, i, h1, h2, rfl⟩
    exact ⟨t, ht, i, ⟨h1, h2⟩, rfl⟩

/-! ### Lane addresses as element addresses -/

theorem lane_out (A : Args) (VL i j r c k l : Nat) :
    laneAddr (outVecAddr A VL i j r c k) l = outAt A (4 * i + r) (4 * j + c) (k * VL + l) := by
  unfold laneAddr outVecAddr outAt
  apply modW_eq_of_cast
  push_cast [ZMod.natCast_mod]
  ring

theorem lane_in (A : Args) (VL i j r c k l : Nat) :
    laneAddr (inVecAddr A VL i j r c k) l = inAt A (4 * i + r) (4 * j + c) (k * VL + l) := by
  unfold laneAddr inVecAddr inAt
  apply modW_eq_of_cast
  push_cast [ZMod.natCast_mod]
  ring

theorem lane_par (A : Args) (VL v l : Nat) :
    laneAddr (parVecAddr A VL v) l = parAt A (v * VL + l) := by
  unfold laneAddr parVecAddr parAt
  apply modW_eq_of_cast
  push_cast [ZMod.natCast_mod]
  ring

theorem predAt_iff (c : Cfg) (k l : Nat) : predAt c k l = true ↔ k * c.VL + l < c.n_channels := by
  simp [predAt]

theorem n_le_main (c : Cfg) (hV1 : 1 ≤ c.VL) : c.n_channels ≤ (main_iters c + 1) * c.VL := by
  unfold main_iters
  have := Nat.lt_div_mul_add (a := c.n_channels - 1) (b := c.VL) (by omega)
  rw [Nat.add_mul, Nat.one_mul]
  omega

theorem frame_par {c : Cfg} {A : Args} {m0 m : Nat → Int} (hF : Frame c A m0 m)
    (hN : NoAlias c A) (e : Nat) (he : e < 10 * c.VL * (main_iters c + 1)) :
    m (parAt A e) = m0 (parAt A e) :=
  hF _ (fun y x ch hg heq => hN.par y x ch e hg he heq.symm)

theorem frame_in {c : Cfg} {A : Args} {m0 m : Nat → Int} (hF : Frame c A m0 m)
    (hN : NoAlias c A) (y x ch : Nat) (hy : y < 4 * A.n_tile_rows + 2)
    (hx : x < 4 * A.n_tile_cols + 2) (hch : ch < c.n_channels) :
    m (inAt A y x ch) = m0 (inAt A y x ch) :=
  hF _ (fun y' x' ch' hg heq => hN.inp y' x' ch' y x ch hg hy hx hch heq.symm)

theorem par_bound (c : Cfg) (k v l : Nat) (hk : k ≤ main_iters c) (hv : v < 10) (hl : l < c.VL) :
    (10 * k + v) * c.VL + l < 10 * c.VL * (main_iters c + 1) := by
  have h1 : (10 * k + v) * c.VL + l < (10 * k + 10) * c.VL := by
    have : (10 * k + v + 1) * c.VL ≤ (10 * k + 10) * c.VL := Nat.mul_le_mul_right _ (by omega)
    rw [Nat.add_mul _ 1, Nat.one_mul] at this
    omega
  have h2 : (10 * k + 10) * c.VL ≤ 10 * c.VL * (main_iters c + 1) := by
    have : (10 * k + 10) * c.VL = 10 * c.VL * (k + 1) := by ring
    rw [this]
    exact Nat.mul_le_mul_left _ (by omega)
  omega

/-- A load of a params vector of a group the run reads gives the initial memory. -/
theorem load_par {c : Cfg} {A : Args} {m0 m : Nat → Int} (hF : Frame c A m0 m)
    (hN : NoAlias c A) (ea k v l : Nat) (hea : ea % W = parVecAddr A c.VL (10 * k + v))
    (hk : k ≤ main_iters c) (hv : v < 10) (hl : l < c.VL) :
    m (laneAddr ea l) = m0 (laneAddr (parVecAddr A c.VL (10 * k + v)) l) := by
  rw [laneAddr_congr (b := parVecAddr A c.VL (10 * k + v)) (by rw [hea, parVecAddr_mod]), lane_par]
  exact frame_par hF hN _ (par_bound c k v l hk hv hl)

/-- A load of an input vector under the predicate of its pass gives the initial memory. -/
theorem load_in {c : Cfg} {A : Args} {m0 m : Nat → Int} (hF : Frame c A m0 m)
    (hN : NoAlias c A) (i j R C k l : Nat) (hi : i < A.n_tile_rows) (hj : j < A.n_tile_cols)
    (hR : R < 6) (hC : C < 6) (hp : predAt c k l = true) :
    m (laneAddr (inVecAddr A c.VL i j R C k) l) = m0 (laneAddr (inVecAddr A c.VL i j R C k) l) := by
  rw [lane_in]
  exact frame_in hF hN _ _ _ (by omega) (by omega) ((predAt_iff c k l).mp hp)

theorem inZ_cases : ∀ R < 6, ∀ C < 6,
    (∃ t ∈ preloads, t.2.1 = R ∧ t.2.2 = C ∧ inZ R C = .reg t.1) ∨
      inZ R C = .ld (inE R C) (.reg 2) := by decide

/-- The input vectors of a pass, at the active lanes, in terms of the initial memory. -/
theorem inZ_eval {c : Cfg} {A : Args} {m0 : Nat → Int} {i j k : Nat} {s : State}
    (h : PassInv c A i j k s) (hD : PassData c A m0 i j k s) (hF : Frame c A m0 s.mem)
    (hN : NoAlias c A) (hi : i < A.n_tile_rows) (hj : j < A.n_tile_cols)
    (R C l : Nat) (hR : R < 6) (hC : C < 6) (hl : l < c.VL) (hp : predAt c k l = true) :
    (inZ R C).eval c s l = m0 (laneAddr (inVecAddr A c.VL i j R C k) l) := by
  rcases inZ_cases R hR C hC with ⟨t, ht, rfl, rfl, hz⟩ | hz
  · rw [hz]
    exact hD.pre t ht l hl hp
  · rw [hz]
    show loadVec s.mem ((inE R C).eval c s) (s.p 2) l = _
    rw [inE_eval h R C hR hC, h.p2]
    simp only [loadVec, hp, if_true]
    exact load_in hF hN i j R C k l hi hj hR hC hp

/-! ### The values a pass stores -/

theorem taps_bound : ∀ t ∈ taps, t.1 < 3 ∧ t.2 < 3 := by decide
theorem pixels_bound : ∀ rc ∈ pixels, rc.1 < 4 ∧ rc.2 < 4 := by decide
theorem mem_pixels : ∀ r < 4, ∀ c < 4, (r, c) ∈ pixels := by decide

theorem div_mod_lane (VL k l : Nat) (hl : l < VL) :
    (k * VL + l) / VL = k ∧ (k * VL + l) % VL = l := by
  have hpos : 0 < VL := by omega
  exact (Nat.div_mod_unique hpos).mpr ⟨by rw [Nat.mul_comm]; omega, hl⟩

/-- The value a pass stores at an active lane is the reference value of the element. -/
theorem passVal_eq {c : Cfg} {A : Args} {m0 : Nat → Int} {i j k : Nat} {s : State}
    (h : PassInv c A i j k s) (hD : PassData c A m0 i j k s) (hF : Frame c A m0 s.mem)
    (hN : NoAlias c A) (hi : i < A.n_tile_rows) (hj : j < A.n_tile_cols)
    (r c' l : Nat) (hr : r < 4) (hc : c' < 4) (hl : l < c.VL) (hp : predAt c k l = true) :
    passVal c s r c' l = refOut c A m0 (4 * i + r) (4 * j + c') (k * c.VL + l) := by
  obtain ⟨hdiv, hmod⟩ := div_mod_lane c.VL k l hl
  simp only [passVal, refOut, hdiv, hmod, hD.zmin, hD.zmax]
  have hacc : s.z (accReg r c') l = m0 (parAt A (10 * k * c.VL + l)) := by
    rw [hD.acc (accReg r c') l (by unfold accReg; omega) (by unfold accReg; omega) hl, lane_par]
  have hsum : (taps.map fun t => s.z (3 * t.1 + t.2) l * (inZ (r + t.1) (c' + t.2)).eval c s l)
      = (taps.map fun t => m0 (parAt A ((10 * k + 1 + (3 * t.1 + t.2)) * c.VL + l))
          * m0 (inAt A (4 * i + r + t.1) (4 * j + c' + t.2) (k * c.VL + l))) := by
    apply List.map_congr_left
    intro t ht
    obtain ⟨h1, h2⟩ := taps_bound t ht
    rw [hD.w (3 * t.1 + t.2) l (by omega) hl, lane_par,
      inZ_eval h hD hF hN hi hj (r + t.1) (c' + t.2) l (by omega) (by omega) hl hp, lane_in,
      Nat.add_assoc (4 * i), Nat.add_assoc (4 * j)]
  rw [hacc, hsum]

theorem mem_passWrites (c : Cfg) (s : State) (w : Nat × Int) :
    w ∈ laneWrites c.VL (passStores c s) ↔
      ∃ rc ∈ pixels, ∃ l, l < c.VL ∧ s.p 2 l = true ∧
        w = (laneAddr ((outE rc.1 rc.2).eval c s) l, passVal c s rc.1 rc.2 l) := by
  rw [mem_laneWrites]
  simp only [passStores, List.mem_map]
  constructor
  · rintro ⟨t, ⟨rc, hrc, rfl⟩, l, h1, h2, rfl⟩
    exact ⟨rc, hrc, l, h1, h2, rfl⟩
  · rintro ⟨rc, hrc, l, h1, h2, rfl⟩
    exact ⟨_, ⟨rc, hrc, rfl⟩, l, h1, h2, rfl⟩

/-- A pass writes output elements only. -/
theorem pass_frame {c : Cfg} {A : Args} {m0 : Nat → Int} {i j k : Nat} {s : State}
    (h : PassInv c A i j k s) (hF : Frame c A m0 s.mem)
    (hi : i < A.n_tile_rows) (hj : j < A.n_tile_cols) :
    Frame c A m0 (applyStores c.VL s.mem (passStores c s)) := by
  intro a ha
  rw [applyStores_eq_foldl, foldl_upd_other a _ _ ?_]
  · exact hF a ha
  · intro w hw
    obtain ⟨rc, hrc, l, hl, hp, rfl⟩ := (mem_passWrites c s w).mp hw
    obtain ⟨hr, hc⟩ := pixels_bound rc hrc
    rw [h.p2] at hp
    simp only
    rw [outE_eval h rc.1 rc.2 hr hc, lane_out]
    exact fun e => ha _ _ _ ⟨by omega, by omega, (predAt_iff c k l).mp hp⟩ e.symm

/-- A pass leaves the earlier output elements alone and gives those of its
channels their values. -/
theorem pass_done {c : Cfg} {A : Args} {m0 : Nat → Int} {i j k t : Nat} {s : State}
    (h : PassInv c A i j k s) (hD : PassData c A m0 i j k s) (hF : Frame c A m0 s.mem)
    (hN : NoAlias c A) (hI : OutInj c A) (hi : i < A.n_tile_rows) (hj : j < A.n_tile_cols)
    (hij : ∀ y x, x < 4 * A.n_tile_cols → (tileIdx A y x = t ↔ y / 4 = i ∧ x / 4 = j))
    (hdone : Done c A m0 t k s.mem) :
    Done c A m0 t (k + 1) (applyStores c.VL s.mem (passStores c s)) := by
  intro y x ch hg hd
  rw [applyStores_eq_foldl]
  -- every lane write of the pass is an output element of tile `t` with a channel of pass `k`
  have hw : ∀ w ∈ laneWrites c.VL (passStores c s), ∃ r c' l, r < 4 ∧ c' < 4 ∧ l < c.VL ∧
      predAt c k l = true ∧ w = (outAt A (4 * i + r) (4 * j + c') (k * c.VL + l),
        refOut c A m0 (4 * i + r) (4 * j + c') (k * c.VL + l)) := by
    intro w hw
    obtain ⟨rc, hrc, l, hl, hp, rfl⟩ := (mem_passWrites c s w).mp hw
    obtain ⟨hr, hc⟩ := pixels_bound rc hrc
    rw [h.p2] at hp
    refine ⟨rc.1, rc.2, l, hr, hc, hl, hp, ?_⟩
    rw [outE_eval h rc.1 rc.2 hr hc, lane_out,
      passVal_eq h hD hF hN hi hj rc.1 rc.2 l hr hc hl hp]
  have hgrid : ∀ r c' l, r < 4 → c' < 4 → predAt c k l = true →
      InGrid c A (4 * i + r) (4 * j + c') (k * c.VL + l) :=
    fun r c' l hr hc hp => ⟨by omega, by omega, (predAt_iff c k l).mp hp⟩
  by_cases hnew : tileIdx A y x = t ∧ k * c.VL ≤ ch
  · -- an element of this pass
    obtain ⟨hyi, hxj⟩ := (hij y x hg.2.1).mp hnew.1
    have hch : ch < (k + 1) * c.VL := by
      rcases hd with hd | hd
      · omega
      · exact hd.2
    rw [Nat.add_mul, Nat.one_mul] at hch
    have hy : y = 4 * i + y % 4 := by omega
    have hx : x = 4 * j + x % 4 := by omega
    have hc : ch = k * c.VL + (ch - k * c.VL) := by omega
    apply foldl_upd_agree
    · intro w hww hwa
      obtain ⟨r, c', l, hr, hc', hl, hp, rfl⟩ := hw w hww
      simp only at hwa ⊢
      obtain ⟨e1, e2, e3⟩ := hI _ _ _ _ _ _ (hgrid r c' l hr hc' hp) hg hwa
      rw [e1, e2, e3]
    · left
      refine ⟨(outAt A y x ch, refOut c A m0 y x ch), ?_, rfl⟩
      apply (mem_passWrites c s _).mpr
      have hp : predAt c k (ch - k * c.VL) = true :=
        (predAt_iff c k _).mpr (by rw [← hc]; exact hg.2.2)
      refine ⟨(y % 4, x % 4), mem_pixels _ (by omega) _ (by omega), ch - k * c.VL, by omega,
        by rw [h.p2]; exact hp, ?_⟩
      simp only
      rw [outE_eval h _ _ (by omega) (by omega), lane_out,
        passVal_eq h hD hF hN hi hj _ _ _ (by omega) (by omega) (by omega) hp, ← hy, ← hx, ← hc]
  · -- an element done before: no lane of the pass writes it
    have hold : tileIdx A y x < t ∨ (tileIdx A y x = t ∧ ch < k * c.VL) := by
      rcases hd with hd | hd
      · exact Or.inl hd
      · exact Or.inr ⟨hd.1, by
          by_contra hge
          exact hnew ⟨hd.1, by omega⟩⟩
    rw [foldl_upd_other _ _ _ ?_]
    · exact hdone y x ch hg hold
    · intro w hww hwa
      obtain ⟨r, c', l, hr, hc', hl, hp, rfl⟩ := hw w hww
      simp only at hwa
      obtain ⟨e1, e2, e3⟩ := hI _ _ _ _ _ _ (hgrid r c' l hr hc' hp) hg hwa
      apply hnew
      refine ⟨(hij y x hg.2.1).mpr ⟨by omega, by omega⟩, by omega⟩

/-! ### The vector registers at the entry of a pass -/

theorem setupZE_w : ∀ t < 9, setupZE t = .ld (parE (.arg .params) (t + 1)) (.reg 3) := by decide
theorem setupZE_acc : ∀ r < 32, 16 ≤ r → setupZE r = .ld (.arg .params) (.reg 3) := by decide
theorem setupZE_pre : ∀ t ∈ preloads, t.2.1 < 6 ∧ t.2.2 < 6 ∧
    setupZE t.1 = .ld (inES t.2.1 t.2.2) (.wlt (.lit 0) .nch) := by decide
theorem loopZE_w : ∀ t < 9, loopZE t = .ld (parE (.reg 4) (t + 1)) (.reg 3) := by decide
theorem loopZE_acc : ∀ r < 32, 16 ≤ r → loopZE r = .ld (.reg 4) (.reg 3) := by decide
theorem loopZE_pre : ∀ t ∈ preloads, t.1 < 32 ∧ t.2.1 < 6 ∧ t.2.2 < 6 ∧
    loopZE t.1 = .ld (inEL t.2.1 t.2.2) (.wlt (.reg 6) .nch) := by decide

theorem withTile_getF (A : Args) (i j : Nat) (f : FField) :
    (A.withTile i j).getF f = A.getF f := by
  cases f <;> rfl

/-- `tile_setup` loads the weights and the bias of group 0 and the first
four input vectors of pass 0. -/
theorem setup_data {c : Cfg} {A : Args} {m0 : Nat → Int} {i j : Nat} {s : State}
    (h : TileInv A i j s) (hF : Frame c A m0 s.mem) (hN : NoAlias c A)
    (hn : c.n_channels < 2 ^ 32) (hi : i < A.n_tile_rows) (hj : j < A.n_tile_cols) :
    PassData c A m0 i j 0 (exec c tile_setup s) := by
  obtain ⟨pi, pj, hargs⟩ := h.args
  have hbase : (XE.arg Field.params).eval c s % W = parVecAddr A c.VL 0 % W := by
    simp only [XE.eval, hargs, parVecAddr]
    show A.params % W = _
    simp
  rw [exec_sym c s _ _ setup_ok]
  refine ⟨?_, ?_, ?_, ?_, ?_⟩
  · intro t l ht hl
    rw [Sym.eval_z, setup_z t (by omega), setupZE_w t ht]
    show loadVec s.mem _ (s.p 3) l = _
    simp only [loadVec, h.p3, if_true]
    have := load_par hF hN ((parE (.arg .params) (t + 1)).eval c s) 0 (t + 1) l
      (by rw [parE_eval_gen c s A _ 0 (t + 1) (by omega) hbase]) (Nat.zero_le _) (by omega) hl
    rw [this]
    congr 3
    omega
  · intro r l hr1 hr2 hl
    rw [Sym.eval_z, setup_z r hr2, setupZE_acc r hr2 hr1]
    show loadVec s.mem _ (s.p 3) l = _
    simp only [loadVec, h.p3, if_true]
    exact load_par hF hN _ 0 0 l (by rw [hbase, parVecAddr_mod]) (Nat.zero_le _) (by omega) hl
  · intro t ht l hl hp
    obtain ⟨hR, hC, hz⟩ := setupZE_pre t ht
    have ht32 : t.1 < 32 := by revert t; decide
    rw [Sym.eval_z, setup_z t.1 ht32, hz]
    show loadVec s.mem _ (whileltPred 0 c.n_channels) l = _
    rw [inES_eval h _ _ hR hC, whileltPred_eq 0 _ (by norm_num) (by omega)]
    have hp' : decide (0 + l < c.n_channels) = true := by
      simpa [predAt] using hp
    simp only [loadVec, hp', if_true]
    exact load_in hF hN i j _ _ 0 l hi hj hR hC hp
  · intro l
    rw [Sym.eval_z, setup_z 15 (by decide)]
    show (if s.p 3 l = true then s.args.getF .min else 0) = _
    rw [h.p3, hargs]
    rfl
  · intro l
    rw [Sym.eval_z, setup_z 14 (by decide)]
    show (if s.p 3 l = true then s.args.getF .max else 0) = _
    rw [h.p3, hargs]
    rfl

/-- `channel_loop` loads the weights and the bias of the next group and the
first four input vectors of the next pass. -/
theorem loop_data {c : Cfg} {A : Args} {m0 : Nat → Int} {i j k : Nat} {s : State}
    (h : PassInv c A i j k s) (hD : PassData c A m0 i j k s) (hF : Frame c A m0 s.mem)
    (hN : NoAlias c A) (hV : c.VL < 2 ^ 32) (hn : c.n_channels < 2 ^ 32)
    (hk : k + 1 ≤ main_iters c)
    (hi : i < A.n_tile_rows) (hj : j < A.n_tile_cols) :
    PassData c A m0 i j (k + 1) (exec c channel_loop s) := by
  have h4 : s.x 4 = parVecAddr A c.VL (10 * (k + 1)) := h.x 4 (by decide)
  have h6 : s.x 6 = (k + 1) * c.VL := h.x 6 (by decide)
  have hb := pass_bound c hV hn k (by omega)
  have hbase : (XE.reg 4).eval c s % W = parVecAddr A c.VL (10 * (k + 1)) % W := by
    simp only [XE.eval, h4]
  rw [exec_sym c s _ _ loop_ok]
  refine ⟨?_, ?_, ?_, ?_, ?_⟩
  · intro t l ht hl
    rw [Sym.eval_z, loop_z t (by omega), loopZE_w t ht]
    show loadVec s.mem _ (s.p 3) l = _
    simp only [loadVec, h.p3, if_true]
    have := load_par hF hN ((parE (.reg 4) (t + 1)).eval c s) (k + 1) (t + 1) l
      (by rw [parE_eval_gen c s A _ (10 * (k + 1)) (t + 1) (by omega) hbase]) hk (by omega) hl
    rw [this]
    congr 3
    omega
  · intro r l hr1 hr2 hl
    rw [Sym.eval_z, loop_z r hr2, loopZE_acc r hr2 hr1]
    show loadVec s.mem _ (s.p 3) l = _
    simp only [loadVec, h.p3, if_true]
    exact load_par hF hN _ (k + 1) 0 l (by rw [hbase, parVecAddr_mod]; rfl) hk (by omega) hl
  · intro t ht l hl hp
    obtain ⟨ht32, hR, hC, hz⟩ := loopZE_pre t ht
    rw [Sym.eval_z, loop_z t.1 ht32, hz]
    show loadVec s.mem _ (whileltPred (s.x 6) c.n_channels) l = _
    rw [inEL_eval h _ _ hR hC, h6, whileltPred_eq _ _ (by omega) (by omega)]
    have hp' : decide ((k + 1) * c.VL + l < c.n_channels) = true := by
      simpa [predAt] using hp
    simp only [loadVec, hp', if_true]
    exact load_in hF hN i j _ _ (k + 1) l hi hj hR hC hp
  · intro l
    rw [Sym.eval_z, loop_z 15 (by decide)]
    exact hD.zmin l
  · intro l
    rw [Sym.eval_z, loop_z 14 (by decide)]
    exact hD.zmax l

/-! ### The memory along a run -/

theorem numTiles_eq (A : Args) (hr : 1 ≤ A.n_tile_rows) (hc : 1 ≤ A.n_tile_cols) :
    numTiles A = A.n_tile_rows * A.n_tile_cols := by
  unfold numTiles
  rw [if_neg (by omega), Nat.max_eq_left hc]

theorem tileAt_eq (A : Args) (t : Nat) (hc : 1 ≤ A.n_tile_cols) :
    tileAt A t = (t / A.n_tile_cols, t % A.n_tile_cols) := by
  unfold tileAt
  rw [Nat.max_eq_left hc]

theorem tileAt_lt (A : Args) (t : Nat) (ht : t < A.n_tile_rows * A.n_tile_cols) :
    (tileAt A t).1 < A.n_tile_rows ∧ (tileAt A t).2 < A.n_tile_cols := by
  have hc : 1 ≤ A.n_tile_cols := by
    rcases Nat.eq_zero_or_pos A.n_tile_cols with h | h
    · rw [h] at ht; simp at ht
    · exact h
  rw [tileAt_eq A t hc]
  exact ⟨(Nat.div_lt_iff_lt_mul hc).mpr ht, Nat.mod_lt _ hc⟩

theorem tileIdx_iff (A : Args) (t : Nat) (hc : 1 ≤ A.n_tile_cols) (y x : Nat)
    (hx : x < 4 * A.n_tile_cols) :
    tileIdx A y x = t ↔ y / 4 = (tileAt A t).1 ∧ x / 4 = (tileAt A t).2 := by
  rw [tileAt_eq A t hc]
  unfold tileIdx
  have hx4 : x / 4 < A.n_tile_cols := by omega
  constructor
  · intro h
    have := (Nat.div_mod_unique (a := t) (d := y / 4) (c := x / 4) hc).mpr
      ⟨by rw [Nat.mul_comm] at h; omega, hx4⟩
    exact ⟨this.1.symm, this.2.symm⟩
  · rintro ⟨h1, h2⟩
    rw [h1, h2]
    exact Nat.div_add_mod' t _

theorem pass_entry_p3 {c : Cfg} {A : Args} {i j k : Nat} {s : State}
    (h : PassInv c A i j k s) : s.p 3 = fun _ => true := h.p3

/-- The registers and the memory at the entry of every pass of tile number `t`. -/
theorem tile_passes {c : Cfg} {A : Args} {m0 : Nat → Int} {t : Nat} {s : State}
    (hT : TileInv A (tileAt A t).1 (tileAt A t).2 s)
    (ht : t < A.n_tile_rows * A.n_tile_cols)
    (hV1 : 1 ≤ c.VL) (hV : c.VL < 2 ^ 32) (hn : c.n_channels < 2 ^ 32)
    (hN : NoAlias c A) (hF : Frame c A m0 s.mem) :
    ∀ k, k ≤ main_iters c →
      PassData c A m0 (tileAt A t).1 (tileAt A t).2 k (pass_entry c s k) ∧
      Frame c A m0 (pass_entry c s k).mem ∧
      (OutInj c A → Done c A m0 t 0 s.mem → Done c A m0 t k (pass_entry c s k).mem) := by
  obtain ⟨hi, hj⟩ := tileAt_lt A t ht
  intro k
  induction k with
  | zero =>
    intro _
    have hm : (pass_entry c s 0).mem = s.mem := setup_mem c s
    refine ⟨setup_data hT hF hN hn hi hj, by rw [hm]; exact hF, fun _ hd => ?_⟩
    rw [hm]; exact hd
  | succ k ih =>
    intro hk
    obtain ⟨hD, hFk, hDone⟩ := ih (by omega)
    have hP := pass_entry_inv hT hV1 hV hn k (by omega)
    have hm : (pass_entry c s (k + 1)).mem
        = applyStores c.VL (pass_entry c s k).mem (passStores c (pass_entry c s k)) := by
      rw [pass_entry_succ]; exact loop_mem c _ hP.p3
    refine ⟨?_, ?_, ?_⟩
    · rw [pass_entry_succ]; exact loop_data hP hD hFk hN hV hn hk hi hj
    · rw [hm]; exact pass_frame hP hFk hi hj
    · intro hI hd
      rw [hm]
      exact pass_done hP hD hFk hN hI hi hj
        (fun y x hx => tileIdx_iff A t (by omega) y x hx) (hDone hI hd)

/-- The memory at the end of tile number `t`. -/
theorem tile_exit_mem {c : Cfg} {A : Args} {m0 : Nat → Int} {t : Nat} {s : State}
    (hT : TileInv A (tileAt A t).1 (tileAt A t).2 s)
    (ht : t < A.n_tile_rows * A.n_tile_cols)
    (hV1 : 1 ≤ c.VL) (hV : c.VL < 2 ^ 32) (hn : c.n_channels < 2 ^ 32)
    (hN : NoAlias c A) (hF : Frame c A m0 s.mem) :
    Frame c A m0 (tile_exit c s).mem ∧
      (OutInj c A → Done c A m0 t 0 s.mem → Done c A m0 (t + 1) 0 (tile_exit c s).mem) := by
  obtain ⟨hi, hj⟩ := tileAt_lt A t ht
  obtain ⟨hD, hFk, hDone⟩ := tile_passes hT ht hV1 hV hn hN hF (main_iters c) (Nat.le_refl _)
  have hP := pass_entry_inv hT hV1 hV hn (main_iters c) (Nat.le_refl _)
  have hm : (tile_exit c s).mem = applyStores c.VL (pass_entry c s (main_iters c)).mem
      (passStores c (pass_entry c s (main_iters c))) := tail_mem c _ hP.p3
  refine ⟨by rw [hm]; exact pass_frame hP hFk hi hj, fun hI hd => ?_⟩
  have hd1 : Done c A m0 t (main_iters c + 1) (tile_exit c s).mem := by
    rw [hm]
    exact pass_done hP hD hFk hN hI hi hj
      (fun y x hx => tileIdx_iff A t (by omega) y x hx) (hDone hI hd)
  intro y x ch hg hlt
  apply hd1 y x ch hg
  have hnm := n_le_main c hV1
  have hch := hg.2.2
  rcases hlt with h | h
  · rcases Nat.lt_or_ge (tileIdx A y x) t with h' | h'
    · exact Or.inl h'
    · exact Or.inr ⟨by omega, by omega⟩
  · exact absurd h.2 (by simp)

/-- The memory at label 1 of every tile of the run. -/
theorem tile_entry_mem {c : Cfg} {A : Args} {s : State} (hT : TileInv A 0 0 s)
    (hV1 : 1 ≤ c.VL) (hV : c.VL < 2 ^ 32) (hn : c.n_channels < 2 ^ 32)
    (hnr : A.n_tile_rows < 2 ^ 32) (hnc : A.n_tile_cols < 2 ^ 32)
    (hr : 1 ≤ A.n_tile_rows) (hc : 1 ≤ A.n_tile_cols) (hN : NoAlias c A) :
    ∀ t, t ≤ A.n_tile_rows * A.n_tile_cols →
      Frame c A s.mem (tile_entry c s t).mem ∧
      (OutInj c A → Done c A s.mem t 0 (tile_entry c s t).mem) := by
  intro t
  induction t with
  | zero =>
    intro _
    refine ⟨fun a _ => rfl, fun _ y x ch _ hd => ?_⟩
    rcases hd with hd | hd
    · exact absurd hd (by simp)
    · exact absurd hd.2 (by simp)
  | succ t ih =>
    intro ht
    obtain ⟨hF, hd⟩ := ih (by omega)
    have hTt := tile_entry_inv hT hV1 hV hn hnc hnr t (by rw [numTiles_eq A hr hc]; omega)
    obtain ⟨h1, h2⟩ := tile_exit_mem hTt (by omega) hV1 hV hn hN hF
    rw [tile_entry_succ]
    exact ⟨h1, fun hI => h2 hI (hd hI)⟩

theorem tileIdx_lt (A : Args) (y x : Nat) (hy : y < 4 * A.n_tile_rows)
    (hx : x < 4 * A.n_tile_cols) : tileIdx A y x < A.n_tile_rows * A.n_tile_cols := by
  unfold tileIdx
  have h1 : y / 4 + 1 ≤ A.n_tile_rows := by omega
  have h2 : x / 4 < A.n_tile_cols := by omega
  have h3 : (y / 4 + 1) * A.n_tile_cols ≤ A.n_tile_rows * A.n_tile_cols :=
    Nat.mul_le_mul_right _ h1
  rw [Nat.add_mul, Nat.one_mul] at h3
  omega

/-! ### The events along a run -/

theorem passesTrace_succ (c : Cfg) (A : Args) (i j k : Nat) :
    passesTrace c A i j (k + 1) = passesTrace c A i j k ++ loopTrace c A i j k := by
  simp [passesTrace, List.range_succ, List.flatMap_append]

theorem tilesTrace_succ (c : Cfg) (A : Args) (t : Nat) :
    tilesTrace c A (t + 1)
      = tilesTrace c A t ++ tileTrace c A (tileAt A t).1 (tileAt A t).2 := by
  simp [tilesTrace, List.range_succ, List.flatMap_append]

/-- The events up to the entry of pass `k` of a tile. -/
theorem pass_entry_trace {c : Cfg} {A : Args} {i j : Nat} {s : State} (h : TileInv A i j s)
    (hV1 : 1 ≤ c.VL) (hV : c.VL < 2 ^ 32) (hn : c.n_channels < 2 ^ 32) :
    ∀ k, k ≤ main_iters c → (pass_entry c s k).trace = s.trace ++ passesTrace c A i j k := by
  intro k
  induction k with
  | zero =>
    intro _
    show (exec c tile_setup s).trace = _
    rw [setup_trace_eq h hn]
    simp [passesTrace]
  | succ k ih =>
    intro hk
    rw [pass_entry_succ, loop_trace_eq (pass_entry_inv h hV1 hV hn k (by omega)) hn
      (pass_bound c hV hn k (by omega)), ih (by omega), passesTrace_succ, List.append_assoc]

/-- The events of a tile. -/
theorem tile_exit_trace {c : Cfg} {A : Args} {i j : Nat} {s : State} (h : TileInv A i j s)
    (hV1 : 1 ≤ c.VL) (hV : c.VL < 2 ^ 32) (hn : c.n_channels < 2 ^ 32) :
    (tile_exit c s).trace = s.trace ++ tileTrace c A i j := by
  unfold tile_exit
  rw [tail_trace_eq (pass_entry_inv h hV1 hV hn _ (Nat.le_refl _)) hn
    (pass_bound c hV hn _ (Nat.le_refl _)), pass_entry_trace h hV1 hV hn _ (Nat.le_refl _)]
  simp [tileTrace, List.append_assoc]

/-- The events of the first `t` tiles of a run. -/
theorem tile_entry_trace {c : Cfg} {A : Args} {s : State} (h : TileInv A 0 0 s)
    (hV1 : 1 ≤ c.VL) (hV : c.VL < 2 ^ 32) (hn : c.n_channels < 2 ^ 32)
    (hnc : A.n_tile_cols < 2 ^ 32) (hnr : A.n_tile_rows < 2 ^ 32) :
    ∀ t, t ≤ numTiles A → (tile_entry c s t).trace = s.trace ++ tilesTrace c A t := by
  intro t
  induction t with
  | zero => intro _; simp [tile_entry, tilesTrace]
  | succ t ih =>
    intro ht
    rw [tile_entry_succ, tile_exit_trace (tile_entry_inv h hV1 hV hn hnc hnr t (by omega))
      hV1 hV hn, ih (by omega), tilesTrace_succ, List.append_assoc]

/-- The memory outside the output region along a run. -/
theorem tile_entry_frame {c : Cfg} {A : Args} {s : State} (hT : TileInv A 0 0 s)
    (hV1 : 1 ≤ c.VL) (hV : c.VL < 2 ^ 32) (hn : c.n_channels < 2 ^ 32)
    (hnr : A.n_tile_rows < 2 ^ 32) (hnc : A.n_tile_cols < 2 ^ 32)
    (hr : 1 ≤ A.n_tile_rows) (hc : 1 ≤ A.n_tile_cols) :
    ∀ t, t ≤ A.n_tile_rows * A.n_tile_cols → Frame c A s.mem (tile_entry c s t).mem := by
  intro t
  induction t with
  | zero => intro _ a _; rfl
  | succ t ih =>
    intro ht
    have hF := ih (by omega)
    have hTt := tile_entry_inv hT hV1 hV hn hnc hnr t (by rw [numTiles_eq A hr hc]; omega)
    obtain ⟨hi, hj⟩ := tileAt_lt A t (by omega)
    have hpass : ∀ k, k ≤ main_iters c →
        Frame c A s.mem (pass_entry c (tile_entry c s t) k).mem := by
      intro k
      induction k with
      | zero => intro _; rw [show (pass_entry c (tile_entry c s t) 0).mem = _ from setup_mem c _]; exact hF
      | succ k ihk =>
        intro hk
        have hP := pass_entry_inv hTt hV1 hV hn k (by omega)
        rw [pass_entry_succ, loop_mem c _ hP.p3]
        exact pass_frame hP (ihk (by omega)) hi hj
    have hP := pass_entry_inv hTt hV1 hV hn (main_iters c) (Nat.le_refl _)
    rw [tile_entry_succ]
    show Frame c A s.mem (exec c channel_tail _).mem
    rw [tail_mem c _ hP.p3]
    exact pass_frame hP (hpass _ (Nat.le_refl _)) hi hj

/-! ### Addresses with signed strides -/

theorem eq_of_cast_lt {a b : Nat} (ha : a < W) (hb : b < W)
    (h : (a : ZMod W) = (b : ZMod W)) : a = b := by
  have := modW_eq_of_cast h
  rwa [Nat.mod_eq_of_lt ha, Nat.mod_eq_of_lt hb] at this

theorem W_pos : 0 < W := by norm_num [W]

theorem inAt_mkArgs (nr nc inptr : Nat) (ldir ldic : Int) (outptr : Nat) (ldor ldoc : Int)
    (params : Nat) (amin amax : Int) (y x ch : Nat) :
    inAt (mkArgs nr nc inptr ldir ldic outptr ldor ldoc params amin amax) y x ch
      = in_addr inptr ldir ldic y x ch := by
  apply eq_of_cast_lt (Nat.mod_lt _ W_pos) (u64_lt _)
  simp only [inAt, in_addr, mkArgs]
  push_cast [ZMod.natCast_mod, u64_cast]
  ring

theorem outAt_mkArgs (nr nc inptr : Nat) (ldir ldic : Int) (outptr : Nat) (ldor ldoc : Int)
    (params : Nat) (amin amax : Int) (y x ch : Nat) :
    outAt (mkArgs nr nc inptr ldir ldic outptr ldor ldoc params amin amax) y x ch
      = out_addr outptr ldor ldoc y x ch := by
  apply eq_of_cast_lt (Nat.mod_lt _ W_pos) (u64_lt _)
  simp only [outAt, out_addr, mkArgs]
  push_cast [ZMod.natCast_mod, u64_cast]
  ring

theorem parAt_mkArgs (nr nc inptr : Nat) (ldir ldic : Int) (outptr : Nat) (ldor ldoc : Int)
    (params : Nat) (amin amax : Int) (e : Nat) :
    parAt (mkArgs nr nc inptr ldir ldic outptr ldor ldoc params amin amax) e
      = par_addr params e := by
  apply eq_of_cast_lt (Nat.mod_lt _ W_pos) (u64_lt _)
  simp only [parAt, par_addr, mkArgs]
  push_cast [ZMod.natCast_mod, u64_cast]
  ring

theorem noAlias_mkArgs (VL nr nc inptr : Nat) (ldir ldic : Int) (outptr : Nat)
    (ldor ldoc : Int) (params n : Nat) (amin amax : Int)
    (h1 : OutNotInput nr nc n inptr ldir ldic outptr ldor ldoc)
    (h2 : OutNotParams VL nr nc n outptr ldor ldoc params) :
    NoAlias ⟨VL, n⟩ (mkArgs nr nc inptr ldir ldic outptr ldor ldoc params amin amax) := by
  refine ⟨?_, ?_⟩
  · intro y x ch y' x' ch' hg hy hx hch
    rw [outAt_mkArgs, inAt_mkArgs]
    exact h1 y hg.1 x hg.2.1 ch hg.2.2 y' hy x' hx ch' hch
  · intro y x ch e hg he
    rw [outAt_mkArgs, parAt_mkArgs]
    exact h2 y hg.1 x hg.2.1 ch hg.2.2 e he

theorem outInj_mkArgs (VL nr nc inptr : Nat) (ldir ldic : Int) (outptr : Nat)
    (ldor ldoc : Int) (params n : Nat) (amin amax : Int)
    (h : OutDistinct nr nc n outptr ldor ldoc) :
    OutInj ⟨VL, n⟩ (mkArgs nr nc inptr ldir ldic outptr ldor ldoc params amin amax) := by
  intro y x ch y' x' ch' hg hg' he
  rw [outAt_mkArgs, outAt_mkArgs] at he
  exact h y hg.1 x hg.2.1 ch hg.2.2 y' hg'.1 x' hg'.2.1 ch' hg'.2.2 he

theorem main_iters_le (c : Cfg) : main_iters c ≤ c.n_channels := by
  unfold main_iters
  exact (Nat.div_le_self _ _).trans (Nat.sub_le _ _)

theorem first_entry_mem (c : Cfg) (A : Args) (s0 : State) : (first_entry c A s0).mem = s0.mem :=
  rfl

theorem first_entry_trace (c : Cfg) (A : Args) (s0 : State) :
    (first_entry c A s0).trace = s0.trace := rfl

theorem refOut_packed (VL nr nc inptr : Nat) (ldir ldic : Int) (outptr : Nat)
    (ldor ldoc : Int) (params n : Nat) (amin amax : Int) (m : Nat → Int)
    (bias : Nat → Int) (w : Nat → Nat → Nat → Int) (hpack : Packed VL n params m bias w)
    (y x ch : Nat) (hch : ch < n) :
    refOut ⟨VL, n⟩ (mkArgs nr nc inptr ldir ldic outptr ldor ldoc params amin amax) m y x ch
      = min (max (bias ch + ∑ kr in Finset.range 3, ∑ kc in Finset.range 3,
          w kr kc ch * m (in_addr inptr ldir ldic (y + kr) (x + kc) ch)) amin) amax := by
  obtain ⟨hb, hw⟩ := hpack ch hch
  have h00 := hw 0 (by decide) 0 (by decide)
  have h01 := hw 0 (by decide) 1 (by decide)
  have h02 := hw 0 (by decide) 2 (by decide)
  have h10 := hw 1 (by decide) 0 (by decide)
  have h11 := hw 1 (by decide) 1 (by decide)
  have h12 := hw 1 (by decide) 2 (by decide)
  have h20 := hw 2 (by decide) 0 (by decide)
  have h21 := hw 2 (by decide) 1 (by decide)
  have h22 := hw 2 (by decide) 2 (by decide)
  simp only [refOut, parAt_mkArgs, inAt_mkArgs, taps, List.map_cons, List.map_nil,
    List.sum_cons, List.sum_nil, Finset.sum_range_succ, Finset.sum_range_zero, hb,
    h00, h01, h02, h10, h11, h12, h20, h21, h22]
  have e1 : (mkArgs nr nc inptr ldir ldic outptr ldor ldoc params amin amax).min = amin := rfl
  have e2 : (mkArgs nr nc inptr ldir ldic outptr ldor ldoc params amin amax).max = amax := rfl
  rw [e1, e2]
  congr 2
  ring

/-- C1 (reference equivalence, arithmetic taken exactly).  For every tile
grid with `n_tile_rows, n_tile_cols >= 1`, every `n_channels` and vector
width `VL >= 1`, all strides, packed weights and bias, and all activation
bounds (in particular those with `activation_min <= activation_max`), when
distinct output elements have distinct addresses and the output region
shares no address with the input window and the params block, the kernel
returns (given enough fuel) and every output element `(y, x, ch)` of the
grid holds `min (max (bias ch + sum over kr, kc < 3 of w kr kc ch *
in (y + kr) (x + kc) ch) activation_min) activation_max`, the input being
read from the memory before the call. -/
theorem C1_reference_equivalence (VL fuel n_tile_rows n_tile_cols inptr : Nat)
    (ld_input_row ld_input_col : Int) (outptr : Nat) (ld_output_row ld_output_col : Int)
    (params n_channels : Nat) (activation_min activation_max : Int) (s0 : State)
    (bias : Nat → Int) (w : Nat → Nat → Nat → Int)
    (hVL : 1 ≤ VL) (hVL32 : VL < 2 ^ 32)
    (hr : 1 ≤ n_tile_rows) (hr32 : n_tile_rows < 2 ^ 32)
    (hc : 1 ≤ n_tile_cols) (hc32 : n_tile_cols < 2 ^ 32) (hn32 : n_channels < 2 ^ 32)
    (hpack : Packed VL n_channels params s0.mem bias w)
    (hdist : OutDistinct n_tile_rows n_tile_cols n_channels outptr ld_output_row ld_output_col)
    (hin : OutNotInput n_tile_rows n_tile_cols n_channels inptr ld_input_row ld_input_col
      outptr ld_output_row ld_output_col)
    (hpar : OutNotParams VL n_tile_rows n_tile_cols n_channels outptr ld_output_row
      ld_output_col params)
    (hfuel : n_tile_rows * n_tile_cols + n_channels ≤ fuel) :
    ∃ s1, sve_fp32_nhwc_3x3_s1_output4x4_mla_depthfirst_direct_impl VL fuel n_tile_rows
        n_tile_cols inptr ld_input_row ld_input_col outptr ld_output_row ld_output_col params
        n_channels activation_min activation_max s0 = some s1 ∧
      ∀ y x ch, y < 4 * n_tile_rows → x < 4 * n_tile_cols → ch < n_channels →
        s1.mem (out_addr outptr ld_output_row ld_output_col y x ch)
          = min (max (bias ch + ∑ kr in Finset.range 3, ∑ kc in Finset.range 3,
              w kr kc ch * s0.mem (in_addr inptr ld_input_row ld_input_col (y + kr) (x + kc) ch))
            activation_min) activation_max := by
  have hA : numTiles (mkArgs n_tile_rows n_tile_cols inptr ld_input_row ld_input_col outptr
      ld_output_row ld_output_col params activation_min activation_max)
      = n_tile_rows * n_tile_cols := numTiles_eq _ hr hc
  have hm : main_iters ⟨VL, n_channels⟩ ≤ n_channels := main_iters_le _
  refine ⟨_, impl_eq VL fuel n_tile_rows n_tile_cols inptr ld_input_row ld_input_col outptr
    ld_output_row ld_output_col params n_channels activation_min activation_max s0 hVL hVL32
    hn32 hr32 hc32 (by rw [hA]; show _ + main_iters ⟨VL, n_channels⟩ ≤ _; omega), ?_⟩
  intro y x ch hy hx hch
  rw [hA]
  have hrun := (tile_entry_mem (c := ⟨VL, n_channels⟩)
    (first_entry_inv ⟨VL, n_channels⟩ (mkArgs n_tile_rows n_tile_cols inptr ld_input_row
      ld_input_col outptr ld_output_row ld_output_col params activation_min activation_max) s0)
    hVL hVL32 hn32 hr32 hc32 hr hc
    (noAlias_mkArgs VL _ _ _ _ _ _ _ _ _ _ _ _ hin hpar)
    (n_tile_rows * n_tile_cols) (Nat.le_refl _)).2
    (outInj_mkArgs VL _ _ _ _ _ _ _ _ _ _ _ _ hdist) y x ch ⟨hy, hx, hch⟩
    (Or.inl (tileIdx_lt _ y x hy hx))
  rw [outAt_mkArgs] at hrun
  rw [hrun, first_entry_mem]
  exact refOut_packed VL _ _ _ _ _ _ _ _ _ _ _ _ _ _ _ hpack y x ch hch

/-! ### The concrete call -/

theorem u64_natCast (n : Nat) (h : n < W) : u64 (n : Int) = n := by
  unfold u64
  rw [Int.emod_eq_of_lt (Int.natCast_nonneg n) (by exact_mod_cast h)]
  exact Int.toNat_natCast n

theorem out_addr_of_nat (outptr r c y x ch : Nat) (h : outptr + 4 * (y * r + x * c + ch) < W) :
    out_addr outptr (r : Int) (c : Int) y x ch = outptr + 4 * (y * r + x * c + ch) := by
  unfold out_addr
  rw [← u64_natCast _ h]
  push_cast
  rfl

theorem in_addr_of_nat (inptr r c y x ch : Nat) (h : inptr + 4 * (y * r + x * c + ch) < W) :
    in_addr inptr (r : Int) (c : Int) y x ch = inptr + 4 * (y * r + x * c + ch) := by
  unfold in_addr
  rw [← u64_natCast _ h]
  push_cast
  rfl

theorem par_addr_of_nat (params e : Nat) (h : params + 4 * e < W) :
    par_addr params e = params + 4 * e := by
  unfold par_addr
  rw [← u64_natCast _ h]
  push_cast
  rfl

theorem packedW : Packed 4 9 8000 (State.init memW).mem biasW wW :=
  fun _ _ => ⟨rfl, fun _ _ _ _ => rfl⟩

theorem outW (y x ch : Nat) (hy : y < 10) (hx : x < 10) (hch : ch < 12) :
    out_addr 4000 72 9 y x ch = 4000 + 4 * (y * 72 + x * 9 + ch) := by
  have := out_addr_of_nat 4000 72 9 y x ch (by simp only [W]; omega)
  simpa using this

theorem inW (y x ch : Nat) (hy : y < 10) (hx : x < 10) (hch : ch < 12) :
    in_addr 0 90 9 y x ch = 0 + 4 * (y * 90 + x * 9 + ch) := by
  have := in_addr_of_nat 0 90 9 y x ch (by simp only [W]; omega)
  simpa using this

theorem outDistinctW : OutDistinct 2 2 9 4000 72 9 := by
  intro y hy x hx ch hch y' hy' x' hx' ch' hch' h
  rw [outW y x ch (by omega) (by omega) (by omega),
    outW y' x' ch' (by omega) (by omega) (by omega)] at h
  omega

theorem outNotInputW : OutNotInput 2 2 9 0 90 9 4000 72 9 := by
  intro y hy x hx ch hch y' hy' x' hx' ch' hch'
  rw [outW y x ch (by omega) (by omega) (by omega),
    inW y' x' ch' (by omega) (by omega) (by omega)]
  omega

theorem outNotParamsW : OutNotParams 4 2 2 9 4000 72 9 8000 := by
  intro y hy x hx ch hch e he
  rw [outW y x ch (by omega) (by omega) (by omega),
    par_addr_of_nat 8000 e (by simp only [W]; omega)]
  have he2 : e < 120 := he
  omega

/-- The reference equivalence on the concrete 2x2 call. -/
theorem C1_reference_equivalence_witness :
    ∃ s1, sve_fp32_nhwc_3x3_s1_output4x4_mla_depthfirst_direct_impl 4 18 2 2 0 90 9 4000 72 9
        8000 9 (-5) 20 (State.init memW) = some s1 ∧
      ∀ y x ch, y < 4 * 2 → x < 4 * 2 → ch < 9 →
        s1.mem (out_addr 4000 72 9 y x ch)
          = min (max (biasW ch + ∑ kr in Finset.range 3, ∑ kc in Finset.range 3,
              wW kr kc ch * (State.init memW).mem (in_addr 0 90 9 (y + kr) (x + kc) ch))
            (-5)) 20 :=
  C1_reference_equivalence 4 18 2 2 0 90 9 4000 72 9 8000 9 (-5) 20 (State.init memW) biasW wW
    (by decide) (by decide) (by decide) (by decide) (by decide) (by decide) (by decide)
    packedW outDistinctW outNotInputW outNotParamsW (by decide)

/-! ### Counting the stores of a run -/

theorem count_flatMap_zero {α β : Type} [DecidableEq β] (l : List α) (f : α → List β) (b : β)
    (h : ∀ a ∈ l, (f a).count b = 0) : (l.flatMap f).count b = 0 := by
  induction l with
  | nil => rfl
  | cons a l ih =>
    rw [List.flatMap_cons, List.count_append, h a (List.mem_cons_self _ _),
      ih (fun x hx => h x (List.mem_cons_of_mem _ hx))]

theorem count_wr_rdLanes (VL a : Nat) (p : Nat → Bool) (b : Nat) :
    (rdLanes VL a p).count (Event.wr b) = 0 := by
  apply List.count_eq_zero_of_not_mem
  simp [rdLanes]

theorem count_wr_events (c : Cfg) (A : Args) (i j k : Nat) (b : Nat) (ac : Access) :
    (Access.events c A i j k ac).count (Event.wr b) = 0 := by
  cases ac <;> exact count_wr_rdLanes _ _ _ _

theorem count_wr_eventsS (c : Cfg) (A : Args) (i j : Nat) (b : Nat) (ac : Access) :
    (Access.eventsS c A i j ac).count (Event.wr b) = 0 := by
  cases ac <;> exact count_wr_rdLanes _ _ _ _

theorem count_wr_setupTrace (c : Cfg) (A : Args) (i j : Nat) (b : Nat) :
    (setupTrace c A i j).count (Event.wr b) = 0 := by
  unfold setupTrace
  rw [List.count_cons_of_ne (by simp), List.count_cons_of_ne (by simp),
    List.count_cons_of_ne (by simp)]
  exact count_flatMap_zero _ _ _ (fun a _ => count_wr_eventsS c A i j b a)

theorem count_wr_loopTrace (c : Cfg) (A : Args) (i j k : Nat) (b : Nat) :
    (loopTrace c A i j k).count (Event.wr b) = (passWr c A i j k).count (Event.wr b) := by
  unfold loopTrace
  rw [List.count_cons_of_ne (by simp), List.count_append,
    count_flatMap_zero _ _ _ (fun a _ => count_wr_events c A i j k b a), Nat.zero_add]

theorem count_wr_tailTrace (c : Cfg) (A : Args) (i j k : Nat) (b : Nat) :
    (tailTrace c A i j k).count (Event.wr b) = (passWr c A i j k).count (Event.wr b) := by
  unfold tailTrace
  rw [List.count_cons_of_ne (by simp), List.count_append,
    count_flatMap_zero _ _ _ (fun a _ => count_wr_events c A i j k b a), Nat.zero_add]

/-- The stores of a pass, one per pixel and active lane. -/
theorem passWr_eq (c : Cfg) (A : Args) (i j k : Nat) :
    passWr c A i j k = (pixels ×ˢ lanes c.VL (predAt c k)).map
      (fun t => Event.wr (outAt A (4 * i + t.1.1) (4 * j + t.1.2) (k * c.VL + t.2))) := by
  show _ = (List.product pixels (lanes c.VL (predAt c k))).map _
  simp only [passWr, wrLanes, List.product, List.map_flatMap, List.map_map, lane_out]
  rfl

theorem pixels_nodup : pixels.Nodup := by decide

theorem lanes_nodup (VL : Nat) (p : Nat → Bool) : (lanes VL p).Nodup :=
  (List.nodup_range VL).filter _

theorem mem_passWr (c : Cfg) (A : Args) (i j k : Nat) (e : Event) :
    e ∈ passWr c A i j k ↔ ∃ r cc l, r < 4 ∧ cc < 4 ∧ l < c.VL ∧ k * c.VL + l < c.n_channels ∧
      e = Event.wr (outAt A (4 * i + r) (4 * j + cc) (k * c.VL + l)) := by
  rw [passWr_eq]
  simp only [List.mem_map, List.mem_product, mem_lanes, predAt_iff, Prod.exists]
  constructor
  · rintro ⟨r, cc, l, ⟨hp, hl, hn⟩, rfl⟩
    exact ⟨r, cc, l, (pixels_bound _ hp).1, (pixels_bound _ hp).2, hl, hn, rfl⟩
  · rintro ⟨r, cc, l, hr, hc, hl, hn, rfl⟩
    exact ⟨r, cc, l, ⟨mem_pixels r hr cc hc, hl, hn⟩, rfl⟩

theorem passWr_nodup {c : Cfg} {A : Args} (hO : OutInj c A) (i j k : Nat)
    (hi : i < A.n_tile_rows) (hj : j < A.n_tile_cols) : (passWr c A i j k).Nodup := by
  rw [passWr_eq]
  refine List.Nodup.map_on ?_ (pixels_nodup.product (lanes_nodup _ _))
  rintro ⟨⟨r, cc⟩, l⟩ h1 ⟨⟨r', cc'⟩, l'⟩ h2 he
  simp only [List.mem_product, mem_lanes, predAt_iff] at h1 h2
  have b1 := pixels_bound _ h1.1
  have b2 := pixels_bound _ h2.1
  simp only at b1 b2 he
  have := hO _ _ _ _ _ _ ⟨by omega, by omega, h1.2.2⟩ ⟨by omega, by omega, h2.2.2⟩
    (Event.wr.inj he)
  simp only [Prod.mk.injEq]
  omega

/-- A pass stores once to the elements of its tile and channel group, and
to no other element of the grid. -/
theorem count_passWr {c : Cfg} {A : Args} (hO : OutInj c A) (hV1 : 1 ≤ c.VL) (i j k : Nat)
    (hi : i < A.n_tile_rows) (hj : j < A.n_tile_cols) (y x ch : Nat) (hg : InGrid c A y x ch) :
    (passWr c A i j k).count (Event.wr (outAt A y x ch))
      = if y / 4 = i ∧ x / 4 = j ∧ ch / c.VL = k then 1 else 0 := by
  split
  · rename_i h
    apply List.count_eq_one_of_mem (passWr_nodup hO i j k hi hj)
    rw [mem_passWr]
    have hm := Nat.div_add_mod ch c.VL
    rw [h.2.2, Nat.mul_comm] at hm
    refine ⟨y % 4, x % 4, ch % c.VL, Nat.mod_lt _ (by decide), Nat.mod_lt _ (by decide),
      Nat.mod_lt _ (by omega), by rw [hm]; exact hg.2.2, ?_⟩
    rw [hm]
    congr 2 <;> omega
  · rename_i h
    apply List.count_eq_zero_of_not_mem
    rw [mem_passWr]
    rintro ⟨r, cc, l, hr, hc, hl, hn, he⟩
    have := hO _ _ _ _ _ _ hg ⟨by omega, by omega, hn⟩ (Event.wr.inj he)
    apply h
    refine ⟨by omega, by omega, ?_⟩
    rw [this.2.2]
    exact (div_mod_lane _ _ _ hl).1

theorem count_passesTrace {c : Cfg} {A : Args} (hO : OutInj c A) (hV1 : 1 ≤ c.VL) (i j : Nat)
    (hi : i < A.n_tile_rows) (hj : j < A.n_tile_cols) (y x ch : Nat) (hg : InGrid c A y x ch)
    (k : Nat) :
    (passesTrace c A i j k).count (Event.wr (outAt A y x ch))
      = if y / 4 = i ∧ x / 4 = j ∧ ch / c.VL < k then 1 else 0 := by
  induction k with
  | zero =>
    simp only [passesTrace, List.range_zero, List.flatMap_nil, List.append_nil,
      count_wr_setupTrace]
    simp
  | succ k ih =>
    rw [passesTrace_succ, List.count_append, ih, count_wr_loopTrace,
      count_passWr hO hV1 i j k hi hj y x ch hg]
    split_ifs <;> first | rfl | omega

theorem count_tileTrace {c : Cfg} {A : Args} (hO : OutInj c A) (hV1 : 1 ≤ c.VL) (i j : Nat)
    (hi : i < A.n_tile_rows) (hj : j < A.n_tile_cols) (y x ch : Nat) (hg : InGrid c A y x ch) :
    (tileTrace c A i j).count (Event.wr (outAt A y x ch))
      = if y / 4 = i ∧ x / 4 = j then 1 else 0 := by
  unfold tileTrace
  rw [List.count_append, count_passesTrace hO hV1 i j hi hj y x ch hg, count_wr_tailTrace,
    count_passWr hO hV1 i j _ hi hj y x ch hg]
  have h1 := n_le_main c hV1
  have h2 : ch / c.VL < main_iters c + 1 := (Nat.div_lt_iff_lt_mul (by omega)).mpr
    (Nat.lt_of_lt_of_le hg.2.2 h1)
  split_ifs <;> first | rfl | omega

theorem count_tilesTrace {c : Cfg} {A : Args} (hO : OutInj c A) (hV1 : 1 ≤ c.VL)
    (y x ch : Nat) (hg : InGrid c A y x ch) :
    ∀ t, t ≤ A.n_tile_rows * A.n_tile_cols →
      (tilesTrace c A t).count (Event.wr (outAt A y x ch))
        = if tileIdx A y x < t then 1 else 0 := by
  intro t
  induction t with
  | zero => intro _; simp [tilesTrace]
  | succ t ih =>
    intro ht
    obtain ⟨hi, hj⟩ := tileAt_lt A t (by omega)
    have hc : 1 ≤ A.n_tile_cols := by omega
    have hiff := tileIdx_iff A t hc y x hg.2.1
    rw [tilesTrace_succ, List.count_append, ih (by omega),
      count_tileTrace hO hV1 _ _ hi hj y x ch hg]
    split_ifs <;> first | rfl | omega

theorem numTiles_le (A : Args) : numTiles A ≤ (A.n_tile_rows + 1) * (A.n_tile_cols + 1) := by
  unfold numTiles
  split
  · exact Nat.mul_pos (by omega) (by omega)
  · exact Nat.mul_le_mul (by omega) (by omega)

/-- The kernel returns, given a bound on the fuel in the arguments, the state after
`numTiles` tiles. -/
theorem impl_run (VL fuel n_tile_rows n_tile_cols inptr : Nat) (ld_input_row ld_input_col : Int)
    (outptr : Nat) (ld_output_row ld_output_col : Int) (params n_channels : Nat)
    (activation_min activation_max : Int) (s0 : State)
    (hV1 : 1 ≤ VL) (hV : VL < 2 ^ 32) (hn : n_channels < 2 ^ 32)
    (hnr : n_tile_rows < 2 ^ 32) (hnc : n_tile_cols < 2 ^ 32)
    (hfuel : (n_tile_rows + 1) * (n_tile_cols + 1) + n_channels ≤ fuel) :
    sve_fp32_nhwc_3x3_s1_output4x4_mla_depthfirst_direct_impl VL fuel n_tile_rows n_tile_cols
      inptr ld_input_row ld_input_col outptr ld_output_row ld_output_col params n_channels
      activation_min activation_max s0
      = some (tile_entry ⟨VL, n_channels⟩ (first_entry ⟨VL, n_channels⟩
          (mkArgs n_tile_rows n_tile_cols inptr ld_input_row ld_input_col outptr
            ld_output_row ld_output_col params activation_min activation_max) s0)
          (numTiles (mkArgs n_tile_rows n_tile_cols inptr ld_input_row ld_input_col outptr
            ld_output_row ld_output_col params activation_min activation_max))) := by
  have h1 := numTiles_le (mkArgs n_tile_rows n_tile_cols inptr ld_input_row ld_input_col outptr
    ld_output_row ld_output_col params activation_min activation_max)
  have h2 : main_iters ⟨VL, n_channels⟩ ≤ n_channels := main_iters_le _
  have h3 : (mkArgs n_tile_rows n_tile_cols inptr ld_input_row ld_input_col outptr
    ld_output_row ld_output_col params activation_min activation_max).n_tile_rows
      = n_tile_rows := rfl
  have h4 : (mkArgs n_tile_rows n_tile_cols inptr ld_input_row ld_input_col outptr
    ld_output_row ld_output_col params activation_min activation_max).n_tile_cols
      = n_tile_cols := rfl
  rw [h3, h4] at h1
  exact impl_eq VL fuel n_tile_rows n_tile_cols inptr ld_input_row ld_input_col outptr
    ld_output_row ld_output_col params n_channels activation_min activation_max s0 hV1 hV hn
    hnr hnc (by show _ + main_iters ⟨VL, n_channels⟩ ≤ _; omega)

/-- The events of a call. -/
theorem impl_trace (VL n_tile_rows n_tile_cols inptr : Nat) (ld_input_row ld_input_col : Int)
    (outptr : Nat) (ld_output_row ld_output_col : Int) (params n_channels : Nat)
    (activation_min activation_max : Int) (s0 : State)
    (hV1 : 1 ≤ VL) (hV : VL < 2 ^ 32) (hn : n_channels < 2 ^ 32)
    (hnr : n_tile_rows < 2 ^ 32) (hnc : n_tile_cols < 2 ^ 32) :
    (tile_entry ⟨VL, n_channels⟩ (first_entry ⟨VL, n_channels⟩
          (mkArgs n_tile_rows n_tile_cols inptr ld_input_row ld_input_col outptr
            ld_output_row ld_output_col params activation_min activation_max) s0)
          (numTiles (mkArgs n_tile_rows n_tile_cols inptr ld_input_row ld_input_col outptr
            ld_output_row ld_output_col params activation_min activation_max))).trace
      = s0.trace ++ tilesTrace ⟨VL, n_channels⟩
          (mkArgs n_tile_rows n_tile_cols inptr ld_input_row ld_input_col outptr
            ld_output_row ld_output_col params activation_min activation_max)
          (numTiles (mkArgs n_tile_rows n_tile_cols inptr ld_input_row ld_input_col outptr
            ld_output_row ld_output_col params activation_min activation_max)) := by
  rw [tile_entry_trace (first_entry_inv _ _ s0) hV1 hV hn hnc hnr _ (Nat.le_refl _),
    first_entry_trace]

/-- C2 (tile-grid completeness).  For all tile counts, every `n_channels`
and vector width `VL >= 1`, when distinct output elements of the grid have
distinct addresses, the kernel returns (given enough fuel) and the events
`tr` of the call hold exactly one store to the address of every output
element `(y, x, ch)` with `y < 4 * n_tile_rows`, `x < 4 * n_tile_cols` and
`ch < n_channels`. -/
theorem C2_tile_grid_completeness (VL fuel n_tile_rows n_tile_cols inptr : Nat)
    (ld_input_row ld_input_col : Int) (outptr : Nat) (ld_output_row ld_output_col : Int)
    (params n_channels : Nat) (activation_min activation_max : Int) (s0 : State)
    (hVL : 1 ≤ VL) (hVL32 : VL < 2 ^ 32) (hr32 : n_tile_rows < 2 ^ 32)
    (hc32 : n_tile_cols < 2 ^ 32) (hn32 : n_channels < 2 ^ 32)
    (hdist : OutDistinct n_tile_rows n_tile_cols n_channels outptr ld_output_row ld_output_col)
    (hfuel : (n_tile_rows + 1) * (n_tile_cols + 1) + n_channels ≤ fuel) :
    ∃ s1 tr, sve_fp32_nhwc_3x3_s1_output4x4_mla_depthfirst_direct_impl VL fuel n_tile_rows
        n_tile_cols inptr ld_input_row ld_input_col outptr ld_output_row ld_output_col params
        n_channels activation_min activation_max s0 = some s1 ∧
      s1.trace = s0.trace ++ tr ∧
      ∀ y x ch, y < 4 * n_tile_rows → x < 4 * n_tile_cols → ch < n_channels →
        tr.count (Event.wr (out_addr outptr ld_output_row ld_output_col y x ch)) = 1 := by
  refine ⟨_, _, impl_run VL fuel n_tile_rows n_tile_cols inptr ld_input_row ld_input_col outptr
    ld_output_row ld_output_col params n_channels activation_min activation_max s0 hVL hVL32
    hn32 hr32 hc32 hfuel, impl_trace VL n_tile_rows n_tile_cols inptr ld_input_row ld_input_col
    outptr ld_output_row ld_output_col params n_channels activation_min activation_max s0 hVL
    hVL32 hn32 hr32 hc32, ?_⟩
  intro y x ch hy hx hch
  have hA : numTiles (mkArgs n_tile_rows n_tile_cols inptr ld_input_row ld_input_col outptr
      ld_output_row ld_output_col params activation_min activation_max)
      = n_tile_rows * n_tile_cols :=
    numTiles_eq _ (show 1 ≤ n_tile_rows by omega) (show 1 ≤ n_tile_cols by omega)
  rw [hA, ← outAt_mkArgs n_tile_rows n_tile_cols inptr ld_input_row ld_input_col outptr
    ld_output_row ld_output_col params activation_min activation_max,
    count_tilesTrace (c := ⟨VL, n_channels⟩)
      (outInj_mkArgs VL _ _ _ _ _ _ _ _ _ _ _ _ hdist) hVL y x ch ⟨hy, hx, hch⟩
      (n_tile_rows * n_tile_cols) (Nat.le_refl _)]
  exact if_pos (tileIdx_lt _ y x hy hx)

/-- The tile-grid completeness on the concrete call. -/
theorem C2_tile_grid_completeness_witness :
    ∃ s1 tr, sve_fp32_nhwc_3x3_s1_output4x4_mla_depthfirst_direct_impl 4 18 2 2 0 90 9 4000 72 9
        8000 9 (-5) 20 (State.init memW) = some s1 ∧
      s1.trace = (State.init memW).trace ++ tr ∧
      ∀ y x ch, y < 4 * 2 → x < 4 * 2 → ch < 9 →
        tr.count (Event.wr (out_addr 4000 72 9 y x ch)) = 1 :=
  C2_tile_grid_completeness 4 18 2 2 0 90 9 4000 72 9 8000 9 (-5) 20 (State.init memW)
    (by decide) (by decide) (by decide) (by decide) (by decide) outDistinctW (by decide)

/-! ### Where the stores of a run go -/

theorem not_wr_mem_rdLanes (VL a : Nat) (p : Nat → Bool) (b : Nat) :
    Event.wr b ∉ rdLanes VL a p := by
  simp [rdLanes]

theorem not_wr_mem_events (c : Cfg) (A : Args) (i j k : Nat) (b : Nat) (ac : Access) :
    Event.wr b ∉ Access.events c A i j k ac := by
  cases ac <;> exact not_wr_mem_rdLanes _ _ _ _

theorem not_wr_mem_eventsS (c : Cfg) (A : Args) (i j : Nat) (b : Nat) (ac : Access) :
    Event.wr b ∉ Access.eventsS c A i j ac := by
  cases ac <;> exact not_wr_mem_rdLanes _ _ _ _

/-- A store event of a tile is a store of one of its passes. -/
theorem wr_mem_tileTrace (c : Cfg) (A : Args) (i j : Nat) (b : Nat)
    (h : Event.wr b ∈ tileTrace c A i j) :
    ∃ k, k ≤ main_iters c ∧ Event.wr b ∈ passWr c A i j k := by
  simp only [tileTrace, passesTrace, setupTrace, loopTrace, tailTrace, List.mem_append,
    List.mem_cons, List.mem_flatMap, List.mem_range, not_wr_mem_eventsS, not_wr_mem_events,
    and_false, exists_false, false_or, or_false, reduceCtorEq] at h
  rcases h with ⟨k, hk, h⟩ | h
  · exact ⟨k, by omega, h⟩
  · exact ⟨_, Nat.le_refl _, h⟩

/-- A store event of a run goes to an output element of the grid. -/
theorem wr_mem_tilesTrace (c : Cfg) (A : Args) (t : Nat) (ht : t ≤ A.n_tile_rows * A.n_tile_cols)
    (b : Nat) (h : Event.wr b ∈ tilesTrace c A t) :
    ∃ y x ch, InGrid c A y x ch ∧ b = outAt A y x ch := by
  simp only [tilesTrace, List.mem_flatMap, List.mem_range] at h
  obtain ⟨u, hu, h⟩ := h
  obtain ⟨hi, hj⟩ := tileAt_lt A u (by omega)
  obtain ⟨k, _, h⟩ := wr_mem_tileTrace c A _ _ b h
  rw [mem_passWr] at h
  obtain ⟨r, cc, l, hr, hc, _, hn, he⟩ := h
  exact ⟨_, _, _, ⟨by omega, by omega, hn⟩, Event.wr.inj he⟩

/-- C3, as the code has it (tail frame).  For every tile grid with
`n_tile_rows, n_tile_cols >= 1`, every `n_channels` (a multiple of `VL` or
not) and every `VL >= 1`, the kernel returns (given enough fuel); every
store event of the call, of a main-loop pass or of the tail pass, is at the
address of an output element `(y, x, ch)` of the grid with
`ch < n_channels`; and every address that is not the address of such an
element holds after the call the value it had before.  So the element at a
channel index `>= n_channels` of a pixel's vector keeps its value whenever
its address is not that of an element of the grid. -/
theorem C3_tail_frame (VL fuel n_tile_rows n_tile_cols inptr : Nat)
    (ld_input_row ld_input_col : Int) (outptr : Nat) (ld_output_row ld_output_col : Int)
    (params n_channels : Nat) (activation_min activation_max : Int) (s0 : State)
    (hVL : 1 ≤ VL) (hVL32 : VL < 2 ^ 32)
    (hr : 1 ≤ n_tile_rows) (hr32 : n_tile_rows < 2 ^ 32)
    (hc : 1 ≤ n_tile_cols) (hc32 : n_tile_cols < 2 ^ 32) (hn32 : n_channels < 2 ^ 32)
    (hfuel : (n_tile_rows + 1) * (n_tile_cols + 1) + n_channels ≤ fuel) :
    ∃ s1 tr, sve_fp32_nhwc_3x3_s1_output4x4_mla_depthfirst_direct_impl VL fuel n_tile_rows
        n_tile_cols inptr ld_input_row ld_input_col outptr ld_output_row ld_output_col params
        n_channels activation_min activation_max s0 = some s1 ∧
      s1.trace = s0.trace ++ tr ∧
      (∀ a, Event.wr a ∈ tr → ∃ y x ch, y < 4 * n_tile_rows ∧ x < 4 * n_tile_cols ∧
        ch < n_channels ∧ a = out_addr outptr ld_output_row ld_output_col y x ch) ∧
      (∀ a, (∀ y x ch, y < 4 * n_tile_rows → x < 4 * n_tile_cols → ch < n_channels →
          a ≠ out_addr outptr ld_output_row ld_output_col y x ch) → s1.mem a = s0.mem a) := by
  have hA : numTiles (mkArgs n_tile_rows n_tile_cols inptr ld_input_row ld_input_col outptr
      ld_output_row ld_output_col params activation_min activation_max)
      = n_tile_rows * n_tile_cols := numTiles_eq _ hr hc
  refine ⟨_, _, impl_run VL fuel n_tile_rows n_tile_cols inptr ld_input_row ld_input_col outptr
    ld_output_row ld_output_col params n_channels activation_min activation_max s0 hVL hVL32
    hn32 hr32 hc32 hfuel, impl_trace VL n_tile_rows n_tile_cols inptr ld_input_row ld_input_col
    outptr ld_output_row ld_output_col params n_channels activation_min activation_max s0 hVL
    hVL32 hn32 hr32 hc32, ?_, ?_⟩
  · intro a ha
    rw [hA] at ha
    obtain ⟨y, x, ch, hg, he⟩ := wr_mem_tilesTrace _ _ _ (Nat.le_refl _) a ha
    rw [outAt_mkArgs] at he
    exact ⟨y, x, ch, hg.1, hg.2.1, hg.2.2, he⟩
  · intro a ha
    rw [hA]
    have hF := tile_entry_frame (c := ⟨VL, n_channels⟩)
      (first_entry_inv ⟨VL, n_channels⟩ (mkArgs n_tile_rows n_tile_cols inptr ld_input_row
        ld_input_col outptr ld_output_row ld_output_col params activation_min activation_max) s0)
      hVL hVL32 hn32 hr32 hc32 hr hc (n_tile_rows * n_tile_cols) (Nat.le_refl _)
    rw [hF a, first_entry_mem]
    intro y x ch hg
    rw [outAt_mkArgs]
    exact ha y x ch hg.1 hg.2.1 hg.2.2

/-- The tail frame on the concrete call. -/
theorem C3_tail_frame_witness :
    ∃ s1 tr, sve_fp32_nhwc_3x3_s1_output4x4_mla_depthfirst_direct_impl 4 18 2 2 0 90 9 4000 72 9
        8000 9 (-5) 20 (State.init memW) = some s1 ∧
      s1.trace = (State.init memW).trace ++ tr ∧
      (∀ a, Event.wr a ∈ tr → ∃ y x ch, y < 4 * 2 ∧ x < 4 * 2 ∧
        ch < 9 ∧ a = out_addr 4000 72 9 y x ch) ∧
      (∀ a, (∀ y x ch, y < 4 * 2 → x < 4 * 2 → ch < 9 →
          a ≠ out_addr 4000 72 9 y x ch) → s1.mem a = (State.init memW).mem a) :=
  C3_tail_frame 4 18 2 2 0 90 9 4000 72 9 8000 9 (-5) 20 (State.init memW)
    (by decide) (by decide) (by decide) (by decide) (by decide) (by decide) (by decide)
    (by decide)

set_option maxRecDepth 100000 in
/-- C3 as stated fails on a dense output (`ld_output_col = n_channels = 3`,
`VL = 2`, so `n_channels` is not a multiple of `VL`): the element at channel
index 3 of the vector of output pixel `(0, 0)` is element `(0, 1, 0)`; it
holds `-2` before the call and `-5` after it. -/
theorem C3_dense_layout_counterexample :
    3 % 2 ≠ 0 ∧ out_addr 1000 12 3 0 0 3 = out_addr 1000 12 3 0 1 0 ∧
    (sve_fp32_nhwc_3x3_s1_output4x4_mla_depthfirst_direct_impl 2 7 1 1 0 18 3 1000 12 3
        2000 3 (-5) 20 (State.init memW)).map
      (fun s1 => (s1.mem (out_addr 1000 12 3 0 0 3),
        (State.init memW).mem (out_addr 1000 12 3 0 0 3))) = some (-5, -2) := by
  decide!

/-! ### The labels and the tile indices of a run -/

theorem filterMap_nil_of_mem {α β : Type} (f : α → Option β) (l : List α)
    (h : ∀ e ∈ l, f e = none) : l.filterMap f = [] := by
  induction l with
  | nil => rfl
  | cons a l ih =>
    rw [List.filterMap_cons, h a (List.mem_cons_self _ _)]
    exact ih (fun e he => h e (List.mem_cons_of_mem _ he))

theorem mem_rdLanes (VL a : Nat) (p : Nat → Bool) (e : Event) (h : e ∈ rdLanes VL a p) :
    ∃ b, e = Event.rd b := by
  simp only [rdLanes, List.mem_map] at h
  obtain ⟨l, _, rfl⟩ := h
  exact ⟨_, rfl⟩

theorem mem_events (c : Cfg) (A : Args) (i j k : Nat) (ac : Access) (e : Event)
    (h : e ∈ Access.events c A i j k ac) : ∃ b, e = Event.rd b := by
  cases ac <;> exact mem_rdLanes _ _ _ _ h

theorem mem_eventsS (c : Cfg) (A : Args) (i j : Nat) (ac : Access) (e : Event)
    (h : e ∈ Access.eventsS c A i j ac) : ∃ b, e = Event.rd b := by
  cases ac <;> exact mem_rdLanes _ _ _ _ h

/-- The events of the loads and stores of a block carry no label and no tile index. -/
theorem filterMap_accesses {β : Type} (f : Event → Option β) (hrd : ∀ b, f (Event.rd b) = none)
    (hwr : ∀ b, f (Event.wr b) = none) (c : Cfg) (A : Args) (i j k : Nat) (l : List Access) :
    (l.flatMap (Access.events c A i j k) ++ passWr c A i j k).filterMap f = [] := by
  apply filterMap_nil_of_mem
  intro e he
  rw [List.mem_append, List.mem_flatMap] at he
  rcases he with ⟨ac, _, he⟩ | he
  · obtain ⟨b, rfl⟩ := mem_events _ _ _ _ _ _ _ he
    exact hrd b
  · rw [mem_passWr] at he
    obtain ⟨_, _, _, _, _, _, _, rfl⟩ := he
    exact hwr _

theorem filterMap_accessesS {β : Type} (f : Event → Option β)
    (hrd : ∀ b, f (Event.rd b) = none) (c : Cfg) (A : Args) (i j : Nat) (l : List Access) :
    (l.flatMap (Access.eventsS c A i j)).filterMap f = [] := by
  apply filterMap_nil_of_mem
  intro e he
  rw [List.mem_flatMap] at he
  obtain ⟨ac, _, he⟩ := he
  obtain ⟨b, rfl⟩ := mem_eventsS _ _ _ _ _ _ he
  exact hrd b

theorem labelsOf_append (a b : List Event) : labelsOf (a ++ b) = labelsOf a ++ labelsOf b :=
  List.filterMap_append _ _ _

theorem tileStores_append (a b : List Event) :
    tileStores (a ++ b) = tileStores a ++ tileStores b :=
  List.filterMap_append _ _ _

theorem labelsOf_setupTrace (c : Cfg) (A : Args) (i j : Nat) :
    labelsOf (setupTrace c A i j) = [1] := by
  unfold labelsOf setupTrace
  rw [List.filterMap_cons_some (by rfl), List.filterMap_cons_none (by rfl),
    List.filterMap_cons_none (by rfl),
    filterMap_accessesS _ (fun _ => rfl) c A i j]

theorem labelsOf_loopTrace (c : Cfg) (A : Args) (i j k : Nat) :
    labelsOf (loopTrace c A i j k) = [2] := by
  unfold labelsOf loopTrace
  rw [List.filterMap_cons_some (by rfl),
    filterMap_accesses _ (fun _ => rfl) (fun _ => rfl) c A i j k]

theorem labelsOf_tailTrace (c : Cfg) (A : Args) (i j k : Nat) :
    labelsOf (tailTrace c A i j k) = [3] := by
  unfold labelsOf tailTrace
  rw [List.filterMap_cons_some (by rfl),
    filterMap_accesses _ (fun _ => rfl) (fun _ => rfl) c A i j k]

theorem labelsOf_passesTrace (c : Cfg) (A : Args) (i j k : Nat) :
    labelsOf (passesTrace c A i j k) = 1 :: List.replicate k 2 := by
  induction k with
  | zero => simp [passesTrace, labelsOf_setupTrace]
  | succ k ih =>
    rw [passesTrace_succ, labelsOf_append, ih, labelsOf_loopTrace, List.cons_append,
      ← List.replicate_succ']

/-- The labels of a tile: the setup, the main-loop iterations and the tail. -/
theorem labelsOf_tileTrace (c : Cfg) (A : Args) (i j : Nat) :
    labelsOf (tileTrace c A i j) = 1 :: (List.replicate (main_iters c) 2 ++ [3]) := by
  unfold tileTrace
  rw [labelsOf_append, labelsOf_passesTrace, labelsOf_tailTrace, List.cons_append]

theorem tileStores_setupTrace (c : Cfg) (A : Args) (i j : Nat) :
    tileStores (setupTrace c A i j) = [(Field.tile_i, i), (Field.tile_j, j)] := by
  unfold tileStores setupTrace
  rw [List.filterMap_cons_none (by rfl), List.filterMap_cons_some (by rfl),
    List.filterMap_cons_some (by rfl),
    filterMap_accessesS _ (fun _ => rfl) c A i j]

theorem tileStores_loopTrace (c : Cfg) (A : Args) (i j k : Nat) :
    tileStores (loopTrace c A i j k) = [] := by
  unfold tileStores loopTrace
  rw [List.filterMap_cons_none (by rfl),
    filterMap_accesses _ (fun _ => rfl) (fun _ => rfl) c A i j k]

theorem tileStores_tailTrace (c : Cfg) (A : Args) (i j k : Nat) :
    tileStores (tailTrace c A i j k) = [] := by
  unfold tileStores tailTrace
  rw [List.filterMap_cons_none (by rfl),
    filterMap_accesses _ (fun _ => rfl) (fun _ => rfl) c A i j k]

theorem tileStores_passesTrace (c : Cfg) (A : Args) (i j k : Nat) :
    tileStores (passesTrace c A i j k) = [(Field.tile_i, i), (Field.tile_j, j)] := by
  induction k with
  | zero => simp [passesTrace, tileStores_setupTrace]
  | succ k ih =>
    rw [passesTrace_succ, tileStores_append, ih, tileStores_loopTrace, List.append_nil]

/-- The tile indices a tile stores to the argument block. -/
theorem tileStores_tileTrace (c : Cfg) (A : Args) (i j : Nat) :
    tileStores (tileTrace c A i j) = [(Field.tile_i, i), (Field.tile_j, j)] := by
  unfold tileTrace
  rw [tileStores_append, tileStores_passesTrace, tileStores_tailTrace, List.append_nil]

theorem labelsOf_flatMap {α : Type} (l : List α) (f : α → List Event) :
    labelsOf (l.flatMap f) = l.flatMap fun a => labelsOf (f a) := by
  induction l with
  | nil => rfl
  | cons a l ih => rw [List.flatMap_cons, labelsOf_append, ih, List.flatMap_cons]

theorem tileStores_flatMap {α : Type} (l : List α) (f : α → List Event) :
    tileStores (l.flatMap f) = l.flatMap fun a => tileStores (f a) := by
  induction l with
  | nil => rfl
  | cons a l ih => rw [List.flatMap_cons, tileStores_append, ih, List.flatMap_cons]

/-- The tiles of a run are those of the row-major enumeration. -/
theorem map_tileAt (A : Args) (hc : 1 ≤ A.n_tile_cols) :
    ∀ nr, (List.range (nr * A.n_tile_cols)).map (tileAt A) = rowMajor nr A.n_tile_cols := by
  intro nr
  induction nr with
  | zero => simp [rowMajor]
  | succ nr ih =>
    rw [Nat.add_mul, Nat.one_mul, List.range_add, List.map_append, ih]
    simp only [rowMajor, List.range_succ, List.flatMap_append, List.flatMap_cons,
      List.flatMap_nil, List.append_nil, List.map_map]
    congr 1
    apply List.map_congr_left
    intro j hj
    rw [List.mem_range] at hj
    simp only [Function.comp, tileAt_eq A _ hc]
    have h1 : (nr * A.n_tile_cols + j) / A.n_tile_cols = nr := by
      rw [Nat.mul_comm, Nat.mul_add_div (by omega), Nat.div_eq_of_lt hj, Nat.add_zero]
    have h2 : (nr * A.n_tile_cols + j) % A.n_tile_cols = j := by
      rw [Nat.mul_comm, Nat.mul_add_mod, Nat.mod_eq_of_lt hj]
    rw [h1, h2]

theorem tilesTrace_rowMajor (c : Cfg) (A : Args) (hc : 1 ≤ A.n_tile_cols) :
    tilesTrace c A (A.n_tile_rows * A.n_tile_cols)
      = (rowMajor A.n_tile_rows A.n_tile_cols).flatMap fun ij => tileTrace c A ij.1 ij.2 := by
  rw [← map_tileAt A hc, List.flatMap_map]
  rfl

theorem rowMajor_length (nr nc : Nat) : (rowMajor nr nc).length = nr * nc := by
  induction nr with
  | zero => simp [rowMajor]
  | succ nr ih =>
    have : rowMajor (nr + 1) nc = rowMajor nr nc ++ (List.range nc).map fun j => (nr, j) := by
      simp [rowMajor, List.range_succ, List.flatMap_append]
    rw [this, List.length_append, ih, List.length_map, List.length_range, Nat.add_mul,
      Nat.one_mul]

theorem mem_rowMajor (nr nc : Nat) (ij : Nat × Nat) :
    ij ∈ rowMajor nr nc ↔ ij.1 < nr ∧ ij.2 < nc := by
  obtain ⟨i, j⟩ := ij
  simp only [rowMajor, List.mem_flatMap, List.mem_map, List.mem_range, Prod.mk.injEq]
  constructor
  · rintro ⟨a, ha, b, hb, rfl, rfl⟩
    exact ⟨ha, hb⟩
  · rintro ⟨ha, hb⟩
    exact ⟨i, ha, j, hb, rfl, rfl⟩

theorem rowMajor_nodup (nr nc : Nat) : (rowMajor nr nc).Nodup := by
  unfold rowMajor
  rw [List.nodup_flatMap]
  refine ⟨fun i _ => (List.nodup_range nc).map (fun a b h => (Prod.mk.inj h).2), ?_⟩
  refine (List.nodup_range nr).pairwise_of_forall_ne ?_
  intro a _ b _ hab
  intro x hx1 hx2
  simp only [List.mem_map] at hx1 hx2
  obtain ⟨_, _, rfl⟩ := hx1
  obtain ⟨_, _, h⟩ := hx2
  exact hab (Prod.mk.inj h).1.symm

/-! ### Zero tile counts -/

theorem count_flatMap_one {α β : Type} [DecidableEq β] (l : List α) (f : α → List β) (b : β)
    (h : ∀ a ∈ l, (f a).count b = 1) : (l.flatMap f).count b = l.length := by
  induction l with
  | nil => rfl
  | cons a l ih =>
    rw [List.flatMap_cons, List.count_append, h a (List.mem_cons_self _ _),
      ih (fun x hx => h x (List.mem_cons_of_mem _ hx)), List.length_cons, Nat.add_comm]

theorem count_label_one (m : Nat) : (1 :: (List.replicate m 2 ++ [3])).count 1 = 1 := by
  rw [List.count_cons_self, List.count_append, List.count_replicate]
  simp

/-- C5 (tile enumeration order).  For every `n_tile_rows >= 1` and
`n_tile_cols >= 1` the kernel returns (given enough fuel) and the events of
the call are those of the tiles of `rowMajor n_tile_rows n_tile_cols`, tile
after tile in this order: `(0, 0), (0, 1), .., (0, n_tile_cols - 1), (1, 0),
.., (n_tile_rows - 1, n_tile_cols - 1)`.  The tile indices the tile bodies
store to the argument block are those of this list, the tile body is entered
(label 1) `n_tile_rows * n_tile_cols` times, and the list has
`n_tile_rows * n_tile_cols` tiles, none twice. -/
theorem C5_tile_enumeration_order (VL fuel n_tile_rows n_tile_cols inptr : Nat)
    (ld_input_row ld_input_col : Int) (outptr : Nat) (ld_output_row ld_output_col : Int)
    (params n_channels : Nat) (activation_min activation_max : Int) (s0 : State)
    (hVL : 1 ≤ VL) (hVL32 : VL < 2 ^ 32)
    (hr : 1 ≤ n_tile_rows) (hr32 : n_tile_rows < 2 ^ 32)
    (hc : 1 ≤ n_tile_cols) (hc32 : n_tile_cols < 2 ^ 32) (hn32 : n_channels < 2 ^ 32)
    (hfuel : (n_tile_rows + 1) * (n_tile_cols + 1) + n_channels ≤ fuel) :
    ∃ s1 tr, sve_fp32_nhwc_3x3_s1_output4x4_mla_depthfirst_direct_impl VL fuel n_tile_rows
        n_tile_cols inptr ld_input_row ld_input_col outptr ld_output_row ld_output_col params
        n_channels activation_min activation_max s0 = some s1 ∧
      s1.trace = s0.trace ++ tr ∧
      tr = (rowMajor n_tile_rows n_tile_cols).flatMap (fun ij =>
        tileTrace ⟨VL, n_channels⟩ (mkArgs n_tile_rows n_tile_cols inptr ld_input_row
          ld_input_col outptr ld_output_row ld_output_col params activation_min activation_max)
          ij.1 ij.2) ∧
      tileStores tr = (rowMajor n_tile_rows n_tile_cols).flatMap
        (fun ij => [(Field.tile_i, ij.1), (Field.tile_j, ij.2)]) ∧
      (labelsOf tr).count 1 = n_tile_rows * n_tile_cols ∧
      (rowMajor n_tile_rows n_tile_cols).length = n_tile_rows * n_tile_cols ∧
      (rowMajor n_tile_rows n_tile_cols).Nodup := by
  have hA : numTiles (mkArgs n_tile_rows n_tile_cols inptr ld_input_row ld_input_col outptr
      ld_output_row ld_output_col params activation_min activation_max)
      = n_tile_rows * n_tile_cols := numTiles_eq _ hr hc
  have hT := tilesTrace_rowMajor ⟨VL, n_channels⟩ (mkArgs n_tile_rows n_tile_cols inptr
    ld_input_row ld_input_col outptr ld_output_row ld_output_col params activation_min
    activation_max) hc
  have hR : (mkArgs n_tile_rows n_tile_cols inptr ld_input_row ld_input_col outptr
    ld_output_row ld_output_col params activation_min activation_max).n_tile_rows
      = n_tile_rows := rfl
  have hC : (mkArgs n_tile_rows n_tile_cols inptr ld_input_row ld_input_col outptr
    ld_output_row ld_output_col params activation_min activation_max).n_tile_cols
      = n_tile_cols := rfl
  rw [hR, hC] at hT
  refine ⟨_, _, impl_run VL fuel n_tile_rows n_tile_cols inptr ld_input_row ld_input_col outptr
    ld_output_row ld_output_col params n_channels activation_min activation_max s0 hVL hVL32
    hn32 hr32 hc32 hfuel, impl_trace VL n_tile_rows n_tile_cols inptr ld_input_row ld_input_col
    outptr ld_output_row ld_output_col params n_channels activation_min activation_max s0 hVL
    hVL32 hn32 hr32 hc32, ?_, ?_, ?_, rowMajor_length _ _, rowMajor_nodup _ _⟩
  · rw [hA, hT]
  · rw [hA, hT, tileStores_flatMap]
    exact List.flatMap_congr (fun ij _ => tileStores_tileTrace _ _ ij.1 ij.2)
  · rw [hA, hT, labelsOf_flatMap, count_flatMap_one _ _ _ (fun ij _ => by
      rw [labelsOf_tileTrace]; exact count_label_one _), rowMajor_length]

/-- The tile enumeration order on a concrete call with two rows of three tiles. -/
theorem C5_tile_enumeration_order_witness :
    ∃ s1 tr, sve_fp32_nhwc_3x3_s1_output4x4_mla_depthfirst_direct_impl 2 15 2 3 0 42 3 2000 36 3
        4000 3 (-5) 20 (State.init memW) = some s1 ∧
      s1.trace = (State.init memW).trace ++ tr ∧
      tr = (rowMajor 2 3).flatMap (fun ij =>
        tileTrace ⟨2, 3⟩ (mkArgs 2 3 0 42 3 2000 36 3 4000 (-5) 20) ij.1 ij.2) ∧
      tileStores tr = (rowMajor 2 3).flatMap
        (fun ij => [(Field.tile_i, ij.1), (Field.tile_j, ij.2)]) ∧
      (labelsOf tr).count 1 = 2 * 3 ∧
      (rowMajor 2 3).length = 2 * 3 ∧
      (rowMajor 2 3).Nodup :=
  C5_tile_enumeration_order 2 15 2 3 0 42 3 2000 36 3 4000 3 (-5) 20 (State.init memW)
    (by decide) (by decide) (by decide) (by decide) (by decide) (by decide) (by decide)
    (by decide)

/-! ### The passes of a tile -/

theorem tileAt_mul_add (A : Args) (i j : Nat) (hj : j < A.n_tile_cols) :
    tileAt A (i * A.n_tile_cols + j) = (i, j) := by
  rw [tileAt_eq A _ (by omega)]
  have h1 : (i * A.n_tile_cols + j) / A.n_tile_cols = i := by
    rw [Nat.mul_comm, Nat.mul_add_div (by omega), Nat.div_eq_of_lt hj, Nat.add_zero]
  have h2 : (i * A.n_tile_cols + j) % A.n_tile_cols = j := by
    rw [Nat.mul_comm, Nat.mul_add_mod, Nat.mod_eq_of_lt hj]
  rw [h1, h2]

theorem mul_add_lt (nr nc i j : Nat) (hi : i < nr) (hj : j < nc) : i * nc + j < nr * nc := by
  have h : (i + 1) * nc ≤ nr * nc := Nat.mul_le_mul_right _ hi
  rw [Nat.add_mul, Nat.one_mul] at h
  omega

/-- The state at the entry of pass `k` of tile `(i, j)` of a call. -/
theorem at_pass_inv (VL n_tile_rows n_tile_cols inptr : Nat) (ld_input_row ld_input_col : Int)
    (outptr : Nat) (ld_output_row ld_output_col : Int) (params n_channels : Nat)
    (activation_min activation_max : Int) (s0 : State)
    (hV1 : 1 ≤ VL) (hV : VL < 2 ^ 32) (hn : n_channels < 2 ^ 32)
    (hnr : n_tile_rows < 2 ^ 32) (hnc : n_tile_cols < 2 ^ 32)
    (i j k : Nat) (hi : i < n_tile_rows) (hj : j < n_tile_cols)
    (hk : k ≤ main_iters ⟨VL, n_channels⟩) :
    PassInv ⟨VL, n_channels⟩ (mkArgs n_tile_rows n_tile_cols inptr ld_input_row ld_input_col
      outptr ld_output_row ld_output_col params activation_min activation_max) i j k
      (at_pass VL n_tile_rows n_tile_cols inptr ld_input_row ld_input_col outptr ld_output_row
        ld_output_col params n_channels activation_min activation_max s0 i j k) := by
  have hT := tile_entry_inv (c := ⟨VL, n_channels⟩)
    (first_entry_inv ⟨VL, n_channels⟩ (mkArgs n_tile_rows n_tile_cols inptr ld_input_row
      ld_input_col outptr ld_output_row ld_output_col params activation_min activation_max) s0)
    hV1 hV hn hnc hnr (i * n_tile_cols + j) (by
      rw [numTiles_eq _ (show 1 ≤ n_tile_rows by omega) (show 1 ≤ n_tile_cols by omega)]
      exact mul_add_lt _ _ _ _ hi hj)
  have hA := tileAt_mul_add (mkArgs n_tile_rows n_tile_cols inptr ld_input_row
      ld_input_col outptr ld_output_row ld_output_col params activation_min activation_max)
      i j hj
  have hC : (mkArgs n_tile_rows n_tile_cols inptr ld_input_row ld_input_col outptr
    ld_output_row ld_output_col params activation_min activation_max).n_tile_cols
      = n_tile_cols := rfl
  rw [hC] at hA
  rw [hA] at hT
  exact pass_entry_inv hT hV1 hV hn k hk

theorem filter_lt_range (a b : Nat) :
    (List.range a).filter (fun l => decide (l < b)) = List.range (min a b) := by
  induction a with
  | zero => simp
  | succ a ih =>
    rw [List.range_succ, List.filter_append, ih]
    rcases Nat.lt_or_ge a b with h | h
    · rw [Nat.min_eq_left (by omega), Nat.min_eq_left (by omega), List.range_succ]
      simp [h]
    · rw [Nat.min_eq_right h, Nat.min_eq_right (by omega)]
      simp [h]

/-- The active lanes of pass `k` are the first ones. -/
theorem lanes_predAt (c : Cfg) (k : Nat) :
    lanes c.VL (predAt c k) = List.range (min c.VL (c.n_channels - k * c.VL)) := by
  rw [← filter_lt_range]
  unfold lanes predAt
  apply List.filter_congr
  intro l _
  apply decide_eq_decide.mpr
  omega

theorem main_iters_eq (c : Cfg) (hV1 : 1 ≤ c.VL) (hn : 1 ≤ c.n_channels) :
    main_iters c = passCount c.VL c.n_channels - 1 := by
  unfold main_iters passCount
  have : c.n_channels + c.VL - 1 = c.n_channels - 1 + c.VL := by omega
  rw [this, Nat.add_div_right _ (by omega)]
  rfl

theorem lanes_main (c : Cfg) (k : Nat) (hk : k < main_iters c) :
    lanes c.VL (predAt c k) = List.range c.VL := by
  rw [lanes_predAt]
  have h1 := main_iters_mul_le c
  have h2 : (k + 1) * c.VL ≤ main_iters c * c.VL := Nat.mul_le_mul_right _ hk
  rw [Nat.add_mul, Nat.one_mul] at h2
  rw [Nat.min_eq_left (by omega)]

theorem lanes_tail (c : Cfg) (hV1 : 1 ≤ c.VL) :
    lanes c.VL (predAt c (main_iters c))
      = List.range (c.n_channels - c.VL * main_iters c) := by
  rw [lanes_predAt]
  have h1 := n_le_main c hV1
  rw [Nat.add_mul, Nat.one_mul] at h1
  rw [Nat.mul_comm c.VL, Nat.min_eq_right (by omega)]

/-- C6 (channel-pass structure).  For every `n_channels >= 1`, `VL >= 1`
and tile grid the kernel returns (given enough fuel) and every tile runs
its setup (label 1), `passCount VL n_channels - 1` main-loop iterations
(label 2) and one tail pass (label 3), where `passCount` is
`n_channels / VL` rounded up.  At the entry of pass `k` of a tile the
channel offset `x5` is `k * VL` and the active lanes of the predicate `p2`
are all `VL` lanes for every pass but the last, and the first
`n_channels - VL * (passCount VL n_channels - 1)` lanes for the last; this
number is positive and at most `VL`. -/
theorem C6_channel_pass_structure (VL fuel n_tile_rows n_tile_cols inptr : Nat)
    (ld_input_row ld_input_col : Int) (outptr : Nat) (ld_output_row ld_output_col : Int)
    (params n_channels : Nat) (activation_min activation_max : Int) (s0 : State)
    (hVL : 1 ≤ VL) (hVL32 : VL < 2 ^ 32)
    (hr : 1 ≤ n_tile_rows) (hr32 : n_tile_rows < 2 ^ 32)
    (hc : 1 ≤ n_tile_cols) (hc32 : n_tile_cols < 2 ^ 32)
    (hn : 1 ≤ n_channels) (hn32 : n_channels < 2 ^ 32)
    (hfuel : (n_tile_rows + 1) * (n_tile_cols + 1) + n_channels ≤ fuel) :
    ∃ s1 tr, sve_fp32_nhwc_3x3_s1_output4x4_mla_depthfirst_direct_impl VL fuel n_tile_rows
        n_tile_cols inptr ld_input_row ld_input_col outptr ld_output_row ld_output_col params
        n_channels activation_min activation_max s0 = some s1 ∧
      s1.trace = s0.trace ++ tr ∧
      labelsOf tr = (List.range (n_tile_rows * n_tile_cols)).flatMap
        (fun _ => 1 :: (List.replicate (passCount VL n_channels - 1) 2 ++ [3])) ∧
      0 < n_channels - VL * (passCount VL n_channels - 1) ∧
      n_channels - VL * (passCount VL n_channels - 1) ≤ VL ∧
      ∀ i j k, i < n_tile_rows → j < n_tile_cols → k < passCount VL n_channels →
        (at_pass VL n_tile_rows n_tile_cols inptr ld_input_row ld_input_col outptr
          ld_output_row ld_output_col params n_channels activation_min activation_max s0
          i j k).x 5 = k * VL ∧
        lanes VL ((at_pass VL n_tile_rows n_tile_cols inptr ld_input_row ld_input_col outptr
          ld_output_row ld_output_col params n_channels activation_min activation_max s0
          i j k).p 2)
          = List.range (if k + 1 < passCount VL n_channels then VL
              else n_channels - VL * (passCount VL n_channels - 1)) := by
  have hA : numTiles (mkArgs n_tile_rows n_tile_cols inptr ld_input_row ld_input_col outptr
      ld_output_row ld_output_col params activation_min activation_max)
      = n_tile_rows * n_tile_cols := numTiles_eq _ hr hc
  have hm : main_iters ⟨VL, n_channels⟩ = passCount VL n_channels - 1 :=
    main_iters_eq ⟨VL, n_channels⟩ hVL hn
  have h1 : main_iters ⟨VL, n_channels⟩ * VL ≤ n_channels - 1 :=
    main_iters_mul_le ⟨VL, n_channels⟩
  have h2 : n_channels ≤ (main_iters ⟨VL, n_channels⟩ + 1) * VL := n_le_main ⟨VL, n_channels⟩ hVL
  rw [Nat.add_mul, Nat.one_mul] at h2
  rw [← hm, Nat.mul_comm VL]
  refine ⟨_, _, impl_run VL fuel n_tile_rows n_tile_cols inptr ld_input_row ld_input_col outptr
    ld_output_row ld_output_col params n_channels activation_min activation_max s0 hVL hVL32
    hn32 hr32 hc32 hfuel, impl_trace VL n_tile_rows n_tile_cols inptr ld_input_row ld_input_col
    outptr ld_output_row ld_output_col params n_channels activation_min activation_max s0 hVL
    hVL32 hn32 hr32 hc32, ?_, by omega, by omega, ?_⟩
  · rw [hA]
    unfold tilesTrace
    rw [labelsOf_flatMap]
    exact List.flatMap_congr (fun u _ => labelsOf_tileTrace _ _ _ _)
  · intro i j k hi hj hk
    have hP : 1 ≤ passCount VL n_channels := by
      unfold passCount
      exact (Nat.le_div_iff_mul_le (by omega)).mpr (by omega)
    have hk2 : k ≤ main_iters ⟨VL, n_channels⟩ := by omega
    have hI := at_pass_inv VL n_tile_rows n_tile_cols inptr ld_input_row ld_input_col outptr
      ld_output_row ld_output_col params n_channels activation_min activation_max s0 hVL hVL32
      hn32 hr32 hc32 i j k hi hj hk2
    refine ⟨by rw [hI.x 5 (by decide)]; rfl, ?_⟩
    rw [hI.p2]
    split
    · exact lanes_main ⟨VL, n_channels⟩ k (by omega)
    · have hk3 : k = main_iters ⟨VL, n_channels⟩ := by omega
      rw [hk3, Nat.mul_comm]
      exact lanes_tail ⟨VL, n_channels⟩ hVL

/-- The channel-pass structure for `n_channels = 9` and `VL = 4` on a 2x2
tile grid: three passes, with 4, 4 and 1 active lanes. -/
theorem C6_channel_pass_structure_witness :
    (∃ s1 tr, sve_fp32_nhwc_3x3_s1_output4x4_mla_depthfirst_direct_impl 4 18 2 2 0 90 9
        4000 72 9 8000 9 (-5) 20 (State.init memW) = some s1 ∧
      s1.trace = (State.init memW).trace ++ tr ∧
      labelsOf tr = (List.range (2 * 2)).flatMap
        (fun _ => 1 :: (List.replicate (passCount 4 9 - 1) 2 ++ [3])) ∧
      0 < 9 - 4 * (passCount 4 9 - 1) ∧
      9 - 4 * (passCount 4 9 - 1) ≤ 4 ∧
      ∀ i j k, i < 2 → j < 2 → k < passCount 4 9 →
        (at_pass 4 2 2 0 90 9 4000 72 9 8000 9 (-5) 20 (State.init memW) i j k).x 5 = k * 4 ∧
        lanes 4 ((at_pass 4 2 2 0 90 9 4000 72 9 8000 9 (-5) 20 (State.init memW) i j k).p 2)
          = List.range (if k + 1 < passCount 4 9 then 4 else 9 - 4 * (passCount 4 9 - 1))) ∧
    passCount 4 9 = 3 ∧
    [0, 1, 2].map (fun k => if k + 1 < passCount 4 9 then 4 else 9 - 4 * (passCount 4 9 - 1))
      = [4, 4, 1] :=
  ⟨C6_channel_pass_structure 4 18 2 2 0 90 9 4000 72 9 8000 9 (-5) 20 (State.init memW)
    (by decide) (by decide) (by decide) (by decide) (by decide) (by decide) (by decide)
    (by decide) (by decide), by decide, by decide⟩

/-! ### The predicates of the tail pass -/

theorem tail_gov : ∀ ins ∈ channel_tail, tailGov ins = true := by decide!

theorem tailAcc_inp :
    ∀ a ∈ tailAcc, (match a with | Access.inp _ _ => true | _ => false) = true := by decide

/-- The loads of the tail pass read input elements of the window of the
tile, at channels below `n_channels`. -/
theorem mem_tail_loads (c : Cfg) (A : Args) (i j k : Nat) (e : Event)
    (h : e ∈ tailAcc.flatMap (Access.events c A i j k)) :
    ∃ R C l, R < 6 ∧ C < 6 ∧ l < c.VL ∧ k * c.VL + l < c.n_channels ∧
      e = Event.rd (inAt A (4 * i + R) (4 * j + C) (k * c.VL + l)) := by
  rw [List.mem_flatMap] at h
  obtain ⟨ac, hac, he⟩ := h
  have hok := tailAcc_ok ac hac
  cases ac with
  | par v => exact absurd (tailAcc_inp _ hac) (by simp)
  | nxt R C => exact absurd (tailAcc_inp _ hac) (by simp)
  | inp R C =>
    simp only [Access.ok, Bool.and_eq_true, decide_eq_true_eq] at hok
    simp only [Access.events, rdLanes, List.mem_map, mem_lanes, predAt_iff] at he
    obtain ⟨l, ⟨hl, hp⟩, rfl⟩ := he
    exact ⟨R, C, l, hok.1, hok.2, hl, hp, by rw [lane_in]⟩

/-- C7, as the code has it (predication of the tail pass).  In
`channel_tail` every load is governed by the active-lane predicate `p2`
(zeroing the inactive lanes) and every store by `p0`, its copy, while every
multiply-accumulate and every clamp is governed by the all-true `p3`.  At
the entry of the tail pass of every tile `p3` is all-true and lane `l` of
`p2` is active exactly when channel `(n_channels - 1) / VL * VL + l` is below
`n_channels`, and every event of the tail pass after its label is a read of
an input element of the window or a write of an output element of the grid,
at a channel below `n_channels`. -/
theorem C7_tail_predication (VL n_tile_rows n_tile_cols inptr : Nat)
    (ld_input_row ld_input_col : Int) (outptr : Nat) (ld_output_row ld_output_col : Int)
    (params n_channels : Nat) (activation_min activation_max : Int) (s0 : State)
    (hVL : 1 ≤ VL) (hVL32 : VL < 2 ^ 32) (hr32 : n_tile_rows < 2 ^ 32)
    (hc32 : n_tile_cols < 2 ^ 32) (hn32 : n_channels < 2 ^ 32) :
    (∀ zt pg a, Instr.ld1w zt pg a ∈ channel_tail → pg = 2) ∧
    (∀ zt pg a, Instr.st1w zt pg a ∈ channel_tail → pg = 0) ∧
    (∀ zda pg zn zm, Instr.fmla zda pg zn zm ∈ channel_tail → pg = 3) ∧
    (∀ zdn pg zm, Instr.fmax zdn pg zm ∈ channel_tail → pg = 3) ∧
    (∀ zdn pg zm, Instr.fmin zdn pg zm ∈ channel_tail → pg = 3) ∧
    ∀ i j, i < n_tile_rows → j < n_tile_cols →
      (at_pass VL n_tile_rows n_tile_cols inptr ld_input_row ld_input_col outptr
        ld_output_row ld_output_col params n_channels activation_min activation_max s0
        i j ((n_channels - 1) / VL)).p 3 = (fun _ => true) ∧
      (at_pass VL n_tile_rows n_tile_cols inptr ld_input_row ld_input_col outptr
        ld_output_row ld_output_col params n_channels activation_min activation_max s0
        i j ((n_channels - 1) / VL)).p 2
        = (fun l => decide ((n_channels - 1) / VL * VL + l < n_channels)) ∧
      ∃ ev, (exec ⟨VL, n_channels⟩ channel_tail
          (at_pass VL n_tile_rows n_tile_cols inptr ld_input_row ld_input_col outptr
            ld_output_row ld_output_col params n_channels activation_min activation_max s0
            i j ((n_channels - 1) / VL))).trace
          = (at_pass VL n_tile_rows n_tile_cols inptr ld_input_row ld_input_col outptr
            ld_output_row ld_output_col params n_channels activation_min activation_max s0
            i j ((n_channels - 1) / VL)).trace ++ Event.label 3 :: ev ∧
        ∀ e ∈ ev,
          (∃ y x ch, y < 4 * n_tile_rows + 2 ∧ x < 4 * n_tile_cols + 2 ∧ ch < n_channels ∧
            e = Event.rd (in_addr inptr ld_input_row ld_input_col y x ch)) ∨
          (∃ y x ch, y < 4 * n_tile_rows ∧ x < 4 * n_tile_cols ∧ ch < n_channels ∧
            e = Event.wr (out_addr outptr ld_output_row ld_output_col y x ch)) := by
  refine ⟨fun zt pg a h => by simpa [tailGov] using tail_gov _ h,
    fun zt pg a h => by simpa [tailGov] using tail_gov _ h,
    fun zda pg zn zm h => by simpa [tailGov] using tail_gov _ h,
    fun zdn pg zm h => by simpa [tailGov] using tail_gov _ h,
    fun zdn pg zm h => by simpa [tailGov] using tail_gov _ h, ?_⟩
  intro i j hi hj
  have hI := at_pass_inv VL n_tile_rows n_tile_cols inptr ld_input_row ld_input_col outptr
    ld_output_row ld_output_col params n_channels activation_min activation_max s0 hVL hVL32
    hn32 hr32 hc32 i j ((n_channels - 1) / VL) hi hj (Nat.le_refl _)
  refine ⟨hI.p3, hI.p2, _, tail_trace_eq hI hn32
    (pass_bound ⟨VL, n_channels⟩ hVL32 hn32 _ (Nat.le_refl _)), ?_⟩
  intro e he
  rw [List.mem_append] at he
  rcases he with he | he
  · left
    obtain ⟨R, C, l, hR, hC, _, hn, rfl⟩ := mem_tail_loads _ _ _ _ _ e he
    exact ⟨4 * i + R, 4 * j + C, (n_channels - 1) / VL * VL + l, by omega, by omega, hn,
      by rw [inAt_mkArgs]⟩
  · right
    rw [mem_passWr] at he
    obtain ⟨r, cc, l, hr, hc, _, hn, rfl⟩ := he
    exact ⟨4 * i + r, 4 * j + cc, (n_channels - 1) / VL * VL + l, by omega, by omega, hn,
      by rw [outAt_mkArgs]⟩

/-- The predication of the tail pass on the concrete 2x2 call. -/
theorem C7_tail_predication_witness :
    (∀ zt pg a, Instr.ld1w zt pg a ∈ channel_tail → pg = 2) ∧
    (∀ zt pg a, Instr.st1w zt pg a ∈ channel_tail → pg = 0) ∧
    (∀ zda pg zn zm, Instr.fmla zda pg zn zm ∈ channel_tail → pg = 3) ∧
    (∀ zdn pg zm, Instr.fmax zdn pg zm ∈ channel_tail → pg = 3) ∧
    (∀ zdn pg zm, Instr.fmin zdn pg zm ∈ channel_tail → pg = 3) ∧
    ∀ i j, i < 2 → j < 2 →
      (at_pass 4 2 2 0 90 9 4000 72 9 8000 9 (-5) 20 (State.init memW)
        i j ((9 - 1) / 4)).p 3 = (fun _ => true) ∧
      (at_pass 4 2 2 0 90 9 4000 72 9 8000 9 (-5) 20 (State.init memW)
        i j ((9 - 1) / 4)).p 2 = (fun l => decide ((9 - 1) / 4 * 4 + l < 9)) ∧
      ∃ ev, (exec ⟨4, 9⟩ channel_tail
          (at_pass 4 2 2 0 90 9 4000 72 9 8000 9 (-5) 20 (State.init memW)
            i j ((9 - 1) / 4))).trace
          = (at_pass 4 2 2 0 90 9 4000 72 9 8000 9 (-5) 20 (State.init memW)
            i j ((9 - 1) / 4)).trace ++ Event.label 3 :: ev ∧
        ∀ e ∈ ev,
          (∃ y x ch, y < 4 * 2 + 2 ∧ x < 4 * 2 + 2 ∧ ch < 9 ∧
            e = Event.rd (in_addr 0 90 9 y x ch)) ∨
          (∃ y x ch, y < 4 * 2 ∧ x < 4 * 2 ∧ ch < 9 ∧
            e = Event.wr (out_addr 4000 72 9 y x ch)) :=
  C7_tail_predication 4 2 2 0 90 9 4000 72 9 8000 9 (-5) 20 (State.init memW)
    (by decide) (by decide) (by decide) (by decide) (by decide)

set_option maxRecDepth 100000 in
/-- C7 as stated fails: the first multiply-accumulate of the tail pass,
`fmla z31.s, p3/M, z8.s, z9.s`, is governed by `p3`, not by the active-lane
predicate.  On the concrete call (`n_channels = 3`, `VL = 2`) lane 1 of the
tail pass stands for channel 3: it is inactive in `p2` and active in `p3`. -/
theorem C7_mac_predicate_counterexample :
    Instr.fmla 31 3 8 9 ∈ channel_tail ∧
    (at_pass 2 1 1 0 18 3 1000 12 3 2000 3 (-5) 20 (State.init memW) 0 0 1).p 2 1 = false ∧
    (at_pass 2 1 1 0 18 3 1000 12 3 2000 3 (-5) 20 (State.init memW) 0 0 1).p 3 1 = true := by
  decide!

/-! ### The data of the passes of a call -/

/-- The vector registers at the entry of pass `k` of tile `(i, j)` of a call. -/
theorem at_pass_data (VL n_tile_rows n_tile_cols inptr : Nat) (ld_input_row ld_input_col : Int)
    (outptr : Nat) (ld_output_row ld_output_col : Int) (params n_channels : Nat)
    (activation_min activation_max : Int) (s0 : State)
    (hV1 : 1 ≤ VL) (hV : VL < 2 ^ 32) (hn : n_channels < 2 ^ 32)
    (hnr : n_tile_rows < 2 ^ 32) (hnc : n_tile_cols < 2 ^ 32)
    (hin : OutNotInput n_tile_rows n_tile_cols n_channels inptr ld_input_row ld_input_col
      outptr ld_output_row ld_output_col)
    (hpar : OutNotParams VL n_tile_rows n_tile_cols n_channels outptr ld_output_row
      ld_output_col params)
    (i j k : Nat) (hi : i < n_tile_rows) (hj : j < n_tile_cols)
    (hk : k ≤ main_iters ⟨VL, n_channels⟩) :
    PassData ⟨VL, n_channels⟩ (mkArgs n_tile_rows n_tile_cols inptr ld_input_row ld_input_col
      outptr ld_output_row ld_output_col params activation_min activation_max) s0.mem i j k
      (at_pass VL n_tile_rows n_tile_cols inptr ld_input_row ld_input_col outptr ld_output_row
        ld_output_col params n_channels activation_min activation_max s0 i j k) := by
  have hr : 1 ≤ n_tile_rows := by omega
  have hc : 1 ≤ n_tile_cols := by omega
  have hlt : i * n_tile_cols + j < n_tile_rows * n_tile_cols := mul_add_lt _ _ _ _ hi hj
  have hN := noAlias_mkArgs VL n_tile_rows n_tile_cols inptr ld_input_row ld_input_col outptr
    ld_output_row ld_output_col params n_channels activation_min activation_max hin hpar
  have hT0 := first_entry_inv ⟨VL, n_channels⟩ (mkArgs n_tile_rows n_tile_cols inptr
    ld_input_row ld_input_col outptr ld_output_row ld_output_col params activation_min
    activation_max) s0
  have hT := tile_entry_inv (c := ⟨VL, n_channels⟩) hT0 hV1 hV hn hnc hnr
    (i * n_tile_cols + j) (by rw [numTiles_eq _ hr hc]; exact hlt)
  have hF := (tile_entry_mem (c := ⟨VL, n_channels⟩) hT0 hV1 hV hn hnr hnc hr hc hN
    (i * n_tile_cols + j) (Nat.le_of_lt hlt)).1
  have hD := (tile_passes (c := ⟨VL, n_channels⟩) hT hlt hV1 hV hn hN hF k hk).1
  have hA := tileAt_mul_add (mkArgs n_tile_rows n_tile_cols inptr ld_input_row
      ld_input_col outptr ld_output_row ld_output_col params activation_min activation_max)
      i j hj
  have hC : (mkArgs n_tile_rows n_tile_cols inptr ld_input_row ld_input_col outptr
    ld_output_row ld_output_col params activation_min activation_max).n_tile_cols
      = n_tile_cols := rfl
  rw [hC] at hA
  rw [hA] at hD
  exact hD

/-- The output elements after a call, from the memory before it. -/
theorem impl_out (VL n_tile_rows n_tile_cols inptr : Nat) (ld_input_row ld_input_col : Int)
    (outptr : Nat) (ld_output_row ld_output_col : Int) (params n_channels : Nat)
    (activation_min activation_max : Int) (s0 : State)
    (hV1 : 1 ≤ VL) (hV : VL < 2 ^ 32) (hn : n_channels < 2 ^ 32)
    (hnr : n_tile_rows < 2 ^ 32) (hnc : n_tile_cols < 2 ^ 32)
    (hdist : OutDistinct n_tile_rows n_tile_cols n_channels outptr ld_output_row ld_output_col)
    (hin : OutNotInput n_tile_rows n_tile_cols n_channels inptr ld_input_row ld_input_col
      outptr ld_output_row ld_output_col)
    (hpar : OutNotParams VL n_tile_rows n_tile_cols n_channels outptr ld_output_row
      ld_output_col params)
    (y x ch : Nat) (hy : y < 4 * n_tile_rows) (hx : x < 4 * n_tile_cols)
    (hch : ch < n_channels) :
    (tile_entry ⟨VL, n_channels⟩ (first_entry ⟨VL, n_channels⟩
          (mkArgs n_tile_rows n_tile_cols inptr ld_input_row ld_input_col outptr
            ld_output_row ld_output_col params activation_min activation_max) s0)
          (numTiles (mkArgs n_tile_rows n_tile_cols inptr ld_input_row ld_input_col outptr
            ld_output_row ld_output_col params activation_min activation_max))).mem
        (out_addr outptr ld_output_row ld_output_col y x ch)
      = refOut ⟨VL, n_channels⟩ (mkArgs n_tile_rows n_tile_cols inptr ld_input_row
          ld_input_col outptr ld_output_row ld_output_col params activation_min activation_max)
          s0.mem y x ch := by
  have hr : 1 ≤ n_tile_rows := by omega
  have hc : 1 ≤ n_tile_cols := by omega
  rw [numTiles_eq _ hr hc]
  have hrun := (tile_entry_mem (c := ⟨VL, n_channels⟩)
    (first_entry_inv ⟨VL, n_channels⟩ (mkArgs n_tile_rows n_tile_cols inptr ld_input_row
      ld_input_col outptr ld_output_row ld_output_col params activation_min activation_max) s0)
    hV1 hV hn hnr hnc hr hc
    (noAlias_mkArgs VL _ _ _ _ _ _ _ _ _ _ _ _ hin hpar)
    (n_tile_rows * n_tile_cols) (Nat.le_refl _)).2
    (outInj_mkArgs VL _ _ _ _ _ _ _ _ _ _ _ _ hdist) y x ch ⟨hy, hx, hch⟩
    (Or.inl (tileIdx_lt _ y x hy hx))
  rw [outAt_mkArgs] at hrun
  exact hrun.trans (by rw [first_entry_mem])

/-- The reference value of lane `l` of channel group `g`. -/
theorem refOut_lane (VL nr nc inptr : Nat) (ldir ldic : Int) (outptr : Nat)
    (ldor ldoc : Int) (params n : Nat) (amin amax : Int) (m : Nat → Int)
    (y x g l : Nat) (hl : l < VL) :
    refOut ⟨VL, n⟩ (mkArgs nr nc inptr ldir ldic outptr ldor ldoc params amin amax) m y x
        (g * VL + l)
      = min (max (m (par_addr params (10 * g * VL + l))
          + ∑ kr in Finset.range 3, ∑ kc in Finset.range 3,
            m (par_addr params ((10 * g + 1 + (3 * kr + kc)) * VL + l))
              * m (in_addr inptr ldir ldic (y + kr) (x + kc) (g * VL + l))) amin) amax := by
  obtain ⟨hd, hm⟩ := div_mod_lane VL g l hl
  simp only [refOut, parAt_mkArgs, inAt_mkArgs, taps, List.map_cons, List.map_nil,
    List.sum_cons, List.sum_nil, Finset.sum_range_succ, Finset.sum_range_zero, hd, hm]
  have e1 : (mkArgs nr nc inptr ldir ldic outptr ldor ldoc params amin amax).min = amin := rfl
  have e2 : (mkArgs nr nc inptr ldir ldic outptr ldor ldoc params amin amax).max = amax := rfl
  rw [e1, e2]
  congr 2
  ring

/-- C8 (packed-weights layout).  For every tile grid, `n_channels` and
`VL >= 1`, when the output region is disjoint from the input window and
the params block and its elements have distinct addresses, the kernel
returns (given enough fuel) and, with the memory before the call:
the output element of lane `l` of channel group `g` is the clamp of params
element `10 * g * VL + l` (the bias) plus the sum over the kernel positions
`(kr, kc)` of params element `(10 * g + 1 + (3 * kr + kc)) * VL + l` times
the input element at `(y + kr, x + kc)`; at the entry of pass `g` of every
tile the sixteen accumulators `z16 .. z31` hold the bias vector of the
group, register `z(3 * kr + kc)` holds the vector of tap `(kr, kc)`, and the
params pointer `x4` is at vector `10 * (g + 1)`, ten vectors further for
each pass. -/
theorem C8_packed_weights_layout (VL fuel n_tile_rows n_tile_cols inptr : Nat)
    (ld_input_row ld_input_col : Int) (outptr : Nat) (ld_output_row ld_output_col : Int)
    (params n_channels : Nat) (activation_min activation_max : Int) (s0 : State)
    (hVL : 1 ≤ VL) (hVL32 : VL < 2 ^ 32) (hr32 : n_tile_rows < 2 ^ 32)
    (hc32 : n_tile_cols < 2 ^ 32) (hn32 : n_channels < 2 ^ 32)
    (hdist : OutDistinct n_tile_rows n_tile_cols n_channels outptr ld_output_row ld_output_col)
    (hin : OutNotInput n_tile_rows n_tile_cols n_channels inptr ld_input_row ld_input_col
      outptr ld_output_row ld_output_col)
    (hpar : OutNotParams VL n_tile_rows n_tile_cols n_channels outptr ld_output_row
      ld_output_col params)
    (hfuel : (n_tile_rows + 1) * (n_tile_cols + 1) + n_channels ≤ fuel) :
    ∃ s1, sve_fp32_nhwc_3x3_s1_output4x4_mla_depthfirst_direct_impl VL fuel n_tile_rows
        n_tile_cols inptr ld_input_row ld_input_col outptr ld_output_row ld_output_col params
        n_channels activation_min activation_max s0 = some s1 ∧
      (∀ y x g l, y < 4 * n_tile_rows → x < 4 * n_tile_cols → l < VL →
        g * VL + l < n_channels →
        s1.mem (out_addr outptr ld_output_row ld_output_col y x (g * VL + l))
          = min (max (s0.mem (par_addr params (10 * g * VL + l))
              + ∑ kr in Finset.range 3, ∑ kc in Finset.range 3,
                s0.mem (par_addr params ((10 * g + 1 + (3 * kr + kc)) * VL + l))
                  * s0.mem (in_addr inptr ld_input_row ld_input_col (y + kr) (x + kc)
                      (g * VL + l))) activation_min) activation_max) ∧
      ∀ i j g, i < n_tile_rows → j < n_tile_cols → g ≤ (n_channels - 1) / VL →
        (at_pass VL n_tile_rows n_tile_cols inptr ld_input_row ld_input_col outptr
          ld_output_row ld_output_col params n_channels activation_min activation_max s0
          i j g).x 4 = par_addr params (10 * (g + 1) * VL) ∧
        (∀ r l, 16 ≤ r → r < 32 → l < VL →
          (at_pass VL n_tile_rows n_tile_cols inptr ld_input_row ld_input_col outptr
            ld_output_row ld_output_col params n_channels activation_min activation_max s0
            i j g).z r l = s0.mem (par_addr params (10 * g * VL + l))) ∧
        (∀ kr kc l, kr < 3 → kc < 3 → l < VL →
          (at_pass VL n_tile_rows n_tile_cols inptr ld_input_row ld_input_col outptr
            ld_output_row ld_output_col params n_channels activation_min activation_max s0
            i j g).z (3 * kr + kc) l
            = s0.mem (par_addr params ((10 * g + 1 + (3 * kr + kc)) * VL + l))) := by
  refine ⟨_, impl_run VL fuel n_tile_rows n_tile_cols inptr ld_input_row ld_input_col outptr
    ld_output_row ld_output_col params n_channels activation_min activation_max s0 hVL hVL32
    hn32 hr32 hc32 hfuel, ?_, ?_⟩
  · intro y x g l hy hx hl hch
    rw [impl_out VL n_tile_rows n_tile_cols inptr ld_input_row ld_input_col outptr
      ld_output_row ld_output_col params n_channels activation_min activation_max s0 hVL hVL32
      hn32 hr32 hc32 hdist hin hpar y x _ hy hx hch]
    exact refOut_lane VL _ _ _ _ _ _ _ _ _ _ _ _ _ y x g l hl
  · intro i j g hi hj hg
    have hI := at_pass_inv VL n_tile_rows n_tile_cols inptr ld_input_row ld_input_col outptr
      ld_output_row ld_output_col params n_channels activation_min activation_max s0 hVL hVL32
      hn32 hr32 hc32 i j g hi hj hg
    have hD := at_pass_data VL n_tile_rows n_tile_cols inptr ld_input_row ld_input_col outptr
      ld_output_row ld_output_col params n_channels activation_min activation_max s0 hVL hVL32
      hn32 hr32 hc32 hin hpar i j g hi hj hg
    refine ⟨?_, ?_, ?_⟩
    · rw [hI.x 4 (by decide), ← parAt_mkArgs n_tile_rows n_tile_cols inptr ld_input_row
        ld_input_col outptr ld_output_row ld_output_col params activation_min activation_max]
      rfl
    · intro r l hr1 hr2 hl
      rw [hD.acc r l hr1 hr2 hl, lane_par, parAt_mkArgs]
    · intro kr kc l hkr hkc hl
      rw [hD.w (3 * kr + kc) l (by omega) hl, lane_par, parAt_mkArgs]

/-- The packed-weights layout on the concrete 2x2 call. -/
theorem C8_packed_weights_layout_witness :
    ∃ s1, sve_fp32_nhwc_3x3_s1_output4x4_mla_depthfirst_direct_impl 4 18 2 2 0 90 9 4000 72 9
        8000 9 (-5) 20 (State.init memW) = some s1 ∧
      (∀ y x g l, y < 4 * 2 → x < 4 * 2 → l < 4 → g * 4 + l < 9 →
        s1.mem (out_addr 4000 72 9 y x (g * 4 + l))
          = min (max ((State.init memW).mem (par_addr 8000 (10 * g * 4 + l))
              + ∑ kr in Finset.range 3, ∑ kc in Finset.range 3,
                (State.init memW).mem (par_addr 8000 ((10 * g + 1 + (3 * kr + kc)) * 4 + l))
                  * (State.init memW).mem (in_addr 0 90 9 (y + kr) (x + kc) (g * 4 + l)))
              (-5)) 20) ∧
      ∀ i j g, i < 2 → j < 2 → g ≤ (9 - 1) / 4 →
        (at_pass 4 2 2 0 90 9 4000 72 9 8000 9 (-5) 20 (State.init memW) i j g).x 4
          = par_addr 8000 (10 * (g + 1) * 4) ∧
        (∀ r l, 16 ≤ r → r < 32 → l < 4 →
          (at_pass 4 2 2 0 90 9 4000 72 9 8000 9 (-5) 20 (State.init memW) i j g).z r l
            = (State.init memW).mem (par_addr 8000 (10 * g * 4 + l))) ∧
        (∀ kr kc l, kr < 3 → kc < 3 → l < 4 →
          (at_pass 4 2 2 0 90 9 4000 72 9 8000 9 (-5) 20 (State.init memW) i j g).z
              (3 * kr + kc) l
            = (State.init memW).mem (par_addr 8000 ((10 * g + 1 + (3 * kr + kc)) * 4 + l))) :=
  C8_packed_weights_layout 4 18 2 2 0 90 9 4000 72 9 8000 9 (-5) 20 (State.init memW)
    (by decide) (by decide) (by decide) (by decide) (by decide)
    outDistinctW outNotInputW outNotParamsW (by decide)

/-! ### The addresses of the vectors of a pass -/

theorem inVecAddr_mkArgs (VL nr nc inptr : Nat) (ldir ldic : Int) (outptr : Nat)
    (ldor ldoc : Int) (params : Nat) (amin amax : Int) (i j R C k : Nat) :
    inVecAddr (mkArgs nr nc inptr ldir ldic outptr ldor ldoc params amin amax) VL i j R C k
      = lane_addr inptr (input_offset VL ldir ldic i j R C k) 0 := by
  apply eq_of_cast_lt (Nat.mod_lt _ W_pos) (u64_lt _)
  simp only [inVecAddr, lane_addr, input_offset, mkArgs]
  push_cast [ZMod.natCast_mod, u64_cast]
  ring

theorem outVecAddr_mkArgs (VL nr nc inptr : Nat) (ldir ldic : Int) (outptr : Nat)
    (ldor ldoc : Int) (params : Nat) (amin amax : Int) (i j r c k : Nat) :
    outVecAddr (mkArgs nr nc inptr ldir ldic outptr ldor ldoc params amin amax) VL i j r c k
      = lane_addr outptr (output_offset VL ldor ldoc i j r c k) 0 := by
  apply eq_of_cast_lt (Nat.mod_lt _ W_pos) (u64_lt _)
  simp only [outVecAddr, lane_addr, output_offset, mkArgs]
  push_cast [ZMod.natCast_mod, u64_cast]
  ring

theorem laneAddr_lt (a l : Nat) : laneAddr a l < W := Nat.mod_lt _ W_pos

theorem lane_inVecAddr (VL nr nc inptr : Nat) (ldir ldic : Int) (outptr : Nat)
    (ldor ldoc : Int) (params : Nat) (amin amax : Int) (i j R C k l : Nat) :
    laneAddr (inVecAddr (mkArgs nr nc inptr ldir ldic outptr ldor ldoc params amin amax)
        VL i j R C k) l
      = lane_addr inptr (input_offset VL ldir ldic i j R C k) l := by
  apply eq_of_cast_lt (laneAddr_lt _ _) (u64_lt _)
  simp only [laneAddr, inVecAddr, lane_addr, input_offset, mkArgs]
  push_cast [ZMod.natCast_mod, u64_cast]
  ring

theorem lane_outVecAddr (VL nr nc inptr : Nat) (ldir ldic : Int) (outptr : Nat)
    (ldor ldoc : Int) (params : Nat) (amin amax : Int) (i j r c k l : Nat) :
    laneAddr (outVecAddr (mkArgs nr nc inptr ldir ldic outptr ldor ldoc params amin amax)
        VL i j r c k) l
      = lane_addr outptr (output_offset VL ldor ldoc i j r c k) l := by
  apply eq_of_cast_lt (laneAddr_lt _ _) (u64_lt _)
  simp only [laneAddr, outVecAddr, lane_addr, output_offset, mkArgs]
  push_cast [ZMod.natCast_mod, u64_cast]
  ring

/-- C9 (input addressing).  With `input_offset` the element offset
`4 * (tile_i * ld_input_row + tile_j * ld_input_col) + R * ld_input_row
+ C * ld_input_col + k * VL` and `lane_addr ptr off l` the byte address
`ptr + 4 * (off + l)` modulo `2 ^ 64`: the kernel returns (given enough
fuel), its events are those of the tiles in order, where the load of input
vector `(R, C)` of pass `k` of tile `(i, j)` (whether issued in the pass, in
the pass before or in the setup of the tile) reads the active lanes `l` at
`lane_addr inptr (input_offset .. i j R C k) l`; and at the entry of pass
`k` of tile `(i, j)` the row pointer of window row `R` (`x8, x15, x14, x13,
x12, x11`) is the address at offset `input_offset .. i j R 0 k`, the base
plus `R` times `ld_input_row`, and the address operand of input vector
`(R, C)` is the address at offset `input_offset .. i j R C k`. -/
theorem C9_input_addressing (VL fuel n_tile_rows n_tile_cols inptr : Nat)
    (ld_input_row ld_input_col : Int) (outptr : Nat) (ld_output_row ld_output_col : Int)
    (params n_channels : Nat) (activation_min activation_max : Int) (s0 : State)
    (hVL : 1 ≤ VL) (hVL32 : VL < 2 ^ 32)
    (hr : 1 ≤ n_tile_rows) (hr32 : n_tile_rows < 2 ^ 32)
    (hc : 1 ≤ n_tile_cols) (hc32 : n_tile_cols < 2 ^ 32) (hn32 : n_channels < 2 ^ 32)
    (hfuel : (n_tile_rows + 1) * (n_tile_cols + 1) + n_channels ≤ fuel) :
    ∃ s1, sve_fp32_nhwc_3x3_s1_output4x4_mla_depthfirst_direct_impl VL fuel n_tile_rows
        n_tile_cols inptr ld_input_row ld_input_col outptr ld_output_row ld_output_col params
        n_channels activation_min activation_max s0 = some s1 ∧
      s1.trace = s0.trace ++ tilesTrace ⟨VL, n_channels⟩
        (mkArgs n_tile_rows n_tile_cols inptr ld_input_row ld_input_col outptr ld_output_row
          ld_output_col params activation_min activation_max) (n_tile_rows * n_tile_cols) ∧
      (∀ i j k R C, Access.events ⟨VL, n_channels⟩
          (mkArgs n_tile_rows n_tile_cols inptr ld_input_row ld_input_col outptr ld_output_row
            ld_output_col params activation_min activation_max) i j k (Access.inp R C)
        = (lanes VL (predAt ⟨VL, n_channels⟩ k)).map (fun l =>
            Event.rd (lane_addr inptr (input_offset VL ld_input_row ld_input_col i j R C k) l))) ∧
      (∀ i j k R C, Access.events ⟨VL, n_channels⟩
          (mkArgs n_tile_rows n_tile_cols inptr ld_input_row ld_input_col outptr ld_output_row
            ld_output_col params activation_min activation_max) i j k (Access.nxt R C)
        = (lanes VL (predAt ⟨VL, n_channels⟩ (k + 1))).map (fun l =>
            Event.rd (lane_addr inptr
              (input_offset VL ld_input_row ld_input_col i j R C (k + 1)) l))) ∧
      (∀ i j R C, Access.eventsS ⟨VL, n_channels⟩
          (mkArgs n_tile_rows n_tile_cols inptr ld_input_row ld_input_col outptr ld_output_row
            ld_output_col params activation_min activation_max) i j (Access.inp R C)
        = (lanes VL (predAt ⟨VL, n_channels⟩ 0)).map (fun l =>
            Event.rd (lane_addr inptr (input_offset VL ld_input_row ld_input_col i j R C 0) l))) ∧
      ∀ i j k, i < n_tile_rows → j < n_tile_cols → k ≤ (n_channels - 1) / VL →
        ∀ R C, R < 6 → C < 6 →
          (at_pass VL n_tile_rows n_tile_cols inptr ld_input_row ld_input_col outptr
            ld_output_row ld_output_col params n_channels activation_min activation_max s0
            i j k).x (inRowReg R)
            = lane_addr inptr (input_offset VL ld_input_row ld_input_col i j R 0 k) 0 ∧
          (inE R C).eval ⟨VL, n_channels⟩
            (at_pass VL n_tile_rows n_tile_cols inptr ld_input_row ld_input_col outptr
              ld_output_row ld_output_col params n_channels activation_min activation_max s0
              i j k)
            = lane_addr inptr (input_offset VL ld_input_row ld_input_col i j R C k) 0 := by
  have hA : numTiles (mkArgs n_tile_rows n_tile_cols inptr ld_input_row ld_input_col outptr
      ld_output_row ld_output_col params activation_min activation_max)
      = n_tile_rows * n_tile_cols := numTiles_eq _ hr hc
  have hT := impl_trace VL n_tile_rows n_tile_cols inptr ld_input_row ld_input_col
    outptr ld_output_row ld_output_col params n_channels activation_min activation_max s0 hVL
    hVL32 hn32 hr32 hc32
  rw [hA] at hT
  have hrun := impl_run VL fuel n_tile_rows n_tile_cols inptr ld_input_row ld_input_col outptr
    ld_output_row ld_output_col params n_channels activation_min activation_max s0 hVL hVL32
    hn32 hr32 hc32 hfuel
  rw [hA] at hrun
  refine ⟨_, hrun, hT, ?_, ?_, ?_, ?_⟩
  · intro i j k R C
    simp only [Access.events, rdLanes, lane_inVecAddr]
  · intro i j k R C
    simp only [Access.events, rdLanes, lane_inVecAddr]
  · intro i j R C
    simp only [Access.eventsS, rdLanes, lane_inVecAddr]
  · intro i j k hi hj hk R C hR hC
    have hI := at_pass_inv VL n_tile_rows n_tile_cols inptr ld_input_row ld_input_col outptr
      ld_output_row ld_output_col params n_channels activation_min activation_max s0 hVL hVL32
      hn32 hr32 hc32 i j k hi hj hk
    obtain ⟨hm, hx⟩ := inRowReg_spec ⟨VL, n_channels⟩ (mkArgs n_tile_rows n_tile_cols inptr
      ld_input_row ld_input_col outptr ld_output_row ld_output_col params activation_min
      activation_max) i j k R hR
    refine ⟨?_, ?_⟩
    · rw [hI.x _ hm, hx]
      exact inVecAddr_mkArgs VL _ _ _ _ _ _ _ _ _ _ _ i j R 0 k
    · rw [inE_eval hI R C hR hC]
      exact inVecAddr_mkArgs VL _ _ _ _ _ _ _ _ _ _ _ i j R C k

/-- The input addressing on the concrete 2x2 call. -/
theorem C9_input_addressing_witness :
    ∃ s1, sve_fp32_nhwc_3x3_s1_output4x4_mla_depthfirst_direct_impl 4 18 2 2 0 90 9 4000 72 9
        8000 9 (-5) 20 (State.init memW) = some s1 ∧
      s1.trace = (State.init memW).trace ++ tilesTrace ⟨4, 9⟩
        (mkArgs 2 2 0 90 9 4000 72 9 8000 (-5) 20) (2 * 2) ∧
      (∀ i j k R C, Access.events ⟨4, 9⟩
          (mkArgs 2 2 0 90 9 4000 72 9 8000 (-5) 20) i j k (Access.inp R C)
        = (lanes 4 (predAt ⟨4, 9⟩ k)).map (fun l =>
            Event.rd (lane_addr 0 (input_offset 4 90 9 i j R C k) l))) ∧
      (∀ i j k R C, Access.events ⟨4, 9⟩
          (mkArgs 2 2 0 90 9 4000 72 9 8000 (-5) 20) i j k (Access.nxt R C)
        = (lanes 4 (predAt ⟨4, 9⟩ (k + 1))).map (fun l =>
            Event.rd (lane_addr 0 (input_offset 4 90 9 i j R C (k + 1)) l))) ∧
      (∀ i j R C, Access.eventsS ⟨4, 9⟩
          (mkArgs 2 2 0 90 9 4000 72 9 8000 (-5) 20) i j (Access.inp R C)
        = (lanes 4 (predAt ⟨4, 9⟩ 0)).map (fun l =>
            Event.rd (lane_addr 0 (input_offset 4 90 9 i j R C 0) l))) ∧
      ∀ i j k, i < 2 → j < 2 → k ≤ (9 - 1) / 4 →
        ∀ R C, R < 6 → C < 6 →
          (at_pass 4 2 2 0 90 9 4000 72 9 8000 9 (-5) 20 (State.init memW) i j k).x (inRowReg R)
            = lane_addr 0 (input_offset 4 90 9 i j R 0 k) 0 ∧
          (inE R C).eval ⟨4, 9⟩
            (at_pass 4 2 2 0 90 9 4000 72 9 8000 9 (-5) 20 (State.init memW) i j k)
            = lane_addr 0 (input_offset 4 90 9 i j R C k) 0 :=
  C9_input_addressing 4 18 2 2 0 90 9 4000 72 9 8000 9 (-5) 20 (State.init memW)
    (by decide) (by decide) (by decide) (by decide) (by decide) (by decide) (by decide)
    (by decide)

/-- The stores of a pass of a call, with their addresses from the offsets. -/
theorem passStores_mkArgs (VL n_tile_rows n_tile_cols inptr : Nat)
    (ld_input_row ld_input_col : Int) (outptr : Nat) (ld_output_row ld_output_col : Int)
    (params n_channels : Nat) (activation_min activation_max : Int) (i j k : Nat) (s : State)
    (hI : PassInv ⟨VL, n_channels⟩ (mkArgs n_tile_rows n_tile_cols inptr ld_input_row
      ld_input_col outptr ld_output_row ld_output_col params activation_min activation_max)
      i j k s) :
    passStores ⟨VL, n_channels⟩ s = pixels.map (fun rc =>
      (lane_addr outptr (output_offset VL ld_output_row ld_output_col i j rc.1 rc.2 k) 0,
        predAt ⟨VL, n_channels⟩ k, passVal ⟨VL, n_channels⟩ s rc.1 rc.2)) := by
  unfold passStores
  apply List.map_congr_left
  intro rc hrc
  obtain ⟨h1, h2⟩ := pixels_bound rc hrc
  rw [outE_eval hI rc.1 rc.2 h1 h2, hI.p2, outVecAddr_mkArgs]

/-- C10 (output addressing).  With `output_offset` the element offset
`4 * (tile_i * ld_output_row + tile_j * ld_output_col) + r * ld_output_row
+ c * ld_output_col + k * VL` and `lane_addr ptr off l` the byte address
`ptr + 4 * (off + l)` modulo `2 ^ 64`: the kernel returns (given enough
fuel), its events are those of the tiles in order, where the stores of pass
`k` of tile `(i, j)` write, pixel after pixel, the active lanes `l` at
`lane_addr outptr (output_offset .. i j r c k) l`; at the entry of the pass
the row pointer of output row `r` (`x16, x26, x25, x24`) and the address
operand of output vector `(r, c)` are the addresses at these offsets; and
the memory after the pass (`channel_loop` for a main-loop pass,
`channel_tail` for the last) is the memory before it with, for each pixel
`(r, c)`, the clamped accumulator `z(31 - 4 * r - c)` of the pixel stored at
its address under the predicate of the pass. -/
theorem C10_output_addressing (VL fuel n_tile_rows n_tile_cols inptr : Nat)
    (ld_input_row ld_input_col : Int) (outptr : Nat) (ld_output_row ld_output_col : Int)
    (params n_channels : Nat) (activation_min activation_max : Int) (s0 : State)
    (hVL : 1 ≤ VL) (hVL32 : VL < 2 ^ 32)
    (hr : 1 ≤ n_tile_rows) (hr32 : n_tile_rows < 2 ^ 32)
    (hc : 1 ≤ n_tile_cols) (hc32 : n_tile_cols < 2 ^ 32) (hn32 : n_channels < 2 ^ 32)
    (hfuel : (n_tile_rows + 1) * (n_tile_cols + 1) + n_channels ≤ fuel) :
    ∃ s1, sve_fp32_nhwc_3x3_s1_output4x4_mla_depthfirst_direct_impl VL fuel n_tile_rows
        n_tile_cols inptr ld_input_row ld_input_col outptr ld_output_row ld_output_col params
        n_channels activation_min activation_max s0 = some s1 ∧
      s1.trace = s0.trace ++ tilesTrace ⟨VL, n_channels⟩
        (mkArgs n_tile_rows n_tile_cols inptr ld_input_row ld_input_col outptr ld_output_row
          ld_output_col params activation_min activation_max) (n_tile_rows * n_tile_cols) ∧
      (∀ i j k, passWr ⟨VL, n_channels⟩
          (mkArgs n_tile_rows n_tile_cols inptr ld_input_row ld_input_col outptr ld_output_row
            ld_output_col params activation_min activation_max) i j k
        = pixels.flatMap (fun rc => (lanes VL (predAt ⟨VL, n_channels⟩ k)).map (fun l =>
            Event.wr (lane_addr outptr
              (output_offset VL ld_output_row ld_output_col i j rc.1 rc.2 k) l)))) ∧
      ∀ i j k, i < n_tile_rows → j < n_tile_cols → k ≤ (n_channels - 1) / VL →
        (∀ r c, r < 4 → c < 4 →
          (at_pass VL n_tile_rows n_tile_cols inptr ld_input_row ld_input_col outptr
            ld_output_row ld_output_col params n_channels activation_min activation_max s0
            i j k).x (outRowReg r)
            = lane_addr outptr (output_offset VL ld_output_row ld_output_col i j r 0 k) 0 ∧
          (outE r c).eval ⟨VL, n_channels⟩
            (at_pass VL n_tile_rows n_tile_cols inptr ld_input_row ld_input_col outptr
              ld_output_row ld_output_col params n_channels activation_min activation_max s0
              i j k)
            = lane_addr outptr (output_offset VL ld_output_row ld_output_col i j r c k) 0) ∧
        (exec ⟨VL, n_channels⟩ (if k < (n_channels - 1) / VL then channel_loop else channel_tail)
          (at_pass VL n_tile_rows n_tile_cols inptr ld_input_row ld_input_col outptr
            ld_output_row ld_output_col params n_channels activation_min activation_max s0
            i j k)).mem
          = applyStores VL
              (at_pass VL n_tile_rows n_tile_cols inptr ld_input_row ld_input_col outptr
                ld_output_row ld_output_col params n_channels activation_min activation_max s0
                i j k).mem
              (pixels.map (fun rc =>
                (lane_addr outptr (output_offset VL ld_output_row ld_output_col i j rc.1 rc.2 k) 0,
                  predAt ⟨VL, n_channels⟩ k,
                  passVal ⟨VL, n_channels⟩
                    (at_pass VL n_tile_rows n_tile_cols inptr ld_input_row ld_input_col outptr
                      ld_output_row ld_output_col params n_channels activation_min
                      activation_max s0 i j k) rc.1 rc.2))) := by
  have hA : numTiles (mkArgs n_tile_rows n_tile_cols inptr ld_input_row ld_input_col outptr
      ld_output_row ld_output_col params activation_min activation_max)
      = n_tile_rows * n_tile_cols := numTiles_eq _ hr hc
  have hT := impl_trace VL n_tile_rows n_tile_cols inptr ld_input_row ld_input_col
    outptr ld_output_row ld_output_col params n_channels activation_min activation_max s0 hVL
    hVL32 hn32 hr32 hc32
  rw [hA] at hT
  have hrun := impl_run VL fuel n_tile_rows n_tile_cols inptr ld_input_row ld_input_col outptr
    ld_output_row ld_output_col params n_channels activation_min activation_max s0 hVL hVL32
    hn32 hr32 hc32 hfuel
  rw [hA] at hrun
  refine ⟨_, hrun, hT, ?_, ?_⟩
  · intro i j k
    simp only [passWr, wrLanes, lane_outVecAddr]
  · intro i j k hi hj hk
    have hI := at_pass_inv VL n_tile_rows n_tile_cols inptr ld_input_row ld_input_col outptr
      ld_output_row ld_output_col params n_channels activation_min activation_max s0 hVL hVL32
      hn32 hr32 hc32 i j k hi hj hk
    refine ⟨?_, ?_⟩
    · intro r c hr4 hc4
      obtain ⟨hm, hx⟩ := outRowReg_spec ⟨VL, n_channels⟩ (mkArgs n_tile_rows n_tile_cols inptr
        ld_input_row ld_input_col outptr ld_output_row ld_output_col params activation_min
        activation_max) i j k r hr4
      refine ⟨?_, ?_⟩
      · rw [hI.x _ hm, hx]
        exact outVecAddr_mkArgs VL _ _ _ _ _ _ _ _ _ _ _ i j r 0 k
      · rw [outE_eval hI r c hr4 hc4]
        exact outVecAddr_mkArgs VL _ _ _ _ _ _ _ _ _ _ _ i j r c k
    · rw [← passStores_mkArgs VL n_tile_rows n_tile_cols inptr ld_input_row ld_input_col outptr
        ld_output_row ld_output_col params n_channels activation_min activation_max i j k _ hI]
      split
      · exact loop_mem _ _ hI.p3
      · exact tail_mem _ _ hI.p3

/-- The output addressing on the concrete 2x2 call. -/
theorem C10_output_addressing_witness :
    ∃ s1, sve_fp32_nhwc_3x3_s1_output4x4_mla_depthfirst_direct_impl 4 18 2 2 0 90 9 4000 72 9
        8000 9 (-5) 20 (State.init memW) = some s1 ∧
      s1.trace = (State.init memW).trace ++ tilesTrace ⟨4, 9⟩
        (mkArgs 2 2 0 90 9 4000 72 9 8000 (-5) 20) (2 * 2) ∧
      (∀ i j k, passWr ⟨4, 9⟩ (mkArgs 2 2 0 90 9 4000 72 9 8000 (-5) 20) i j k
        = pixels.flatMap (fun rc => (lanes 4 (predAt ⟨4, 9⟩ k)).map (fun l =>
            Event.wr (lane_addr 4000 (output_offset 4 72 9 i j rc.1 rc.2 k) l)))) ∧
      ∀ i j k, i < 2 → j < 2 → k ≤ (9 - 1) / 4 →
        (∀ r c, r < 4 → c < 4 →
          (at_pass 4 2 2 0 90 9 4000 72 9 8000 9 (-5) 20 (State.init memW) i j k).x (outRowReg r)
            = lane_addr 4000 (output_offset 4 72 9 i j r 0 k) 0 ∧
          (outE r c).eval ⟨4, 9⟩
            (at_pass 4 2 2 0 90 9 4000 72 9 8000 9 (-5) 20 (State.init memW) i j k)
            = lane_addr 4000 (output_offset 4 72 9 i j r c k) 0) ∧
        (exec ⟨4, 9⟩ (if k < (9 - 1) / 4 then channel_loop else channel_tail)
          (at_pass 4 2 2 0 90 9 4000 72 9 8000 9 (-5) 20 (State.init memW) i j k)).mem
          = applyStores 4
              (at_pass 4 2 2 0 90 9 4000 72 9 8000 9 (-5) 20 (State.init memW) i j k).mem
              (pixels.map (fun rc =>
                (lane_addr 4000 (output_offset 4 72 9 i j rc.1 rc.2 k) 0,
                  predAt ⟨4, 9⟩ k,
                  passVal ⟨4, 9⟩
                    (at_pass 4 2 2 0 90 9 4000 72 9 8000 9 (-5) 20 (State.init memW) i j k)
                    rc.1 rc.2))) :=
  C10_output_addressing 4 18 2 2 0 90 9 4000 72 9 8000 9 (-5) 20 (State.init memW)
    (by decide) (by decide) (by decide) (by decide) (by decide) (by decide) (by decide)
    (by decide)

/-! ### The column offsets of the input loads -/

theorem loads_ok : ∀ ins ∈ tile_setup ++ channel_loop ++ channel_tail, loadAddrOk ins = true := by
  decide!

theorem loop_loads_idx : ∀ R, R < 6 → ∀ C, C < 6 → 1 ≤ C →
    loadsFrom channel_loop (Addr.idx (inRowReg R) (inColReg C)) = true := by decide!

theorem loop_loads_base : ∀ R, R < 6 → loadsFrom channel_loop (Addr.base (inRowReg R)) = true := by
  decide!

theorem inColReg_mkArgs (VL nr nc inptr : Nat) (ldir ldic : Int) (outptr : Nat)
    (ldor ldoc : Int) (params n : Nat) (amin amax : Int) (i j k C : Nat)
    (h1 : 1 ≤ C) (hC : C < 6) :
    passX ⟨VL, n⟩ (mkArgs nr nc inptr ldir ldic outptr ldor ldoc params amin amax) i j k
      (inColReg C) = u64 ((C : Int) * ldic) := by
  have hlt : passX ⟨VL, n⟩ (mkArgs nr nc inptr ldir ldic outptr ldor ldoc params amin amax)
      i j k (inColReg C) < W := by
    interval_cases C
    · exact u64_lt _
    all_goals exact Nat.mod_lt _ W_pos
  apply eq_of_cast_lt hlt (u64_lt _)
  rw [(inColReg_spec ⟨VL, n⟩ _ i j k C h1 hC).2]
  simp only [mkArgs]
  push_cast [u64_cast]
  rfl

/-- C11, as the code has it (column offsets of the input loads).  The
kernel precomputes five column offsets, the multiples `1x .. 5x` of the
input column stride, in `x7, x10, x9, x28, x27`: at the entry of every pass
of every tile the register of column `C`, `1 <= C <= 5`, holds `C *
ld_input_col` modulo `2 ^ 64`.  Every vector load of the three blocks is a
params load from `x4` under `p3`, or an input load whose address operand is
one of the six row pointers, alone or indexed by one of these five
registers (scaled by four at the access); the address operand of input
vector `(R, C)` is row pointer `R` for `C = 0` and row pointer `R` plus four
times the offset register of column `C` otherwise, and every one of the six
row pointers is used alone and with each of the five offsets. -/
theorem C11_input_column_offsets (VL n_tile_rows n_tile_cols inptr : Nat)
    (ld_input_row ld_input_col : Int) (outptr : Nat) (ld_output_row ld_output_col : Int)
    (params n_channels : Nat) (activation_min activation_max : Int) (s0 : State)
    (hVL : 1 ≤ VL) (hVL32 : VL < 2 ^ 32) (hr32 : n_tile_rows < 2 ^ 32)
    (hc32 : n_tile_cols < 2 ^ 32) (hn32 : n_channels < 2 ^ 32) :
    (∀ ins ∈ tile_setup ++ channel_loop ++ channel_tail, loadAddrOk ins = true) ∧
    (∀ R, R < 6 → loadsFrom channel_loop (Addr.base (inRowReg R)) = true) ∧
    (∀ R, R < 6 → ∀ C, C < 6 → 1 ≤ C →
      loadsFrom channel_loop (Addr.idx (inRowReg R) (inColReg C)) = true) ∧
    ∀ i j k, i < n_tile_rows → j < n_tile_cols → k ≤ (n_channels - 1) / VL →
      ∀ R C, R < 6 → C < 6 →
        (1 ≤ C →
          (at_pass VL n_tile_rows n_tile_cols inptr ld_input_row ld_input_col outptr
            ld_output_row ld_output_col params n_channels activation_min activation_max s0
            i j k).x (inColReg C) = u64 ((C : Int) * ld_input_col)) ∧
        (inE R C).eval ⟨VL, n_channels⟩
          (at_pass VL n_tile_rows n_tile_cols inptr ld_input_row ld_input_col outptr
            ld_output_row ld_output_col params n_channels activation_min activation_max s0
            i j k)
          = if C = 0 then
              (at_pass VL n_tile_rows n_tile_cols inptr ld_input_row ld_input_col outptr
                ld_output_row ld_output_col params n_channels activation_min activation_max s0
                i j k).x (inRowReg R)
            else
              ((at_pass VL n_tile_rows n_tile_cols inptr ld_input_row ld_input_col outptr
                ld_output_row ld_output_col params n_channels activation_min activation_max s0
                i j k).x (inRowReg R)
              + (at_pass VL n_tile_rows n_tile_cols inptr ld_input_row ld_input_col outptr
                ld_output_row ld_output_col params n_channels activation_min activation_max s0
                i j k).x (inColReg C) * 4) % W := by
  refine ⟨loads_ok, loop_loads_base, loop_loads_idx, ?_⟩
  intro i j k hi hj hk R C hR hC
  have hI := at_pass_inv VL n_tile_rows n_tile_cols inptr ld_input_row ld_input_col outptr
    ld_output_row ld_output_col params n_channels activation_min activation_max s0 hVL hVL32
    hn32 hr32 hc32 i j k hi hj hk
  refine ⟨?_, ?_⟩
  · intro h1
    rw [hI.x _ (inColReg_spec ⟨VL, n_channels⟩ (mkArgs n_tile_rows n_tile_cols inptr
      ld_input_row ld_input_col outptr ld_output_row ld_output_col params activation_min
      activation_max) i j k C h1 hC).1]
    exact inColReg_mkArgs VL _ _ _ _ _ _ _ _ _ _ _ _ i j k C h1 hC
  · unfold inE
    split <;> rfl

/-- The column offsets on the concrete 2x2 call. -/
theorem C11_input_column_offsets_witness :
    (∀ ins ∈ tile_setup ++ channel_loop ++ channel_tail, loadAddrOk ins = true) ∧
    (∀ R, R < 6 → loadsFrom channel_loop (Addr.base (inRowReg R)) = true) ∧
    (∀ R, R < 6 → ∀ C, C < 6 → 1 ≤ C →
      loadsFrom channel_loop (Addr.idx (inRowReg R) (inColReg C)) = true) ∧
    ∀ i j k, i < 2 → j < 2 → k ≤ (9 - 1) / 4 →
      ∀ R C, R < 6 → C < 6 →
        (1 ≤ C →
          (at_pass 4 2 2 0 90 9 4000 72 9 8000 9 (-5) 20 (State.init memW)
            i j k).x (inColReg C) = u64 ((C : Int) * 9)) ∧
        (inE R C).eval ⟨4, 9⟩
          (at_pass 4 2 2 0 90 9 4000 72 9 8000 9 (-5) 20 (State.init memW) i j k)
          = if C = 0 then
              (at_pass 4 2 2 0 90 9 4000 72 9 8000 9 (-5) 20 (State.init memW)
                i j k).x (inRowReg R)
            else
              ((at_pass 4 2 2 0 90 9 4000 72 9 8000 9 (-5) 20 (State.init memW)
                i j k).x (inRowReg R)
              + (at_pass 4 2 2 0 90 9 4000 72 9 8000 9 (-5) 20 (State.init memW)
                i j k).x (inColReg C) * 4) % W :=
  C11_input_column_offsets 4 2 2 0 90 9 4000 72 9 8000 9 (-5) 20 (State.init memW)
    (by decide) (by decide) (by decide) (by decide) (by decide)

set_option maxRecDepth 100000 in
/-- C11 as stated fails: the setup loads input vector `(0, 5)` with
`ld1w z11.s, p2/Z, [x8, x27, LSL #2]`, and on the concrete single-tile call
(`ld_input_col = 3`) `x27` holds `5 * 3` and `x28` holds `4 * 3` at the
entry of the first pass; the call reads byte address 60, the element at
column 5 of row 0, which no row pointer reaches directly or with the
offsets `1x, 2x, 3x`. -/
theorem C11_column_offsets_counterexample :
    Instr.ld1w 11 2 (Addr.idx 8 27) ∈ tile_setup ∧
    (at_pass 2 1 1 0 18 3 1000 12 3 2000 3 (-5) 20 (State.init memW) 0 0 0).x 27 = 5 * 3 ∧
    (at_pass 2 1 1 0 18 3 1000 12 3 2000 3 (-5) 20 (State.init memW) 0 0 0).x 28 = 4 * 3 ∧
    (sve_fp32_nhwc_3x3_s1_output4x4_mla_depthfirst_direct_impl 2 7 1 1 0 18 3 1000 12 3
        2000 3 (-5) 20 (State.init memW)).map (fun s1 => decide (Event.rd 60 ∈ s1.trace))
      = some true ∧
    (∀ R, R < 6 → ∀ C, C < 4 → ∀ ch, ch < 3 → in_addr 0 18 3 R C ch ≠ 60) := by
  decide!

/-! ### The all-ones scenario -/

theorem outS (y x ch : Nat) (hy : y < 6) (hx : x < 6) (hch : ch < 4) :
    out_addr 1000 12 3 y x ch = 1000 + 4 * (y * 12 + x * 3 + ch) := by
  have := out_addr_of_nat 1000 12 3 y x ch (by simp only [W]; omega)
  simpa using this

theorem inS (y x ch : Nat) (hy : y < 6) (hx : x < 6) (hch : ch < 4) :
    in_addr 0 18 3 y x ch = 0 + 4 * (y * 18 + x * 3 + ch) := by
  have := in_addr_of_nat 0 18 3 y x ch (by simp only [W]; omega)
  simpa using this

theorem outDistinctS : OutDistinct 1 1 3 1000 12 3 := by
  intro y hy x hx ch hch y' hy' x' hx' ch' hch' h
  rw [outS y x ch (by omega) (by omega) (by omega),
    outS y' x' ch' (by omega) (by omega) (by omega)] at h
  omega

theorem outNotInputS : OutNotInput 1 1 3 0 18 3 1000 12 3 := by
  intro y hy x hx ch hch y' hy' x' hx' ch' hch'
  rw [outS y x ch (by omega) (by omega) (by omega),
    inS y' x' ch' (by omega) (by omega) (by omega)]
  omega

theorem outNotParamsS : OutNotParams 4 1 1 3 1000 12 3 2000 := by
  intro y hy x hx ch hch e he
  rw [outS y x ch (by omega) (by omega) (by omega),
    par_addr_of_nat 2000 e (by simp only [W]; omega)]
  have he2 : e < 40 := he
  omega

theorem onesInput : ∀ y x ch, y < 6 → x < 6 → ch < 3 →
    (State.init memOnes).mem (in_addr 0 18 3 y x ch) = 1 := by
  intro y x ch hy hx hch
  rw [inS y x ch hy hx (by omega)]
  show memOnes _ = 1
  unfold memOnes
  rw [if_neg (by omega)]

theorem onesPacked : Packed 4 3 2000 (State.init memOnes).mem (fun _ => 0) (fun _ _ _ => 1) := by
  intro ch hch
  interval_cases ch <;> refine ⟨by decide, fun kr hkr kc hkc => ?_⟩ <;>
    interval_cases kr <;> interval_cases kc <;> decide

/-- The sum of the nine products of an all-ones window with all-ones taps. -/
theorem ones_sum (m : Nat → Int) (inptr : Nat) (ldir ldic : Int) (y x ch : Nat)
    (h : ∀ y' x', y' < y + 3 → x' < x + 3 → m (in_addr inptr ldir ldic y' x' ch) = 1) :
    (0 : Int) + ∑ kr in Finset.range 3, ∑ kc in Finset.range 3,
      (1 : Int) * m (in_addr inptr ldir ldic (y + kr) (x + kc) ch) = 9 := by
  simp only [Finset.sum_range_succ, Finset.sum_range_zero]
  rw [h (y + 0) (x + 0) (by omega) (by omega), h (y + 0) (x + 1) (by omega) (by omega),
    h (y + 0) (x + 2) (by omega) (by omega), h (y + 1) (x + 0) (by omega) (by omega),
    h (y + 1) (x + 1) (by omega) (by omega), h (y + 1) (x + 2) (by omega) (by omega),
    h (y + 2) (x + 0) (by omega) (by omega), h (y + 2) (x + 1) (by omega) (by omega),
    h (y + 2) (x + 2) (by omega) (by omega)]
  norm_num

/-- C12 (concrete scenario).  For a 1x1 tile grid, `n_channels = 3` and
vector width 4, an all-ones 6x6x3 input and a params block packing bias 0
and nine taps 1 for every channel, with any strides and pointers for which
the output region has distinct addresses and meets neither the input nor
the params block, and any activation bounds: the kernel returns (given
enough fuel), the call is the setup and the tail pass of the one tile and no
main-loop iteration (labels 1 and 3), and every one of the 16x3 output
elements is `min (max 9 activation_min) activation_max`. -/
theorem C12_all_ones_scenario (fuel inptr : Nat) (ld_input_row ld_input_col : Int)
    (outptr : Nat) (ld_output_row ld_output_col : Int) (params : Nat)
    (activation_min activation_max : Int) (s0 : State)
    (hones : ∀ y x ch, y < 6 → x < 6 → ch < 3 →
      s0.mem (in_addr inptr ld_input_row ld_input_col y x ch) = 1)
    (hpack : Packed 4 3 params s0.mem (fun _ => 0) (fun _ _ _ => 1))
    (hdist : OutDistinct 1 1 3 outptr ld_output_row ld_output_col)
    (hin : OutNotInput 1 1 3 inptr ld_input_row ld_input_col outptr ld_output_row
      ld_output_col)
    (hpar : OutNotParams 4 1 1 3 outptr ld_output_row ld_output_col params)
    (hfuel : 7 ≤ fuel) :
    ∃ s1 tr, sve_fp32_nhwc_3x3_s1_output4x4_mla_depthfirst_direct_impl 4 fuel 1 1 inptr
        ld_input_row ld_input_col outptr ld_output_row ld_output_col params 3
        activation_min activation_max s0 = some s1 ∧
      s1.trace = s0.trace ++ tr ∧
      labelsOf tr = [1, 3] ∧
      ∀ y x ch, y < 4 → x < 4 → ch < 3 →
        s1.mem (out_addr outptr ld_output_row ld_output_col y x ch)
          = min (max 9 activation_min) activation_max := by
  refine ⟨_, _, impl_run 4 fuel 1 1 inptr ld_input_row ld_input_col outptr ld_output_row
    ld_output_col params 3 activation_min activation_max s0 (by decide) (by decide) (by decide)
    (by decide) (by decide) (by omega), impl_trace 4 1 1 inptr ld_input_row ld_input_col outptr
    ld_output_row ld_output_col params 3 activation_min activation_max s0 (by decide)
    (by decide) (by decide) (by decide) (by decide), ?_, ?_⟩
  · have hA : numTiles (mkArgs 1 1 inptr ld_input_row ld_input_col outptr
        ld_output_row ld_output_col params activation_min activation_max) = 1 := rfl
    rw [hA]
    unfold tilesTrace
    rw [labelsOf_flatMap]
    simp only [List.range_succ, List.range_zero, List.nil_append, List.flatMap_cons,
      List.flatMap_nil, List.append_nil, labelsOf_tileTrace]
    rfl
  · intro y x ch hy hx hch
    rw [impl_out 4 1 1 inptr ld_input_row ld_input_col outptr ld_output_row ld_output_col
      params 3 activation_min activation_max s0 (by decide) (by decide) (by decide) (by decide)
      (by decide) hdist hin hpar y x ch (by omega) (by omega) hch,
      refOut_packed 4 1 1 inptr ld_input_row ld_input_col outptr ld_output_row ld_output_col
        params 3 activation_min activation_max s0.mem (fun _ => 0) (fun _ _ _ => 1) hpack
        y x ch hch,
      ones_sum s0.mem inptr ld_input_row ld_input_col y x ch
        (fun y' x' hy' hx' => hones y' x' ch (by omega) (by omega) hch)]

/-- The all-ones scenario at byte addresses 0, 1000 and 2000: every output
element is 9 with the bounds `(0, 100)` and 5 with the bounds `(0, 5)`. -/
theorem C12_all_ones_scenario_witness :
    (∃ s1 tr, sve_fp32_nhwc_3x3_s1_output4x4_mla_depthfirst_direct_impl 4 7 1 1 0 18 3
        1000 12 3 2000 3 0 100 (State.init memOnes) = some s1 ∧
      s1.trace = (State.init memOnes).trace ++ tr ∧
      labelsOf tr = [1, 3] ∧
      ∀ y x ch, y < 4 → x < 4 → ch < 3 →
        s1.mem (out_addr 1000 12 3 y x ch) = min (max 9 0) 100) ∧
    (∃ s1 tr, sve_fp32_nhwc_3x3_s1_output4x4_mla_depthfirst_direct_impl 4 7 1 1 0 18 3
        1000 12 3 2000 3 0 5 (State.init memOnes) = some s1 ∧
      s1.trace = (State.init memOnes).trace ++ tr ∧
      labelsOf tr = [1, 3] ∧
      ∀ y x ch, y < 4 → x < 4 → ch < 3 →
        s1.mem (out_addr 1000 12 3 y x ch) = min (max 9 0) 5) ∧
    min (max (9 : Int) 0) 100 = 9 ∧ min (max (9 : Int) 0) 5 = 5 :=
  ⟨C12_all_ones_scenario 7 0 18 3 1000 12 3 2000 0 100 (State.init memOnes)
      onesInput onesPacked outDistinctS outNotInputS outNotParamsS (by decide),
    C12_all_ones_scenario 7 0 18 3 1000 12 3 2000 0 5 (State.init memOnes)
      onesInput onesPacked outDistinctS outNotInputS outNotParamsS (by decide),
    by decide, by decide⟩

/-! ### The activation clamp -/

theorem clamp_idem (x lo hi : Int) : clamp (clamp x lo hi) lo hi = clamp x lo hi := by
  unfold clamp
  simp only [min_def, max_def]
  split_ifs <;> omega

theorem clampAcc_z (c : Cfg) (s : State) (zd l : Nat) (h14 : zd ≠ 14)
    (hp : s.p 3 l = true) :
    (exec c (clampAcc zd) s).z zd l = clamp (s.z zd l) (s.z 15 l) (s.z 14 l) := by
  have e14 : (14 : Nat) ≠ zd := fun h => h14 h.symm
  simp [clampAcc, exec, step, upd, clamp, hp, e14]

theorem clamp_step (p : Bool) (x lo hi : Int) :
    (if p = true then min (if p = true then max (if p = true then
        min (if p = true then max x lo else x) hi else (if p = true then max x lo else x)) lo
      else (if p = true then min (if p = true then max x lo else x) hi
        else (if p = true then max x lo else x))) hi
      else (if p = true then max (if p = true then
        min (if p = true then max x lo else x) hi else (if p = true then max x lo else x)) lo
      else (if p = true then min (if p = true then max x lo else x) hi
        else (if p = true then max x lo else x))))
      = if p = true then min (if p = true then max x lo else x) hi
        else (if p = true then max x lo else x) := by
  cases p
  · simp
  · simp only [if_true]
    exact clamp_idem x lo hi

theorem clampAcc_idem (c : Cfg) (s : State) (zd l : Nat) :
    (exec c (clampAcc zd ++ clampAcc zd) s).z zd l = (exec c (clampAcc zd) s).z zd l := by
  by_cases h14 : zd = 14
  · subst h14
    simp only [clampAcc, exec, step, upd, List.cons_append, List.nil_append, if_true]
    cases s.p 3 l <;> simp
  · have e14 : (14 : Nat) ≠ zd := fun h => h14 h.symm
    by_cases h15 : zd = 15
    · subst h15
      simp only [clampAcc, exec, step, upd, List.cons_append, List.nil_append, if_true,
        if_neg e14]
      cases s.p 3 l <;> simp
    · have e15 : (15 : Nat) ≠ zd := fun h => h15 h.symm
      simp only [clampAcc, exec, step, upd, List.cons_append, List.nil_append, if_true,
        if_neg e14, if_neg e15]
      exact clamp_step (s.p 3 l) (s.z zd l) (s.z 15 l) (s.z 14 l)

/-- Each block clamps every accumulator once: its `fmax` and `fmin`
instructions on `zd` are those of `clampAcc zd`, in this order. -/
theorem clampAcc_blocks : ∀ zd, zd < 32 → 16 ≤ zd →
    channel_loop.filter (isClampOf zd) = clampAcc zd ∧
    channel_tail.filter (isClampOf zd) = clampAcc zd := by
  decide!

/-- C13 (clamp idempotence).  With `clamp x lo hi = min (max x lo) hi`, for
all `x`, `lo` and `hi` (ordered or not) clamping twice is clamping once.  The
kernel applies this clamp to every accumulator: each block has, for each
accumulator `z16 .. z31`, exactly the `fmax` against `z15` and then the
`fmin` against `z14` of `clampAcc`; on a lane active in `p3` they leave
`clamp` of the accumulator with the bounds in `z15` and `z14`, running them
twice leaves the same accumulator as running them once, and the value a
pass stores is the clamp of the accumulated sum. -/
theorem C13_clamp_idempotence :
    (∀ x lo hi : Int, clamp (clamp x lo hi) lo hi = clamp x lo hi) ∧
    (∀ (c : Cfg) (s : State) (zd l : Nat),
      (exec c (clampAcc zd ++ clampAcc zd) s).z zd l = (exec c (clampAcc zd) s).z zd l) ∧
    (∀ (c : Cfg) (s : State) (zd l : Nat), zd ≠ 14 → s.p 3 l = true →
      (exec c (clampAcc zd) s).z zd l = clamp (s.z zd l) (s.z 15 l) (s.z 14 l)) ∧
    (∀ zd, zd < 32 → 16 ≤ zd →
      channel_loop.filter (isClampOf zd) = clampAcc zd ∧
      channel_tail.filter (isClampOf zd) = clampAcc zd) ∧
    (∀ (c : Cfg) (s : State) (r c' l : Nat),
      passVal c s r c' l
        = clamp (s.z (accReg r c') l
            + (taps.map fun t =>
                s.z (3 * t.1 + t.2) l * (inZ (r + t.1) (c' + t.2)).eval c s l).sum)
          (s.z 15 l) (s.z 14 l)) :=
  ⟨clamp_idem, clampAcc_idem, clampAcc_z, clampAcc_blocks, fun _ _ _ _ _ => rfl⟩

/-! ### The output as a function of the memory before the call -/

/-- The reference value of an output element, read from the memory. -/
theorem refOut_mem (VL nr nc inptr : Nat) (ldir ldic : Int) (outptr : Nat)
    (ldor ldoc : Int) (params n : Nat) (amin amax : Int) (m : Nat → Int)
    (y x ch : Nat) (hch : ch < n) :
    refOut ⟨VL, n⟩ (mkArgs nr nc inptr ldir ldic outptr ldor ldoc params amin amax) m y x ch
      = min (max (m (par_addr params (10 * (ch / VL) * VL + ch % VL))
          + ∑ kr in Finset.range 3, ∑ kc in Finset.range 3,
            m (par_addr params ((10 * (ch / VL) + 1 + (3 * kr + kc)) * VL + ch % VL))
              * m (in_addr inptr ldir ldic (y + kr) (x + kc) ch)) amin) amax :=
  refOut_packed VL nr nc inptr ldir ldic outptr ldor ldoc params n amin amax m
    (fun ch => m (par_addr params (10 * (ch / VL) * VL + ch % VL)))
    (fun kr kc ch => m (par_addr params ((10 * (ch / VL) + 1 + (3 * kr + kc)) * VL + ch % VL)))
    (fun _ _ => ⟨rfl, fun _ _ _ _ => rfl⟩) y x ch hch

/-- Two memories that agree on the window, the bias and the taps of a
channel give the same reference value. -/
theorem refOut_congr (VL nr nc inptr : Nat) (ldir ldic : Int) (outptr : Nat)
    (ldor ldoc : Int) (params n : Nat) (amin amax : Int) (m m' : Nat → Int)
    (y x ch : Nat) (hch : ch < n)
    (hinput : ∀ y' x', y' < y + 3 → x' < x + 3 →
      m (in_addr inptr ldir ldic y' x' ch) = m' (in_addr inptr ldir ldic y' x' ch))
    (hbias : m (par_addr params (10 * (ch / VL) * VL + ch % VL))
      = m' (par_addr params (10 * (ch / VL) * VL + ch % VL)))
    (htaps : ∀ kr kc, kr < 3 → kc < 3 →
      m (par_addr params ((10 * (ch / VL) + 1 + (3 * kr + kc)) * VL + ch % VL))
        = m' (par_addr params ((10 * (ch / VL) + 1 + (3 * kr + kc)) * VL + ch % VL))) :
    refOut ⟨VL, n⟩ (mkArgs nr nc inptr ldir ldic outptr ldor ldoc params amin amax) m y x ch
      = refOut ⟨VL, n⟩ (mkArgs nr nc inptr ldir ldic outptr ldor ldoc params amin amax)
          m' y x ch := by
  rw [refOut_mem _ _ _ _ _ _ _ _ _ _ _ _ _ m y x ch hch,
    refOut_mem _ _ _ _ _ _ _ _ _ _ _ _ _ m' y x ch hch, hbias]
  congr 3
  apply Finset.sum_congr rfl
  intro kr hkr
  apply Finset.sum_congr rfl
  intro kc hkc
  rw [Finset.mem_range] at hkr hkc
  rw [htaps kr kc hkr hkc, hinput (y + kr) (x + kc) (by omega) (by omega)]

theorem memV_input : ∀ y x, y < 4 * 2 + 2 → x < 4 * 2 + 2 →
    (State.init memW).mem (in_addr 0 90 9 y x 0) = (State.init memV).mem (in_addr 0 90 9 y x 0) := by
  intro y x hy hx
  rw [inW y x 0 (by omega) (by omega) (by omega)]
  show memW _ = memV _
  unfold memV
  rw [if_neg (by omega)]

theorem memV_bias :
    (State.init memW).mem (par_addr 8000 (10 * (0 / 4) * 4 + 0 % 4))
      = (State.init memV).mem (par_addr 8000 (10 * (0 / 4) * 4 + 0 % 4)) := by decide

theorem memV_taps : ∀ kr kc, kr < 3 → kc < 3 →
    (State.init memW).mem (par_addr 8000 ((10 * (0 / 4) + 1 + (3 * kr + kc)) * 4 + 0 % 4))
      = (State.init memV).mem
          (par_addr 8000 ((10 * (0 / 4) + 1 + (3 * kr + kc)) * 4 + 0 % 4)) := by
  intro kr kc hkr hkc
  interval_cases kr <;> interval_cases kc <;> decide

/-- C14 (depthwise channel independence).  For every channel `ch <
n_channels`: two calls with the same tile counts, pointers, strides,
`n_channels`, vector width and bounds, from any two machine states whose
memories agree on the input elements of channel `ch` in the window of the
grid and on the bias and the nine taps of channel `ch` in the params block
(and may differ everywhere else), both return (given enough fuel) and leave
the same value in output channel `ch` at every position of the grid; the
output region has distinct addresses and meets neither the input nor the
params block. -/
theorem C14_channel_independence (VL fuel n_tile_rows n_tile_cols inptr : Nat)
    (ld_input_row ld_input_col : Int) (outptr : Nat) (ld_output_row ld_output_col : Int)
    (params n_channels : Nat) (activation_min activation_max : Int) (s0 s0' : State)
    (ch : Nat) (hch : ch < n_channels)
    (hVL : 1 ≤ VL) (hVL32 : VL < 2 ^ 32) (hr32 : n_tile_rows < 2 ^ 32)
    (hc32 : n_tile_cols < 2 ^ 32) (hn32 : n_channels < 2 ^ 32)
    (hdist : OutDistinct n_tile_rows n_tile_cols n_channels outptr ld_output_row ld_output_col)
    (hin : OutNotInput n_tile_rows n_tile_cols n_channels inptr ld_input_row ld_input_col
      outptr ld_output_row ld_output_col)
    (hpar : OutNotParams VL n_tile_rows n_tile_cols n_channels outptr ld_output_row
      ld_output_col params)
    (hinput : ∀ y x, y < 4 * n_tile_rows + 2 → x < 4 * n_tile_cols + 2 →
      s0.mem (in_addr inptr ld_input_row ld_input_col y x ch)
        = s0'.mem (in_addr inptr ld_input_row ld_input_col y x ch))
    (hbias : s0.mem (par_addr params (10 * (ch / VL) * VL + ch % VL))
      = s0'.mem (par_addr params (10 * (ch / VL) * VL + ch % VL)))
    (htaps : ∀ kr kc, kr < 3 → kc < 3 →
      s0.mem (par_addr params ((10 * (ch / VL) + 1 + (3 * kr + kc)) * VL + ch % VL))
        = s0'.mem (par_addr params ((10 * (ch / VL) + 1 + (3 * kr + kc)) * VL + ch % VL)))
    (hfuel : (n_tile_rows + 1) * (n_tile_cols + 1) + n_channels ≤ fuel) :
    ∃ s1 s1', sve_fp32_nhwc_3x3_s1_output4x4_mla_depthfirst_direct_impl VL fuel n_tile_rows
        n_tile_cols inptr ld_input_row ld_input_col outptr ld_output_row ld_output_col params
        n_channels activation_min activation_max s0 = some s1 ∧
      sve_fp32_nhwc_3x3_s1_output4x4_mla_depthfirst_direct_impl VL fuel n_tile_rows
        n_tile_cols inptr ld_input_row ld_input_col outptr ld_output_row ld_output_col params
        n_channels activation_min activation_max s0' = some s1' ∧
      ∀ y x, y < 4 * n_tile_rows → x < 4 * n_tile_cols →
        s1.mem (out_addr outptr ld_output_row ld_output_col y x ch)
          = s1'.mem (out_addr outptr ld_output_row ld_output_col y x ch) := by
  refine ⟨_, _, impl_run VL fuel n_tile_rows n_tile_cols inptr ld_input_row ld_input_col outptr
    ld_output_row ld_output_col params n_channels activation_min activation_max s0 hVL hVL32
    hn32 hr32 hc32 hfuel, impl_run VL fuel n_tile_rows n_tile_cols inptr ld_input_row
    ld_input_col outptr ld_output_row ld_output_col params n_channels activation_min
    activation_max s0' hVL hVL32 hn32 hr32 hc32 hfuel, ?_⟩
  intro y x hy hx
  rw [impl_out VL n_tile_rows n_tile_cols inptr ld_input_row ld_input_col outptr
      ld_output_row ld_output_col params n_channels activation_min activation_max s0 hVL hVL32
      hn32 hr32 hc32 hdist hin hpar y x ch hy hx hch,
    impl_out VL n_tile_rows n_tile_cols inptr ld_input_row ld_input_col outptr
      ld_output_row ld_output_col params n_channels activation_min activation_max s0' hVL hVL32
      hn32 hr32 hc32 hdist hin hpar y x ch hy hx hch]
  exact refOut_congr VL _ _ _ _ _ _ _ _ _ _ _ _ s0.mem s0'.mem y x ch hch
    (fun y' x' hy' hx' => hinput y' x' (by omega) (by omega)) hbias htaps

/-- The channel independence on the concrete 2x2 call, for channel 0 and
two memories that differ in an input element and in the bias of channel 1. -/
theorem C14_channel_independence_witness :
    (State.init memW).mem (in_addr 0 90 9 0 0 1) ≠ (State.init memV).mem (in_addr 0 90 9 0 0 1) ∧
    ∃ s1 s1', sve_fp32_nhwc_3x3_s1_output4x4_mla_depthfirst_direct_impl 4 18 2 2 0 90 9
        4000 72 9 8000 9 (-5) 20 (State.init memW) = some s1 ∧
      sve_fp32_nhwc_3x3_s1_output4x4_mla_depthfirst_direct_impl 4 18 2 2 0 90 9
        4000 72 9 8000 9 (-5) 20 (State.init memV) = some s1' ∧
      ∀ y x, y < 4 * 2 → x < 4 * 2 →
        s1.mem (out_addr 4000 72 9 y x 0) = s1'.mem (out_addr 4000 72 9 y x 0) :=
  ⟨by decide, C14_channel_independence 4 18 2 2 0 90 9 4000 72 9 8000 9 (-5) 20
    (State.init memW) (State.init memV) 0 (by decide) (by decide) (by decide) (by decide)
    (by decide) (by decide) outDistinctW outNotInputW outNotParamsW memV_input memV_bias
    memV_taps (by decide)⟩

theorem memX_input : ∀ y x ch, y < 4 * 2 + 2 → x < 4 * 2 + 2 → ch < 9 →
    (State.init memW).mem (in_addr 0 90 9 y x ch)
      = (State.init memX).mem (in_addr 0 90 9 y x ch) := by
  intro y x ch hy hx hch
  rw [inW y x ch (by omega) (by omega) (by omega)]
  show memW _ = memX _
  unfold memX
  rw [if_neg (by omega)]

theorem packedX : Packed 2 9 12000 (State.init memX).mem biasW wW := by
  intro ch hch
  interval_cases ch <;> refine ⟨by decide, fun kr hkr kc hkc => ?_⟩ <;>
    interval_cases kr <;> interval_cases kc <;> decide

theorem outNotParamsX : OutNotParams 2 2 2 9 4000 72 9 12000 := by
  intro y hy x hx ch hch e he
  rw [outW y x ch (by omega) (by omega) (by omega),
    par_addr_of_nat 12000 e (by simp only [W]; omega)]
  omega

/-- C15 (vector-width independence).  For any two vector widths `V1, V2 >=
1`: when the params block at `params1` in the memory of the first call is
the packing for `V1` and the block at `params2` in the memory of the second
call is the packing for `V2` of the same per-channel bias and taps, and the
two memories agree on the input window, the call with width `V1` and the
call with width `V2` (same tile counts, input and output pointers, strides,
`n_channels` and bounds) both return (given enough fuel) and leave the same
value in every output element `(y, x, ch)` of the grid with `ch <
n_channels`; the output region has distinct addresses and meets neither the
input nor the two params blocks. -/
theorem C15_vector_width_independence (V1 V2 fuel n_tile_rows n_tile_cols inptr : Nat)
    (ld_input_row ld_input_col : Int) (outptr : Nat) (ld_output_row ld_output_col : Int)
    (params1 params2 n_channels : Nat) (activation_min activation_max : Int)
    (s0 s0' : State) (bias : Nat → Int) (w : Nat → Nat → Nat → Int)
    (h1 : 1 ≤ V1) (h132 : V1 < 2 ^ 32) (h2 : 1 ≤ V2) (h232 : V2 < 2 ^ 32)
    (hr32 : n_tile_rows < 2 ^ 32) (hc32 : n_tile_cols < 2 ^ 32) (hn32 : n_channels < 2 ^ 32)
    (hpack1 : Packed V1 n_channels params1 s0.mem bias w)
    (hpack2 : Packed V2 n_channels params2 s0'.mem bias w)
    (hinput : ∀ y x ch, y < 4 * n_tile_rows + 2 → x < 4 * n_tile_cols + 2 → ch < n_channels →
      s0.mem (in_addr inptr ld_input_row ld_input_col y x ch)
        = s0'.mem (in_addr inptr ld_input_row ld_input_col y x ch))
    (hdist : OutDistinct n_tile_rows n_tile_cols n_channels outptr ld_output_row ld_output_col)
    (hin : OutNotInput n_tile_rows n_tile_cols n_channels inptr ld_input_row ld_input_col
      outptr ld_output_row ld_output_col)
    (hpar1 : OutNotParams V1 n_tile_rows n_tile_cols n_channels outptr ld_output_row
      ld_output_col params1)
    (hpar2 : OutNotParams V2 n_tile_rows n_tile_cols n_channels outptr ld_output_row
      ld_output_col params2)
    (hfuel : (n_tile_rows + 1) * (n_tile_cols + 1) + n_channels ≤ fuel) :
    ∃ s1 s1', sve_fp32_nhwc_3x3_s1_output4x4_mla_depthfirst_direct_impl V1 fuel n_tile_rows
        n_tile_cols inptr ld_input_row ld_input_col outptr ld_output_row ld_output_col params1
        n_channels activation_min activation_max s0 = some s1 ∧
      sve_fp32_nhwc_3x3_s1_output4x4_mla_depthfirst_direct_impl V2 fuel n_tile_rows
        n_tile_cols inptr ld_input_row ld_input_col outptr ld_output_row ld_output_col params2
        n_channels activation_min activation_max s0' = some s1' ∧
      ∀ y x ch, y < 4 * n_tile_rows → x < 4 * n_tile_cols → ch < n_channels →
        s1.mem (out_addr outptr ld_output_row ld_output_col y x ch)
          = s1'.mem (out_addr outptr ld_output_row ld_output_col y x ch) := by
  refine ⟨_, _, impl_run V1 fuel n_tile_rows n_tile_cols inptr ld_input_row ld_input_col outptr
    ld_output_row ld_output_col params1 n_channels activation_min activation_max s0 h1 h132
    hn32 hr32 hc32 hfuel, impl_run V2 fuel n_tile_rows n_tile_cols inptr ld_input_row
    ld_input_col outptr ld_output_row ld_output_col params2 n_channels activation_min
    activation_max s0' h2 h232 hn32 hr32 hc32 hfuel, ?_⟩
  intro y x ch hy hx hch
  rw [impl_out V1 n_tile_rows n_tile_cols inptr ld_input_row ld_input_col outptr
      ld_output_row ld_output_col params1 n_channels activation_min activation_max s0 h1 h132
      hn32 hr32 hc32 hdist hin hpar1 y x ch hy hx hch,
    impl_out V2 n_tile_rows n_tile_cols inptr ld_input_row ld_input_col outptr
      ld_output_row ld_output_col params2 n_channels activation_min activation_max s0' h2 h232
      hn32 hr32 hc32 hdist hin hpar2 y x ch hy hx hch,
    refOut_packed V1 _ _ _ _ _ _ _ _ _ _ _ _ s0.mem bias w hpack1 y x ch hch,
    refOut_packed V2 _ _ _ _ _ _ _ _ _ _ _ _ s0'.mem bias w hpack2 y x ch hch]
  congr 3
  apply Finset.sum_congr rfl
  intro kr hkr
  apply Finset.sum_congr rfl
  intro kc hkc
  rw [Finset.mem_range] at hkr hkc
  rw [hinput (y + kr) (x + kc) ch (by omega) (by omega) hch]

/-- The vector-width independence on the concrete 2x2 call: width four with
the params block at 8000 and width two with the block at 12000. -/
theorem C15_vector_width_independence_witness :
    ∃ s1 s1', sve_fp32_nhwc_3x3_s1_output4x4_mla_depthfirst_direct_impl 4 18 2 2 0 90 9
        4000 72 9 8000 9 (-5) 20 (State.init memW) = some s1 ∧
      sve_fp32_nhwc_3x3_s1_output4x4_mla_depthfirst_direct_impl 2 18 2 2 0 90 9
        4000 72 9 12000 9 (-5) 20 (State.init memX) = some s1' ∧
      ∀ y x ch, y < 4 * 2 → x < 4 * 2 → ch < 9 →
        s1.mem (out_addr 4000 72 9 y x ch) = s1'.mem (out_addr 4000 72 9 y x ch) :=
  C15_vector_width_independence 4 2 18 2 2 0 90 9 4000 72 9 8000 12000 9 (-5) 20
    (State.init memW) (State.init memX) biasW wW (by decide) (by decide) (by decide)
    (by decide) (by decide) (by decide) (by decide) packedW packedX memX_input outDistinctW
    outNotInputW outNotParamsW outNotParamsX (by decide)

/-- C16 (no side effect beyond the output buffer).  For every tile grid
with `n_tile_rows, n_tile_cols >= 1` the kernel returns (given enough fuel)
and every memory location that is not the address of an output element
`(y, x, ch)` with `y < 4 * n_tile_rows`, `x < 4 * n_tile_cols` and `ch <
n_channels` holds after the call the value it held before.  When the output
region meets neither the input window nor the params block, every element
of the input window and every element of the params block (ten vectors per
channel group) is unchanged. -/
theorem C16_frame (VL fuel n_tile_rows n_tile_cols inptr : Nat)
    (ld_input_row ld_input_col : Int) (outptr : Nat) (ld_output_row ld_output_col : Int)
    (params n_channels : Nat) (activation_min activation_max : Int) (s0 : State)
    (hVL : 1 ≤ VL) (hVL32 : VL < 2 ^ 32)
    (hr : 1 ≤ n_tile_rows) (hr32 : n_tile_rows < 2 ^ 32)
    (hc : 1 ≤ n_tile_cols) (hc32 : n_tile_cols < 2 ^ 32) (hn32 : n_channels < 2 ^ 32)
    (hfuel : (n_tile_rows + 1) * (n_tile_cols + 1) + n_channels ≤ fuel) :
    ∃ s1, sve_fp32_nhwc_3x3_s1_output4x4_mla_depthfirst_direct_impl VL fuel n_tile_rows
        n_tile_cols inptr ld_input_row ld_input_col outptr ld_output_row ld_output_col params
        n_channels activation_min activation_max s0 = some s1 ∧
      (∀ a, (∀ y x ch, y < 4 * n_tile_rows → x < 4 * n_tile_cols → ch < n_channels →
          a ≠ out_addr outptr ld_output_row ld_output_col y x ch) → s1.mem a = s0.mem a) ∧
      (OutNotInput n_tile_rows n_tile_cols n_channels inptr ld_input_row ld_input_col
          outptr ld_output_row ld_output_col →
        ∀ y x ch, y < 4 * n_tile_rows + 2 → x < 4 * n_tile_cols + 2 → ch < n_channels →
          s1.mem (in_addr inptr ld_input_row ld_input_col y x ch)
            = s0.mem (in_addr inptr ld_input_row ld_input_col y x ch)) ∧
      (OutNotParams VL n_tile_rows n_tile_cols n_channels outptr ld_output_row
          ld_output_col params →
        ∀ e, e < 10 * VL * ((n_channels - 1) / VL + 1) →
          s1.mem (par_addr params e) = s0.mem (par_addr params e)) := by
  have hA : numTiles (mkArgs n_tile_rows n_tile_cols inptr ld_input_row ld_input_col outptr
      ld_output_row ld_output_col params activation_min activation_max)
      = n_tile_rows * n_tile_cols := numTiles_eq _ hr hc
  have hrun := impl_run VL fuel n_tile_rows n_tile_cols inptr ld_input_row ld_input_col outptr
    ld_output_row ld_output_col params n_channels activation_min activation_max s0 hVL hVL32
    hn32 hr32 hc32 hfuel
  rw [hA] at hrun
  have hF := tile_entry_frame (c := ⟨VL, n_channels⟩)
    (first_entry_inv ⟨VL, n_channels⟩ (mkArgs n_tile_rows n_tile_cols inptr ld_input_row
      ld_input_col outptr ld_output_row ld_output_col params activation_min activation_max) s0)
    hVL hVL32 hn32 hr32 hc32 hr hc (n_tile_rows * n_tile_cols) (Nat.le_refl _)
  have key : ∀ a, (∀ y x ch, y < 4 * n_tile_rows → x < 4 * n_tile_cols → ch < n_channels →
      a ≠ out_addr outptr ld_output_row ld_output_col y x ch) →
      (tile_entry ⟨VL, n_channels⟩ (first_entry ⟨VL, n_channels⟩
        (mkArgs n_tile_rows n_tile_cols inptr ld_input_row ld_input_col outptr ld_output_row
          ld_output_col params activation_min activation_max) s0)
        (n_tile_rows * n_tile_cols)).mem a = s0.mem a := by
    intro a ha
    refine (hF a ?_).trans (by rw [first_entry_mem])
    intro y x ch hg
    rw [outAt_mkArgs]
    exact ha y x ch hg.1 hg.2.1 hg.2.2
  refine ⟨_, hrun, key, ?_, ?_⟩
  · intro hin y x ch hy hx hch
    exact key _ (fun y' x' ch' hy' hx' hch' h =>
      hin y' hy' x' hx' ch' hch' y hy x hx ch hch h.symm)
  · intro hpar e he
    exact key _ (fun y' x' ch' hy' hx' hch' h => hpar y' hy' x' hx' ch' hch' e he h.symm)

/-- The frame on the concrete 2x2 call, whose output region meets neither
the input nor the params block. -/
theorem C16_frame_witness :
    ∃ s1, sve_fp32_nhwc_3x3_s1_output4x4_mla_depthfirst_direct_impl 4 18 2 2 0 90 9
        4000 72 9 8000 9 (-5) 20 (State.init memW) = some s1 ∧
      (∀ a, (∀ y x ch, y < 4 * 2 → x < 4 * 2 → ch < 9 →
          a ≠ out_addr 4000 72 9 y x ch) → s1.mem a = (State.init memW).mem a) ∧
      (∀ y x ch, y < 4 * 2 + 2 → x < 4 * 2 + 2 → ch < 9 →
        s1.mem (in_addr 0 90 9 y x ch) = (State.init memW).mem (in_addr 0 90 9 y x ch)) ∧
      (∀ e, e < 10 * 4 * ((9 - 1) / 4 + 1) →
        s1.mem (par_addr 8000 e) = (State.init memW).mem (par_addr 8000 e)) :=
  match C16_frame 4 18 2 2 0 90 9 4000 72 9 8000 9 (-5) 20 (State.init memW)
    (by decide) (by decide) (by decide) (by decide) (by decide) (by decide) (by decide)
    (by decide) with
  | ⟨s1, h1, h2, h3, h4⟩ => ⟨s1, h1, h2, h3 outNotInputW, h4 outNotParamsW⟩

/-! ### The multiply-accumulate schedule -/

theorem mac_count :
    (macSchedule tile_setup (fun _ => none)).length = 0 ∧
    (macSchedule channel_loop preHeld).length = 144 ∧
    (macSchedule channel_tail preHeld).length = 144 := by decide!

theorem mac_loop : ∀ rc ∈ pixels,
    ((macSchedule channel_loop preHeld).filter fun t => t.1 == accReg rc.1 rc.2).Perm
      (expMacs rc.1 rc.2) := by
  decide!

theorem mac_tail : ∀ rc ∈ pixels,
    ((macSchedule channel_tail preHeld).filter fun t => t.1 == accReg rc.1 rc.2).Perm
      (expMacs rc.1 rc.2) := by
  decide!

theorem seeds : ∀ zd, zd < 32 → 16 ≤ zd →
    seedsOf tile_setup zd = [13] ∧ seedsOf channel_loop zd = [13] ∧
    seedsOf channel_tail zd = [] := by decide!

/-- The value pass `k` of tile `(i, j)` of a call stores for pixel `(r, c)`
at an active lane, from the memory before the call. -/
theorem at_pass_val (VL n_tile_rows n_tile_cols inptr : Nat) (ld_input_row ld_input_col : Int)
    (outptr : Nat) (ld_output_row ld_output_col : Int) (params n_channels : Nat)
    (activation_min activation_max : Int) (s0 : State)
    (hV1 : 1 ≤ VL) (hV : VL < 2 ^ 32) (hn : n_channels < 2 ^ 32)
    (hnr : n_tile_rows < 2 ^ 32) (hnc : n_tile_cols < 2 ^ 32)
    (hin : OutNotInput n_tile_rows n_tile_cols n_channels inptr ld_input_row ld_input_col
      outptr ld_output_row ld_output_col)
    (hpar : OutNotParams VL n_tile_rows n_tile_cols n_channels outptr ld_output_row
      ld_output_col params)
    (i j k : Nat) (hi : i < n_tile_rows) (hj : j < n_tile_cols)
    (hk : k ≤ main_iters ⟨VL, n_channels⟩)
    (r c l : Nat) (hr : r < 4) (hc : c < 4) (hl : l < VL) (hp : k * VL + l < n_channels) :
    passVal ⟨VL, n_channels⟩
        (at_pass VL n_tile_rows n_tile_cols inptr ld_input_row ld_input_col outptr
          ld_output_row ld_output_col params n_channels activation_min activation_max s0
          i j k) r c l
      = min (max (s0.mem (par_addr params (10 * k * VL + l))
          + ∑ kr in Finset.range 3, ∑ kc in Finset.range 3,
            s0.mem (par_addr params ((10 * k + 1 + (3 * kr + kc)) * VL + l))
              * s0.mem (in_addr inptr ld_input_row ld_input_col (4 * i + r + kr)
                  (4 * j + c + kc) (k * VL + l))) activation_min) activation_max := by
  have hr1 : 1 ≤ n_tile_rows := by omega
  have hc1 : 1 ≤ n_tile_cols := by omega
  have hlt : i * n_tile_cols + j < n_tile_rows * n_tile_cols := mul_add_lt _ _ _ _ hi hj
  have hN := noAlias_mkArgs VL n_tile_rows n_tile_cols inptr ld_input_row ld_input_col outptr
    ld_output_row ld_output_col params n_channels activation_min activation_max hin hpar
  have hT0 := first_entry_inv ⟨VL, n_channels⟩ (mkArgs n_tile_rows n_tile_cols inptr
    ld_input_row ld_input_col outptr ld_output_row ld_output_col params activation_min
    activation_max) s0
  have hT := tile_entry_inv (c := ⟨VL, n_channels⟩) hT0 hV1 hV hn hnc hnr
    (i * n_tile_cols + j) (by rw [numTiles_eq _ hr1 hc1]; exact hlt)
  have hF := (tile_entry_mem (c := ⟨VL, n_channels⟩) hT0 hV1 hV hn hnr hnc hr1 hc1 hN
    (i * n_tile_cols + j) (Nat.le_of_lt hlt)).1
  have hFk := (tile_passes (c := ⟨VL, n_channels⟩) hT hlt hV1 hV hn hN hF k hk).2.1
  have hI := at_pass_inv VL n_tile_rows n_tile_cols inptr ld_input_row ld_input_col outptr
    ld_output_row ld_output_col params n_channels activation_min activation_max s0 hV1 hV
    hn hnr hnc i j k hi hj hk
  have hD := at_pass_data VL n_tile_rows n_tile_cols inptr ld_input_row ld_input_col outptr
    ld_output_row ld_output_col params n_channels activation_min activation_max s0 hV1 hV
    hn hnr hnc hin hpar i j k hi hj hk
  have hv := passVal_eq hI hD hFk hN hi hj r c l hr hc hl ((predAt_iff _ k l).mpr hp)
  exact hv.trans (refOut_lane VL _ _ _ _ _ _ _ _ _ _ _ _ s0.mem (4 * i + r) (4 * j + c) k l hl)

/-- C20 (MAC schedule mapping).  `channel_loop` and `channel_tail` each
perform exactly 144 multiply-accumulates and `tile_setup` none; in each of
the two, the multiply-accumulates on the accumulator of output pixel `(r,
c)` are, up to their order, those of `expMacs r c`: nine, one for each tap
`(kr, kc)`, with weight register `3 * kr + kc` and the input vector of
window position `(r + kr, c + kc)`.  The accumulators `z16 .. z31` are
seeded by a move from `z13`, the bias vector, in `tile_setup` (for the first
pass) and in `channel_loop` (for the next pass), not in `channel_tail`; at
the entry of every pass of every tile of a call they hold the bias vector of
the channel group of the pass, the value the pass stores for pixel `(r, c)`
at an active lane is the clamp of this bias plus the nine products of tap
`(kr, kc)` with the input element at `(r + kr, c + kc)` of the window, and
the memory after the pass is the memory before it with these sixteen
vectors stored; the output region meets neither the input nor the params
block. -/
theorem C20_mac_schedule (VL n_tile_rows n_tile_cols inptr : Nat)
    (ld_input_row ld_input_col : Int) (outptr : Nat) (ld_output_row ld_output_col : Int)
    (params n_channels : Nat) (activation_min activation_max : Int) (s0 : State)
    (hVL : 1 ≤ VL) (hVL32 : VL < 2 ^ 32) (hr32 : n_tile_rows < 2 ^ 32)
    (hc32 : n_tile_cols < 2 ^ 32) (hn32 : n_channels < 2 ^ 32)
    (hin : OutNotInput n_tile_rows n_tile_cols n_channels inptr ld_input_row ld_input_col
      outptr ld_output_row ld_output_col)
    (hpar : OutNotParams VL n_tile_rows n_tile_cols n_channels outptr ld_output_row
      ld_output_col params) :
    ((macSchedule tile_setup (fun _ => none)).length = 0 ∧
      (macSchedule channel_loop preHeld).length = 144 ∧
      (macSchedule channel_tail preHeld).length = 144) ∧
    (∀ rc ∈ pixels,
      ((macSchedule channel_loop preHeld).filter fun t => t.1 == accReg rc.1 rc.2).Perm
        (expMacs rc.1 rc.2)) ∧
    (∀ rc ∈ pixels,
      ((macSchedule channel_tail preHeld).filter fun t => t.1 == accReg rc.1 rc.2).Perm
        (expMacs rc.1 rc.2)) ∧
    (∀ zd, zd < 32 → 16 ≤ zd →
      seedsOf tile_setup zd = [13] ∧ seedsOf channel_loop zd = [13] ∧
      seedsOf channel_tail zd = []) ∧
    ∀ i j k, i < n_tile_rows → j < n_tile_cols → k ≤ (n_channels - 1) / VL →
      (∀ r c l, r < 4 → c < 4 → l < VL →
        (at_pass VL n_tile_rows n_tile_cols inptr ld_input_row ld_input_col outptr
          ld_output_row ld_output_col params n_channels activation_min activation_max s0
          i j k).z (accReg r c) l = s0.mem (par_addr params (10 * k * VL + l))) ∧
      (∀ r c l, r < 4 → c < 4 → l < VL → k * VL + l < n_channels →
        passVal ⟨VL, n_channels⟩
            (at_pass VL n_tile_rows n_tile_cols inptr ld_input_row ld_input_col outptr
              ld_output_row ld_output_col params n_channels activation_min activation_max s0
              i j k) r c l
          = min (max (s0.mem (par_addr params (10 * k * VL + l))
              + ∑ kr in Finset.range 3, ∑ kc in Finset.range 3,
                s0.mem (par_addr params ((10 * k + 1 + (3 * kr + kc)) * VL + l))
                  * s0.mem (in_addr inptr ld_input_row ld_input_col (4 * i + r + kr)
                      (4 * j + c + kc) (k * VL + l))) activation_min) activation_max) ∧
      (exec ⟨VL, n_channels⟩ (if k < (n_channels - 1) / VL then channel_loop else channel_tail)
        (at_pass VL n_tile_rows n_tile_cols inptr ld_input_row ld_input_col outptr
          ld_output_row ld_output_col params n_channels activation_min activation_max s0
          i j k)).mem
        = applyStores VL
            (at_pass VL n_tile_rows n_tile_cols inptr ld_input_row ld_input_col outptr
              ld_output_row ld_output_col params n_channels activation_min activation_max s0
              i j k).mem
            (passStores ⟨VL, n_channels⟩
              (at_pass VL n_tile_rows n_tile_cols inptr ld_input_row ld_input_col outptr
                ld_output_row ld_output_col params n_channels activation_min activation_max s0
                i j k)) := by
  refine ⟨mac_count, mac_loop, mac_tail, seeds, ?_⟩
  intro i j k hi hj hk
  have hI := at_pass_inv VL n_tile_rows n_tile_cols inptr ld_input_row ld_input_col outptr
    ld_output_row ld_output_col params n_channels activation_min activation_max s0 hVL hVL32
    hn32 hr32 hc32 i j k hi hj hk
  have hD := at_pass_data VL n_tile_rows n_tile_cols inptr ld_input_row ld_input_col outptr
    ld_output_row ld_output_col params n_channels activation_min activation_max s0 hVL hVL32
    hn32 hr32 hc32 hin hpar i j k hi hj hk
  refine ⟨?_, ?_, ?_⟩
  · intro r c l hr hc hl
    rw [hD.acc (accReg r c) l (by unfold accReg; omega) (by unfold accReg; omega) hl,
      lane_par, parAt_mkArgs]
  · intro r c l hr hc hl hp
    exact at_pass_val VL n_tile_rows n_tile_cols inptr ld_input_row ld_input_col outptr
      ld_output_row ld_output_col params n_channels activation_min activation_max s0 hVL hVL32
      hn32 hr32 hc32 hin hpar i j k hi hj hk r c l hr hc hl hp
  · split
    · exact loop_mem _ _ hI.p3
    · exact tail_mem _ _ hI.p3

/-- The MAC schedule on the concrete 2x2 call. -/
theorem C20_mac_schedule_witness :
    ((macSchedule tile_setup (fun _ => none)).length = 0 ∧
      (macSchedule channel_loop preHeld).length = 144 ∧
      (macSchedule channel_tail preHeld).length = 144) ∧
    (∀ rc ∈ pixels,
      ((macSchedule channel_loop preHeld).filter fun t => t.1 == accReg rc.1 rc.2).Perm
        (expMacs rc.1 rc.2)) ∧
    (∀ rc ∈ pixels,
      ((macSchedule channel_tail preHeld).filter fun t => t.1 == accReg rc.1 rc.2).Perm
        (expMacs rc.1 rc.2)) ∧
    (∀ zd, zd < 32 → 16 ≤ zd →
      seedsOf tile_setup zd = [13] ∧ seedsOf channel_loop zd = [13] ∧
      seedsOf channel_tail zd = []) ∧
    ∀ i j k, i < 2 → j < 2 → k ≤ (9 - 1) / 4 →
      (∀ r c l, r < 4 → c < 4 → l < 4 →
        (at_pass 4 2 2 0 90 9 4000 72 9 8000 9 (-5) 20 (State.init memW)
          i j k).z (accReg r c) l = (State.init memW).mem (par_addr 8000 (10 * k * 4 + l))) ∧
      (∀ r c l, r < 4 → c < 4 → l < 4 → k * 4 + l < 9 →
        passVal ⟨4, 9⟩
            (at_pass 4 2 2 0 90 9 4000 72 9 8000 9 (-5) 20 (State.init memW) i j k) r c l
          = min (max ((State.init memW).mem (par_addr 8000 (10 * k * 4 + l))
              + ∑ kr in Finset.range 3, ∑ kc in Finset.range 3,
                (State.init memW).mem (par_addr 8000 ((10 * k + 1 + (3 * kr + kc)) * 4 + l))
                  * (State.init memW).mem (in_addr 0 90 9 (4 * i + r + kr)
                      (4 * j + c + kc) (k * 4 + l))) (-5)) 20) ∧
      (exec ⟨4, 9⟩ (if k < (9 - 1) / 4 then channel_loop else channel_tail)
        (at_pass 4 2 2 0 90 9 4000 72 9 8000 9 (-5) 20 (State.init memW) i j k)).mem
        = applyStores 4
            (at_pass 4 2 2 0 90 9 4000 72 9 8000 9 (-5) 20 (State.init memW) i j k).mem
            (passStores ⟨4, 9⟩
              (at_pass 4 2 2 0 90 9 4000 72 9 8000 9 (-5) 20 (State.init memW) i j k)) :=
  C20_mac_schedule 4 2 2 0 90 9 4000 72 9 8000 9 (-5) 20 (State.init memW)
    (by decide) (by decide) (by decide) (by decide) (by decide) outNotInputW outNotParamsW

/-! ### The value of an output element after the call -/

theorem passVal_clamp (c : Cfg) (s : State) (r c' l : Nat) :
    passVal c s r c' l = clamp (s.z (accReg r c') l
      + (taps.map fun t => s.z (3 * t.1 + t.2) l * (inZ (r + t.1) (c' + t.2)).eval c s l).sum)
      (s.z 15 l) (s.z 14 l) := rfl

/-! ### Signed strides in unsigned fields -/

theorem u64_int (z : Int) : ((u64 z : Nat) : Int) = z % ((2 : Int) ^ 64) := by
  unfold u64
  have hW : ((W : Nat) : Int) = (2 : Int) ^ 64 := by norm_num [W]
  rw [hW]
  exact Int.toNat_of_nonneg (Int.emod_nonneg _ (by norm_num))

theorem tile_base_wrap_eq (ptr : Nat) (ld_row ld_col : Int) (i j : Nat) :
    tile_base_wrap ptr (u64 ld_row) (u64 ld_col) i j
      = u64 ((ptr : Int) + 16 * ((i : Int) * ld_row + (j : Int) * ld_col)) := by
  apply eq_of_cast_lt (Nat.mod_lt _ W_pos) (u64_lt _)
  push_cast [ZMod.natCast_mod, u64_cast]
  ring

theorem inVecAddr_base (A : Args) (VL i j : Nat) :
    inVecAddr A VL i j 0 0 0 = tile_base_wrap A.inptr A.ld_input_row A.ld_input_col i j := by
  apply eq_of_cast_lt (Nat.mod_lt _ W_pos) (Nat.mod_lt _ W_pos)
  push_cast [ZMod.natCast_mod]
  ring

theorem outVecAddr_base (A : Args) (VL i j : Nat) :
    outVecAddr A VL i j 0 0 0 = tile_base_wrap A.outptr A.ld_output_row A.ld_output_col i j := by
  apply eq_of_cast_lt (Nat.mod_lt _ W_pos) (Nat.mod_lt _ W_pos)
  push_cast [ZMod.natCast_mod]
  ring

/-- C28 (signed strides under wrap-around arithmetic).  The kernel stores
the signed strides in the unsigned 64-bit fields of the argument block as
their two's complement, the residue modulo `2 ^ 64`.  For all stride values,
negative ones included, and every tile `(tile_i, tile_j)` of a grid with
less than `2 ^ 32` rows and columns, the row pointers `x8` and `x16` at the
entry of the first pass of the tile hold the tile base addresses computed
with wrap-around arithmetic (`tile_base_wrap`: multiply, multiply-add,
multiply by 4, add shifted left by 2, each modulo `2 ^ 64`), and these are
the mathematical signed addresses `inptr + 16 * (tile_i * ld_input_row +
tile_j * ld_input_col)` and `outptr + 16 * (tile_i * ld_output_row + tile_j *
ld_output_col)` modulo `2 ^ 64`. -/
theorem C28_signed_strides (VL n_tile_rows n_tile_cols inptr : Nat)
    (ld_input_row ld_input_col : Int) (outptr : Nat) (ld_output_row ld_output_col : Int)
    (params n_channels : Nat) (activation_min activation_max : Int) (s0 : State)
    (hVL : 1 ≤ VL) (hVL32 : VL < 2 ^ 32) (hr32 : n_tile_rows < 2 ^ 32)
    (hc32 : n_tile_cols < 2 ^ 32) (hn32 : n_channels < 2 ^ 32)
    (tile_i tile_j : Nat) (hi : tile_i < n_tile_rows) (hj : tile_j < n_tile_cols) :
    ((mkArgs n_tile_rows n_tile_cols inptr ld_input_row ld_input_col outptr ld_output_row
        ld_output_col params activation_min activation_max).ld_input_row : Int)
      = ld_input_row % 2 ^ 64 ∧
    ((mkArgs n_tile_rows n_tile_cols inptr ld_input_row ld_input_col outptr ld_output_row
        ld_output_col params activation_min activation_max).ld_input_col : Int)
      = ld_input_col % 2 ^ 64 ∧
    ((mkArgs n_tile_rows n_tile_cols inptr ld_input_row ld_input_col outptr ld_output_row
        ld_output_col params activation_min activation_max).ld_output_row : Int)
      = ld_output_row % 2 ^ 64 ∧
    ((mkArgs n_tile_rows n_tile_cols inptr ld_input_row ld_input_col outptr ld_output_row
        ld_output_col params activation_min activation_max).ld_output_col : Int)
      = ld_output_col % 2 ^ 64 ∧
    (at_pass VL n_tile_rows n_tile_cols inptr ld_input_row ld_input_col outptr ld_output_row
        ld_output_col params n_channels activation_min activation_max s0 tile_i tile_j 0).x 8
      = tile_base_wrap inptr (u64 ld_input_row) (u64 ld_input_col) tile_i tile_j ∧
    (at_pass VL n_tile_rows n_tile_cols inptr ld_input_row ld_input_col outptr ld_output_row
        ld_output_col params n_channels activation_min activation_max s0 tile_i tile_j 0).x 16
      = tile_base_wrap outptr (u64 ld_output_row) (u64 ld_output_col) tile_i tile_j ∧
    ((tile_base_wrap inptr (u64 ld_input_row) (u64 ld_input_col) tile_i tile_j : Nat) : Int)
      = ((inptr : Int)
          + 16 * ((tile_i : Int) * ld_input_row + (tile_j : Int) * ld_input_col)) % 2 ^ 64 ∧
    ((tile_base_wrap outptr (u64 ld_output_row) (u64 ld_output_col) tile_i tile_j : Nat) : Int)
      = ((outptr : Int)
          + 16 * ((tile_i : Int) * ld_output_row + (tile_j : Int) * ld_output_col)) % 2 ^ 64 := by
  have hI := at_pass_inv VL n_tile_rows n_tile_cols inptr ld_input_row ld_input_col outptr
    ld_output_row ld_output_col params n_channels activation_min activation_max s0 hVL hVL32
    hn32 hr32 hc32 tile_i tile_j 0 hi hj (Nat.zero_le _)
  refine ⟨u64_int _, u64_int _, u64_int _, u64_int _, ?_, ?_, ?_, ?_⟩
  · rw [hI.x 8 (by decide)]
    show inVecAddr _ VL tile_i tile_j 0 0 0 = _
    rw [inVecAddr_base]
    rfl
  · rw [hI.x 16 (by decide)]
    show outVecAddr _ VL tile_i tile_j 0 0 0 = _
    rw [outVecAddr_base]
    rfl
  · rw [tile_base_wrap_eq, u64_int]
  · rw [tile_base_wrap_eq, u64_int]

/-- The tile base addresses of tile `(1, 1)` of a 2x2 call whose four
strides are negative. -/
theorem C28_signed_strides_witness :
    ((mkArgs 2 2 100000 (-90) (-9) 200000 (-72) (-9) 8000 (-5) 20).ld_input_row : Int)
      = (-90) % 2 ^ 64 ∧
    ((mkArgs 2 2 100000 (-90) (-9) 200000 (-72) (-9) 8000 (-5) 20).ld_input_col : Int)
      = (-9) % 2 ^ 64 ∧
    ((mkArgs 2 2 100000 (-90) (-9) 200000 (-72) (-9) 8000 (-5) 20).ld_output_row : Int)
      = (-72) % 2 ^ 64 ∧
    ((mkArgs 2 2 100000 (-90) (-9) 200000 (-72) (-9) 8000 (-5) 20).ld_output_col : Int)
      = (-9) % 2 ^ 64 ∧
    (at_pass 4 2 2 100000 (-90) (-9) 200000 (-72) (-9) 8000 9 (-5) 20 (State.init memW)
        1 1 0).x 8 = tile_base_wrap 100000 (u64 (-90)) (u64 (-9)) 1 1 ∧
    (at_pass 4 2 2 100000 (-90) (-9) 200000 (-72) (-9) 8000 9 (-5) 20 (State.init memW)
        1 1 0).x 16 = tile_base_wrap 200000 (u64 (-72)) (u64 (-9)) 1 1 ∧
    ((tile_base_wrap 100000 (u64 (-90)) (u64 (-9)) 1 1 : Nat) : Int)
      = ((100000 : Nat) + 16 * (((1 : Nat) : Int) * (-90) + ((1 : Nat) : Int) * (-9))) % 2 ^ 64 ∧
    ((tile_base_wrap 200000 (u64 (-72)) (u64 (-9)) 1 1 : Nat) : Int)
      = ((200000 : Nat) + 16 * (((1 : Nat) : Int) * (-72) + ((1 : Nat) : Int) * (-9))) % 2 ^ 64 :=
  C28_signed_strides 4 2 2 100000 (-90) (-9) 200000 (-72) (-9) 8000 9 (-5) 20
    (State.init memW) (by decide) (by decide) (by decide) (by decide) (by decide) 1 1
    (by decide) (by decide)

/-! ### Progress of the two loops -/

/-- The next tile is strictly later in row-major order. -/
theorem tileAt_increasing (A : Args) (t : Nat) :
    (tileAt A t).1 < (tileAt A (t + 1)).1 ∨
      ((tileAt A t).1 = (tileAt A (t + 1)).1 ∧ (tileAt A t).2 < (tileAt A (t + 1)).2) := by
  rw [← nextTile_tileAt]
  unfold nextTile
  split
  · exact Or.inr ⟨rfl, Nat.lt_succ_self _⟩
  · exact Or.inl (Nat.lt_succ_self _)

theorem main_iters_le_passCount (VL n_channels : Nat) :
    main_iters ⟨VL, n_channels⟩ ≤ passCount VL n_channels := by
  show (n_channels - 1) / VL ≤ (n_channels + VL - 1) / VL
  exact Nat.div_le_div_right (by omega)

/-- The state at label 1 of tile number `t + 1`, or at the exit of the tile
loop: the tile indices are those of the next tile in row-major order, and the
flags say whether its row index is below `n_tile_rows`. -/
theorem tile_entry_next {c : Cfg} {A : Args} {s : State} (h : TileInv A 0 0 s)
    (hV1 : 1 ≤ c.VL) (hV : c.VL < 2 ^ 32) (hn : c.n_channels < 2 ^ 32)
    (hnc : A.n_tile_cols < 2 ^ 32) (hnr : A.n_tile_rows < 2 ^ 32) (t : Nat)
    (ht : t < numTiles A) :
    (tile_entry c s (t + 1)).x 2 = (tileAt A (t + 1)).1 ∧
    (tile_entry c s (t + 1)).x 3 = (tileAt A (t + 1)).2 ∧
    (tile_entry c s (t + 1)).lt = decide ((tileAt A (t + 1)).1 < A.n_tile_rows) := by
  have hT := tile_entry_inv h hV1 hV hn hnc hnr t ht
  have hb := tileAt_bound A t hnc hnr ht
  have hx := tile_exit_inv (c := c) hT hV1 hV hn hb.1 hb.2 hnc hnr
  rw [show ((tileAt A t).1, (tileAt A t).2) = tileAt A t from rfl, nextTile_tileAt] at hx
  rw [tile_entry_succ]
  exact ⟨hx.1.x2, hx.1.x3, hx.2⟩

/-- C30 (termination).  For all 32-bit tile counts and channel counts, zero
included, and every vector width from 1 (below `2 ^ 32`), the kernel
terminates: whenever the fuel is at least `(n_tile_rows + 1) * (n_tile_cols
+ 1) + n_channels` it returns one and the same final state.  With `A` the
argument block, the run is that of the tiles number `0` to `numTiles A - 1`
(`tileAt A t`), and for each of them:
the look-ahead offset `x6` at the entry of pass `k` is `(k + 1) * VL`, which
is below `2 ^ 64`, it grows by `VL` with every iteration of the channel
loop, the loop is left (the flags of `cmp x6, n_channels`) as soon as it is
not below `n_channels`, which is after `(n_channels - 1) / VL` iterations,
at most `n_channels / VL` rounded up;
the tile indices in `x2`, `x3` at label 1 are `tileAt A t`, the next tile is
strictly later in row-major order, and the tile loop goes on exactly while
the row index of the next tile is below `n_tile_rows`. -/
theorem C30_termination (VL n_tile_rows n_tile_cols inptr : Nat)
    (ld_input_row ld_input_col : Int) (outptr : Nat) (ld_output_row ld_output_col : Int)
    (params n_channels : Nat) (activation_min activation_max : Int) (s0 : State)
    (hVL : 1 ≤ VL) (hVL32 : VL < 2 ^ 32) (hr32 : n_tile_rows < 2 ^ 32)
    (hc32 : n_tile_cols < 2 ^ 32) (hn32 : n_channels < 2 ^ 32) :
    (∃ s1, ∀ fuel, (n_tile_rows + 1) * (n_tile_cols + 1) + n_channels ≤ fuel →
      sve_fp32_nhwc_3x3_s1_output4x4_mla_depthfirst_direct_impl VL fuel n_tile_rows
        n_tile_cols inptr ld_input_row ld_input_col outptr ld_output_row ld_output_col params
        n_channels activation_min activation_max s0 = some s1) ∧
    (n_channels - 1) / VL ≤ passCount VL n_channels ∧
    ∀ t, t < numTiles (mkArgs n_tile_rows n_tile_cols inptr ld_input_row ld_input_col outptr
        ld_output_row ld_output_col params activation_min activation_max) →
      (∀ k, k ≤ (n_channels - 1) / VL →
        (pass_entry ⟨VL, n_channels⟩ (tile_entry ⟨VL, n_channels⟩
          (first_entry ⟨VL, n_channels⟩ (mkArgs n_tile_rows n_tile_cols inptr ld_input_row
            ld_input_col outptr ld_output_row ld_output_col params activation_min
            activation_max) s0) t) k).x 6 = (k + 1) * VL ∧
        (k + 1) * VL < 2 ^ 64 ∧
        (pass_entry ⟨VL, n_channels⟩ (tile_entry ⟨VL, n_channels⟩
          (first_entry ⟨VL, n_channels⟩ (mkArgs n_tile_rows n_tile_cols inptr ld_input_row
            ld_input_col outptr ld_output_row ld_output_col params activation_min
            activation_max) s0) t) k).lt = decide ((k + 1) * VL < n_channels) ∧
        ((k + 1) * VL < n_channels ↔ k < (n_channels - 1) / VL)) ∧
      labelsOf (tileTrace ⟨VL, n_channels⟩ (mkArgs n_tile_rows n_tile_cols inptr ld_input_row
          ld_input_col outptr ld_output_row ld_output_col params activation_min
          activation_max)
          (tileAt (mkArgs n_tile_rows n_tile_cols inptr ld_input_row ld_input_col outptr
            ld_output_row ld_output_col params activation_min activation_max) t).1
          (tileAt (mkArgs n_tile_rows n_tile_cols inptr ld_input_row ld_input_col outptr
            ld_output_row ld_output_col params activation_min activation_max) t).2)
        = 1 :: (List.replicate ((n_channels - 1) / VL) 2 ++ [3]) ∧
      (tile_entry ⟨VL, n_channels⟩ (first_entry ⟨VL, n_channels⟩
          (mkArgs n_tile_rows n_tile_cols inptr ld_input_row ld_input_col outptr
            ld_output_row ld_output_col params activation_min activation_max) s0) t).x 2
        = (tileAt (mkArgs n_tile_rows n_tile_cols inptr ld_input_row ld_input_col outptr
            ld_output_row ld_output_col params activation_min activation_max) t).1 ∧
      (tile_entry ⟨VL, n_channels⟩ (first_entry ⟨VL, n_channels⟩
          (mkArgs n_tile_rows n_tile_cols inptr ld_input_row ld_input_col outptr
            ld_output_row ld_output_col params activation_min activation_max) s0) t).x 3
        = (tileAt (mkArgs n_tile_rows n_tile_cols inptr ld_input_row ld_input_col outptr
            ld_output_row ld_output_col params activation_min activation_max) t).2 ∧
      ((tileAt (mkArgs n_tile_rows n_tile_cols inptr ld_input_row ld_input_col outptr
            ld_output_row ld_output_col params activation_min activation_max) t).1
          < (tileAt (mkArgs n_tile_rows n_tile_cols inptr ld_input_row ld_input_col outptr
            ld_output_row ld_output_col params activation_min activation_max) (t + 1)).1 ∨
        ((tileAt (mkArgs n_tile_rows n_tile_cols inptr ld_input_row ld_input_col outptr
            ld_output_row ld_output_col params activation_min activation_max) t).1
          = (tileAt (mkArgs n_tile_rows n_tile_cols inptr ld_input_row ld_input_col outptr
            ld_output_row ld_output_col params activation_min activation_max) (t + 1)).1 ∧
         (tileAt (mkArgs n_tile_rows n_tile_cols inptr ld_input_row ld_input_col outptr
            ld_output_row ld_output_col params activation_min activation_max) t).2
          < (tileAt (mkArgs n_tile_rows n_tile_cols inptr ld_input_row ld_input_col outptr
            ld_output_row ld_output_col params activation_min activation_max) (t + 1)).2)) ∧
      (tile_entry ⟨VL, n_channels⟩ (first_entry ⟨VL, n_channels⟩
          (mkArgs n_tile_rows n_tile_cols inptr ld_input_row ld_input_col outptr
            ld_output_row ld_output_col params activation_min activation_max) s0) (t + 1)).x 2
        = (tileAt (mkArgs n_tile_rows n_tile_cols inptr ld_input_row ld_input_col outptr
            ld_output_row ld_output_col params activation_min activation_max) (t + 1)).1 ∧
      (tile_entry ⟨VL, n_channels⟩ (first_entry ⟨VL, n_channels⟩
          (mkArgs n_tile_rows n_tile_cols inptr ld_input_row ld_input_col outptr
            ld_output_row ld_output_col params activation_min activation_max) s0) (t + 1)).lt
        = decide ((tileAt (mkArgs n_tile_rows n_tile_cols inptr ld_input_row ld_input_col outptr
            ld_output_row ld_output_col params activation_min activation_max) (t + 1)).1
          < n_tile_rows) ∧
      ((tileAt (mkArgs n_tile_rows n_tile_cols inptr ld_input_row ld_input_col outptr
            ld_output_row ld_output_col params activation_min activation_max) (t + 1)).1
          < n_tile_rows ↔
        t + 1 < numTiles (mkArgs n_tile_rows n_tile_cols inptr ld_input_row ld_input_col outptr
          ld_output_row ld_output_col params activation_min activation_max)) := by
  have hT0 := first_entry_inv ⟨VL, n_channels⟩ (mkArgs n_tile_rows n_tile_cols inptr
    ld_input_row ld_input_col outptr ld_output_row ld_output_col params activation_min
    activation_max) s0
  refine ⟨⟨_, fun fuel hfuel => impl_run VL fuel n_tile_rows n_tile_cols inptr ld_input_row
    ld_input_col outptr ld_output_row ld_output_col params n_channels activation_min
    activation_max s0 hVL hVL32 hn32 hr32 hc32 hfuel⟩,
    main_iters_le_passCount VL n_channels, ?_⟩
  intro t ht
  have hT := tile_entry_inv (c := ⟨VL, n_channels⟩) hT0 hVL hVL32 hn32 hc32 hr32 t ht
  have hN := tile_entry_next (c := ⟨VL, n_channels⟩) hT0 hVL hVL32 hn32 hc32 hr32 t ht
  refine ⟨?_, labelsOf_tileTrace _ _ _ _, hT.x2, hT.x3, tileAt_increasing _ t, hN.1, hN.2.2, ?_⟩
  · intro k hk
    have hI := pass_entry_inv (c := ⟨VL, n_channels⟩) hT hVL hVL32 hn32 k hk
    have hb := pass_bound ⟨VL, n_channels⟩ hVL32 hn32 k hk
    refine ⟨hI.x 6 (by decide), ?_, hI.lt, lt_iff_main ⟨VL, n_channels⟩ hVL k⟩
    exact lt_trans hb (by norm_num)
  · have h1 := tile_entry_lt (c := ⟨VL, n_channels⟩) hT0 hVL hVL32 hn32 hc32 hr32 t ht
    have h2 := hN.2.2
    rw [h1] at h2
    exact (decide_eq_decide.mp h2).symm

/-- Termination on the concrete 2x2 call with nine channels and vector width four. -/
theorem C30_termination_witness :
    (∃ s1, ∀ fuel, (2 + 1) * (2 + 1) + 9 ≤ fuel →
      sve_fp32_nhwc_3x3_s1_output4x4_mla_depthfirst_direct_impl 4 fuel 2
        2 0 90 9 4000 72 9 8000
        9 (-5) 20 (State.init memW) = some s1) ∧
    (9 - 1) / 4 ≤ passCount 4 9 ∧
    ∀ t, t < numTiles (mkArgs 2 2 0 90 9 4000
        72 9 8000 (-5) 20) →
      (∀ k, k ≤ (9 - 1) / 4 →
        (pass_entry ⟨4, 9⟩ (tile_entry ⟨4, 9⟩
          (first_entry ⟨4, 9⟩ (mkArgs 2 2 0 90
            9 4000 72 9 8000 (-5)
            20) (State.init memW)) t) k).x 6 = (k + 1) * 4 ∧
        (k + 1) * 4 < 2 ^ 64 ∧
        (pass_entry ⟨4, 9⟩ (tile_entry ⟨4, 9⟩
          (first_entry ⟨4, 9⟩ (mkArgs 2 2 0 90
            9 4000 72 9 8000 (-5)
            20) (State.init memW)) t) k).lt = decide ((k + 1) * 4 < 9) ∧
        ((k + 1) * 4 < 9 ↔ k < (9 - 1) / 4)) ∧
      labelsOf (tileTrace ⟨4, 9⟩ (mkArgs 2 2 0 90
          9 4000 72 9 8000 (-5)
          20)
          (tileAt (mkArgs 2 2 0 90 9 4000
            72 9 8000 (-5) 20) t).1
          (tileAt (mkArgs 2 2 0 90 9 4000
            72 9 8000 (-5) 20) t).2)
        = 1 :: (List.replicate ((9 - 1) / 4) 2 ++ [3]) ∧
      (tile_entry ⟨4, 9⟩ (first_entry ⟨4, 9⟩
          (mkArgs 2 2 0 90 9 4000
            72 9 8000 (-5) 20) (State.init memW)) t).x 2
        = (tileAt (mkArgs 2 2 0 90 9 4000
            72 9 8000 (-5) 20) t).1 ∧
      (tile_entry ⟨4, 9⟩ (first_entry ⟨4, 9⟩
          (mkArgs 2 2 0 90 9 4000
            72 9 8000 (-5) 20) (State.init memW)) t).x 3
        = (tileAt (mkArgs 2 2 0 90 9 4000
            72 9 8000 (-5) 20) t).2 ∧
      ((tileAt (mkArgs 2 2 0 90 9 4000
            72 9 8000 (-5) 20) t).1
          < (tileAt (mkArgs 2 2 0 90 9 4000
            72 9 8000 (-5) 20) (t + 1)).1 ∨
        ((tileAt (mkArgs 2 2 0 90 9 4000
            72 9 8000 (-5) 20) t).1
          = (tileAt (mkArgs 2 2 0 90 9 4000
            72 9 8000 (-5) 20) (t + 1)).1 ∧
         (tileAt (mkArgs 2 2 0 90 9 4000
            72 9 8000 (-5) 20) t).2
          < (tileAt (mkArgs 2 2 0 90 9 4000
            72 9 8000 (-5) 20) (t + 1)).2)) ∧
      (tile_entry ⟨4, 9⟩ (first_entry ⟨4, 9⟩
          (mkArgs 2 2 0 90 9 4000
            72 9 8000 (-5) 20) (State.init memW)) (t + 1)).x 2
        = (tileAt (mkArgs 2 2 0 90 9 4000
            72 9 8000 (-5) 20) (t + 1)).1 ∧
      (tile_entry ⟨4, 9⟩ (first_entry ⟨4, 9⟩
          (mkArgs 2 2 0 90 9 4000
            72 9 8000 (-5) 20) (State.init memW)) (t + 1)).lt
        = decide ((tileAt (mkArgs 2 2 0 90 9 4000
            72 9 8000 (-5) 20) (t + 1)).1
          < 2) ∧
      ((tileAt (mkArgs 2 2 0 90 9 4000
            72 9 8000 (-5) 20) (t + 1)).1
          < 2 ↔
        t + 1 < numTiles (mkArgs 2 2 0 90 9 4000
          72 9 8000 (-5) 20)) :=
  C30_termination 4 2 2 0 90 9 4000 72 9 8000 9 (-5) 20 (State.init memW)
    (by decide) (by decide) (by decide) (by decide) (by decide)

/-! ### The read events of a tile -/

theorem rd_mem_rdLanes (VL a : Nat) (p : Nat → Bool) (b : Nat) :
    Event.rd b ∈ rdLanes VL a p ↔ ∃ l, l < VL ∧ p l = true ∧ b = laneAddr a l := by
  simp only [rdLanes, List.mem_map, mem_lanes, Event.rd.injEq]
  constructor
  · rintro ⟨l, ⟨h1, h2⟩, h3⟩
    exact ⟨l, h1, h2, h3.symm⟩
  · rintro ⟨l, h1, h2, h3⟩
    exact ⟨l, ⟨h1, h2⟩, h3.symm⟩

theorem rd_not_mem_passWr (c : Cfg) (A : Args) (i j k b : Nat) :
    Event.rd b ∉ passWr c A i j k := by
  intro h
  rw [mem_passWr] at h
  obtain ⟨_, _, _, _, _, _, _, he⟩ := h
  exact Event.noConfusion he

theorem chan_split (c : Cfg) (ch : Nat) (h : ch < c.n_channels) :
    ch / c.VL ≤ main_iters c := by
  unfold main_iters
  exact Nat.div_le_div_right (by omega)

theorem rd_setupTrace (c : Cfg) (A : Args) (i j b : Nat) :
    Event.rd b ∈ setupTrace c A i j ↔
      ∃ ac ∈ setupAcc, Event.rd b ∈ Access.eventsS c A i j ac := by
  simp only [setupTrace, List.mem_cons, List.mem_flatMap, reduceCtorEq, false_or]

theorem rd_loopTrace (c : Cfg) (A : Args) (i j k b : Nat) :
    Event.rd b ∈ loopTrace c A i j k ↔
      ∃ ac ∈ loopAcc, Event.rd b ∈ Access.events c A i j k ac := by
  simp only [loopTrace, List.mem_cons, List.mem_append, List.mem_flatMap, reduceCtorEq,
    false_or, rd_not_mem_passWr, or_false]

theorem rd_tailTrace (c : Cfg) (A : Args) (i j k b : Nat) :
    Event.rd b ∈ tailTrace c A i j k ↔
      ∃ ac ∈ tailAcc, Event.rd b ∈ Access.events c A i j k ac := by
  simp only [tailTrace, List.mem_cons, List.mem_append, List.mem_flatMap, reduceCtorEq,
    false_or, rd_not_mem_passWr, or_false]

theorem rd_tileTrace (c : Cfg) (A : Args) (i j b : Nat) :
    Event.rd b ∈ tileTrace c A i j ↔
      (∃ ac ∈ setupAcc, Event.rd b ∈ Access.eventsS c A i j ac) ∨
      (∃ k, k < main_iters c ∧ ∃ ac ∈ loopAcc, Event.rd b ∈ Access.events c A i j k ac) ∨
      (∃ ac ∈ tailAcc, Event.rd b ∈ Access.events c A i j (main_iters c) ac) := by
  simp only [tileTrace, passesTrace, List.mem_append, List.mem_flatMap, List.mem_range,
    rd_setupTrace, rd_loopTrace, rd_tailTrace, or_assoc]

/-- The reads of a load of pass `k`. -/
theorem rd_events (c : Cfg) (A : Args) (i j k b : Nat) (ac : Access) :
    Event.rd b ∈ Access.events c A i j k ac ↔
      match ac with
      | .par v => ∃ l, l < c.VL ∧ b = parAt A ((10 * (k + 1) + v) * c.VL + l)
      | .inp R C => ∃ l, l < c.VL ∧ k * c.VL + l < c.n_channels ∧
          b = inAt A (4 * i + R) (4 * j + C) (k * c.VL + l)
      | .nxt R C => ∃ l, l < c.VL ∧ (k + 1) * c.VL + l < c.n_channels ∧
          b = inAt A (4 * i + R) (4 * j + C) ((k + 1) * c.VL + l) := by
  cases ac with
  | par v => simp only [Access.events, rd_mem_rdLanes, lane_par, true_and]
  | inp R C => simp only [Access.events, rd_mem_rdLanes, lane_in, predAt_iff]
  | nxt R C => simp only [Access.events, rd_mem_rdLanes, lane_in, predAt_iff]

/-- The reads of a load of the setup. -/
theorem rd_eventsS (c : Cfg) (A : Args) (i j b : Nat) (ac : Access) :
    Event.rd b ∈ Access.eventsS c A i j ac ↔
      match ac with
      | .par v => ∃ l, l < c.VL ∧ b = parAt A (v * c.VL + l)
      | .inp R C => ∃ l, l < c.VL ∧ 0 * c.VL + l < c.n_channels ∧
          b = inAt A (4 * i + R) (4 * j + C) (0 * c.VL + l)
      | .nxt R C => ∃ l, l < c.VL ∧ 0 * c.VL + l < c.n_channels ∧
          b = inAt A (4 * i + R) (4 * j + C) (0 * c.VL + l) := by
  cases ac with
  | par v => simp only [Access.eventsS, rd_mem_rdLanes, lane_par, true_and]
  | inp R C => simp only [Access.eventsS, rd_mem_rdLanes, lane_in, predAt_iff]
  | nxt R C => simp only [Access.eventsS, rd_mem_rdLanes, lane_in, predAt_iff]

/-- Every window position is loaded for a pass either ahead of it (by the
setup for the first pass and by the loop body for the next pass) or in its
own body (loop body or tail). -/
theorem window_cover : ∀ R, R < 6 → ∀ C, C < 6 →
    (Access.inp R C ∈ setupAcc ∧ Access.nxt R C ∈ loopAcc) ∨
    (Access.inp R C ∈ loopAcc ∧ Access.inp R C ∈ tailAcc) := by decide

theorem par_cover : ∀ v, v < 10 → Access.par v ∈ setupAcc ∧ Access.par v ∈ loopAcc := by
  decide

theorem par_split (VL m e : Nat) (hV1 : 1 ≤ VL) (he : e < 10 * VL * (m + 1)) :
    ∃ v k l, v < 10 ∧ k ≤ m ∧ l < VL ∧ e = (10 * k + v) * VL + l := by
  refine ⟨e / VL % 10, e / VL / 10, e % VL, Nat.mod_lt _ (by norm_num), ?_,
    Nat.mod_lt _ hV1, ?_⟩
  · have h1 : e / VL < 10 * (m + 1) := by
      rw [Nat.div_lt_iff_lt_mul hV1]
      calc e < 10 * VL * (m + 1) := he
        _ = 10 * (m + 1) * VL := by ring
    have h2 : e / VL / 10 < m + 1 := by
      rw [Nat.div_lt_iff_lt_mul (by norm_num)]
      omega
    omega
  · rw [Nat.div_add_mod, Nat.div_add_mod']

/-- The read events of a tile: the elements of its input window at the
channels below `n_channels`, and ten whole vectors of the params block for
each channel group. -/
theorem rd_mem_tileTrace (c : Cfg) (A : Args) (hV1 : 1 ≤ c.VL) (i j b : Nat) :
    Event.rd b ∈ tileTrace c A i j ↔ InRead c A i j b ∨ ParRead c A b := by
  rw [rd_tileTrace]
  constructor
  · rintro (⟨ac, hac, h⟩ | ⟨k, hk, ac, hac, h⟩ | ⟨ac, hac, h⟩)
    · have hok := setupAcc_ok ac hac
      rw [rd_eventsS] at h
      cases ac with
      | par v =>
        simp only [Access.ok, decide_eq_true_eq] at hok
        obtain ⟨l, hl, rfl⟩ := h
        refine Or.inr ⟨v * c.VL + l, ?_, rfl⟩
        have := par_bound c 0 v l (Nat.zero_le _) hok hl
        simpa using this
      | inp R C =>
        simp only [Access.ok, Bool.and_eq_true, decide_eq_true_eq] at hok
        obtain ⟨l, _, hp, rfl⟩ := h
        exact Or.inl ⟨R, C, _, hok.1, hok.2, hp, rfl⟩
      | nxt R C =>
        simp only [Access.ok, Bool.and_eq_true, decide_eq_true_eq] at hok
        obtain ⟨l, _, hp, rfl⟩ := h
        exact Or.inl ⟨R, C, _, hok.1, hok.2, hp, rfl⟩
    · have hok := loopAcc_ok ac hac
      rw [rd_events] at h
      cases ac with
      | par v =>
        simp only [Access.ok, decide_eq_true_eq] at hok
        obtain ⟨l, hl, rfl⟩ := h
        exact Or.inr ⟨_, par_bound c (k + 1) v l hk hok hl, rfl⟩
      | inp R C =>
        simp only [Access.ok, Bool.and_eq_true, decide_eq_true_eq] at hok
        obtain ⟨l, _, hp, rfl⟩ := h
        exact Or.inl ⟨R, C, _, hok.1, hok.2, hp, rfl⟩
      | nxt R C =>
        simp only [Access.ok, Bool.and_eq_true, decide_eq_true_eq] at hok
        obtain ⟨l, _, hp, rfl⟩ := h
        exact Or.inl ⟨R, C, _, hok.1, hok.2, hp, rfl⟩
    · have hok := tailAcc_ok ac hac
      rw [rd_events] at h
      cases ac with
      | par v => exact absurd (tailAcc_inp _ hac) (by simp)
      | nxt R C => exact absurd (tailAcc_inp _ hac) (by simp)
      | inp R C =>
        simp only [Access.ok, Bool.and_eq_true, decide_eq_true_eq] at hok
        obtain ⟨l, _, hp, rfl⟩ := h
        exact Or.inl ⟨R, C, _, hok.1, hok.2, hp, rfl⟩
  · rintro (⟨R, C, ch, hR, hC, hch, rfl⟩ | ⟨e, he, rfl⟩)
    · have hk := chan_split c ch hch
      have hl : ch % c.VL < c.VL := Nat.mod_lt _ hV1
      have hsplit : ch / c.VL * c.VL + ch % c.VL = ch := Nat.div_add_mod' ch c.VL
      rcases window_cover R hR C hC with ⟨hS, hL⟩ | ⟨hL, hT⟩
      · rcases Nat.eq_zero_or_pos (ch / c.VL) with h0 | hpos
        · refine Or.inl ⟨_, hS, ?_⟩
          rw [rd_eventsS]
          refine ⟨ch % c.VL, hl, ?_, ?_⟩
          · rw [h0] at hsplit
            omega
          · rw [h0] at hsplit
            rw [hsplit]
        · refine Or.inr (Or.inl ⟨ch / c.VL - 1, by omega, _, hL, ?_⟩)
          rw [rd_events]
          have e1 : ch / c.VL - 1 + 1 = ch / c.VL := by omega
          refine ⟨ch % c.VL, hl, ?_, ?_⟩
          · rw [e1, hsplit]
            exact hch
          · rw [e1, hsplit]
      · rcases Nat.lt_or_ge (ch / c.VL) (main_iters c) with hlt | hge
        · refine Or.inr (Or.inl ⟨ch / c.VL, hlt, _, hL, ?_⟩)
          rw [rd_events]
          refine ⟨ch % c.VL, hl, ?_, ?_⟩
          · rw [hsplit]
            exact hch
          · rw [hsplit]
        · have e1 : main_iters c = ch / c.VL := by omega
          refine Or.inr (Or.inr ⟨_, hT, ?_⟩)
          rw [rd_events, e1]
          refine ⟨ch % c.VL, hl, ?_, ?_⟩
          · rw [hsplit]
            exact hch
          · rw [hsplit]
    · obtain ⟨v, k, l, hv, hk, hl, rfl⟩ := par_split c.VL (main_iters c) e hV1 he
      rcases Nat.eq_zero_or_pos k with h0 | hpos
      · subst h0
        refine Or.inl ⟨_, (par_cover v hv).1, ?_⟩
        rw [rd_eventsS]
        exact ⟨l, hl, by simp⟩
      · refine Or.inr (Or.inl ⟨k - 1, by omega, _, (par_cover v hv).2, ?_⟩)
        rw [rd_events]
        have e1 : k - 1 + 1 = k := by omega
        exact ⟨l, hl, by rw [e1]⟩

/-- The read events of the first `t` tiles. -/
theorem rd_mem_tilesTrace (c : Cfg) (A : Args) (hV1 : 1 ≤ c.VL) (t b : Nat) :
    Event.rd b ∈ tilesTrace c A t ↔
      ∃ u, u < t ∧ (InRead c A (tileAt A u).1 (tileAt A u).2 b ∨ ParRead c A b) := by
  simp only [tilesTrace, List.mem_flatMap, List.mem_range, rd_mem_tileTrace c A hV1]

/-! ### The read events of a call -/

theorem win_split (nr y : Nat) (h1 : 1 ≤ nr) (hy : y < 4 * nr + 2) :
    ∃ i R, i < nr ∧ R < 6 ∧ y = 4 * i + R := by
  by_cases h : y / 4 < nr
  · exact ⟨y / 4, y % 4, h, by omega, by omega⟩
  · exact ⟨nr - 1, y - 4 * (nr - 1), by omega, by omega, by omega⟩

/-- The read events of a tile of a call, in terms of the tensors of the call. -/
theorem rd_mem_tile (VL nr nc inptr : Nat) (ldir ldic : Int) (outptr : Nat) (ldor ldoc : Int)
    (params n : Nat) (amin amax : Int) (hV1 : 1 ≤ VL) (i j a : Nat) :
    Event.rd a ∈ tileTrace ⟨VL, n⟩
        (mkArgs nr nc inptr ldir ldic outptr ldor ldoc params amin amax) i j ↔
      (∃ R C ch, R < 6 ∧ C < 6 ∧ ch < n ∧
        a = in_addr inptr ldir ldic (4 * i + R) (4 * j + C) ch) ∨
      (∃ e, e < 10 * VL * ((n - 1) / VL + 1) ∧ a = par_addr params e) := by
  rw [rd_mem_tileTrace ⟨VL, n⟩ _ hV1]
  simp only [InRead, ParRead, inAt_mkArgs, parAt_mkArgs]
  rfl

/-- The read events of a whole call over a grid with at least one tile. -/
theorem rd_mem_call (VL nr nc inptr : Nat) (ldir ldic : Int) (outptr : Nat) (ldor ldoc : Int)
    (params n : Nat) (amin amax : Int) (hV1 : 1 ≤ VL) (hr : 1 ≤ nr) (hc : 1 ≤ nc) (a : Nat) :
    Event.rd a ∈ tilesTrace ⟨VL, n⟩
        (mkArgs nr nc inptr ldir ldic outptr ldor ldoc params amin amax) (nr * nc) ↔
      (∃ y x ch, y < 4 * nr + 2 ∧ x < 4 * nc + 2 ∧ ch < n ∧ a = in_addr inptr ldir ldic y x ch) ∨
      (∃ e, e < 10 * VL * ((n - 1) / VL + 1) ∧ a = par_addr params e) := by
  rw [rd_mem_tilesTrace ⟨VL, n⟩ _ hV1]
  simp only [InRead, ParRead, inAt_mkArgs, parAt_mkArgs]
  constructor
  · rintro ⟨u, hu, ⟨R, C, ch, hR, hC, hch, rfl⟩ | ⟨e, he, rfl⟩⟩
    · obtain ⟨hi, hj⟩ := tileAt_lt (mkArgs nr nc inptr ldir ldic outptr ldor ldoc params
        amin amax) u hu
      have hi' : (tileAt (mkArgs nr nc inptr ldir ldic outptr ldor ldoc params
        amin amax) u).1 < nr := hi
      have hj' : (tileAt (mkArgs nr nc inptr ldir ldic outptr ldor ldoc params
        amin amax) u).2 < nc := hj
      exact Or.inl ⟨_, _, ch, by omega, by omega, hch, rfl⟩
    · exact Or.inr ⟨e, he, rfl⟩
  · rintro (⟨y, x, ch, hy, hx, hch, rfl⟩ | ⟨e, he, rfl⟩)
    · obtain ⟨i, R, hi, hR, rfl⟩ := win_split nr y hr hy
      obtain ⟨j, C, hj, hC, rfl⟩ := win_split nc x hc hx
      refine ⟨i * nc + j, mul_add_lt _ _ _ _ hi hj, Or.inl ?_⟩
      have hA := tileAt_mul_add (mkArgs nr nc inptr ldir ldic outptr ldor ldoc params
        amin amax) i j hj
      have hA' : tileAt (mkArgs nr nc inptr ldir ldic outptr ldor ldoc params amin amax)
          (i * nc + j) = (i, j) := hA
      rw [hA']
      exact ⟨R, C, ch, hR, hC, hch, rfl⟩
    · exact ⟨0, Nat.mul_pos hr hc, Or.inr ⟨e, he, rfl⟩⟩

/-- The events of an input load: the lanes whose channel is below
`n_channels`, at the addresses of the elements of the window position. -/
theorem events_inp (VL nr nc inptr : Nat) (ldir ldic : Int) (outptr : Nat) (ldor ldoc : Int)
    (params n : Nat) (amin amax : Int) (i j k R C : Nat) :
    Access.events ⟨VL, n⟩ (mkArgs nr nc inptr ldir ldic outptr ldor ldoc params amin amax)
        i j k (Access.inp R C)
      = (List.range (min VL (n - k * VL))).map fun l =>
          Event.rd (in_addr inptr ldir ldic (4 * i + R) (4 * j + C) (k * VL + l)) := by
  simp only [Access.events, rdLanes, lane_in, inAt_mkArgs]
  exact congrArg _ (lanes_predAt ⟨VL, n⟩ k)

theorem events_nxt (VL nr nc inptr : Nat) (ldir ldic : Int) (outptr : Nat) (ldor ldoc : Int)
    (params n : Nat) (amin amax : Int) (i j k R C : Nat) :
    Access.events ⟨VL, n⟩ (mkArgs nr nc inptr ldir ldic outptr ldor ldoc params amin amax)
        i j k (Access.nxt R C)
      = (List.range (min VL (n - (k + 1) * VL))).map fun l =>
          Event.rd (in_addr inptr ldir ldic (4 * i + R) (4 * j + C) ((k + 1) * VL + l)) := by
  simp only [Access.events, rdLanes, lane_in, inAt_mkArgs]
  exact congrArg _ (lanes_predAt ⟨VL, n⟩ (k + 1))

theorem eventsS_inp (VL nr nc inptr : Nat) (ldir ldic : Int) (outptr : Nat) (ldor ldoc : Int)
    (params n : Nat) (amin amax : Int) (i j R C : Nat) :
    Access.eventsS ⟨VL, n⟩ (mkArgs nr nc inptr ldir ldic outptr ldor ldoc params amin amax)
        i j (Access.inp R C)
      = (List.range (min VL (n - 0 * VL))).map fun l =>
          Event.rd (in_addr inptr ldir ldic (4 * i + R) (4 * j + C) (0 * VL + l)) := by
  simp only [Access.eventsS, rdLanes, lane_in, inAt_mkArgs]
  exact congrArg _ (lanes_predAt ⟨VL, n⟩ 0)

theorem lanes_true (VL : Nat) : lanes VL (fun _ => true) = List.range VL := by
  simp [lanes]

/-- The events of a params load: every lane of the vector. -/
theorem events_par (VL nr nc inptr : Nat) (ldir ldic : Int) (outptr : Nat) (ldor ldoc : Int)
    (params n : Nat) (amin amax : Int) (i j k v : Nat) :
    Access.events ⟨VL, n⟩ (mkArgs nr nc inptr ldir ldic outptr ldor ldoc params amin amax)
        i j k (Access.par v)
      = (List.range VL).map fun l =>
          Event.rd (par_addr params ((10 * (k + 1) + v) * VL + l)) := by
  simp only [Access.events, rdLanes, lanes_true, lane_par, parAt_mkArgs]

theorem eventsS_par (VL nr nc inptr : Nat) (ldir ldic : Int) (outptr : Nat) (ldor ldoc : Int)
    (params n : Nat) (amin amax : Int) (i j v : Nat) :
    Access.eventsS ⟨VL, n⟩ (mkArgs nr nc inptr ldir ldic outptr ldor ldoc params amin amax)
        i j (Access.par v)
      = (List.range VL).map fun l => Event.rd (par_addr params (v * VL + l)) := by
  simp only [Access.eventsS, rdLanes, lanes_true, lane_par, parAt_mkArgs]

/-- The run of a call over a grid with at least one tile, as the events of
its tiles in row-major order. -/
theorem impl_tiles (VL fuel n_tile_rows n_tile_cols inptr : Nat)
    (ld_input_row ld_input_col : Int) (outptr : Nat) (ld_output_row ld_output_col : Int)
    (params n_channels : Nat) (activation_min activation_max : Int) (s0 : State)
    (hVL : 1 ≤ VL) (hVL32 : VL < 2 ^ 32)
    (hr : 1 ≤ n_tile_rows) (hr32 : n_tile_rows < 2 ^ 32)
    (hc : 1 ≤ n_tile_cols) (hc32 : n_tile_cols < 2 ^ 32) (hn32 : n_channels < 2 ^ 32)
    (hfuel : (n_tile_rows + 1) * (n_tile_cols + 1) + n_channels ≤ fuel) :
    ∃ s1, sve_fp32_nhwc_3x3_s1_output4x4_mla_depthfirst_direct_impl VL fuel n_tile_rows
        n_tile_cols inptr ld_input_row ld_input_col outptr ld_output_row ld_output_col params
        n_channels activation_min activation_max s0 = some s1 ∧
      s1.trace = s0.trace ++ tilesTrace ⟨VL, n_channels⟩
        (mkArgs n_tile_rows n_tile_cols inptr ld_input_row ld_input_col outptr ld_output_row
          ld_output_col params activation_min activation_max) (n_tile_rows * n_tile_cols) ∧
      tilesTrace ⟨VL, n_channels⟩
        (mkArgs n_tile_rows n_tile_cols inptr ld_input_row ld_input_col outptr ld_output_row
          ld_output_col params activation_min activation_max) (n_tile_rows * n_tile_cols)
        = (rowMajor n_tile_rows n_tile_cols).flatMap fun ij =>
            tileTrace ⟨VL, n_channels⟩ (mkArgs n_tile_rows n_tile_cols inptr ld_input_row
              ld_input_col outptr ld_output_row ld_output_col params activation_min
              activation_max) ij.1 ij.2 := by
  have hA : numTiles (mkArgs n_tile_rows n_tile_cols inptr ld_input_row ld_input_col outptr
      ld_output_row ld_output_col params activation_min activation_max)
      = n_tile_rows * n_tile_cols := numTiles_eq _ hr hc
  have hrun := impl_run VL fuel n_tile_rows n_tile_cols inptr ld_input_row ld_input_col outptr
    ld_output_row ld_output_col params n_channels activation_min activation_max s0 hVL hVL32
    hn32 hr32 hc32 hfuel
  have htr := impl_trace VL n_tile_rows n_tile_cols inptr ld_input_row ld_input_col outptr
    ld_output_row ld_output_col params n_channels activation_min activation_max s0 hVL hVL32
    hn32 hr32 hc32
  rw [hA] at hrun htr
  exact ⟨_, hrun, htr, tilesTrace_rowMajor _ _ hc⟩

/-! ### The input loads of a pass -/

theorem window_mem (R C : Nat) : (R, C) ∈ window ↔ R < 6 ∧ C < 6 := by
  simp only [window, List.mem_flatMap, List.mem_map, List.mem_range, Prod.mk.injEq]
  constructor
  · rintro ⟨a, ha, b, hb, rfl, rfl⟩
    exact ⟨ha, hb⟩
  · rintro ⟨h1, h2⟩
    exact ⟨R, h1, C, h2, rfl, rfl⟩

/-- The input loads of the three blocks by the pass they are for: the setup
loads the four preloaded positions of the first pass, the loop body those of
the next pass, and the bodies of the loop and of the tail load the other 32
positions of their own pass. -/
theorem pass_loads :
    window.length = 36 ∧ window.Nodup ∧
    inpOf setupAcc = preloadPos ∧ nxtOf setupAcc = [] ∧
    (nxtOf loopAcc).Perm preloadPos ∧ nxtOf tailAcc = [] ∧
    (preloadPos ++ inpOf loopAcc).Perm window ∧
    (preloadPos ++ inpOf tailAcc).Perm window := by decide

theorem tileTrace_eq (c : Cfg) (A : Args) (i j : Nat) :
    tileTrace c A i j
      = (Event.label 1 :: Event.str .tile_i i :: Event.str .tile_j j ::
          setupAcc.flatMap (Access.eventsS c A i j))
        ++ ((List.range ((c.n_channels - 1) / c.VL)).flatMap fun k =>
          Event.label 2 :: (loopAcc.flatMap (Access.events c A i j k) ++ passWr c A i j k))
        ++ Event.label 3 ::
          (tailAcc.flatMap (Access.events c A i j ((c.n_channels - 1) / c.VL))
            ++ passWr c A i j ((c.n_channels - 1) / c.VL)) := rfl

/-- C25 (input read set).  The 6x6 window has 36 positions.  The input
loads of a pass are those for its 36 window positions, each exactly once
and no other: the four positions `(2, 2)`, `(0, 0)`, `(0, 5)`, `(2, 3)` are
loaded ahead (by `tile_setup` for the first pass, by the body of
`channel_loop` for the next pass, under the predicate of that pass) and the
other 32 in the body of the pass itself (`channel_loop` or `channel_tail`).
An input load of pass `k` reads the lanes `l` with `k * VL + l < n_channels`
only, at the addresses of the elements `(4 * i + R, 4 * j + C, k * VL + l)`
of the input.  For a grid with `n_tile_rows, n_tile_cols >= 1` the kernel
returns (given enough fuel), its events are those of the tiles in row-major
order, each tile being its setup, its loop passes and its tail pass, and the
addresses read by the call are exactly those of the input elements at rows
`0 .. 4 * n_tile_rows + 1`, columns `0 .. 4 * n_tile_cols + 1` and channels
`0 .. n_channels - 1`, and those of the params block (ten vectors per
channel group). -/
theorem C25_input_read_set (VL fuel n_tile_rows n_tile_cols inptr : Nat)
    (ld_input_row ld_input_col : Int) (outptr : Nat) (ld_output_row ld_output_col : Int)
    (params n_channels : Nat) (activation_min activation_max : Int) (s0 : State)
    (hVL : 1 ≤ VL) (hVL32 : VL < 2 ^ 32)
    (hr : 1 ≤ n_tile_rows) (hr32 : n_tile_rows < 2 ^ 32)
    (hc : 1 ≤ n_tile_cols) (hc32 : n_tile_cols < 2 ^ 32) (hn32 : n_channels < 2 ^ 32)
    (hfuel : (n_tile_rows + 1) * (n_tile_cols + 1) + n_channels ≤ fuel) :
    (window.length = 36 ∧ window.Nodup ∧
      inpOf setupAcc = preloadPos ∧ nxtOf setupAcc = [] ∧
      (nxtOf loopAcc).Perm preloadPos ∧ nxtOf tailAcc = [] ∧
      (preloadPos ++ inpOf loopAcc).Perm window ∧
      (preloadPos ++ inpOf tailAcc).Perm window) ∧
    (∀ R C, (R, C) ∈ window ↔ R < 6 ∧ C < 6) ∧
    preloadPos = [(2, 2), (0, 0), (0, 5), (2, 3)] ∧
    (∀ i j k R C, Access.events ⟨VL, n_channels⟩
        (mkArgs n_tile_rows n_tile_cols inptr ld_input_row ld_input_col outptr ld_output_row
          ld_output_col params activation_min activation_max) i j k (Access.inp R C)
      = (List.range (min VL (n_channels - k * VL))).map fun l =>
          Event.rd (in_addr inptr ld_input_row ld_input_col (4 * i + R) (4 * j + C)
            (k * VL + l))) ∧
    (∀ i j k R C, Access.events ⟨VL, n_channels⟩
        (mkArgs n_tile_rows n_tile_cols inptr ld_input_row ld_input_col outptr ld_output_row
          ld_output_col params activation_min activation_max) i j k (Access.nxt R C)
      = (List.range (min VL (n_channels - (k + 1) * VL))).map fun l =>
          Event.rd (in_addr inptr ld_input_row ld_input_col (4 * i + R) (4 * j + C)
            ((k + 1) * VL + l))) ∧
    (∀ i j R C, Access.eventsS ⟨VL, n_channels⟩
        (mkArgs n_tile_rows n_tile_cols inptr ld_input_row ld_input_col outptr ld_output_row
          ld_output_col params activation_min activation_max) i j (Access.inp R C)
      = (List.range (min VL (n_channels - 0 * VL))).map fun l =>
          Event.rd (in_addr inptr ld_input_row ld_input_col (4 * i + R) (4 * j + C)
            (0 * VL + l))) ∧
    ∃ s1 tr, sve_fp32_nhwc_3x3_s1_output4x4_mla_depthfirst_direct_impl VL fuel n_tile_rows
        n_tile_cols inptr ld_input_row ld_input_col outptr ld_output_row ld_output_col params
        n_channels activation_min activation_max s0 = some s1 ∧
      s1.trace = s0.trace ++ tr ∧
      tr = (rowMajor n_tile_rows n_tile_cols).flatMap (fun ij =>
        tileTrace ⟨VL, n_channels⟩ (mkArgs n_tile_rows n_tile_cols inptr ld_input_row
          ld_input_col outptr ld_output_row ld_output_col params activation_min activation_max)
          ij.1 ij.2) ∧
      (∀ i j, tileTrace ⟨VL, n_channels⟩ (mkArgs n_tile_rows n_tile_cols inptr ld_input_row
          ld_input_col outptr ld_output_row ld_output_col params activation_min activation_max)
          i j
        = (Event.label 1 :: Event.str .tile_i i :: Event.str .tile_j j ::
            setupAcc.flatMap (Access.eventsS ⟨VL, n_channels⟩
              (mkArgs n_tile_rows n_tile_cols inptr ld_input_row ld_input_col outptr
                ld_output_row ld_output_col params activation_min activation_max) i j))
          ++ ((List.range ((n_channels - 1) / VL)).flatMap fun k =>
            Event.label 2 :: (loopAcc.flatMap (Access.events ⟨VL, n_channels⟩
              (mkArgs n_tile_rows n_tile_cols inptr ld_input_row ld_input_col outptr
                ld_output_row ld_output_col params activation_min activation_max) i j k)
              ++ passWr ⟨VL, n_channels⟩
                (mkArgs n_tile_rows n_tile_cols inptr ld_input_row ld_input_col outptr
                  ld_output_row ld_output_col params activation_min activation_max) i j k))
          ++ Event.label 3 ::
            (tailAcc.flatMap (Access.events ⟨VL, n_channels⟩
              (mkArgs n_tile_rows n_tile_cols inptr ld_input_row ld_input_col outptr
                ld_output_row ld_output_col params activation_min activation_max) i j
                ((n_channels - 1) / VL))
              ++ passWr ⟨VL, n_channels⟩
                (mkArgs n_tile_rows n_tile_cols inptr ld_input_row ld_input_col outptr
                  ld_output_row ld_output_col params activation_min activation_max) i j
                  ((n_channels - 1) / VL))) ∧
      ∀ a, Event.rd a ∈ tr ↔
        (∃ y x ch, y < 4 * n_tile_rows + 2 ∧ x < 4 * n_tile_cols + 2 ∧ ch < n_channels ∧
          a = in_addr inptr ld_input_row ld_input_col y x ch) ∨
        (∃ e, e < 10 * VL * ((n_channels - 1) / VL + 1) ∧ a = par_addr params e) := by
  refine ⟨pass_loads, window_mem, rfl, events_inp VL _ _ _ _ _ _ _ _ _ _ _ _,
    events_nxt VL _ _ _ _ _ _ _ _ _ _ _ _, eventsS_inp VL _ _ _ _ _ _ _ _ _ _ _ _, ?_⟩
  obtain ⟨s1, h1, h2, h3⟩ := impl_tiles VL fuel n_tile_rows n_tile_cols inptr ld_input_row
    ld_input_col outptr ld_output_row ld_output_col params n_channels activation_min
    activation_max s0 hVL hVL32 hr hr32 hc hc32 hn32 hfuel
  refine ⟨s1, _, h1, h2, h3, fun i j => tileTrace_eq _ _ i j, ?_⟩
  intro a
  exact rd_mem_call VL n_tile_rows n_tile_cols inptr ld_input_row ld_input_col outptr
    ld_output_row ld_output_col params n_channels activation_min activation_max hVL hr hc a

/-- The read set of the concrete 2x2 call with nine channels and vector width four. -/
theorem C25_input_read_set_witness :
    (window.length = 36 ∧ window.Nodup ∧
      inpOf setupAcc = preloadPos ∧ nxtOf setupAcc = [] ∧
      (nxtOf loopAcc).Perm preloadPos ∧ nxtOf tailAcc = [] ∧
      (preloadPos ++ inpOf loopAcc).Perm window ∧
      (preloadPos ++ inpOf tailAcc).Perm window) ∧
    (∀ R C, (R, C) ∈ window ↔ R < 6 ∧ C < 6) ∧
    preloadPos = [(2, 2), (0, 0), (0, 5), (2, 3)] ∧
    (∀ i j k R C, Access.events ⟨4, 9⟩
        (mkArgs 2 2 0 90 9 4000 72
          9 8000 (-5) 20) i j k (Access.inp R C)
      = (List.range (min 4 (9 - k * 4))).map fun l =>
          Event.rd (in_addr 0 90 9 (4 * i + R) (4 * j + C)
            (k * 4 + l))) ∧
    (∀ i j k R C, Access.events ⟨4, 9⟩
        (mkArgs 2 2 0 90 9 4000 72
          9 8000 (-5) 20) i j k (Access.nxt R C)
      = (List.range (min 4 (9 - (k + 1) * 4))).map fun l =>
          Event.rd (in_addr 0 90 9 (4 * i + R) (4 * j + C)
            ((k + 1) * 4 + l))) ∧
    (∀ i j R C, Access.eventsS ⟨4, 9⟩
        (mkArgs 2 2 0 90 9 4000 72
          9 8000 (-5) 20) i j (Access.inp R C)
      = (List.range (min 4 (9 - 0 * 4))).map fun l =>
          Event.rd (in_addr 0 90 9 (4 * i + R) (4 * j + C)
            (0 * 4 + l))) ∧
    ∃ s1 tr, sve_fp32_nhwc_3x3_s1_output4x4_mla_depthfirst_direct_impl 4 18 2
        2 0 90 9 4000 72 9 8000
        9 (-5) 20 (State.init memW) = some s1 ∧
      s1.trace = (State.init memW).trace ++ tr ∧
      tr = (rowMajor 2 2).flatMap (fun ij =>
        tileTrace ⟨4, 9⟩ (mkArgs 2 2 0 90
          9 4000 72 9 8000 (-5) 20)
          ij.1 ij.2) ∧
      (∀ i j, tileTrace ⟨4, 9⟩ (mkArgs 2 2 0 90
          9 4000 72 9 8000 (-5) 20)
          i j
        = (Event.label 1 :: Event.str .tile_i i :: Event.str .tile_j j ::
            setupAcc.flatMap (Access.eventsS ⟨4, 9⟩
              (mkArgs 2 2 0 90 9 4000
                72 9 8000 (-5) 20) i j))
          ++ ((List.range ((9 - 1) / 4)).flatMap fun k =>
            Event.label 2 :: (loopAcc.flatMap (Access.events ⟨4, 9⟩
              (mkArgs 2 2 0 90 9 4000
                72 9 8000 (-5) 20) i j k)
              ++ passWr ⟨4, 9⟩
                (mkArgs 2 2 0 90 9 4000
                  72 9 8000 (-5) 20) i j k))
          ++ Event.label 3 ::
            (tailAcc.flatMap (Access.events ⟨4, 9⟩
              (mkArgs 2 2 0 90 9 4000
                72 9 8000 (-5) 20) i j
                ((9 - 1) / 4))
              ++ passWr ⟨4, 9⟩
                (mkArgs 2 2 0 90 9 4000
                  72 9 8000 (-5) 20) i j
                  ((9 - 1) / 4))) ∧
      ∀ a, Event.rd a ∈ tr ↔
        (∃ y x ch, y < 4 * 2 + 2 ∧ x < 4 * 2 + 2 ∧ ch < 9 ∧
          a = in_addr 0 90 9 y x ch) ∨
        (∃ e, e < 10 * 4 * ((9 - 1) / 4 + 1) ∧ a = par_addr 8000 e) :=
  C25_input_read_set 4 18 2 2 0 90 9 4000 72 9 8000 9 (-5) 20 (State.init memW)
    (by decide) (by decide) (by decide) (by decide) (by decide) (by decide) (by decide)
    (by decide)

/-! ### The params loads -/

theorem par_loads_ok :
    ∀ ins ∈ tile_setup ++ channel_loop ++ channel_tail, parLoadOk ins = true := by decide!

theorem par_loads (zt pg : Nat) (a : Addr)
    (h : Instr.ld1w zt pg a ∈ tile_setup ++ channel_loop ++ channel_tail) :
    fromParams a = true ↔ pg = 3 := by
  have := par_loads_ok _ h
  simp only [parLoadOk, beq_iff_eq] at this
  rw [this]
  simp

theorem par_lists :
    parOf setupAcc = [0, 1, 2, 3, 4, 5, 6, 7, 8, 9] ∧
    (parOf loopAcc).Perm (List.range 10) ∧ parOf tailAcc = [] := by decide

theorem passCount_eq (VL n : Nat) (hV1 : 1 ≤ VL) (hn : 1 ≤ n) :
    (n - 1) / VL + 1 = passCount VL n := by
  have h := main_iters_eq ⟨VL, n⟩ hV1 hn
  have h2 : main_iters ⟨VL, n⟩ = (n - 1) / VL := rfl
  have h3 : 1 ≤ passCount VL n := by
    unfold passCount
    exact (Nat.one_le_div_iff (by omega)).mpr (by omega)
  simp only at h
  omega

/-- C26 (weights are read full-width).  In the three blocks a vector load
is relative to the params pointer `x4` exactly when it is governed by `p3`,
which is all-true at the entry of every pass.  `tile_setup` loads the
params vectors `0 .. 9` of group 0 and the body of `channel_loop` those of
the next group, `channel_tail` none, and the events of such a load are the
reads of all `VL` lanes of the vector.  For `n_channels >= 1` the groups are
`n_channels / VL` rounded up in number, and for every tile of a call the
read events of the tile contain every one of the first `10 * VL *
passCount VL n_channels` elements of the params block, among them all lanes
of the ten vectors of the last group, whatever their channel index; the
indices of the elements the params loads read are below this bound, and
every read event of the tile is at one of these elements or at an element of
the input window of the tile with a channel below `n_channels`. -/
theorem C26_params_full_width (VL fuel n_tile_rows n_tile_cols inptr : Nat)
    (ld_input_row ld_input_col : Int) (outptr : Nat) (ld_output_row ld_output_col : Int)
    (params n_channels : Nat) (activation_min activation_max : Int) (s0 : State)
    (hVL : 1 ≤ VL) (hVL32 : VL < 2 ^ 32)
    (hr : 1 ≤ n_tile_rows) (hr32 : n_tile_rows < 2 ^ 32)
    (hc : 1 ≤ n_tile_cols) (hc32 : n_tile_cols < 2 ^ 32)
    (hn : 1 ≤ n_channels) (hn32 : n_channels < 2 ^ 32)
    (hfuel : (n_tile_rows + 1) * (n_tile_cols + 1) + n_channels ≤ fuel) :
    (∀ zt pg a, Instr.ld1w zt pg a ∈ tile_setup ++ channel_loop ++ channel_tail →
      (fromParams a = true ↔ pg = 3)) ∧
    (parOf setupAcc = [0, 1, 2, 3, 4, 5, 6, 7, 8, 9] ∧
      (parOf loopAcc).Perm (List.range 10) ∧ parOf tailAcc = []) ∧
    (∀ i j k v, Access.events ⟨VL, n_channels⟩
        (mkArgs n_tile_rows n_tile_cols inptr ld_input_row ld_input_col outptr ld_output_row
          ld_output_col params activation_min activation_max) i j k (Access.par v)
      = (List.range VL).map fun l =>
          Event.rd (par_addr params ((10 * (k + 1) + v) * VL + l))) ∧
    (∀ i j v, Access.eventsS ⟨VL, n_channels⟩
        (mkArgs n_tile_rows n_tile_cols inptr ld_input_row ld_input_col outptr ld_output_row
          ld_output_col params activation_min activation_max) i j (Access.par v)
      = (List.range VL).map fun l => Event.rd (par_addr params (v * VL + l))) ∧
    (n_channels - 1) / VL + 1 = passCount VL n_channels ∧
    (∀ v l, v < 10 → l < VL → v * VL + l < 10 * VL * passCount VL n_channels) ∧
    (∀ k v l, k < (n_channels - 1) / VL → v < 10 → l < VL →
      (10 * (k + 1) + v) * VL + l < 10 * VL * passCount VL n_channels) ∧
    ∃ s1 tr, sve_fp32_nhwc_3x3_s1_output4x4_mla_depthfirst_direct_impl VL fuel n_tile_rows
        n_tile_cols inptr ld_input_row ld_input_col outptr ld_output_row ld_output_col params
        n_channels activation_min activation_max s0 = some s1 ∧
      s1.trace = s0.trace ++ tr ∧
      tr = (rowMajor n_tile_rows n_tile_cols).flatMap (fun ij =>
        tileTrace ⟨VL, n_channels⟩ (mkArgs n_tile_rows n_tile_cols inptr ld_input_row
          ld_input_col outptr ld_output_row ld_output_col params activation_min activation_max)
          ij.1 ij.2) ∧
      ∀ i j, i < n_tile_rows → j < n_tile_cols →
        (∀ k, k ≤ (n_channels - 1) / VL →
          (at_pass VL n_tile_rows n_tile_cols inptr ld_input_row ld_input_col outptr
            ld_output_row ld_output_col params n_channels activation_min activation_max s0
            i j k).p 3 = fun _ => true) ∧
        (∀ e, e < 10 * VL * passCount VL n_channels →
          Event.rd (par_addr params e) ∈ tileTrace ⟨VL, n_channels⟩
            (mkArgs n_tile_rows n_tile_cols inptr ld_input_row ld_input_col outptr
              ld_output_row ld_output_col params activation_min activation_max) i j) ∧
        (∀ v l, v < 10 → l < VL →
          Event.rd (par_addr params ((10 * ((n_channels - 1) / VL) + v) * VL + l))
            ∈ tileTrace ⟨VL, n_channels⟩
              (mkArgs n_tile_rows n_tile_cols inptr ld_input_row ld_input_col outptr
                ld_output_row ld_output_col params activation_min activation_max) i j) ∧
        (∀ a, Event.rd a ∈ tileTrace ⟨VL, n_channels⟩
            (mkArgs n_tile_rows n_tile_cols inptr ld_input_row ld_input_col outptr
              ld_output_row ld_output_col params activation_min activation_max) i j →
          (∃ e, e < 10 * VL * passCount VL n_channels ∧ a = par_addr params e) ∨
          (∃ R C ch, R < 6 ∧ C < 6 ∧ ch < n_channels ∧
            a = in_addr inptr ld_input_row ld_input_col (4 * i + R) (4 * j + C) ch)) := by
  have hpc := passCount_eq VL n_channels hVL hn
  refine ⟨par_loads, par_lists, events_par VL _ _ _ _ _ _ _ _ _ _ _ _,
    eventsS_par VL _ _ _ _ _ _ _ _ _ _ _ _, hpc, ?_, ?_, ?_⟩
  · intro v l hv hl
    rw [← hpc]
    have := par_bound ⟨VL, n_channels⟩ 0 v l (Nat.zero_le _) hv hl
    simpa using this
  · intro k v l hk hv hl
    rw [← hpc]
    exact par_bound ⟨VL, n_channels⟩ (k + 1) v l hk hv hl
  obtain ⟨s1, h1, h2, h3⟩ := impl_tiles VL fuel n_tile_rows n_tile_cols inptr ld_input_row
    ld_input_col outptr ld_output_row ld_output_col params n_channels activation_min
    activation_max s0 hVL hVL32 hr hr32 hc hc32 hn32 hfuel
  refine ⟨s1, _, h1, h2, h3, ?_⟩
  intro i j hi hj
  have key := rd_mem_tile VL n_tile_rows n_tile_cols inptr ld_input_row ld_input_col outptr
    ld_output_row ld_output_col params n_channels activation_min activation_max hVL i j
  rw [← hpc]
  refine ⟨?_, ?_, ?_, ?_⟩
  · intro k hk
    exact (at_pass_inv VL n_tile_rows n_tile_cols inptr ld_input_row ld_input_col outptr
      ld_output_row ld_output_col params n_channels activation_min activation_max s0 hVL
      hVL32 hn32 hr32 hc32 i j k hi hj hk).p3
  · intro e he
    exact (key _).mpr (Or.inr ⟨e, he, rfl⟩)
  · intro v l hv hl
    exact (key _).mpr (Or.inr ⟨_, par_bound ⟨VL, n_channels⟩ ((n_channels - 1) / VL) v l
      (Nat.le_refl _) hv hl, rfl⟩)
  · intro a ha
    rcases (key a).mp ha with h | h
    · exact Or.inr h
    · exact Or.inl h

/-- The params reads of the concrete 2x2 call: nine channels and vector width four, so three groups whose last has one channel. -/
theorem C26_params_full_width_witness :
    (∀ zt pg a, Instr.ld1w zt pg a ∈ tile_setup ++ channel_loop ++ channel_tail →
      (fromParams a = true ↔ pg = 3)) ∧
    (parOf setupAcc = [0, 1, 2, 3, 4, 5, 6, 7, 8, 9] ∧
      (parOf loopAcc).Perm (List.range 10) ∧ parOf tailAcc = []) ∧
    (∀ i j k v, Access.events ⟨4, 9⟩
        (mkArgs 2 2 0 90 9 4000 72
          9 8000 (-5) 20) i j k (Access.par v)
      = (List.range 4).map fun l =>
          Event.rd (par_addr 8000 ((10 * (k + 1) + v) * 4 + l))) ∧
    (∀ i j v, Access.eventsS ⟨4, 9⟩
        (mkArgs 2 2 0 90 9 4000 72
          9 8000 (-5) 20) i j (Access.par v)
      = (List.range 4).map fun l => Event.rd (par_addr 8000 (v * 4 + l))) ∧
    (9 - 1) / 4 + 1 = passCount 4 9 ∧
    (∀ v l, v < 10 → l < 4 → v * 4 + l < 10 * 4 * passCount 4 9) ∧
    (∀ k v l, k < (9 - 1) / 4 → v < 10 → l < 4 →
      (10 * (k + 1) + v) * 4 + l < 10 * 4 * passCount 4 9) ∧
    ∃ s1 tr, sve_fp32_nhwc_3x3_s1_output4x4_mla_depthfirst_direct_impl 4 18 2
        2 0 90 9 4000 72 9 8000
        9 (-5) 20 (State.init memW) = some s1 ∧
      s1.trace = (State.init memW).trace ++ tr ∧
      tr = (rowMajor 2 2).flatMap (fun ij =>
        tileTrace ⟨4, 9⟩ (mkArgs 2 2 0 90
          9 4000 72 9 8000 (-5) 20)
          ij.1 ij.2) ∧
      ∀ i j, i < 2 → j < 2 →
        (∀ k, k ≤ (9 - 1) / 4 →
          (at_pass 4 2 2 0 90 9 4000
            72 9 8000 9 (-5) 20 (State.init memW)
            i j k).p 3 = fun _ => true) ∧
        (∀ e, e < 10 * 4 * passCount 4 9 →
          Event.rd (par_addr 8000 e) ∈ tileTrace ⟨4, 9⟩
            (mkArgs 2 2 0 90 9 4000
              72 9 8000 (-5) 20) i j) ∧
        (∀ v l, v < 10 → l < 4 →
          Event.rd (par_addr 8000 ((10 * ((9 - 1) / 4) + v) * 4 + l))
            ∈ tileTrace ⟨4, 9⟩
              (mkArgs 2 2 0 90 9 4000
                72 9 8000 (-5) 20) i j) ∧
        (∀ a, Event.rd a ∈ tileTrace ⟨4, 9⟩
            (mkArgs 2 2 0 90 9 4000
              72 9 8000 (-5) 20) i j →
          (∃ e, e < 10 * 4 * passCount 4 9 ∧ a = par_addr 8000 e) ∨
          (∃ R C ch, R < 6 ∧ C < 6 ∧ ch < 9 ∧
            a = in_addr 0 90 9 (4 * i + R) (4 * j + C) ch)) :=
  C26_params_full_width 4 18 2 2 0 90 9 4000 72 9 8000 9 (-5) 20 (State.init memW)
    (by decide) (by decide) (by decide) (by decide) (by decide) (by decide) (by decide)
    (by decide) (by decide)

/-! ### A call with no channel -/

theorem main_iters_zero (VL : Nat) : main_iters ⟨VL, 0⟩ = 0 := by
  simp [main_iters]

theorem predAt_zero (VL k : Nat) : predAt ⟨VL, 0⟩ k = fun _ => false := by
  funext l
  simp [predAt]

theorem lanes_false (VL : Nat) : lanes VL (fun _ => false) = [] := by
  simp [lanes]

theorem applyStores_none (VL : Nat) :
    ∀ (l : List (Nat × (Nat → Bool) × (Nat → Int))) (m : Nat → Int),
      (∀ t ∈ l, lanes VL t.2.1 = []) → applyStores VL m l = m := by
  intro l
  induction l with
  | nil => intro m _; rfl
  | cons t l ih =>
    intro m h
    have ht := h t (List.mem_cons_self _ _)
    have e : applyStores VL m (t :: l) = applyStores VL (storeVec VL m t.1 t.2.1 t.2.2) l := rfl
    rw [e]
    have e2 : storeVec VL m t.1 t.2.1 t.2.2 = m := by
      simp [storeVec, ht]
    rw [e2]
    exact ih m (fun u hu => h u (List.mem_cons_of_mem _ hu))

/-- With no channel a tile leaves the memory as it is. -/
theorem tile_exit_mem_zero {VL : Nat} {A : Args} {i j : Nat} {s : State} (h : TileInv A i j s)
    (hV1 : 1 ≤ VL) (hV : VL < 2 ^ 32) : (tile_exit ⟨VL, 0⟩ s).mem = s.mem := by
  have hI := pass_entry_inv (c := ⟨VL, 0⟩) h hV1 hV (by norm_num) 0 (Nat.zero_le _)
  unfold tile_exit
  rw [main_iters_zero, tail_mem _ _ hI.p3]
  rw [applyStores_none]
  · exact setup_mem _ _
  · intro t ht
    simp only [passStores, List.mem_map] at ht
    obtain ⟨rc, _, rfl⟩ := ht
    show lanes VL ((pass_entry ⟨VL, 0⟩ s 0).p 2) = []
    rw [hI.p2, predAt_zero, lanes_false]

theorem tile_entry_mem_zero {VL : Nat} {A : Args} {s : State} (h : TileInv A 0 0 s)
    (hV1 : 1 ≤ VL) (hV : VL < 2 ^ 32)
    (hnc : A.n_tile_cols < 2 ^ 32) (hnr : A.n_tile_rows < 2 ^ 32) :
    ∀ t, t ≤ numTiles A → (tile_entry ⟨VL, 0⟩ s t).mem = s.mem := by
  intro t
  induction t with
  | zero => intro _; rfl
  | succ t ih =>
    intro ht
    rw [tile_entry_succ,
      tile_exit_mem_zero (tile_entry_inv (c := ⟨VL, 0⟩) h hV1 hV (by norm_num) hnc hnr t
        (by omega)) hV1 hV]
    exact ih (by omega)

theorem wr_not_mem_zero (VL : Nat) (A : Args) (t a : Nat) :
    Event.wr a ∉ tilesTrace ⟨VL, 0⟩ A t := by
  intro h
  simp only [tilesTrace, List.mem_flatMap, List.mem_range] at h
  obtain ⟨u, _, h⟩ := h
  obtain ⟨k, _, h⟩ := wr_mem_tileTrace _ A _ _ a h
  rw [mem_passWr] at h
  obtain ⟨_, _, _, _, _, _, hn, _⟩ := h
  exact absurd hn (Nat.not_lt_zero _)

theorem rd_mem_zero (VL : Nat) (A : Args) (hV1 : 1 ≤ VL) (t a : Nat)
    (h : Event.rd a ∈ tilesTrace ⟨VL, 0⟩ A t) : ∃ e, e < 10 * VL ∧ a = parAt A e := by
  rw [rd_mem_tilesTrace ⟨VL, 0⟩ A hV1] at h
  obtain ⟨u, _, ⟨_, _, ch, _, _, hch, _⟩ | ⟨e, he, rfl⟩⟩ := h
  · exact absurd hch (Nat.not_lt_zero _)
  · rw [main_iters_zero] at he
    exact ⟨e, by simpa using he, rfl⟩

theorem labels_zero (VL : Nat) (A : Args) (t : Nat) :
    labelsOf (tilesTrace ⟨VL, 0⟩ A t) = (List.range t).flatMap fun _ => [1, 3] := by
  unfold tilesTrace
  rw [labelsOf_flatMap]
  simp only [labelsOf_tileTrace, main_iters_zero, List.replicate_zero, List.nil_append]

/-- C27 (zero channels).  With `n_channels = 0` the kernel returns (given
enough fuel) and, for every tile it processes, runs the setup and exactly one
pass, the tail (the labels of a tile are 1 and 3): at the entry of that pass
the comparison of the look-ahead offset with `n_channels` does not say
less-than, so the channel loop is skipped, and the active-lane predicate `p2`
has no active lane.  No input load and no store has an event: the call has no
store event, its read events are those of the ten params vectors of group 0,
which the setup loads under the all-true `p3`, and the whole memory, so the
output buffer, is after the call as it was before. -/
theorem C27_zero_channels (VL fuel n_tile_rows n_tile_cols inptr : Nat)
    (ld_input_row ld_input_col : Int) (outptr : Nat) (ld_output_row ld_output_col : Int)
    (params : Nat) (activation_min activation_max : Int) (s0 : State)
    (hVL : 1 ≤ VL) (hVL32 : VL < 2 ^ 32) (hr32 : n_tile_rows < 2 ^ 32)
    (hc32 : n_tile_cols < 2 ^ 32)
    (hfuel : (n_tile_rows + 1) * (n_tile_cols + 1) + 0 ≤ fuel) :
    ∃ s1 tr, sve_fp32_nhwc_3x3_s1_output4x4_mla_depthfirst_direct_impl VL fuel n_tile_rows
        n_tile_cols inptr ld_input_row ld_input_col outptr ld_output_row ld_output_col params
        0 activation_min activation_max s0 = some s1 ∧
      s1.trace = s0.trace ++ tr ∧
      s1.mem = s0.mem ∧
      labelsOf tr = (List.range (numTiles (mkArgs n_tile_rows n_tile_cols inptr ld_input_row
        ld_input_col outptr ld_output_row ld_output_col params activation_min
        activation_max))).flatMap (fun _ => [1, 3]) ∧
      (∀ a, Event.wr a ∉ tr) ∧
      (∀ a, Event.rd a ∈ tr → ∃ e, e < 10 * VL ∧ a = par_addr params e) ∧
      (∀ i j k R C, Access.events ⟨VL, 0⟩
          (mkArgs n_tile_rows n_tile_cols inptr ld_input_row ld_input_col outptr ld_output_row
            ld_output_col params activation_min activation_max) i j k (Access.inp R C) = [] ∧
        Access.eventsS ⟨VL, 0⟩
          (mkArgs n_tile_rows n_tile_cols inptr ld_input_row ld_input_col outptr ld_output_row
            ld_output_col params activation_min activation_max) i j (Access.inp R C) = [] ∧
        passWr ⟨VL, 0⟩
          (mkArgs n_tile_rows n_tile_cols inptr ld_input_row ld_input_col outptr ld_output_row
            ld_output_col params activation_min activation_max) i j k = []) ∧
      ∀ t, t < numTiles (mkArgs n_tile_rows n_tile_cols inptr ld_input_row ld_input_col outptr
          ld_output_row ld_output_col params activation_min activation_max) →
        (pass_entry ⟨VL, 0⟩ (tile_entry ⟨VL, 0⟩ (first_entry ⟨VL, 0⟩
          (mkArgs n_tile_rows n_tile_cols inptr ld_input_row ld_input_col outptr ld_output_row
            ld_output_col params activation_min activation_max) s0) t) 0).lt = false ∧
        lanes VL ((pass_entry ⟨VL, 0⟩ (tile_entry ⟨VL, 0⟩ (first_entry ⟨VL, 0⟩
          (mkArgs n_tile_rows n_tile_cols inptr ld_input_row ld_input_col outptr ld_output_row
            ld_output_col params activation_min activation_max) s0) t) 0).p 2) = [] ∧
        (exec ⟨VL, 0⟩ channel_tail (pass_entry ⟨VL, 0⟩ (tile_entry ⟨VL, 0⟩
          (first_entry ⟨VL, 0⟩
          (mkArgs n_tile_rows n_tile_cols inptr ld_input_row ld_input_col outptr ld_output_row
            ld_output_col params activation_min activation_max) s0) t) 0)).mem = s0.mem := by
  have hT0 := first_entry_inv ⟨VL, 0⟩ (mkArgs n_tile_rows n_tile_cols inptr
    ld_input_row ld_input_col outptr ld_output_row ld_output_col params activation_min
    activation_max) s0
  have hrun := impl_run VL fuel n_tile_rows n_tile_cols inptr ld_input_row ld_input_col outptr
    ld_output_row ld_output_col params 0 activation_min activation_max s0 hVL hVL32
    (by norm_num) hr32 hc32 hfuel
  have htr := impl_trace VL n_tile_rows n_tile_cols inptr ld_input_row ld_input_col outptr
    ld_output_row ld_output_col params 0 activation_min activation_max s0 hVL hVL32
    (by norm_num) hr32 hc32
  have hmem := tile_entry_mem_zero hT0 hVL hVL32 hc32 hr32
  refine ⟨_, _, hrun, htr, ?_, labels_zero VL _ _, wr_not_mem_zero VL _ _, ?_, ?_, ?_⟩
  · rw [hmem _ (Nat.le_refl _), first_entry_mem]
  · intro a ha
    obtain ⟨e, he, rfl⟩ := rd_mem_zero VL _ hVL _ a ha
    exact ⟨e, he, parAt_mkArgs _ _ _ _ _ _ _ _ _ _ _ e⟩
  · intro i j k R C
    refine ⟨?_, ?_, ?_⟩
    · simp only [Access.events, rdLanes, predAt_zero, lanes_false, List.map_nil]
    · simp only [Access.eventsS, rdLanes, predAt_zero, lanes_false, List.map_nil]
    · simp [passWr, wrLanes, predAt_zero, lanes_false]
  · intro t ht
    have hT := tile_entry_inv (c := ⟨VL, 0⟩) hT0 hVL hVL32 (by norm_num) hc32 hr32 t ht
    have hI := pass_entry_inv (c := ⟨VL, 0⟩) hT hVL hVL32 (by norm_num) 0 (Nat.zero_le _)
    refine ⟨?_, ?_, ?_⟩
    · rw [hI.lt]
      simp
    · rw [hI.p2, predAt_zero, lanes_false]
    · have h1 := tile_exit_mem_zero hT hVL hVL32
      unfold tile_exit at h1
      rw [main_iters_zero] at h1
      rw [h1, hmem t (Nat.le_of_lt ht), first_entry_mem]

/-- The 2x2 call with no channel. -/
theorem C27_zero_channels_witness :
    ∃ s1 tr, sve_fp32_nhwc_3x3_s1_output4x4_mla_depthfirst_direct_impl 4 18 2
        2 0 90 9 4000 72 9 8000
        0 (-5) 20 (State.init memW) = some s1 ∧
      s1.trace = (State.init memW).trace ++ tr ∧
      s1.mem = (State.init memW).mem ∧
      labelsOf tr = (List.range (numTiles (mkArgs 2 2 0 90
        9 4000 72 9 8000 (-5)
        20))).flatMap (fun _ => [1, 3]) ∧
      (∀ a, Event.wr a ∉ tr) ∧
      (∀ a, Event.rd a ∈ tr → ∃ e, e < 10 * 4 ∧ a = par_addr 8000 e) ∧
      (∀ i j k R C, Access.events ⟨4, 0⟩
          (mkArgs 2 2 0 90 9 4000 72
            9 8000 (-5) 20) i j k (Access.inp R C) = [] ∧
        Access.eventsS ⟨4, 0⟩
          (mkArgs 2 2 0 90 9 4000 72
            9 8000 (-5) 20) i j (Access.inp R C) = [] ∧
        passWr ⟨4, 0⟩
          (mkArgs 2 2 0 90 9 4000 72
            9 8000 (-5) 20) i j k = []) ∧
      ∀ t, t < numTiles (mkArgs 2 2 0 90 9 4000
          72 9 8000 (-5) 20) →
        (pass_entry ⟨4, 0⟩ (tile_entry ⟨4, 0⟩ (first_entry ⟨4, 0⟩
          (mkArgs 2 2 0 90 9 4000 72
            9 8000 (-5) 20) (State.init memW)) t) 0).lt = false ∧
        lanes 4 ((pass_entry ⟨4, 0⟩ (tile_entry ⟨4, 0⟩ (first_entry ⟨4, 0⟩
          (mkArgs 2 2 0 90 9 4000 72
            9 8000 (-5) 20) (State.init memW)) t) 0).p 2) = [] ∧
        (exec ⟨4, 0⟩ channel_tail (pass_entry ⟨4, 0⟩ (tile_entry ⟨4, 0⟩
          (first_entry ⟨4, 0⟩
          (mkArgs 2 2 0 90 9 4000 72
            9 8000 (-5) 20) (State.init memW)) t) 0)).mem = (State.init memW).mem :=
  C27_zero_channels 4 18 2 2 0 90 9 4000 72 9 8000 (-5) 20 (State.init memW)
    (by decide) (by decide) (by decide) (by decide) (by decide)

/-! ### The loop body against the tail body -/

theorem tail_xpass : ∀ r ∈ passRegs, sigT.x r = .reg r := by decide!

theorem tail_zkeep : ∀ t < 16, t ≠ 9 → t ≠ 10 → t ≠ 11 → t ≠ 12 → sigT.z t = .reg t := by
  decide!

theorem tail_pkeep : sigT.p 0 = .reg 2 ∧ sigT.p 1 = .reg 1 ∧ sigT.p 2 = .reg 2 := by decide!

theorem inp_same : inpOf loopAcc = inpOf tailAcc := by decide

theorem addvl_one (c : Cfg) (s : State) (r : Nat) :
    (XE.addvl (.reg r) 1).eval c s = (s.x r + 4 * c.VL) % W := by
  show (s.x r + u64 (1 * (4 * (c.VL : Int)))) % W = _
  apply eq_of_cast_lt (Nat.mod_lt _ W_pos) (Nat.mod_lt _ W_pos)
  push_cast [ZMod.natCast_mod, u64_cast]
  ring

theorem addvl_ten (c : Cfg) (s : State) :
    (XE.addvl (.addvl (.reg 4) 16) (-6)).eval c s = (s.x 4 + 4 * (10 * c.VL)) % W := by
  show ((s.x 4 + u64 (16 * (4 * (c.VL : Int)))) % W + u64 (-6 * (4 * (c.VL : Int)))) % W = _
  apply eq_of_cast_lt (Nat.mod_lt _ W_pos) (Nat.mod_lt _ W_pos)
  push_cast [ZMod.natCast_mod, u64_cast]
  ring

/-- The address of params vector `v` from the params pointer `x4`. -/
theorem parE_reg (c : Cfg) (s : State) (v : Nat) (hv : v < 10) :
    (parE (.reg 4) v).eval c s % W = (s.x 4 + 4 * (v * c.VL)) % W := by
  have h := parE_eval_gen c s { s.args with params := s.x 4 } (.reg 4) 0 v hv (by
    simp only [XE.eval, parVecAddr, Nat.zero_mul, Nat.mul_zero, Nat.add_zero, Nat.mod_mod])
  rw [h, Nat.zero_add]
  rfl

theorem wrSym_gen (c : Cfg) (s : State) :
    wrSym.flatMap (EE.eval c s)
      = pixels.flatMap fun rc => wrLanes c.VL ((outE rc.1 rc.2).eval c s) (s.p 2) := by
  simp only [wrSym, List.flatMap_map]
  rfl

/-- The events of the loop body and of the tail body from any state. -/
theorem body_traces (c : Cfg) (s : State) :
    (exec c channel_loop s).trace = s.trace ++ Event.label 2 ::
      (loopAcc.flatMap (fun a => a.symL.eval c s)
        ++ pixels.flatMap fun rc => wrLanes c.VL ((outE rc.1 rc.2).eval c s) (s.p 2)) ∧
    (exec c channel_tail s).trace = s.trace ++ Event.label 3 ::
      (tailAcc.flatMap (fun a => a.symL.eval c s)
        ++ pixels.flatMap fun rc => wrLanes c.VL ((outE rc.1 rc.2).eval c s) (s.p 2)) := by
  constructor
  · rw [exec_sym c s channel_loop sigL loop_ok, Sym.eval_trace, loop_trace]
    simp only [List.flatMap_cons, List.flatMap_append, List.flatMap_map, wrSym_gen]
    rfl
  · rw [exec_sym c s channel_tail sigT tail_ok, Sym.eval_trace, tail_trace]
    simp only [List.flatMap_cons, List.flatMap_append, List.flatMap_map, wrSym_gen]
    rfl

/-- C21 (the loop body and the tail body on the current pass).  Started
from one and the same state with an all-true `p3`, the body of
`channel_loop` (label 2) and `channel_tail` (label 3) leave the same memory:
the memory before, with the same sixteen vectors stored, for each pixel the
clamped sum `passVal` at the address of the pixel from the output row
pointers and column offsets of the entry state, under its `p2`; their store
events are the same, and they load the same 32 input vectors of the pass.
The tail leaves the pointers, offsets and counters of `passRegs`, the
weights, the bias vector, the clamp bounds and `p2` as they are.  The loop
body prepares the next pass: the six input and the four output row pointers
are advanced by one vector (`4 * VL` bytes), the params pointer `x4` by ten
vectors, the channel offsets `x5`, `x6`, `x21` by `VL`, the column offsets
and the clamp bounds are kept, the accumulators hold the vector at `x4`
(the bias of the next group), the weight registers the nine vectors after
it, `z9 .. z12` the four preloaded input vectors at the advanced row
pointers under `whilelt` from the look-ahead offset `x6`, and `p2` is
`whilelt` from the advanced channel offset. -/
theorem C21_loop_tail_equivalence (cfg : Cfg) (st : State) (hp3 : st.p 3 = fun _ => true) :
    ((exec cfg channel_loop st).mem = applyStores cfg.VL st.mem (passStores cfg st) ∧
      (exec cfg channel_tail st).mem = applyStores cfg.VL st.mem (passStores cfg st) ∧
      passStores cfg st = pixels.map (fun rc =>
        ((outE rc.1 rc.2).eval cfg st, st.p 2, passVal cfg st rc.1 rc.2)) ∧
      pixels.length = 16) ∧
    ((exec cfg channel_loop st).trace = st.trace ++ Event.label 2 ::
        (loopAcc.flatMap (fun a => a.symL.eval cfg st)
          ++ pixels.flatMap fun rc =>
            wrLanes cfg.VL ((outE rc.1 rc.2).eval cfg st) (st.p 2)) ∧
      (exec cfg channel_tail st).trace = st.trace ++ Event.label 3 ::
        (tailAcc.flatMap (fun a => a.symL.eval cfg st)
          ++ pixels.flatMap fun rc =>
            wrLanes cfg.VL ((outE rc.1 rc.2).eval cfg st) (st.p 2)) ∧
      inpOf loopAcc = inpOf tailAcc) ∧
    ((∀ r ∈ passRegs, (exec cfg channel_tail st).x r = st.x r) ∧
      (∀ t, t < 9 → (exec cfg channel_tail st).z t = st.z t) ∧
      (exec cfg channel_tail st).z 13 = st.z 13 ∧
      (exec cfg channel_tail st).z 14 = st.z 14 ∧
      (exec cfg channel_tail st).z 15 = st.z 15 ∧
      (exec cfg channel_tail st).p 2 = st.p 2) ∧
    ((∀ r ∈ [8, 15, 14, 13, 12, 11, 16, 26, 25, 24],
        (exec cfg channel_loop st).x r = (st.x r + 4 * cfg.VL) % W) ∧
      (exec cfg channel_loop st).x 4 = (st.x 4 + 4 * (10 * cfg.VL)) % W ∧
      (∀ r ∈ [5, 6, 21], (exec cfg channel_loop st).x r = (st.x r + cfg.VL) % W) ∧
      (∀ r ∈ [7, 10, 9, 28, 27, 17, 23, 22], (exec cfg channel_loop st).x r = st.x r) ∧
      (exec cfg channel_loop st).z 14 = st.z 14 ∧
      (exec cfg channel_loop st).z 15 = st.z 15 ∧
      (∀ r l, 16 ≤ r → r < 32 →
        (exec cfg channel_loop st).z r l = st.mem (laneAddr (st.x 4) l)) ∧
      (∀ t l, t < 9 →
        (exec cfg channel_loop st).z t l
          = st.mem (laneAddr (st.x 4 + 4 * ((t + 1) * cfg.VL)) l)) ∧
      (∀ t ∈ preloads,
        (exec cfg channel_loop st).z t.1
          = loadVec st.mem ((inEL t.2.1 t.2.2).eval cfg st)
              (whileltPred (st.x 6) cfg.n_channels)) ∧
      (exec cfg channel_loop st).p 2
        = whileltPred ((st.x 5 + cfg.VL) % W) cfg.n_channels) := by
  have hL := exec_sym cfg st channel_loop sigL loop_ok
  have hT := exec_sym cfg st channel_tail sigT tail_ok
  refine ⟨⟨loop_mem cfg st hp3, tail_mem cfg st hp3, rfl, rfl⟩,
    ⟨(body_traces cfg st).1, (body_traces cfg st).2, inp_same⟩, ⟨?_, ?_, ?_, ?_, ?_, ?_⟩,
    ⟨?_, ?_, ?_, ?_, ?_, ?_, ?_, ?_, ?_, ?_⟩⟩
  · intro r hr
    rw [hT, Sym.eval_x, tail_xpass r hr]
    rfl
  · intro t ht
    rw [hT, Sym.eval_z, tail_zkeep t (by omega) (by omega) (by omega) (by omega) (by omega)]
    rfl
  · rw [hT, Sym.eval_z, tail_zkeep 13 (by decide) (by decide) (by decide) (by decide)
      (by decide)]
    rfl
  · rw [hT, Sym.eval_z, tail_zkeep 14 (by decide) (by decide) (by decide) (by decide)
      (by decide)]
    rfl
  · rw [hT, Sym.eval_z, tail_zkeep 15 (by decide) (by decide) (by decide) (by decide)
      (by decide)]
    rfl
  · rw [hT, Sym.eval_p, tail_pkeep.2.2]
    rfl
  · intro r hr
    have hr32 : r < 32 := by
      simp only [List.mem_cons, List.mem_singleton, List.not_mem_nil, or_false] at hr
      omega
    rw [hL, Sym.eval_x, loop_x r hr32]
    have e : loopXE r = .addvl (.reg r) 1 := by
      simp only [List.mem_cons, List.mem_singleton, List.not_mem_nil, or_false] at hr
      rcases hr with h | h | h | h | h | h | h | h | h | h <;> subst h <;> rfl
    rw [e, addvl_one]
  · rw [hL, Sym.eval_x, loop_x 4 (by decide)]
    exact addvl_ten cfg st
  · intro r hr
    have hr32 : r < 32 := by
      simp only [List.mem_cons, List.mem_singleton, List.not_mem_nil, or_false] at hr
      omega
    rw [hL, Sym.eval_x, loop_x r hr32]
    have e : loopXE r = .incw (.reg r) := by
      simp only [List.mem_cons, List.mem_singleton, List.not_mem_nil, or_false] at hr
      rcases hr with h | h | h <;> subst h <;> rfl
    rw [e]
    rfl
  · intro r hr
    have hr32 : r < 32 := by
      simp only [List.mem_cons, List.mem_singleton, List.not_mem_nil, or_false] at hr
      omega
    rw [hL, Sym.eval_x, loop_x r hr32]
    have e : loopXE r = .reg r := by
      simp only [List.mem_cons, List.mem_singleton, List.not_mem_nil, or_false] at hr
      rcases hr with h | h | h | h | h | h | h | h <;> subst h <;> rfl
    rw [e]
    rfl
  · rw [hL, Sym.eval_z, loop_z 14 (by decide)]
    rfl
  · rw [hL, Sym.eval_z, loop_z 15 (by decide)]
    rfl
  · intro r l h16 h32
    rw [hL, Sym.eval_z, loop_z r h32, loopZE_acc r h32 h16]
    show loadVec st.mem (st.x 4) (st.p 3) l = _
    rw [hp3]
    rfl
  · intro t l ht
    rw [hL, Sym.eval_z, loop_z t (by omega), loopZE_w t ht]
    show loadVec st.mem ((parE (.reg 4) (t + 1)).eval cfg st) (st.p 3) l = _
    rw [hp3]
    show st.mem (laneAddr _ l) = _
    rw [laneAddr_congr (parE_reg cfg st (t + 1) (by omega)) l]
  · intro t ht
    obtain ⟨h32, _, _, e⟩ := loopZE_pre t ht
    rw [hL, Sym.eval_z, loop_z t.1 h32, e]
    rfl
  · rw [hL, Sym.eval_p, loop_p.2.2.1]
    rfl

/-- The two bodies from the state of the concrete 2x2 call at the entry of pass 1 of tile (1, 1). -/
theorem C21_loop_tail_equivalence_witness :
    ((exec cfgW channel_loop stW).mem = applyStores cfgW.VL stW.mem (passStores cfgW stW) ∧
      (exec cfgW channel_tail stW).mem = applyStores cfgW.VL stW.mem (passStores cfgW stW) ∧
      passStores cfgW stW = pixels.map (fun rc =>
        ((outE rc.1 rc.2).eval cfgW stW, stW.p 2, passVal cfgW stW rc.1 rc.2)) ∧
      pixels.length = 16) ∧
    ((exec cfgW channel_loop stW).trace = stW.trace ++ Event.label 2 ::
        (loopAcc.flatMap (fun a => a.symL.eval cfgW stW)
          ++ pixels.flatMap fun rc =>
            wrLanes cfgW.VL ((outE rc.1 rc.2).eval cfgW stW) (stW.p 2)) ∧
      (exec cfgW channel_tail stW).trace = stW.trace ++ Event.label 3 ::
        (tailAcc.flatMap (fun a => a.symL.eval cfgW stW)
          ++ pixels.flatMap fun rc =>
            wrLanes cfgW.VL ((outE rc.1 rc.2).eval cfgW stW) (stW.p 2)) ∧
      inpOf loopAcc = inpOf tailAcc) ∧
    ((∀ r ∈ passRegs, (exec cfgW channel_tail stW).x r = stW.x r) ∧
      (∀ t, t < 9 → (exec cfgW channel_tail stW).z t = stW.z t) ∧
      (exec cfgW channel_tail stW).z 13 = stW.z 13 ∧
      (exec cfgW channel_tail stW).z 14 = stW.z 14 ∧
      (exec cfgW channel_tail stW).z 15 = stW.z 15 ∧
      (exec cfgW channel_tail stW).p 2 = stW.p 2) ∧
    ((∀ r ∈ [8, 15, 14, 13, 12, 11, 16, 26, 25, 24],
        (exec cfgW channel_loop stW).x r = (stW.x r + 4 * cfgW.VL) % W) ∧
      (exec cfgW channel_loop stW).x 4 = (stW.x 4 + 4 * (10 * cfgW.VL)) % W ∧
      (∀ r ∈ [5, 6, 21], (exec cfgW channel_loop stW).x r = (stW.x r + cfgW.VL) % W) ∧
      (∀ r ∈ [7, 10, 9, 28, 27, 17, 23, 22], (exec cfgW channel_loop stW).x r = stW.x r) ∧
      (exec cfgW channel_loop stW).z 14 = stW.z 14 ∧
      (exec cfgW channel_loop stW).z 15 = stW.z 15 ∧
      (∀ r l, 16 ≤ r → r < 32 →
        (exec cfgW channel_loop stW).z r l = stW.mem (laneAddr (stW.x 4) l)) ∧
      (∀ t l, t < 9 →
        (exec cfgW channel_loop stW).z t l
          = stW.mem (laneAddr (stW.x 4 + 4 * ((t + 1) * cfgW.VL)) l)) ∧
      (∀ t ∈ preloads,
        (exec cfgW channel_loop stW).z t.1
          = loadVec stW.mem ((inEL t.2.1 t.2.2).eval cfgW stW)
              (whileltPred (stW.x 6) cfgW.n_channels)) ∧
      (exec cfgW channel_loop stW).p 2
        = whileltPred ((stW.x 5 + cfgW.VL) % W) cfgW.n_channels) :=
  C21_loop_tail_equivalence cfgW stW
    (at_pass_inv 4 2 2 0 90 9 4000 72 9 8000 9 (-5) 20 (State.init memW) (by decide)
      (by decide) (by decide) (by decide) (by decide) 1 1 1 (by decide) (by decide)
      (by decide)).p3

/-! ### The per-tile reset -/

theorem reset_split : tile_setup = tile_reset ++
    [Instr.addvl 4 4 16, Instr.ld1w 11 2 (.idx 8 27), Instr.cmp (.x 6) .n_channels,
     Instr.ld1w 7 3 (.immvl 4 (-8)), Instr.ld1w 8 3 (.immvl 4 (-7)), Instr.addvl 4 4 (-6),
     Instr.ld1w 12 2 (.idx 14 9)] := by decide

theorem reset_ok : symExec tile_reset Sym.init = some sigR :=
  some_getD_of_isSome _ (by decide!)

theorem reset_x : sigR.x 5 = .lit 0 ∧ sigR.x 6 = .vl ∧ sigR.x 4 = .arg .params := by decide!

theorem reset_z : sigR.z 15 = .bcast .min (.reg 3) ∧ sigR.z 14 = .bcast .max (.reg 3) ∧
    ∀ r < 32, 16 ≤ r → sigR.z r = .ld (.arg .params) (.reg 3) := by decide!

/-- The state after the reset part of the setup, from any state with an
all-true `p3`. -/
theorem reset_state (c : Cfg) (s : State) (hp3 : s.p 3 = fun _ => true) :
    (exec c tile_reset s).x 5 = 0 ∧ (exec c tile_reset s).x 6 = c.VL ∧
    (exec c tile_reset s).x 4 = s.args.params ∧
    (∀ l, (exec c tile_reset s).z 15 l = s.args.min) ∧
    (∀ l, (exec c tile_reset s).z 14 l = s.args.max) ∧
    ∀ r l, 16 ≤ r → r < 32 →
      (exec c tile_reset s).z r l = s.mem (laneAddr s.args.params l) := by
  have h := exec_sym c s tile_reset sigR reset_ok
  refine ⟨?_, ?_, ?_, ?_, ?_, ?_⟩
  · rw [h, Sym.eval_x, reset_x.1]; rfl
  · rw [h, Sym.eval_x, reset_x.2.1]; rfl
  · rw [h, Sym.eval_x, reset_x.2.2]; rfl
  · intro l
    rw [h, Sym.eval_z, reset_z.1]
    show (if s.p 3 l = true then s.args.getF .min else 0) = _
    rw [hp3]; rfl
  · intro l
    rw [h, Sym.eval_z, reset_z.2.1]
    show (if s.p 3 l = true then s.args.getF .max else 0) = _
    rw [hp3]; rfl
  · intro r l h16 h32
    rw [h, Sym.eval_z, reset_z.2.2 r h32 h16]
    show loadVec s.mem (s.args.get .params) (s.p 3) l = _
    rw [hp3]; rfl

/-- The passes of a tile from any state at its label 1 whose memory is the
initial one outside the output region: the registers of every pass, and the
values it stores at the active lanes. -/
theorem tile_vals {c : Cfg} {A : Args} {m0 : Nat → Int} {i j : Nat} {s : State}
    (h : TileInv A i j s) (hF : Frame c A m0 s.mem) (hN : NoAlias c A)
    (hV1 : 1 ≤ c.VL) (hV : c.VL < 2 ^ 32) (hn : c.n_channels < 2 ^ 32)
    (hi : i < A.n_tile_rows) (hj : j < A.n_tile_cols) :
    ∀ k, k ≤ main_iters c →
      PassInv c A i j k (pass_entry c s k) ∧
      ∀ r c' l, r < 4 → c' < 4 → l < c.VL → predAt c k l = true →
        passVal c (pass_entry c s k) r c' l
          = refOut c A m0 (4 * i + r) (4 * j + c') (k * c.VL + l) := by
  intro k hk
  have hI := pass_entry_inv h hV1 hV hn k hk
  have hA := tileAt_mul_add A i j hj
  have hT : TileInv A (tileAt A (i * A.n_tile_cols + j)).1
      (tileAt A (i * A.n_tile_cols + j)).2 s := by rw [hA]; exact h
  obtain ⟨hD, hFk, _⟩ := tile_passes hT (mul_add_lt _ _ _ _ hi hj) hV1 hV hn hN hF k hk
  rw [hA] at hD
  exact ⟨hI, fun r c' l hr hc hl hp => passVal_eq hI hD hFk hN hi hj r c' l hr hc hl hp⟩

/-- Lane `l` of the vector at the start of params is element `l` of params. -/
theorem lane_params (params l : Nat) : laneAddr params l = par_addr params l := by
  unfold laneAddr par_addr
  apply eq_of_cast_lt (Nat.mod_lt _ W_pos) (u64_lt _)
  push_cast [ZMod.natCast_mod, u64_cast]
  ring

/-- C23 (per-tile reset).  The setup at label 1 is the reset part
`tile_reset` followed by the advance of the params pointer, the two last
weight loads and the input preloads.  From any state with an all-true `p3`
the reset part leaves the channel offset `x5` at 0, the look-ahead offset
`x6` at `VL`, the weights pointer `x4` at the start of params, the clamp
bounds broadcast from the argument block in `z15` and `z14`, and every lane
of the sixteen accumulators `z16 .. z31` at the element of the first params
vector, the bias of channel group 0.  In a call, the state at label 1 of
tile `(i, j)` holds the tile indices and the argument block (`TileInv`) and
its memory is the initial one outside the output region (`Frame`), so after
the reset part the registers are 0, `VL`, `params`, `activation_min`,
`activation_max` and the bias elements of the initial memory.  The values
written for the tile depend on nothing else: from any state at label 1 of
the tile with these two properties, whatever was run before, every pass `k`
stores at the addresses of the tile, under the predicate of the pass, and at
an active lane the value is the clamp of bias plus the nine products in the
initial memory. -/
theorem C23_per_tile_reset (VL n_tile_rows n_tile_cols inptr : Nat)
    (ld_input_row ld_input_col : Int) (outptr : Nat) (ld_output_row ld_output_col : Int)
    (params n_channels : Nat) (activation_min activation_max : Int) (s0 : State) (i j : Nat)
    (hVL : 1 ≤ VL) (hVL32 : VL < 2 ^ 32) (hr32 : n_tile_rows < 2 ^ 32)
    (hc32 : n_tile_cols < 2 ^ 32) (hn32 : n_channels < 2 ^ 32)
    (hin : OutNotInput n_tile_rows n_tile_cols n_channels inptr ld_input_row ld_input_col
      outptr ld_output_row ld_output_col)
    (hpar : OutNotParams VL n_tile_rows n_tile_cols n_channels outptr ld_output_row
      ld_output_col params)
    (hi : i < n_tile_rows) (hj : j < n_tile_cols) :
    tile_setup = tile_reset ++
      [Instr.addvl 4 4 16, Instr.ld1w 11 2 (.idx 8 27), Instr.cmp (.x 6) .n_channels,
       Instr.ld1w 7 3 (.immvl 4 (-8)), Instr.ld1w 8 3 (.immvl 4 (-7)), Instr.addvl 4 4 (-6),
       Instr.ld1w 12 2 (.idx 14 9)] ∧
    (∀ (cfg : Cfg) (st : State), st.p 3 = (fun _ => true) →
      (exec cfg tile_reset st).x 5 = 0 ∧ (exec cfg tile_reset st).x 6 = cfg.VL ∧
      (exec cfg tile_reset st).x 4 = st.args.params ∧
      (∀ l, (exec cfg tile_reset st).z 15 l = st.args.min) ∧
      (∀ l, (exec cfg tile_reset st).z 14 l = st.args.max) ∧
      ∀ r l, 16 ≤ r → r < 32 →
        (exec cfg tile_reset st).z r l = st.mem (laneAddr st.args.params l)) ∧
    (TileInv (mkArgs n_tile_rows n_tile_cols inptr ld_input_row ld_input_col outptr
        ld_output_row ld_output_col params activation_min activation_max) i j
        (tile_entry ⟨VL, n_channels⟩ (first_entry ⟨VL, n_channels⟩
          (mkArgs n_tile_rows n_tile_cols inptr ld_input_row ld_input_col outptr
            ld_output_row ld_output_col params activation_min activation_max) s0)
          (i * n_tile_cols + j)) ∧
      Frame ⟨VL, n_channels⟩ (mkArgs n_tile_rows n_tile_cols inptr ld_input_row ld_input_col
        outptr ld_output_row ld_output_col params activation_min activation_max) s0.mem
        (tile_entry ⟨VL, n_channels⟩ (first_entry ⟨VL, n_channels⟩
          (mkArgs n_tile_rows n_tile_cols inptr ld_input_row ld_input_col outptr
            ld_output_row ld_output_col params activation_min activation_max) s0)
          (i * n_tile_cols + j)).mem) ∧
    ((exec ⟨VL, n_channels⟩ tile_reset (tile_entry ⟨VL, n_channels⟩
        (first_entry ⟨VL, n_channels⟩
          (mkArgs n_tile_rows n_tile_cols inptr ld_input_row ld_input_col outptr
            ld_output_row ld_output_col params activation_min activation_max) s0)
        (i * n_tile_cols + j))).x 5 = 0 ∧
      (exec ⟨VL, n_channels⟩ tile_reset (tile_entry ⟨VL, n_channels⟩
        (first_entry ⟨VL, n_channels⟩
          (mkArgs n_tile_rows n_tile_cols inptr ld_input_row ld_input_col outptr
            ld_output_row ld_output_col params activation_min activation_max) s0)
        (i * n_tile_cols + j))).x 6 = VL ∧
      (exec ⟨VL, n_channels⟩ tile_reset (tile_entry ⟨VL, n_channels⟩
        (first_entry ⟨VL, n_channels⟩
          (mkArgs n_tile_rows n_tile_cols inptr ld_input_row ld_input_col outptr
            ld_output_row ld_output_col params activation_min activation_max) s0)
        (i * n_tile_cols + j))).x 4 = params ∧
      (∀ l, (exec ⟨VL, n_channels⟩ tile_reset (tile_entry ⟨VL, n_channels⟩
        (first_entry ⟨VL, n_channels⟩
          (mkArgs n_tile_rows n_tile_cols inptr ld_input_row ld_input_col outptr
            ld_output_row ld_output_col params activation_min activation_max) s0)
        (i * n_tile_cols + j))).z 15 l = activation_min) ∧
      (∀ l, (exec ⟨VL, n_channels⟩ tile_reset (tile_entry ⟨VL, n_channels⟩
        (first_entry ⟨VL, n_channels⟩
          (mkArgs n_tile_rows n_tile_cols inptr ld_input_row ld_input_col outptr
            ld_output_row ld_output_col params activation_min activation_max) s0)
        (i * n_tile_cols + j))).z 14 l = activation_max) ∧
      ∀ r l, 16 ≤ r → r < 32 → l < VL →
        (exec ⟨VL, n_channels⟩ tile_reset (tile_entry ⟨VL, n_channels⟩
          (first_entry ⟨VL, n_channels⟩
            (mkArgs n_tile_rows n_tile_cols inptr ld_input_row ld_input_col outptr
              ld_output_row ld_output_col params activation_min activation_max) s0)
          (i * n_tile_cols + j))).z r l = s0.mem (par_addr params l)) ∧
    ∀ st : State,
      TileInv (mkArgs n_tile_rows n_tile_cols inptr ld_input_row ld_input_col outptr
        ld_output_row ld_output_col params activation_min activation_max) i j st →
      Frame ⟨VL, n_channels⟩ (mkArgs n_tile_rows n_tile_cols inptr ld_input_row ld_input_col
        outptr ld_output_row ld_output_col params activation_min activation_max) s0.mem
        st.mem →
      ∀ k, k ≤ (n_channels - 1) / VL →
        passStores ⟨VL, n_channels⟩ (pass_entry ⟨VL, n_channels⟩ st k)
          = pixels.map (fun rc =>
            (lane_addr outptr (output_offset VL ld_output_row ld_output_col i j rc.1 rc.2 k) 0,
              predAt ⟨VL, n_channels⟩ k,
              passVal ⟨VL, n_channels⟩ (pass_entry ⟨VL, n_channels⟩ st k) rc.1 rc.2)) ∧
        ∀ r c l, r < 4 → c < 4 → l < VL → k * VL + l < n_channels →
          passVal ⟨VL, n_channels⟩ (pass_entry ⟨VL, n_channels⟩ st k) r c l
            = clamp (s0.mem (par_addr params (10 * k * VL + l))
                + ∑ kr in Finset.range 3, ∑ kc in Finset.range 3,
                  s0.mem (par_addr params ((10 * k + 1 + (3 * kr + kc)) * VL + l))
                    * s0.mem (in_addr inptr ld_input_row ld_input_col (4 * i + r + kr)
                        (4 * j + c + kc) (k * VL + l))) activation_min activation_max := by
  have hr : 1 ≤ n_tile_rows := by omega
  have hc : 1 ≤ n_tile_cols := by omega
  have hlt : i * n_tile_cols + j < n_tile_rows * n_tile_cols := mul_add_lt _ _ _ _ hi hj
  have hN := noAlias_mkArgs VL n_tile_rows n_tile_cols inptr ld_input_row ld_input_col outptr
    ld_output_row ld_output_col params n_channels activation_min activation_max hin hpar
  have hT0 := first_entry_inv ⟨VL, n_channels⟩ (mkArgs n_tile_rows n_tile_cols inptr
    ld_input_row ld_input_col outptr ld_output_row ld_output_col params activation_min
    activation_max) s0
  have hT := tile_entry_inv (c := ⟨VL, n_channels⟩) hT0 hVL hVL32 hn32 hc32 hr32
    (i * n_tile_cols + j) (by rw [numTiles_eq _ hr hc]; exact hlt)
  have hA := tileAt_mul_add (mkArgs n_tile_rows n_tile_cols inptr ld_input_row
      ld_input_col outptr ld_output_row ld_output_col params activation_min activation_max)
      i j hj
  have hC : (mkArgs n_tile_rows n_tile_cols inptr ld_input_row ld_input_col outptr
    ld_output_row ld_output_col params activation_min activation_max).n_tile_cols
      = n_tile_cols := rfl
  rw [hC] at hA
  rw [hA] at hT
  have hF0 := tile_entry_frame (c := ⟨VL, n_channels⟩) hT0 hVL hVL32 hn32 hr32 hc32 hr hc
    (i * n_tile_cols + j) (Nat.le_of_lt hlt)
  have hF : Frame ⟨VL, n_channels⟩ (mkArgs n_tile_rows n_tile_cols inptr ld_input_row
      ld_input_col outptr ld_output_row ld_output_col params activation_min activation_max)
      s0.mem (tile_entry ⟨VL, n_channels⟩ (first_entry ⟨VL, n_channels⟩
        (mkArgs n_tile_rows n_tile_cols inptr ld_input_row ld_input_col outptr
          ld_output_row ld_output_col params activation_min activation_max) s0)
        (i * n_tile_cols + j)).mem := by
    intro a ha
    rw [hF0 a ha, first_entry_mem]
  have hR := reset_state ⟨VL, n_channels⟩ _ hT.p3
  obtain ⟨pi, pj, hargs⟩ := hT.args
  refine ⟨reset_split, fun cfg st hp3 => reset_state cfg st hp3, ⟨hT, hF⟩,
    ⟨hR.1, hR.2.1, ?_, ?_, ?_, ?_⟩, ?_⟩
  · rw [hR.2.2.1, hargs]; rfl
  · intro l
    rw [hR.2.2.2.1 l, hargs]; rfl
  · intro l
    rw [hR.2.2.2.2.1 l, hargs]; rfl
  · intro r l h16 h32 hl
    rw [hR.2.2.2.2.2 r l h16 h32, hargs]
    show (tile_entry _ _ _).mem (laneAddr params l) = _
    rw [lane_params]
    apply hF
    intro y x ch hg he
    rw [outAt_mkArgs] at he
    refine hpar y hg.1 x hg.2.1 ch hg.2.2 l (Nat.lt_of_lt_of_le hl ?_) he.symm
    calc VL ≤ 10 * VL := by omega
      _ ≤ 10 * VL * ((n_channels - 1) / VL + 1) := Nat.le_mul_of_pos_right _ (Nat.succ_pos _)
  · intro st hS hFs k hk
    obtain ⟨hI, hval⟩ :=
      tile_vals (c := ⟨VL, n_channels⟩) hS hFs hN hVL hVL32 hn32 hi hj k hk
    refine ⟨passStores_mkArgs VL n_tile_rows n_tile_cols inptr ld_input_row ld_input_col
      outptr ld_output_row ld_output_col params n_channels activation_min activation_max
      i j k _ hI, ?_⟩
    intro r c l hr4 hc4 hl hch
    rw [hval r c l hr4 hc4 hl ((predAt_iff ⟨VL, n_channels⟩ k l).mpr hch)]
    exact refOut_lane VL _ _ _ _ _ _ _ _ _ _ _ _ s0.mem (4 * i + r) (4 * j + c) k l hl

/-- The reset at tile `(1, 1)` of the 2x2 call with nine channels. -/
theorem C23_per_tile_reset_witness :
    tile_setup = tile_reset ++
      [Instr.addvl 4 4 16, Instr.ld1w 11 2 (.idx 8 27), Instr.cmp (.x 6) .n_channels,
       Instr.ld1w 7 3 (.immvl 4 (-8)), Instr.ld1w 8 3 (.immvl 4 (-7)), Instr.addvl 4 4 (-6),
       Instr.ld1w 12 2 (.idx 14 9)] ∧
    (∀ (cfg : Cfg) (st : State), st.p 3 = (fun _ => true) →
      (exec cfg tile_reset st).x 5 = 0 ∧ (exec cfg tile_reset st).x 6 = cfg.VL ∧
      (exec cfg tile_reset st).x 4 = st.args.params ∧
      (∀ l, (exec cfg tile_reset st).z 15 l = st.args.min) ∧
      (∀ l, (exec cfg tile_reset st).z 14 l = st.args.max) ∧
      ∀ r l, 16 ≤ r → r < 32 →
        (exec cfg tile_reset st).z r l = st.mem (laneAddr st.args.params l)) ∧
    (TileInv (mkArgs 2 2 0 90 9 4000
        72 9 8000 (-5) 20) 1 1
        (tile_entry ⟨4, 9⟩ (first_entry ⟨4, 9⟩
          (mkArgs 2 2 0 90 9 4000
            72 9 8000 (-5) 20) (State.init memW))
          (1 * 2 + 1)) ∧
      Frame ⟨4, 9⟩ (mkArgs 2 2 0 90 9
        4000 72 9 8000 (-5) 20) (State.init memW).mem
        (tile_entry ⟨4, 9⟩ (first_entry ⟨4, 9⟩
          (mkArgs 2 2 0 90 9 4000
            72 9 8000 (-5) 20) (State.init memW))
          (1 * 2 + 1)).mem) ∧
    ((exec ⟨4, 9⟩ tile_reset (tile_entry ⟨4, 9⟩
        (first_entry ⟨4, 9⟩
          (mkArgs 2 2 0 90 9 4000
            72 9 8000 (-5) 20) (State.init memW))
        (1 * 2 + 1))).x 5 = 0 ∧
      (exec ⟨4, 9⟩ tile_reset (tile_entry ⟨4, 9⟩
        (first_entry ⟨4, 9⟩
          (mkArgs 2 2 0 90 9 4000
            72 9 8000 (-5) 20) (State.init memW))
        (1 * 2 + 1))).x 6 = 4 ∧
      (exec ⟨4, 9⟩ tile_reset (tile_entry ⟨4, 9⟩
        (first_entry ⟨4, 9⟩
          (mkArgs 2 2 0 90 9 4000
            72 9 8000 (-5) 20) (State.init memW))
        (1 * 2 + 1))).x 4 = 8000 ∧
      (∀ l, (exec ⟨4, 9⟩ tile_reset (tile_entry ⟨4, 9⟩
        (first_entry ⟨4, 9⟩
          (mkArgs 2 2 0 90 9 4000
            72 9 8000 (-5) 20) (State.init memW))
        (1 * 2 + 1))).z 15 l = (-5)) ∧
      (∀ l, (exec ⟨4, 9⟩ tile_reset (tile_entry ⟨4, 9⟩
        (first_entry ⟨4, 9⟩
          (mkArgs 2 2 0 90 9 4000
            72 9 8000 (-5) 20) (State.init memW))
        (1 * 2 + 1))).z 14 l = 20) ∧
      ∀ r l, 16 ≤ r → r < 32 → l < 4 →
        (exec ⟨4, 9⟩ tile_reset (tile_entry ⟨4, 9⟩
          (first_entry ⟨4, 9⟩
            (mkArgs 2 2 0 90 9 4000
              72 9 8000 (-5) 20) (State.init memW))
          (1 * 2 + 1))).z r l = (State.init memW).mem (par_addr 8000 l)) ∧
    ∀ st : State,
      TileInv (mkArgs 2 2 0 90 9 4000
        72 9 8000 (-5) 20) 1 1 st →
      Frame ⟨4, 9⟩ (mkArgs 2 2 0 90 9
        4000 72 9 8000 (-5) 20) (State.init memW).mem
        st.mem →
      ∀ k, k ≤ (9 - 1) / 4 →
        passStores ⟨4, 9⟩ (pass_entry ⟨4, 9⟩ st k)
          = pixels.map (fun rc =>
            (lane_addr 4000 (output_offset 4 72 9 1 1 rc.1 rc.2 k) 0,
              predAt ⟨4, 9⟩ k,
              passVal ⟨4, 9⟩ (pass_entry ⟨4, 9⟩ st k) rc.1 rc.2)) ∧
        ∀ r c l, r < 4 → c < 4 → l < 4 → k * 4 + l < 9 →
          passVal ⟨4, 9⟩ (pass_entry ⟨4, 9⟩ st k) r c l
            = clamp ((State.init memW).mem (par_addr 8000 (10 * k * 4 + l))
                + ∑ kr in Finset.range 3, ∑ kc in Finset.range 3,
                  (State.init memW).mem (par_addr 8000 ((10 * k + 1 + (3 * kr + kc)) * 4 + l))
                    * (State.init memW).mem (in_addr 0 90 9 (4 * 1 + r + kr)
                        (4 * 1 + c + kc) (k * 4 + l))) (-5) 20 :=
  C23_per_tile_reset 4 2 2 0 90 9 4000 72 9 8000 9 (-5) 20 (State.init memW) 1 1
    (by decide) (by decide) (by decide) (by decide) (by decide) outNotInputW outNotParamsW
    (by decide) (by decide)

/-! ### One call per tile -/

theorem in_addr_tile (inptr : Nat) (ldir ldic : Int) (i j y x ch : Nat) :
    in_addr (u64 ((inptr : Int) + 4 * (4 * ((i : Int) * ldir + (j : Int) * ldic)))) ldir ldic
        y x ch
      = in_addr inptr ldir ldic (4 * i + y) (4 * j + x) ch := by
  unfold in_addr
  apply eq_of_cast_lt (u64_lt _) (u64_lt _)
  push_cast [u64_cast]
  ring

theorem out_addr_tile (outptr : Nat) (ldor ldoc : Int) (i j y x ch : Nat) :
    out_addr (u64 ((outptr : Int) + 4 * (4 * ((i : Int) * ldor + (j : Int) * ldoc)))) ldor ldoc
        y x ch
      = out_addr outptr ldor ldoc (4 * i + y) (4 * j + x) ch := by
  unfold out_addr
  apply eq_of_cast_lt (u64_lt _) (u64_lt _)
  push_cast [u64_cast]
  ring

/-- The memory after a call: the output elements hold their reference
values, every other address is as before. -/
theorem impl_mem (VL fuel nr nc inptr : Nat) (ldir ldic : Int) (outptr : Nat)
    (ldor ldoc : Int) (params n : Nat) (amin amax : Int) (s0 : State)
    (hVL : 1 ≤ VL) (hVL32 : VL < 2 ^ 32) (hr : 1 ≤ nr) (hr32 : nr < 2 ^ 32)
    (hc : 1 ≤ nc) (hc32 : nc < 2 ^ 32) (hn32 : n < 2 ^ 32)
    (hdist : OutDistinct nr nc n outptr ldor ldoc)
    (hin : OutNotInput nr nc n inptr ldir ldic outptr ldor ldoc)
    (hpar : OutNotParams VL nr nc n outptr ldor ldoc params)
    (hfuel : (nr + 1) * (nc + 1) + n ≤ fuel) :
    ∃ s1, sve_fp32_nhwc_3x3_s1_output4x4_mla_depthfirst_direct_impl VL fuel nr nc inptr ldir
        ldic outptr ldor ldoc params n amin amax s0 = some s1 ∧
      (∀ y x ch, y < 4 * nr → x < 4 * nc → ch < n →
        s1.mem (out_addr outptr ldor ldoc y x ch)
          = refOut ⟨VL, n⟩ (mkArgs nr nc inptr ldir ldic outptr ldor ldoc params amin amax)
              s0.mem y x ch) ∧
      OutFrame nr nc n outptr ldor ldoc s0.mem s1.mem := by
  refine ⟨_, impl_run VL fuel nr nc inptr ldir ldic outptr ldor ldoc params n amin amax s0
    hVL hVL32 hn32 hr32 hc32 hfuel, ?_, ?_⟩
  · intro y x ch hy hx hch
    exact impl_out VL nr nc inptr ldir ldic outptr ldor ldoc params n amin amax s0 hVL hVL32
      hn32 hr32 hc32 hdist hin hpar y x ch hy hx hch
  · intro a ha
    have hT0 := first_entry_inv ⟨VL, n⟩
      (mkArgs nr nc inptr ldir ldic outptr ldor ldoc params amin amax) s0
    have hF := tile_entry_frame (c := ⟨VL, n⟩) hT0 hVL hVL32 hn32 hr32 hc32 hr hc
      (numTiles (mkArgs nr nc inptr ldir ldic outptr ldor ldoc params amin amax))
      (by rw [numTiles_eq _ hr hc])
    rw [hF a (fun y x ch hg => by rw [outAt_mkArgs]; exact ha y hg.1 x hg.2.1 ch hg.2.2),
      first_entry_mem]

theorem tile_dist (nr nc n outptr : Nat) (ldor ldoc : Int) (i j : Nat)
    (hdist : OutDistinct nr nc n outptr ldor ldoc) (hi : i < nr) (hj : j < nc) :
    OutDistinct 1 1 n
      (u64 ((outptr : Int) + 4 * (4 * ((i : Int) * ldor + (j : Int) * ldoc)))) ldor ldoc := by
  intro y hy x hx ch hch y' hy' x' hx' ch' hch' he
  rw [out_addr_tile, out_addr_tile] at he
  obtain ⟨h1, h2, h3⟩ := hdist (4 * i + y) (by omega) (4 * j + x) (by omega) ch hch
    (4 * i + y') (by omega) (4 * j + x') (by omega) ch' hch' he
  exact ⟨by omega, by omega, h3⟩

theorem tile_notin (nr nc n inptr : Nat) (ldir ldic : Int) (outptr : Nat) (ldor ldoc : Int)
    (i j : Nat) (hin : OutNotInput nr nc n inptr ldir ldic outptr ldor ldoc)
    (hi : i < nr) (hj : j < nc) :
    OutNotInput 1 1 n
      (u64 ((inptr : Int) + 4 * (4 * ((i : Int) * ldir + (j : Int) * ldic)))) ldir ldic
      (u64 ((outptr : Int) + 4 * (4 * ((i : Int) * ldor + (j : Int) * ldoc)))) ldor ldoc := by
  intro y hy x hx ch hch y' hy' x' hx' ch' hch'
  rw [out_addr_tile, in_addr_tile]
  exact hin (4 * i + y) (by omega) (4 * j + x) (by omega) ch hch
    (4 * i + y') (by omega) (4 * j + x') (by omega) ch' hch'

theorem tile_notpar (VL nr nc n outptr : Nat) (ldor ldoc : Int) (params i j : Nat)
    (hpar : OutNotParams VL nr nc n outptr ldor ldoc params) (hi : i < nr) (hj : j < nc) :
    OutNotParams VL 1 1 n
      (u64 ((outptr : Int) + 4 * (4 * ((i : Int) * ldor + (j : Int) * ldoc)))) ldor ldoc
      params := by
  intro y hy x hx ch hch e he
  rw [out_addr_tile]
  exact hpar (4 * i + y) (by omega) (4 * j + x) (by omega) ch hch e he

/-- The reference value of an element of tile `(i, j)` in the call for the
tile alone, from a memory that is the initial one outside the output region. -/
theorem refOut_tile (VL nr nc inptr : Nat) (ldir ldic : Int) (outptr : Nat)
    (ldor ldoc : Int) (params n : Nat) (amin amax : Int) (m0 m : Nat → Int)
    (hVL : 1 ≤ VL)
    (hin : OutNotInput nr nc n inptr ldir ldic outptr ldor ldoc)
    (hpar : OutNotParams VL nr nc n outptr ldor ldoc params)
    (hF : OutFrame nr nc n outptr ldor ldoc m0 m)
    (i j y x ch : Nat) (hi : i < nr) (hj : j < nc) (hy : y < 4) (hx : x < 4) (hch : ch < n) :
    refOut ⟨VL, n⟩ (mkArgs 1 1
        (u64 ((inptr : Int) + 4 * (4 * ((i : Int) * ldir + (j : Int) * ldic)))) ldir ldic
        (u64 ((outptr : Int) + 4 * (4 * ((i : Int) * ldor + (j : Int) * ldoc)))) ldor ldoc
        params amin amax) m y x ch
      = refOut ⟨VL, n⟩ (mkArgs nr nc inptr ldir ldic outptr ldor ldoc params amin amax) m0
          (4 * i + y) (4 * j + x) ch := by
  have hk : ch / VL ≤ main_iters ⟨VL, n⟩ := by
    show ch / VL ≤ (n - 1) / VL
    exact Nat.div_le_div_right (by omega)
  have hl : ch % VL < VL := Nat.mod_lt _ (by omega)
  have hP : ∀ e, e < 10 * VL * ((n - 1) / VL + 1) →
      m (par_addr params e) = m0 (par_addr params e) := fun e he =>
     hF _ (fun y' hy' x' hx' ch' hch' heq => hpar y' hy' x' hx' ch' hch' e he heq.symm)
  rw [refOut_congr VL 1 1 _ ldir ldic _ ldor ldoc params n amin amax m m0 y x ch hch ?_ ?_ ?_,
    refOut_mem _ _ _ _ _ _ _ _ _ _ _ _ _ m0 y x ch hch,
    refOut_mem _ _ _ _ _ _ _ _ _ _ _ _ _ m0 (4 * i + y) (4 * j + x) ch hch]
  · simp only [in_addr_tile, Nat.add_assoc]
  · intro y' x' hy' hx'
    rw [in_addr_tile]
    exact hF _ (fun y0 hy0 x0 hx0 ch0 hch0 heq =>
      hin y0 hy0 x0 hx0 ch0 hch0 (4 * i + y') (by omega) (4 * j + x') (by omega) ch hch heq.symm)
  · apply hP
    have := par_bound ⟨VL, n⟩ (ch / VL) 0 (ch % VL) hk (by omega) hl
    simpa using this
  · intro kr kc hkr hkc
    apply hP
    have := par_bound ⟨VL, n⟩ (ch / VL) (1 + (3 * kr + kc)) (ch % VL) hk (by omega) hl
    rw [← Nat.add_assoc] at this
    exact this

/-- The call for one tile, from a memory that is the initial one outside
the output region: the elements of the tile hold their reference values of
the whole call, every other address is as before. -/
theorem tile_call_mem (VL fuel nr nc inptr : Nat) (ldir ldic : Int) (outptr : Nat)
    (ldor ldoc : Int) (params n : Nat) (amin amax : Int) (m0 : Nat → Int)
    (hVL : 1 ≤ VL) (hVL32 : VL < 2 ^ 32) (hn32 : n < 2 ^ 32)
    (hdist : OutDistinct nr nc n outptr ldor ldoc)
    (hin : OutNotInput nr nc n inptr ldir ldic outptr ldor ldoc)
    (hpar : OutNotParams VL nr nc n outptr ldor ldoc params)
    (hfuel : 4 + n ≤ fuel) (i j : Nat) (hi : i < nr) (hj : j < nc) (s : State)
    (hF : OutFrame nr nc n outptr ldor ldoc m0 s.mem) :
    ∃ s1, tile_call VL fuel inptr ldir ldic outptr ldor ldoc params n amin amax i j s
        = some s1 ∧
      (∀ y x ch, y < 4 → x < 4 → ch < n →
        s1.mem (out_addr outptr ldor ldoc (4 * i + y) (4 * j + x) ch)
          = refOut ⟨VL, n⟩ (mkArgs nr nc inptr ldir ldic outptr ldor ldoc params amin amax)
              m0 (4 * i + y) (4 * j + x) ch) ∧
      ∀ a, (∀ y, y < 4 → ∀ x, x < 4 → ∀ ch, ch < n →
        a ≠ out_addr outptr ldor ldoc (4 * i + y) (4 * j + x) ch) → s1.mem a = s.mem a := by
  obtain ⟨s1, h1, h2, h3⟩ := impl_mem VL fuel 1 1
    (u64 ((inptr : Int) + 4 * (4 * ((i : Int) * ldir + (j : Int) * ldic)))) ldir ldic
    (u64 ((outptr : Int) + 4 * (4 * ((i : Int) * ldor + (j : Int) * ldoc)))) ldor ldoc
    params n amin amax s hVL hVL32 (Nat.le_refl _) (by norm_num) (Nat.le_refl _) (by norm_num)
    hn32 (tile_dist nr nc n outptr ldor ldoc i j hdist hi hj)
    (tile_notin nr nc n inptr ldir ldic outptr ldor ldoc i j hin hi hj)
    (tile_notpar VL nr nc n outptr ldor ldoc params i j hpar hi hj) (by omega)
  refine ⟨s1, h1, ?_, ?_⟩
  · intro y x ch hy hx hch
    rw [← out_addr_tile, h2 y x ch (by omega) (by omega) hch]
    exact refOut_tile VL nr nc inptr ldir ldic outptr ldor ldoc params n amin amax m0 s.mem
      hVL hin hpar hF i j y x ch hi hj hy hx hch
  · intro a ha
    apply h3
    intro y hy x hx ch hch
    rw [out_addr_tile]
    exact ha y (by omega) x (by omega) ch hch

/-- The calls for a list of tiles of the grid: the elements of the tiles of
the list hold their reference values of the whole call, the other output
elements are as before, and outside the output region the memory is the
initial one. -/
theorem tile_calls_mem (VL fuel nr nc inptr : Nat) (ldir ldic : Int) (outptr : Nat)
    (ldor ldoc : Int) (params n : Nat) (amin amax : Int) (m0 : Nat → Int)
    (hVL : 1 ≤ VL) (hVL32 : VL < 2 ^ 32) (hn32 : n < 2 ^ 32)
    (hdist : OutDistinct nr nc n outptr ldor ldoc)
    (hin : OutNotInput nr nc n inptr ldir ldic outptr ldor ldoc)
    (hpar : OutNotParams VL nr nc n outptr ldor ldoc params)
    (hfuel : 4 + n ≤ fuel) :
    ∀ (l : List (Nat × Nat)) (s : State), (∀ ij ∈ l, ij.1 < nr ∧ ij.2 < nc) →
      OutFrame nr nc n outptr ldor ldoc m0 s.mem →
      ∃ s2, tile_calls VL fuel inptr ldir ldic outptr ldor ldoc params n amin amax l s
          = some s2 ∧
        OutFrame nr nc n outptr ldor ldoc m0 s2.mem ∧
        ∀ y x ch, y < 4 * nr → x < 4 * nc → ch < n →
          ((y / 4, x / 4) ∈ l → s2.mem (out_addr outptr ldor ldoc y x ch)
            = refOut ⟨VL, n⟩ (mkArgs nr nc inptr ldir ldic outptr ldor ldoc params amin amax)
                m0 y x ch) ∧
          ((y / 4, x / 4) ∉ l → s2.mem (out_addr outptr ldor ldoc y x ch)
            = s.mem (out_addr outptr ldor ldoc y x ch)) := by
  intro l
  induction l with
  | nil =>
    intro s _ hF
    exact ⟨s, rfl, hF, fun y x ch _ _ _ => ⟨fun h => absurd h (List.not_mem_nil _), fun _ => rfl⟩⟩
  | cons ij rest ih =>
    intro s hl hF
    obtain ⟨i, j⟩ := ij
    obtain ⟨hi, hj⟩ := hl (i, j) (List.mem_cons_self _ _)
    obtain ⟨s1, h1, hv1, hr1⟩ := tile_call_mem VL fuel nr nc inptr ldir ldic outptr ldor ldoc
      params n amin amax m0 hVL hVL32 hn32 hdist hin hpar hfuel i j hi hj s hF
    have hF1 : OutFrame nr nc n outptr ldor ldoc m0 s1.mem := by
      intro a ha
      rw [hr1 a (fun y hy x hx ch hch => ha (4 * i + y) (by omega) (4 * j + x) (by omega)
        ch hch), hF a ha]
    obtain ⟨s2, h2, hF2, hv2⟩ := ih s1 (fun ij h => hl ij (List.mem_cons_of_mem _ h)) hF1
    refine ⟨s2, ?_, hF2, ?_⟩
    · show (tile_call VL fuel inptr ldir ldic outptr ldor ldoc params n amin amax i j s).bind
        _ = _
      rw [h1]
      exact h2
    · intro y x ch hy hx hch
      by_cases hmr : (y / 4, x / 4) ∈ rest
      · exact ⟨fun _ => (hv2 y x ch hy hx hch).1 hmr,
          fun h => absurd (List.mem_cons_of_mem _ hmr) h⟩
      · rw [(hv2 y x ch hy hx hch).2 hmr]
        refine ⟨fun h => ?_, fun h => ?_⟩
        · rcases List.mem_cons.mp h with he | he
          · obtain ⟨e1, e2⟩ := Prod.mk.inj he
            have ey : y = 4 * i + y % 4 := by omega
            have ex : x = 4 * j + x % 4 := by omega
            rw [ey, ex]
            exact hv1 (y % 4) (x % 4) ch (Nat.mod_lt _ (by norm_num))
              (Nat.mod_lt _ (by norm_num)) hch
          · exact absurd he hmr
        · apply hr1
          intro y' hy' x' hx' ch' hch' heq
          obtain ⟨e1, e2, _⟩ := hdist y hy x hx ch hch (4 * i + y') (by omega)
            (4 * j + x') (by omega) ch' hch' heq
          apply h
          have e3 : y / 4 = i := by omega
          have e4 : x / 4 = j := by omega
          rw [e3, e4]
          exact List.mem_cons_self _ _

/-- C22 (tile decomposition).  For a grid of at least one row and one column
of tiles whose output elements have distinct addresses that are not
addresses of the input window or of the params block the call reads, and for
any list `order` of the tiles that is a permutation of the tiles of the
grid: the call over the grid returns, the `n_tile_rows * n_tile_cols` calls
`tile_call` with a 1x1 grid, one per tile in the order of the list, each
with `inptr` and `outptr` moved to the tile and on the state the one before
leaves, all return, and the memory after them is the memory after the one
call, at every address and so on the output buffer. -/
theorem C22_tile_decomposition (VL fuel n_tile_rows n_tile_cols inptr : Nat)
    (ld_input_row ld_input_col : Int) (outptr : Nat) (ld_output_row ld_output_col : Int)
    (params n_channels : Nat) (activation_min activation_max : Int) (s0 : State)
    (order : List (Nat × Nat))
    (hVL : 1 ≤ VL) (hVL32 : VL < 2 ^ 32)
    (hr : 1 ≤ n_tile_rows) (hr32 : n_tile_rows < 2 ^ 32)
    (hc : 1 ≤ n_tile_cols) (hc32 : n_tile_cols < 2 ^ 32) (hn32 : n_channels < 2 ^ 32)
    (hdist : OutDistinct n_tile_rows n_tile_cols n_channels outptr ld_output_row ld_output_col)
    (hin : OutNotInput n_tile_rows n_tile_cols n_channels inptr ld_input_row ld_input_col
      outptr ld_output_row ld_output_col)
    (hpar : OutNotParams VL n_tile_rows n_tile_cols n_channels outptr ld_output_row
      ld_output_col params)
    (hfuel : (n_tile_rows + 1) * (n_tile_cols + 1) + n_channels ≤ fuel)
    (hperm : order.Perm (rowMajor n_tile_rows n_tile_cols)) :
    order.length = n_tile_rows * n_tile_cols ∧
    ∃ s1 s2, sve_fp32_nhwc_3x3_s1_output4x4_mla_depthfirst_direct_impl VL fuel n_tile_rows
        n_tile_cols inptr ld_input_row ld_input_col outptr ld_output_row ld_output_col params
        n_channels activation_min activation_max s0 = some s1 ∧
      tile_calls VL fuel inptr ld_input_row ld_input_col outptr ld_output_row ld_output_col
        params n_channels activation_min activation_max order s0 = some s2 ∧
      s2.mem = s1.mem ∧
      ∀ y x ch, y < 4 * n_tile_rows → x < 4 * n_tile_cols → ch < n_channels →
        s2.mem (out_addr outptr ld_output_row ld_output_col y x ch)
          = s1.mem (out_addr outptr ld_output_row ld_output_col y x ch) := by
  have h4 : 4 + n_channels ≤ fuel := by
    have : 2 * 2 ≤ (n_tile_rows + 1) * (n_tile_cols + 1) :=
      Nat.mul_le_mul (by omega) (by omega)
    omega
  obtain ⟨s1, h1, hv1, hF1⟩ := impl_mem VL fuel n_tile_rows n_tile_cols inptr ld_input_row
    ld_input_col outptr ld_output_row ld_output_col params n_channels activation_min
    activation_max s0 hVL hVL32 hr hr32 hc hc32 hn32 hdist hin hpar hfuel
  obtain ⟨s2, h2, hF2, hv2⟩ := tile_calls_mem VL fuel n_tile_rows n_tile_cols inptr
    ld_input_row ld_input_col outptr ld_output_row ld_output_col params n_channels
    activation_min activation_max s0.mem hVL hVL32 hn32 hdist hin hpar h4 order s0
    (fun ij h => (mem_rowMajor _ _ ij).mp (hperm.mem_iff.mp h)) (fun a _ => rfl)
  have hmem : s2.mem = s1.mem := by
    funext a
    by_cases ha : ∃ y x ch, y < 4 * n_tile_rows ∧ x < 4 * n_tile_cols ∧ ch < n_channels ∧
        a = out_addr outptr ld_output_row ld_output_col y x ch
    · obtain ⟨y, x, ch, hy, hx, hch, rfl⟩ := ha
      have hm : (y / 4, x / 4) ∈ order :=
        hperm.mem_iff.mpr ((mem_rowMajor _ _ _).mpr ⟨by omega, by omega⟩)
      rw [(hv2 y x ch hy hx hch).1 hm, hv1 y x ch hy hx hch]
    · have hne : ∀ y, y < 4 * n_tile_rows → ∀ x, x < 4 * n_tile_cols → ∀ ch, ch < n_channels →
          a ≠ out_addr outptr ld_output_row ld_output_col y x ch :=
        fun y hy x hx ch hch he => ha ⟨y, x, ch, hy, hx, hch, he⟩
      rw [hF2 a hne, hF1 a hne]
  refine ⟨?_, s1, s2, h1, h2, hmem, fun y x ch _ _ _ => by rw [hmem]⟩
  rw [hperm.length_eq, rowMajor_length]

/-- The 2x2 call with nine channels against its four tile calls in the order (1,1), (0,0), (1,0), (0,1). -/
theorem C22_tile_decomposition_witness :
    [(1, 1), (0, 0), (1, 0), (0, 1)].length = 2 * 2 ∧
    ∃ s1 s2, sve_fp32_nhwc_3x3_s1_output4x4_mla_depthfirst_direct_impl 4 18 2
        2 0 90 9 4000 72 9 8000
        9 (-5) 20 (State.init memW) = some s1 ∧
      tile_calls 4 18 0 90 9 4000 72 9
        8000 9 (-5) 20 [(1, 1), (0, 0), (1, 0), (0, 1)] (State.init memW) = some s2 ∧
      s2.mem = s1.mem ∧
      ∀ y x ch, y < 4 * 2 → x < 4 * 2 → ch < 9 →
        s2.mem (out_addr 4000 72 9 y x ch)
          = s1.mem (out_addr 4000 72 9 y x ch) :=
  C22_tile_decomposition 4 18 2 2 0 90 9 4000 72 9 8000 9 (-5) 20 (State.init memW)
    [(1, 1), (0, 0), (1, 0), (0, 1)]
    (by decide) (by decide) (by decide) (by decide) (by decide) (by decide) (by decide)
    outDistinctW outNotInputW outNotParamsW (by decide) (by decide)

/-! ### `FMAX`, `FMIN` and the clamp on values with infinities and NaN -/

theorem fmax_num (a b : Int) : (FVal.num a).fmax (.num b) = .num (max a b) := by
  simp only [FVal.fmax, FVal.le, max_def]
  split_ifs <;> simp_all

theorem fmin_num (a b : Int) : (FVal.num a).fmin (.num b) = .num (min a b) := by
  simp only [FVal.fmin, FVal.le, min_def]
  split_ifs <;> simp_all

theorem clampF_num (a lo hi : Int) :
    clampF (.num a) (.num lo) (.num hi) = .num (clamp a lo hi) := by
  rw [clampF, fmax_num, fmin_num, clamp]

theorem le_not_nan {a b : FVal} (h : a.le b = true) : a ≠ .nan ∧ b ≠ .nan := by
  cases a <;> cases b <;> simp_all [FVal.le]

theorem lt_not_nan {a b : FVal} (h : a.lt b = true) : a ≠ .nan ∧ b ≠ .nan := by
  simp only [FVal.lt, Bool.and_eq_true] at h
  exact le_not_nan h.1

/-- With bounds that are not NaN the clamp is NaN exactly for NaN. -/
theorem clampF_eq_nan (a lo hi : FVal) (hlo : lo ≠ .nan) (hhi : hi ≠ .nan) :
    clampF a lo hi = .nan ↔ a = .nan := by
  cases a <;> cases lo <;> cases hi <;>
    simp_all [clampF, FVal.fmax, FVal.fmin, FVal.le] <;>
    (try split_ifs) <;> simp_all [FVal.le]

end arm_conv.depthwise

namespace arm_compute

open test.validation cpu.kernels

theorem mem_AllDataTypes (d : DataType) : d ∈ AllDataTypes := by
  cases d <;> decide

theorem expected_iff (input_dtype output_dtype : DataType) :
    expected input_dtype output_dtype = true ↔
      ∃ supports, supported_dtypes.find input_dtype = some supports ∧ output_dtype ∈ supports := by
  unfold expected DTypeMap.get
  cases h : supported_dtypes.find input_dtype with
  | none => simp
  | some v => simp

theorem CLCast_validate_iff (input output : TensorInfo) (policy : ConvertPolicy) :
    CLCast.validate input output policy = true ↔
      ∃ supports, supported_dtypes.find input.data_type = some supports ∧
        output.data_type ∈ supports := by
  unfold CLCast.validate
  cases h : supported_dtypes.find input.data_type with
  | none => simp
  | some v => simp

theorem bool_eq_iff (a b : Bool) : (a == b) = true ↔ (a = true ↔ b = true) := by
  cases a <;> cases b <;> decide

theorem find_none_iff (input_dtype : DataType) :
    supported_dtypes.find input_dtype = none ↔
      input_dtype = .BFLOAT16 ∨ input_dtype = .F64 ∨ input_dtype = .SIZET := by
  cases input_dtype <;> decide

theorem ValidateAllDataTypes_iff (validate : TensorInfo → TensorInfo → ConvertPolicy → Bool) :
    ValidateAllDataTypes validate = true ↔
      ∀ input_dtype output_dtype : DataType,
        (validate ⟨[16, 16, 5], 1, input_dtype, none⟩ ⟨[16, 16, 5], 1, output_dtype, none⟩
            .SATURATE = true ↔
          ∃ supports, supported_dtypes.find input_dtype = some supports ∧
            output_dtype ∈ supports) := by
  unfold ValidateAllDataTypes validate_data_types
  simp only [List.all_eq_true, bool_eq_iff, expected_iff]
  constructor
  · intro h i o
    exact h i (mem_AllDataTypes i) o (mem_AllDataTypes o)
  · intro h i _ o _
    exact h i o

/-- C17 (cast validation table).  For every pair of data types, the model of
`CLCast::validate` on two 16x16x5 single-channel tensor infos with
`ConvertPolicy::SATURATE` succeeds if and only if the map `supported_dtypes`
of `validate_data_types` has an entry for the input type and the output type
is in it.  The entries of U8 and of QASYMM8 are S8, QSYMM8,
QSYMM8_PER_CHANNEL, QASYMM8_SIGNED, QASYMM16, U16, S16, QSYMM16, U32, S32,
F16, F32; QSYMM8_PER_CHANNEL casts to U8 and not to QASYMM8; an input type
without entry is rejected for every output type, and the types without
entry are BFLOAT16, F64 and SIZET.  The map is the same after every call of
the test, and the data test case `ValidateAllDataTypes` passes for a
function `validate` exactly when this function succeeds on the pairs of the
table and on no other pair. -/
theorem C17_cast_supported_types :
    (∀ input_dtype output_dtype : DataType,
      CLCast.validate ⟨[16, 16, 5], 1, input_dtype, none⟩ ⟨[16, 16, 5], 1, output_dtype, none⟩
          .SATURATE = true ↔
        ∃ supports, supported_dtypes.find input_dtype = some supports ∧
          output_dtype ∈ supports) ∧
    supported_dtypes.find .U8 = some [.S8, .QSYMM8, .QSYMM8_PER_CHANNEL, .QASYMM8_SIGNED,
      .QASYMM16, .U16, .S16, .QSYMM16, .U32, .S32, .F16, .F32] ∧
    supported_dtypes.find .QASYMM8 = some [.S8, .QSYMM8, .QSYMM8_PER_CHANNEL, .QASYMM8_SIGNED,
      .QASYMM16, .U16, .S16, .QSYMM16, .U32, .S32, .F16, .F32] ∧
    CLCast.validate ⟨[16, 16, 5], 1, .QSYMM8_PER_CHANNEL, none⟩ ⟨[16, 16, 5], 1, .U8, none⟩
      .SATURATE = true ∧
    CLCast.validate ⟨[16, 16, 5], 1, .QSYMM8_PER_CHANNEL, none⟩ ⟨[16, 16, 5], 1, .QASYMM8, none⟩
      .SATURATE = false ∧
    (∀ input_dtype : DataType, supported_dtypes.find input_dtype = none →
      ∀ output_dtype : DataType,
        CLCast.validate ⟨[16, 16, 5], 1, input_dtype, none⟩
          ⟨[16, 16, 5], 1, output_dtype, none⟩ .SATURATE = false) ∧
    (∀ input_dtype : DataType, supported_dtypes.find input_dtype = none ↔
      input_dtype = .BFLOAT16 ∨ input_dtype = .F64 ∨ input_dtype = .SIZET) ∧
    supported_dtypes_assign supported_dtypes = supported_dtypes ∧
    (∀ validate : TensorInfo → TensorInfo → ConvertPolicy → Bool,
      ValidateAllDataTypes validate = true ↔
        ∀ input_dtype output_dtype : DataType,
          (validate ⟨[16, 16, 5], 1, input_dtype, none⟩ ⟨[16, 16, 5], 1, output_dtype, none⟩
              .SATURATE = true ↔
            ∃ supports, supported_dtypes.find input_dtype = some supports ∧
              output_dtype ∈ supports)) := by
  refine ⟨fun i o => CLCast_validate_iff _ _ _, by decide, by decide, by decide, by decide,
    ?_, find_none_iff, by decide, ValidateAllDataTypes_iff⟩
  intro i h o
  unfold CLCast.validate
  simp only [h]

theorem supported_data_types_mem (fp16 : Bool) (T : DataType) (ok : Bool) :
    (T, ok) ∈ supported_data_types fp16 ↔
      (T = .F16 → fp16 = true) ∧
      (ok = true ↔ T = .U8 ∨ T = .QASYMM8 ∨ T = .QASYMM8_SIGNED ∨ T = .S16 ∨ T = .F16 ∨
        T = .F32) := by
  cases fp16 <;> cases T <;> cases ok <;> decide

theorem SupportDataType_iff (fp16 : Bool) (cpu_supports_dtypes : List DataType → Bool)
    (validate : TensorInfo → TensorInfo → ScaleKernelInfo → Bool) :
    SupportDataType fp16 cpu_supports_dtypes validate = true ↔
      ∀ T : DataType, (T = .F16 → fp16 = true) → cpu_supports_dtypes [T] = true →
        (validate (scale_input T) (scale_output T) scale_info = true ↔
          T = .U8 ∨ T = .QASYMM8 ∨ T = .QASYMM8_SIGNED ∨ T = .S16 ∨ T = .F16 ∨ T = .F32) := by
  unfold SupportDataType
  simp only [List.all_eq_true]
  constructor
  · intro h T hT hcpu
    have hm : (T, decide (T = .U8 ∨ T = .QASYMM8 ∨ T = .QASYMM8_SIGNED ∨ T = .S16 ∨ T = .F16 ∨
        T = .F32)) ∈ supported_data_types fp16 :=
      (supported_data_types_mem fp16 T _).2 ⟨hT, by simp⟩
    have := h _ hm
    simp only [hcpu, if_true, bool_eq_iff, decide_eq_true_eq] at this
    exact this
  · rintro h ⟨T, ok⟩ hm
    obtain ⟨hT, hok⟩ := (supported_data_types_mem fp16 T ok).1 hm
    by_cases hcpu : cpu_supports_dtypes [T] = true
    · simp only [hcpu, if_true, bool_eq_iff]
      exact (h T hT hcpu).trans hok.symm
    · simp [hcpu]

theorem NEScale_validate_iff (fp16 : Bool) (T : DataType) :
    NEScale.validate fp16 (scale_input T) (scale_output T) scale_info = true ↔
      T = .U8 ∨ T = .QASYMM8 ∨ T = .QASYMM8_SIGNED ∨ T = .S16 ∨ (T = .F16 ∧ fp16 = true) ∨
        T = .F32 := by
  cases fp16 <;> cases T <;> decide

/-- C18 (scale validation table).  The tensor infos of the test case
`SupportDataType` are an input of shape (2,3,3,2) and an output of shape
(4,6,3,2), single-channel, both of type `T` in NHWC layout, and its kernel
info is nearest-neighbour interpolation, constant border mode, CENTER
sampling and no padding.  The table lists every data type, F16 only when
FP16 is enabled, and marks as supported exactly U8, QASYMM8,
QASYMM8_SIGNED, S16, F16 and F32.  On these infos the model of
`NEScale::validate` succeeds if and only if `T` is one of U8, QASYMM8,
QASYMM8_SIGNED, S16, F16 (when FP16 is enabled) or F32, and fails for S8,
QSYMM8, QSYMM8_PER_CHANNEL, U16, QSYMM16, QASYMM16, U32, S32, U64, S64,
BFLOAT16, F64 and SIZET.  The test case passes for functions
`cpu_supports_dtypes` and `validate` exactly when, for every listed type
that the CPU supports, `validate` succeeds if and only if the type is one
of the six. -/
theorem C18_scale_supported_types (fp16 : Bool) (cpu_supports_dtypes : List DataType → Bool) :
    (∀ T : DataType,
      scale_input T = ⟨[2, 3, 3, 2], 1, T, some .NHWC⟩ ∧
      scale_output T = ⟨[4, 6, 3, 2], 1, T, some .NHWC⟩) ∧
    scale_info = ⟨.NEAREST_NEIGHBOR, .CONSTANT, 0, .CENTER, false⟩ ∧
    (∀ (T : DataType) (ok : Bool), (T, ok) ∈ supported_data_types fp16 ↔
      (T = .F16 → fp16 = true) ∧
      (ok = true ↔ T = .U8 ∨ T = .QASYMM8 ∨ T = .QASYMM8_SIGNED ∨ T = .S16 ∨ T = .F16 ∨
        T = .F32)) ∧
    (∀ T : DataType,
      (NEScale.validate fp16 (scale_input T) (scale_output T) scale_info = true ↔
        T = .U8 ∨ T = .QASYMM8 ∨ T = .QASYMM8_SIGNED ∨ T = .S16 ∨ (T = .F16 ∧ fp16 = true) ∨
          T = .F32)) ∧
    (∀ T ∈ [DataType.S8, .QSYMM8, .QSYMM8_PER_CHANNEL, .U16, .QSYMM16, .QASYMM16, .U32, .S32,
        .U64, .S64, .BFLOAT16, .F64, .SIZET],
      NEScale.validate fp16 (scale_input T) (scale_output T) scale_info = false) ∧
    SupportDataType fp16 cpu_supports_dtypes (NEScale.validate fp16) = true ∧
    (∀ validate : TensorInfo → TensorInfo → ScaleKernelInfo → Bool,
      SupportDataType fp16 cpu_supports_dtypes validate = true ↔
        ∀ T : DataType, (T = .F16 → fp16 = true) → cpu_supports_dtypes [T] = true →
          (validate (scale_input T) (scale_output T) scale_info = true ↔
            T = .U8 ∨ T = .QASYMM8 ∨ T = .QASYMM8_SIGNED ∨ T = .S16 ∨ T = .F16 ∨
              T = .F32)) := by
  refine ⟨fun T => ⟨rfl, rfl⟩, rfl, supported_data_types_mem fp16, NEScale_validate_iff fp16,
    ?_, ?_, SupportDataType_iff fp16 cpu_supports_dtypes⟩
  · cases fp16 <;> decide
  · rw [SupportDataType_iff]
    intro T hT _
    rw [NEScale_validate_iff]
    constructor
    · rintro (h | h | h | h | h | h)
      · exact Or.inl h
      · exact Or.inr (Or.inl h)
      · exact Or.inr (Or.inr (Or.inl h))
      · exact Or.inr (Or.inr (Or.inr (Or.inl h)))
      · exact Or.inr (Or.inr (Or.inr (Or.inr (Or.inl h.1))))
      · exact Or.inr (Or.inr (Or.inr (Or.inr (Or.inr h))))
    · rintro (h | h | h | h | h | h)
      · exact Or.inl h
      · exact Or.inr (Or.inl h)
      · exact Or.inr (Or.inr (Or.inl h))
      · exact Or.inr (Or.inr (Or.inr (Or.inl h)))
      · exact Or.inr (Or.inr (Or.inr (Or.inr (Or.inl ⟨h, hT h⟩))))
      · exact Or.inr (Or.inr (Or.inr (Or.inr (Or.inr h))))

/-- C19 (documented add configurations).  The model of
`CpuAddKernel::validate` returns a valid status, for tensor infos of any one
shape and any overflow policy, on each of the eleven configurations
(U8,U8)->U8, (U8,U8)->S16, (S16,U8)->S16, (U8,S16)->S16, (S16,S16)->S16,
(S32,S32)->S32, (F16,F16)->F16, (F32,F32)->F32, (QASYMM8,QASYMM8)->QASYMM8,
(QASYMM8_SIGNED,QASYMM8_SIGNED)->QASYMM8_SIGNED and
(QSYMM16,QSYMM16)->QSYMM16.  These are the eleven valid configurations of
the documentation in `CpuAddKernel.h`, all their data types are among the
data types the documentation gives as supported, and every supported data
type has the configuration that adds two tensors of it into a third. -/
theorem C19_add_valid_configurations (shape : List Nat) (policy : ConvertPolicy) :
    (∀ cfg ∈ [(DataType.U8, DataType.U8, DataType.U8), (.U8, .U8, .S16), (.S16, .U8, .S16),
        (.U8, .S16, .S16), (.S16, .S16, .S16), (.S32, .S32, .S32), (.F16, .F16, .F16),
        (.F32, .F32, .F32), (.QASYMM8, .QASYMM8, .QASYMM8),
        (.QASYMM8_SIGNED, .QASYMM8_SIGNED, .QASYMM8_SIGNED), (.QSYMM16, .QSYMM16, .QSYMM16)],
      CpuAddKernel.validate ⟨shape, 1, cfg.1, none⟩ ⟨shape, 1, cfg.2.1, none⟩
        ⟨shape, 1, cfg.2.2, none⟩ policy = true) ∧
    CpuAddKernel.valid_configurations.length = 11 ∧
    (∀ cfg ∈ CpuAddKernel.valid_configurations,
      cfg.1 ∈ CpuAddKernel.data_types_supported ∧
      cfg.2.1 ∈ CpuAddKernel.data_types_supported ∧
      cfg.2.2 ∈ CpuAddKernel.data_types_supported) ∧
    (∀ T ∈ CpuAddKernel.data_types_supported, (T, T, T) ∈ CpuAddKernel.valid_configurations) := by
  refine ⟨?_, by decide, by decide, by decide⟩
  intro cfg h
  simp only [List.mem_cons, List.mem_singleton, List.not_mem_nil, or_false] at h
  rcases h with h | h | h | h | h | h | h | h | h | h | h <;> subst h <;> rfl

end arm_compute
